import Mathlib

/-!
# Plum: energetics and grand-canonical sampling core

A shallow embedding of `potential_truncated_lj.cc` and of the energy and
grand-canonical functions of `force_field.cc`.

Conventions of the embedding

* `double` values are elements of a linearly ordered field `α`; every
  definition is generic in `α`, so it runs on `ℚ` and is reasoned about on `ℝ`.
* What the sources include from headers that are not part of the tree
  (`constants.h`, `misc.h`, `bead.h`, the potential base classes, `<cmath>`)
  is collected as parameters in `Env` and in the potential records.
* `mt19937` is a stream of raw 32-bit outputs; `(double)rand_gen()/rand_gen.max()`
  is `Rng.uniform`.
* `int` values are integers; population sizes stay within the range of `int`.
* An access outside a buffer is a failure (`none`); so is a loop without a bound
  of its own that has used up its fuel.
-/

namespace Plum

/-! ## Data model -/

/-- Three Cartesian components (`double[3]`). -/
structure Vec3 (α : Type) where
  x : α
  y : α
  z : α

/-- Component `j` of a coordinate triple; the sources only use `j = 0, 1, 2`. -/
def Vec3.get {α : Type} (v : Vec3 α) (j : Nat) : α :=
  if j = 0 then v.x else if j = 1 then v.y else v.z

/-- Modelled from the spec: the `Bead` class of `molecules/bead.h` (section 3 of
the specification): a type symbol, an integer identity, a chain identity, a
signed charge, the current and the trial coordinate snapshots and the moved
flag. -/
structure Bead (α : Type) where
  symbol : String
  id : Int
  chain_id : Int
  charge : α
  c_crd : Vec3 α
  t_crd : Vec3 α
  moved : Bool

/-- Modelled from the spec: `Bead::SetAllCrd`, which stores one coordinate triple
in both snapshots. -/
def Bead.SetAllCrd {α : Type} (b : Bead α) (xyz : Vec3 α) : Bead α :=
  { b with c_crd := xyz, t_crd := xyz }

/-- Modelled from the spec: `Bead::GetCrd(0, j)`, component `j` of the current
snapshot. -/
def Bead.GetCrd {α : Type} (b : Bead α) (j : Nat) : α :=
  b.c_crd.get j

/-- Modelled from the spec: the `Molecule` class of `molecules/molecule.h`: the
ordered bead sequence `bds` and the bond list (index pairs into `bds`). -/
structure Molecule (α : Type) where
  bds : List (Bead α)
  bonds : List (Int × Int)

/-- The constructor `Molecule()`: no bead, no bond. -/
def Molecule.empty {α : Type} : Molecule α :=
  { bds := [], bonds := [] }

/-- The C++ `Molecule::Size()`. -/
def Molecule.Size {α : Type} (m : Molecule α) : Int :=
  (m.bds.length : Int)

/-- The C++ `Molecule::AddBead`. -/
def Molecule.AddBead {α : Type} (m : Molecule α) (b : Bead α) : Molecule α :=
  { m with bds := m.bds ++ [b] }

/-- The C++ `Molecule::AddBond`. -/
def Molecule.AddBond {α : Type} (m : Molecule α) (i j : Int) : Molecule α :=
  { m with bonds := m.bonds ++ [(i, j)] }

/-- The generator `mt19937`, as the stream of its successive raw outputs. -/
structure Rng where
  out : Nat → Nat

/-- One call `rand_gen()`: a 32-bit value and the advanced generator. -/
def Rng.next (g : Rng) : Nat × Rng :=
  (g.out 0 % 4294967296, { out := fun n => g.out (n + 1) })

/-- What the sources take from headers outside the tree: the constants
`kVeryLargeEnergy` and `k216` of `utilities/constants.h`, `exp` and `sqrt` of
`<cmath>`, the boundary-aware distance `Bead::BBDist`, and `randSphere` of
`utilities/misc.h` (a random unit direction). -/
structure Env (α : Type) where
  kVeryLargeEnergy : α
  k216 : α
  exp : α → α
  sqrt : α → α
  BBDist : Bead α → Bead α → Vec3 α → Int → α
  randSphere : Rng → Vec3 α × Rng

/-! ## `potential_truncated_lj.cc` -/

/-- Parameters read by `PotentialTruncatedLJ::ReadParameters`: the cutoff and
the two symbol-keyed maps (`operator[]` on an absent key yields `0`). -/
structure PotentialTruncatedLJ (α : Type) where
  lj_cutoff : α
  sigmas : String → α
  epsilons : String → α

section LJ

variable {α : Type} [LinearOrderedField α]

/-- Lines 55 of `potential_truncated_lj.cc`: the mixed size. -/
def PotentialTruncatedLJ.mixSigma (p : PotentialTruncatedLJ α) (bead1 bead2 : Bead α) : α :=
  (p.sigmas bead1.symbol + p.sigmas bead2.symbol) / 2

/-- Line 56 of `potential_truncated_lj.cc`: the mixed well depth. -/
def PotentialTruncatedLJ.mixEpsilon (env : Env α) (p : PotentialTruncatedLJ α)
    (bead1 bead2 : Bead α) : α :=
  env.sqrt (p.epsilons bead1.symbol * p.epsilons bead2.symbol)

/-- Lines 68-73: the repulsive Lennard-Jones branch (`lj_cutoff < 0`). -/
def repulsiveLJ (k216 epsilon sigma r : α) : α :=
  let r6_ref := (1 / k216) ^ 6
  let energy_ref := 4 * epsilon * (r6_ref * r6_ref - r6_ref)
  if r < k216 * sigma then
    let r6 := (sigma / r) ^ 6
    4 * epsilon * (r6 * r6 - r6) - energy_ref
  else 0

/-- Lines 77-80: the body of the full Lennard-Jones branch (`r < lj_cutoff`). -/
def fullLJ (epsilon sigma lj_cutoff r : α) : α :=
  let r6_ref := (sigma / lj_cutoff) ^ 6
  let energy_ref := 4 * epsilon * (r6_ref * r6_ref - r6_ref)
  let r6 := (sigma / r) ^ 6
  4 * epsilon * (r6 * r6 - r6) - energy_ref

/-- Lines 66-81: the branches of `PairEnergy` below the sentinel test. -/
def PotentialTruncatedLJ.softEnergy (k216 : α) (p : PotentialTruncatedLJ α)
    (epsilon sigma r : α) : α :=
  if p.lj_cutoff < 0 then repulsiveLJ k216 epsilon sigma r
  else if r < p.lj_cutoff then fullLJ epsilon sigma p.lj_cutoff r
  else 0

/-- The C++ `PotentialTruncatedLJ::PairEnergy` (lines 49-85). -/
def PotentialTruncatedLJ.PairEnergy (env : Env α) (p : PotentialTruncatedLJ α)
    (bead1 bead2 : Bead α) (box_l : Vec3 α) (npbc : Int) : α :=
  let r := env.BBDist bead1 bead2 box_l npbc
  let sigma := p.mixSigma bead1 bead2
  let epsilon := p.mixEpsilon env bead1 bead2
  let r6 : α := if r ≤ 0 then -1 else 0
  if r6 = -1 then env.kVeryLargeEnergy
  else p.softEnergy env.k216 epsilon sigma r

end LJ

/-! ## `force_field.h`: the potential families and the orchestrator state -/

/-- The pair family (`PotentialPair`): the two virtual methods the orchestrator
calls. -/
structure PotentialPair (α : Type) where
  PairEnergy : Bead α → Bead α → Vec3 α → Int → α
  EnergyDifference : List (Molecule α) → Int → Vec3 α → Int → α

/-- The external family (`PotentialExternal`). -/
structure PotentialExternal (α : Type) where
  BeadEnergy : Bead α → Vec3 α → α
  EnergyDifference : List (Molecule α) → Int → Vec3 α → Int → α

/-- The long-range family (`PotentialEwald`). -/
structure PotentialEwald (α : Type) where
  TrialChainEnergy : List (Molecule α) → List (Bead α) → Int → Int → Int → α
  EnergyDifference : List (Molecule α) → Int → Int → α

/-- The bonded family (`PotentialBond`). -/
structure PotentialBond (α : Type) where
  RandomBondLen : α → Rng → α × Rng
  EnergyDifference : List (Molecule α) → Vec3 α → Int → Int → α

/-- The fields of `class ForceField` used by the energy and grand-canonical
functions. -/
structure ForceField (α : Type) where
  beta : α
  npbc : Int
  box_l : Vec3 α
  vol : α
  use_gc : Bool
  use_pair_pot : Bool
  use_ewald_pot : Bool
  use_bond_pot : Bool
  use_bond_rigid : Bool
  use_ext_pot : Bool
  gc_bead_symbol : String
  gc_chain_len : Int
  gc_bead_charge : Int
  chem_pot : α
  gc_deBroglie_prefactor : α
  cbmc_no_of_trials : Int
  cbmc_trial_weights : List α
  cbmc_trial_beads : List (Bead α)
  cbmc_chain : List (Bead α)
  pair_pot : PotentialPair α
  ewald_pot : PotentialEwald α
  bond_pot : PotentialBond α
  rigid_bond : α
  ext_pot : PotentialExternal α

/-- Write `v` at index `i` of a buffer; `none` outside the buffer. -/
def setAt {β : Type} (xs : List β) (i : Nat) (v : β) : Option (List β) :=
  if i < xs.length then some (xs.set i v) else none

/-- The force field with the trial chain replaced (a write into `cbmc_chain`). -/
def ForceField.withChain {α : Type} (ff : ForceField α) (chain : List (Bead α)) :
    ForceField α :=
  { ff with cbmc_chain := chain }

/-- The force field with the trial beads replaced (a write into
`cbmc_trial_beads`). -/
def ForceField.withTrialBeads {α : Type} (ff : ForceField α) (beads : List (Bead α)) :
    ForceField α :=
  { ff with cbmc_trial_beads := beads }

/-- The force field with the trial weights replaced (a write into
`cbmc_trial_weights`). -/
def ForceField.withWeights {α : Type} (ff : ForceField α) (weights : List α) :
    ForceField α :=
  { ff with cbmc_trial_weights := weights }

section Orchestrator

variable {α : Type} [LinearOrderedField α]

/-- The expression `(double)rand_gen() / rand_gen.max()`. -/
def Rng.uniform (g : Rng) : α × Rng :=
  (((g.next.1 : Nat) : α) / 4294967295, g.next.2)

/-- The constructor call `Bead(symbol, -1, -1, charge, 0, 0, 0)` of
`InitializeEnergy`. -/
def Bead.fresh (symbol : String) (charge : Int) : Bead α :=
  { symbol := symbol, id := -1, chain_id := -1, charge := (charge : α),
    c_crd := ⟨0, 0, 0⟩, t_crd := ⟨0, 0, 0⟩, moved := false }

/-- The C++ `ForceField::InitializeEnergy`, lines 355-377: the sizing of the CBMC
buffers. `junk` is the content of the freshly allocated weight array. -/
def ForceField.InitializeEnergy (ff : ForceField α) (junk : Nat → α) : ForceField α :=
  let chain1 := ff.cbmc_chain ++
    List.replicate ff.gc_chain_len.toNat (Bead.fresh ff.gc_bead_symbol ff.gc_bead_charge)
  let trial1 := ff.cbmc_trial_beads ++
    List.replicate ff.cbmc_no_of_trials.toNat (Bead.fresh ff.gc_bead_symbol ff.gc_bead_charge)
  let chain2 := if ff.gc_bead_charge ≠ 0 then chain1 ++
    List.replicate ff.gc_chain_len.toNat (Bead.fresh ff.gc_bead_symbol (-ff.gc_bead_charge))
    else chain1
  let trial2 := if ff.gc_bead_charge ≠ 0 then trial1 ++
    List.replicate ff.cbmc_no_of_trials.toNat (Bead.fresh ff.gc_bead_symbol (-ff.gc_bead_charge))
    else trial1
  { ff with cbmc_chain := chain2, cbmc_trial_beads := trial2,
            cbmc_trial_weights := (List.range ff.cbmc_no_of_trials.toNat).map junk }

/-- The C++ `ForceField::EnergyDifference` (lines 381-408). -/
def ForceField.EnergyDifference (env : Env α) (ff : ForceField α)
    (mols : List (Molecule α)) (moved_mol : Int) : α :=
  let dE0 : α := 0
  let dE1 := if ff.use_pair_pot then
    dE0 + ff.pair_pot.EnergyDifference mols moved_mol ff.box_l ff.npbc else dE0
  if ff.use_pair_pot ∧ dE1 ≥ env.kVeryLargeEnergy then dE1
  else
    let dE2 := if ff.use_ext_pot then
      dE1 + ff.ext_pot.EnergyDifference mols moved_mol ff.box_l ff.npbc else dE1
    if ff.use_ext_pot ∧ dE2 ≥ env.kVeryLargeEnergy then dE2
    else
      let dE3 := if ff.use_ewald_pot then
        dE2 + ff.ewald_pot.EnergyDifference mols moved_mol ff.npbc else dE2
      let dE4 := if ff.use_bond_pot then
        dE3 + ff.bond_pot.EnergyDifference mols ff.box_l ff.npbc moved_mol else dE3
      dE4

/-- Lines 697-701 of `BeadEnergy`: the beads of one molecule. -/
def ForceField.beadVsMolecule (ff : ForceField α) (bead : Bead α) :
    List (Bead α) → α → α
  | [], energy => energy
  | b :: bds, energy =>
    if ff.use_pair_pot then
      ff.beadVsMolecule bead bds (energy + ff.pair_pot.PairEnergy bead b ff.box_l ff.npbc)
    else ff.beadVsMolecule bead bds energy

/-- Lines 695-703 of `BeadEnergy`: the loop over the molecules from index `i` on. -/
def ForceField.beadVsMols (ff : ForceField α) (bead : Bead α) (delete_id counterion : Int) :
    List (Molecule α) → Nat → α → α
  | [], _, energy => energy
  | m :: ms, i, energy =>
    if delete_id = -1 ∨ ((i : Int) < delete_id ∨ (i : Int) > delete_id + counterion) then
      ff.beadVsMols bead delete_id counterion ms (i + 1) (ff.beadVsMolecule bead m.bds energy)
    else ff.beadVsMols bead delete_id counterion ms (i + 1) energy

/-- Lines 705-711 of `BeadEnergy`: `n` more iterations of the loop over the trial
chain, from index `i` on. -/
def ForceField.beadVsChain (ff : ForceField α) (bead : Bead α) (current_len type : Int) :
    Nat → Nat → α → Option α
  | 0, _, energy => some energy
  | n + 1, i, energy =>
    if (i : Int) < current_len - 1 ∨ type = 1 then
      if ff.use_pair_pot then
        match ff.cbmc_chain[i]? with
        | none => none
        | some c =>
          ff.beadVsChain bead current_len type n (i + 1)
            (energy + ff.pair_pot.PairEnergy bead c ff.box_l ff.npbc)
      else ff.beadVsChain bead current_len type n (i + 1) energy
    else ff.beadVsChain bead current_len type n (i + 1) energy

/-- The C++ `ForceField::BeadEnergy` (lines 688-719). -/
def ForceField.BeadEnergy (ff : ForceField α) (bead : Bead α) (mols : List (Molecule α))
    (current_len delete_id type : Int) : Option α :=
  let counterion : Int := if ff.gc_bead_charge ≠ 0 then ff.gc_chain_len else 0
  let energy1 := ff.beadVsMols bead delete_id counterion mols 0 0
  match ff.beadVsChain bead current_len type current_len.toNat 0 energy1 with
  | none => none
  | some energy2 =>
    if ff.use_ext_pot then some (energy2 + ff.ext_pot.BeadEnergy bead ff.box_l)
    else some energy2

end Orchestrator

/-! ## `force_field.cc`: the CBMC grand-canonical sampler -/

/-- Read index `i` (a C++ `int`) of a buffer; `none` outside the buffer. -/
def getAt {β : Type} (xs : List β) (i : Int) : Option β :=
  if 0 ≤ i then xs[i.toNat]? else none

section Sampler

variable {α : Type} [LinearOrderedField α]

/-- Lines 742-748 of `CBMCGenTrialBeads`: the bond length of one trial. -/
def ForceField.trialBondLen (ff : ForceField α) (g : Rng) (type : Int) : α × Rng :=
  if ff.use_bond_pot then ff.bond_pot.RandomBondLen ff.beta g
  else if ff.use_bond_rigid ∧ type = 0 then (ff.rigid_bond, g)
  else (0, g)

/-- A uniformly random point of the box: three successive draws, each scaled by
one box length (lines 764-766, 790-792 and 949-951). -/
def ForceField.randomBoxPoint (ff : ForceField α) (g : Rng) : Vec3 α × Rng :=
  let u0 : α × Rng := Rng.uniform g
  let u1 : α × Rng := Rng.uniform u0.2
  let u2 : α × Rng := Rng.uniform u1.2
  (⟨u0.1 * ff.box_l.x, u1.1 * ff.box_l.y, u2.1 * ff.box_l.z⟩, u2.2)

/-- Lines 753-767 of `CBMCGenTrialBeads`: the coordinates of one trial. -/
def ForceField.trialCoord (env : Env α) (ff : ForceField α) (end_bead : Bead α)
    (bond_len : α) (g : Rng) (type : Int) : Vec3 α × Rng :=
  if type = 0 then
    let s := env.randSphere g
    (⟨s.1.x * bond_len + end_bead.GetCrd 0, s.1.y * bond_len + end_bead.GetCrd 1,
      s.1.z * bond_len + end_bead.GetCrd 2⟩, s.2)
  else ff.randomBoxPoint g

/-- Lines 735-777 of `CBMCGenTrialBeads`: `n` more iterations of the trial loop,
from trial `i` on. -/
def ForceField.genTrials (env : Env α) (end_bead : Bead α) (mols : List (Molecule α))
    (current_len delete_id type : Int) :
    Nat → Nat → ForceField α → Rng → α → Option (α × ForceField α × Rng)
  | 0, _, ff, g, Wi => some (Wi, ff, g)
  | n + 1, i, ff, g, Wi =>
    let index : Int := if type = 1 then (i : Int) + ff.cbmc_no_of_trials else (i : Int)
    let bl := ff.trialBondLen g type
    let bc := ff.trialCoord env end_bead bl.1 bl.2 type
    match getAt ff.cbmc_trial_beads index with
    | none => none
    | some tb =>
      let tb1 := tb.SetAllCrd bc.1
      let ff1 := ff.withTrialBeads (ff.cbmc_trial_beads.set index.toNat tb1)
      match ff1.BeadEnergy tb1 mols current_len delete_id type with
      | none => none
      | some bead_energy =>
        let w := env.exp (-ff.beta * bead_energy)
        match setAt ff1.cbmc_trial_weights i w with
        | none => none
        | some ws =>
          ForceField.genTrials env end_bead mols current_len delete_id type n (i + 1)
            (ff1.withWeights ws) bc.2 (Wi + w)

/-- The C++ `ForceField::CBMCGenTrialBeads` (lines 730-781): the Rosenbluth sum,
the force field with the trial buffers filled, and the advanced generator. -/
def ForceField.CBMCGenTrialBeads (env : Env α) (ff : ForceField α) (end_bead : Bead α)
    (mols : List (Molecule α)) (current_len : Int) (g : Rng) (delete_id type : Int) :
    Option (α × ForceField α × Rng) :=
  ForceField.genTrials env end_bead mols current_len delete_id type
    ff.cbmc_no_of_trials.toNat 0 ff g 0

/-- The `while` loop of lines 810-813 (and 961-964): `rest` holds the weights
after index `current_bead`; reading past the array is a failure. -/
def selectWalk (rand_num : α) : List α → Nat → α → Option Nat
  | [], current_bead, cumulate =>
    if cumulate < rand_num then none else some current_bead
  | w :: rest, current_bead, cumulate =>
    if cumulate < rand_num then selectWalk rand_num rest (current_bead + 1) (cumulate + w)
    else some current_bead

/-- Lines 808-813: Rosenbluth selection over the weight array. -/
def rosenbluthSelect (weights : List α) (rand_num : α) : Option Nat :=
  match weights with
  | [] => none
  | w0 :: rest => selectWalk rand_num rest 0 w0

/-- Lines 824-826 and 913-915: the long-range energy of the trial chain. -/
def ForceField.trialChainDE (ff : ForceField α) (mols : List (Molecule α))
    (toadd delete_id : Int) : α :=
  if ff.use_ewald_pot then
    ff.ewald_pot.TrialChainEnergy mols ff.cbmc_chain toadd delete_id ff.npbc
  else 0

/-- Lines 832-833: the insertion acceptance threshold, for a population of `n`
molecules. -/
def ForceField.insertionThreshold (env : Env α) (ff : ForceField α) (n : Nat)
    (weight dE : α) : α :=
  (ff.vol * env.exp (ff.beta * ff.chem_pot - ff.beta * dE) * weight)
    / (ff.gc_deBroglie_prefactor * (((n : Int) + 1 : Int) : α))

/-- Lines 921-922: the deletion acceptance threshold, for a population of `n`
molecules. -/
def ForceField.deletionThreshold (env : Env α) (ff : ForceField α) (n : Nat)
    (weight dE : α) : α :=
  (((n : Int) : α) * ff.gc_deBroglie_prefactor)
    / (ff.vol * env.exp (ff.beta * ff.chem_pot - ff.beta * dE) * weight)

/-- The number of beads grown per attempt (lines 799-801 and 881-882). -/
def ForceField.toadd (ff : ForceField α) : Int :=
  if ff.gc_bead_charge ≠ 0 then ff.gc_chain_len * 2 else ff.gc_chain_len

/-- Lines 803-819 of `CBMCChainInsertion`: `n` more iterations of the growth loop,
from bead `i` on. The loop also stops once the weight is not positive. -/
def ForceField.growRest (env : Env α) (mols : List (Molecule α)) :
    Nat → Nat → Int → ForceField α → Rng → α → Option (α × ForceField α × Rng)
  | 0, _, _, ff, g, weight => some (weight, ff, g)
  | n + 1, i, type, ff, g, weight =>
    if weight > 0 then
      let type1 : Int := if (i : Int) ≥ ff.gc_chain_len then 1 else type
      match getAt ff.cbmc_chain ((i : Int) - 1) with
      | none => none
      | some end_bead =>
        match ff.CBMCGenTrialBeads env end_bead mols (i : Int) g (-1) type1 with
        | none => none
        | some (Wi, ff1, g1) =>
          let weight1 := weight * (Wi / (ff1.cbmc_no_of_trials : α))
          let u : α × Rng := Rng.uniform g1
          let rand_num := u.1 * Wi
          match rosenbluthSelect ff1.cbmc_trial_weights rand_num with
          | none => none
          | some cb =>
            let current_bead : Int :=
              if type1 = 1 then (cb : Int) + ff1.cbmc_no_of_trials else (cb : Int)
            match getAt ff1.cbmc_trial_beads current_bead with
            | none => none
            | some tb =>
              let xyz : Vec3 α := ⟨tb.GetCrd 0, tb.GetCrd 1, tb.GetCrd 2⟩
              match ff1.cbmc_chain[i]? with
              | none => none
              | some c =>
                ForceField.growRest env mols n (i + 1) type1
                  (ff1.withChain (ff1.cbmc_chain.set i (c.SetAllCrd xyz))) u.2 weight1
    else some (weight, ff, g)

/-- Lines 836-838: the chain beads `chain[i], chain[i+1], ...` (`n` of them) are
added to the new molecule. -/
def addBeads (chain : List (Bead α)) : Nat → Nat → Molecule α → Option (Molecule α)
  | 0, _, m => some m
  | n + 1, i, m =>
    match chain[i]? with
    | none => none
    | some b => addBeads chain n (i + 1) (m.AddBead b)

/-- Lines 840-842: the bonds `(i, i+1)` of a linear molecule, `n` of them. -/
def addBonds : Nat → Nat → Molecule α → Molecule α
  | 0, _, m => m
  | n + 1, i, m => addBonds n (i + 1) (m.AddBond (i : Int) ((i : Int) + 1))

/-- Lines 844-847: one single-bead molecule per counterion `chain[i], ...`. -/
def addCounterions (chain : List (Bead α)) :
    Nat → Nat → List (Molecule α) → Option (List (Molecule α))
  | 0, _, mols => some mols
  | n + 1, i, mols =>
    match chain[i]? with
    | none => none
    | some b => addCounterions chain n (i + 1) (mols ++ [Molecule.empty.AddBead b])

/-- Lines 835-847: what an accepted insertion appends to the population. -/
def ForceField.appendInserted (ff : ForceField α) (mols : List (Molecule α)) :
    Option (List (Molecule α)) :=
  match addBeads ff.cbmc_chain ff.gc_chain_len.toNat 0 Molecule.empty with
  | none => none
  | some m =>
    let m1 := addBonds (m.Size - 1).toNat 0 m
    addCounterions ff.cbmc_chain (ff.toadd - ff.gc_chain_len).toNat ff.gc_chain_len.toNat
      (mols ++ [m1])

/-- Lines 790-793: the first bead of the trial chain, `cbmc_chain[0]` (here `c0`)
moved to a uniformly random point of the box. -/
def ForceField.firstBead (ff : ForceField α) (g : Rng) (c0 : Bead α) : Bead α :=
  c0.SetAllCrd (ff.randomBoxPoint g).1

/-- The C++ `ForceField::CBMCChainInsertion` (lines 783-855): the accept flag, the
population, the force field (scratch buffers) and the generator afterwards. -/
def ForceField.CBMCChainInsertion (env : Env α) (ff : ForceField α)
    (mols : List (Molecule α)) (g : Rng) :
    Option (Bool × List (Molecule α) × ForceField α × Rng) :=
  let p := ff.randomBoxPoint g
  match ff.cbmc_chain[0]? with
  | none => none
  | some c0 =>
    let b0 := ff.firstBead g c0
    let ff0 := ff.withChain (ff.cbmc_chain.set 0 b0)
    match ff0.BeadEnergy b0 mols 0 (-1) 0 with
    | none => none
    | some e0 =>
      let weight0 : α := 1 * env.exp (-ff.beta * e0)
      match ForceField.growRest env mols (ff0.toadd - 1).toNat 1 0 ff0 p.2 weight0 with
      | none => none
      | some (weight, ff1, g1) =>
        let dE := ff1.trialChainDE mols ff1.toadd (-1)
        let u : α × Rng := Rng.uniform g1
        if u.1 < ff1.insertionThreshold env mols.length weight dE then
          match ff1.appendInserted mols with
          | none => none
          | some mols1 => some (true, mols1, ff1, u.2)
        else some (false, mols, ff1, u.2)

end Sampler

section Deletion

variable {α : Type} [LinearOrderedField α] [FloorRing α]

/-- Lines 858-859 and 862-863: one draw of a molecule index. The conversion to
`int` of the non-negative product is its floor. -/
def drawIndex (α : Type) [LinearOrderedField α] [FloorRing α] (size : Nat) (g : Rng) :
    Int × Rng :=
  let u : α × Rng := Rng.uniform g
  let d : Int := Int.floor (u.1 * (((size : Int) : α)))
  (if d = (size : Int) then d - 1 else d, u.2)

/-- The loop condition of lines 860-861: the molecule at `delete_id` is not of the
configured species. The charge is read only when the length matches. -/
def ForceField.speciesMismatch (ff : ForceField α) (mols : List (Molecule α))
    (delete_id : Int) : Option Bool :=
  match getAt mols delete_id with
  | none => none
  | some m =>
    if m.Size ≠ ff.gc_chain_len then some true
    else
      match m.bds[0]? with
      | none => none
      | some b => some (decide (b.charge ≠ (ff.gc_bead_charge : α)))

/-- Lines 860-864: the rejection loop over molecule indices, with at most `fuel`
redraws. -/
def ForceField.pickSpecies (ff : ForceField α) (mols : List (Molecule α)) :
    Nat → Int → Rng → Option (Int × Rng)
  | 0, delete_id, g =>
    match ff.speciesMismatch mols delete_id with
    | some false => some (delete_id, g)
    | _ => none
  | fuel + 1, delete_id, g =>
    match ff.speciesMismatch mols delete_id with
    | none => none
    | some false => some (delete_id, g)
    | some true =>
      let d := drawIndex α mols.length g
      ForceField.pickSpecies ff mols fuel d.1 d.2

/-- Lines 904-906: the sum of the first `n` trial weights, from index `j` on. -/
def sumWeights (weights : List α) : Nat → Nat → α → Option α
  | 0, _, Wi => some Wi
  | n + 1, j, Wi =>
    match weights[j]? with
    | none => none
    | some w => sumWeights weights n (j + 1) (Wi + w)

/-- Lines 885-908 of `CBMCChainDeletion`: `n` more iterations of the regrowth
loop, from bead `i` on. The variable `shift_id` equals `delete_id` as long as
`i < gc_chain_len` and is recomputed from `i` afterwards, so it is not carried
along; `ci` is the bead just stored in `cbmc_chain[i]`, which
`CBMCGenTrialBeads` does not touch. -/
def ForceField.regrowRest (env : Env α) (mols : List (Molecule α)) (delete_id : Int) :
    Nat → Nat → Int → ForceField α → Rng → α → Option (α × ForceField α × Rng)
  | 0, _, _, ff, g, weight => some (weight, ff, g)
  | n + 1, i, type, ff, g, weight =>
    let type1 : Int := if (i : Int) < ff.gc_chain_len then type else 1
    let src : Option (Bead α) :=
      if (i : Int) < ff.gc_chain_len then
        match getAt mols delete_id with
        | none => none
        | some m => m.bds[i]?
      else
        match getAt mols (delete_id + (i : Int) - ff.gc_chain_len + 1) with
        | none => none
        | some m => m.bds[0]?
    match src with
    | none => none
    | some sb =>
      let xyz : Vec3 α := ⟨sb.GetCrd 0, sb.GetCrd 1, sb.GetCrd 2⟩
      match ff.cbmc_chain[i]? with
      | none => none
      | some c =>
        let ci := c.SetAllCrd xyz
        let ff1 := ff.withChain (ff.cbmc_chain.set i ci)
        match getAt ff1.cbmc_chain ((i : Int) - 1) with
        | none => none
        | some end_bead =>
          match ff1.CBMCGenTrialBeads env end_bead mols (i : Int) g delete_id type1 with
          | none => none
          | some (_, ff2, g2) =>
            match ff2.BeadEnergy ci mols (i : Int) delete_id type1 with
            | none => none
            | some e =>
              match setAt ff2.cbmc_trial_weights 0 (env.exp (-ff2.beta * e)) with
              | none => none
              | some ws =>
                match sumWeights ws ff2.cbmc_no_of_trials.toNat 0 0 with
                | none => none
                | some Wi =>
                  ForceField.regrowRest env mols delete_id n (i + 1) type1
                    (ff2.withWeights ws) g2
                    (weight * (Wi / (ff2.cbmc_no_of_trials : α)))

/-- The C++ `ForceField::CBMCChainDeletion` (lines 857-941): the returned index
(`-1` for no deletion), the force field (scratch buffers) and the generator
afterwards. `fuel` bounds the redraws of the species loop. The calls of
`AdjustEnergyUponMolDeletion` only touch the energy caches of the potentials. -/
def ForceField.CBMCChainDeletion (env : Env α) (ff : ForceField α)
    (mols : List (Molecule α)) (g : Rng) (fuel : Nat) :
    Option (Int × ForceField α × Rng) :=
  let d0 := drawIndex α mols.length g
  match ff.pickSpecies mols fuel d0.1 d0.2 with
  | none => none
  | some (delete_id, g1) =>
    match getAt mols delete_id with
    | none => none
    | some m =>
      match m.bds[0]? with
      | none => none
      | some b0 =>
        match ff.BeadEnergy b0 mols 0 delete_id 0 with
        | none => none
        | some e0 =>
          let weight0 : α := 1 * env.exp (-ff.beta * e0)
          let xyz : Vec3 α := ⟨b0.GetCrd 0, b0.GetCrd 1, b0.GetCrd 2⟩
          match ff.cbmc_chain[0]? with
          | none => none
          | some c0 =>
            let ff0 := ff.withChain (ff.cbmc_chain.set 0 (c0.SetAllCrd xyz))
            match ForceField.regrowRest env mols delete_id (ff0.toadd - 1).toNat 1 0 ff0 g1
                weight0 with
            | none => none
            | some (weight, ff1, g2) =>
              let dE := ff1.trialChainDE mols ff1.toadd delete_id
              let u : α × Rng := Rng.uniform g2
              if u.1 < ff1.deletionThreshold env mols.length weight dE then
                some (delete_id, ff1, u.2)
              else some (-1, ff1, u.2)

/-- In the words of the specification: a molecule of the configured species, with
`gc_chain_len` beads and first-bead charge `gc_bead_charge`. -/
def ForceField.isSpecies (ff : ForceField α) (m : Molecule α) : Prop :=
  m.Size = ff.gc_chain_len ∧
  (m.bds[0]?).map (fun b => b.charge) = some (ff.gc_bead_charge : α)

instance (ff : ForceField α) (m : Molecule α) : Decidable (ff.isSpecies m) := by
  unfold ForceField.isSpecies; infer_instance

end Deletion

/-! ## Definitions used to state the effect of the sampler on its arguments -/

section Effects

variable {α : Type} [LinearOrderedField α]

/-- In the words of the specification: the deltas of the enabled families, in the
order pair, external, long-range, bonded; a disabled family has no entry. -/
def ForceField.enabledDeltas (ff : ForceField α) (mols : List (Molecule α))
    (moved_mol : Int) : List α :=
  (if ff.use_pair_pot then
      [ff.pair_pot.EnergyDifference mols moved_mol ff.box_l ff.npbc] else [])
  ++ (if ff.use_ext_pot then
      [ff.ext_pot.EnergyDifference mols moved_mol ff.box_l ff.npbc] else [])
  ++ (if ff.use_ewald_pot then
      [ff.ewald_pot.EnergyDifference mols moved_mol ff.npbc] else [])
  ++ (if ff.use_bond_pot then
      [ff.bond_pot.EnergyDifference mols ff.box_l ff.npbc moved_mol] else [])

/-- Two force fields that differ at most in the three scratch buffers. -/
def ForceField.scratchOnly (ff ff1 : ForceField α) : Prop :=
  ∃ (w : List α) (tb ch : List (Bead α)),
    ff1 = ((ff.withWeights w).withTrialBeads tb).withChain ch

/-- In the words of the specification: the molecule an accepted insertion appends
first, the first `len` beads of the trial chain with the bonds
`(0,1), (1,2), ..., (len-2, len-1)`. -/
def insertedChain (chain : List (Bead α)) (len : Nat) : Molecule α :=
  { bds := chain.take len,
    bonds := (List.range (len - 1)).map (fun (i : Nat) => (Int.ofNat i, Int.ofNat i + 1)) }

/-- In the words of the specification: the single-bead molecules an accepted
insertion of a charged species appends, one per bead `chain[len], ...,
chain[2*len - 1]`. -/
def insertedCounterions (chain : List (Bead α)) (len : Nat) : List (Molecule α) :=
  ((chain.drop len).take len).map (fun b => { bds := [b], bonds := [] })

/-- In the words of the specification: the energy of one bead against (a) every
bead of every molecule `i` of the population, except, when `delete_id` is not `-1`,
the window `delete_id <= i <= delete_id + c` with `c = gc_chain_len` for a charged
species and `c = 0` otherwise, (b) the beads `cbmc_chain[j]` of the trial chain for
`j < current_len - 1` (chain bead) or `j < current_len` (counterion, `type = 1`),
and (c) the external potential when it is enabled; the pair terms only when the
pair family is enabled. -/
def ForceField.beadEnergySpec (ff : ForceField α) (bead : Bead α) (mols : List (Molecule α))
    (current_len delete_id type : Int) : α :=
  let c : Int := if ff.gc_bead_charge ≠ 0 then ff.gc_chain_len else 0
  let others := mols.enum.filter (fun p =>
    decide (¬ (delete_id ≠ -1 ∧ delete_id ≤ (p.1 : Int) ∧ (p.1 : Int) ≤ delete_id + c)))
  let pairMols : α := (others.map (fun p =>
    (p.2.bds.map (fun b => ff.pair_pot.PairEnergy bead b ff.box_l ff.npbc)).sum)).sum
  let n : Nat := if type = 1 then current_len.toNat else (current_len - 1).toNat
  let pairChain : α :=
    ((ff.cbmc_chain.take n).map (fun b => ff.pair_pot.PairEnergy bead b ff.box_l ff.npbc)).sum
  (if ff.use_pair_pot then pairMols + pairChain else 0)
    + (if ff.use_ext_pot then ff.ext_pot.BeadEnergy bead ff.box_l else 0)

/-- The scratch buffers have the sizes `InitializeEnergy` gives them for a species of
at least one bead and at least one trial: `toadd` chain beads, the trial beads
doubled for a charged species, and one weight per trial. -/
def ForceField.sized (ff : ForceField α) : Prop :=
  1 ≤ ff.gc_chain_len ∧ 1 ≤ ff.cbmc_no_of_trials ∧
  ff.cbmc_chain.length = ff.toadd.toNat ∧
  ff.cbmc_trial_beads.length
    = (if ff.gc_bead_charge ≠ 0 then 2 * ff.cbmc_no_of_trials else ff.cbmc_no_of_trials).toNat ∧
  ff.cbmc_trial_weights.length = ff.cbmc_no_of_trials.toNat

end Effects

section DeletionEffect

variable {α : Type} [LinearOrderedField α] [FloorRing α]

/-- The call `CBMCChainDeletion(mols, rand_gen)` with the reference argument
`mols` made explicit in the result: the function body reads the population and
never writes to it. -/
def ForceField.CBMCChainDeletionPop (env : Env α) (ff : ForceField α)
    (mols : List (Molecule α)) (g : Rng) (fuel : Nat) :
    Option (Int × List (Molecule α) × ForceField α × Rng) :=
  match ff.CBMCChainDeletion env mols g fuel with
  | none => none
  | some (delete_id, ff1, g1) => some (delete_id, mols, ff1, g1)

/-- Lines 886-897 of `CBMCChainDeletion`: the existing bead whose position is stored
in `cbmc_chain[i]`, bead `i` of the chain to be deleted or the bead of one of its
counterions. -/
def ForceField.realBead (ff : ForceField α) (mols : List (Molecule α)) (delete_id : Int)
    (i : Nat) : Option (Bead α) :=
  if (i : Int) < ff.gc_chain_len then
    match getAt mols delete_id with
    | none => none
    | some m => m.bds[i]?
  else
    match getAt mols (delete_id + (i : Int) - ff.gc_chain_len + 1) with
    | none => none
    | some m => m.bds[0]?

end DeletionEffect

/-! ## `force_field.cc`: `ForceField::Initialize` -/

/-- How a start-up routine ends: it returns a value, it prints a message and calls
`exit(1)`, or it runs into undefined behaviour (`fault`). -/
inductive Startup (β : Type) where
  | ok (v : β)
  | exit (message : String)
  | fault

/-- The start-up routine called `exit(1)`. -/
def Startup.isExit {β : Type} : Startup β → Bool
  | Startup.exit _ => true
  | _ => false

/-- The start-up routine returned. -/
def Startup.isOk {β : Type} : Startup β → Bool
  | Startup.ok _ => true
  | _ => false

/-- What `ForceField::Initialize` reads from the standard input, token by token in
the fixed order of lines 51-59, 79-89, 110, 128, 141, 155 and 161 (a value that is
read only under a flag is a field that is consulted only under that flag), and the
constructors of the potential classes, which are outside the tree and are taken
to return. The grand-canonical fields also stand for the uninitialised members
when `use_gc` is off; `unsetPair`, ..., `unsetExt` stand for the pointers that
are never assigned when a family is disabled. `junk` is the content of the
freshly allocated weight array. -/
structure ForceFieldInput (α : Type) where
  vp_el_res : α
  vp_bead_size : α
  use_pair_pot : Bool
  use_ewald_pot : Bool
  use_bond_pot : Bool
  use_bond_rigid : Bool
  use_angle_pot : Bool
  use_dihed_pot : Bool
  use_ext_pot : Bool
  use_gc : Bool
  chem_pot : α
  gc_deBroglie_prefactor : α
  gc_freq : Int
  gc_chain_len : Int
  gc_bead_charge : Int
  gc_bead_symbol : String
  cbmc_no_of_trials : Int
  pair_name : String
  ewald_name : String
  bond_name : String
  rigid_bond : α
  ext_name : String
  newPair : String → PotentialPair α
  newEwald : String → Vec3 α → PotentialEwald α
  newBond : Int → String → PotentialBond α
  newExt : String → PotentialExternal α
  unsetPair : PotentialPair α
  unsetEwald : PotentialEwald α
  unsetBond : PotentialBond α
  unsetExt : PotentialExternal α
  junk : Nat → α

/-- The members of `class ForceField` that the energy and grand-canonical
functions above do not read: the population counters, `mu_tot_ins`, and the state
of the virial pressure estimator. The arrays used only by code that is commented
out or under the constant flag `use_g_el = false` (`vp_hs_g`, `vp_hs_g_lsx`,
`vp_hs_g_lsy`, `vp_el_rrx`, `vp_el_rry`, `vp_el_rrz`, `lB`) are left out. -/
structure Estimator (α : Type) where
  n_mol : Int
  chain_len : Int
  n_chain : Int
  n_cion : Int
  n_aion : Int
  mu_tot_ins : Int
  p_tensor : Vec3 α
  p_tensor_hs : Vec3 α
  p_tensor_el : Vec3 α
  p_tensor_el_tot : Vec3 α
  vp_bead_size : α
  vp_g_res : α
  vp_hs_res : α
  vp_el_res : α
  vp_g_bin : Int
  vp_hs_bin : Int
  vp_g_s : Int
  vp_hs_rr : List α
  vp_zwall_rr : List α
  vp_hs_rr_lsx : List α
  vp_hs_rr_lsx2 : List α
  vp_hs_rr_lsy : List α
  vp_z : α

section Initialize

variable {α : Type} [LinearOrderedField α] [FloorRing α]

/-- Lines 227-232: the length of the first molecule longer than one bead; without
such a molecule the length of the last molecule, and `chain_len` (initially `-1`)
for an empty population. -/
def firstChainLen : List (Molecule α) → Int → Int
  | [], chain_len => chain_len
  | m :: ms, _ => if m.Size > 1 then m.Size else firstChainLen ms m.Size

/-- Lines 241-251 (and 448-458): the numbers of chains, cations and anions. The
charge of `bds[0]` is read for every molecule that is not longer than one bead. -/
def countSpecies : List (Molecule α) → Int × Int × Int → Option (Int × Int × Int)
  | [], c => some c
  | m :: ms, (n_chain, n_cion, n_aion) =>
    if m.Size > 1 then countSpecies ms (n_chain + 1, n_cion, n_aion)
    else
      match m.bds[0]? with
      | none => none
      | some b =>
        if b.charge ≥ 0 then countSpecies ms (n_chain, n_cion + 1, n_aion)
        else if b.charge < 0 then countSpecies ms (n_chain, n_cion, n_aion + 1)
        else countSpecies ms (n_chain, n_cion, n_aion)

/-- The test of lines 111-124: the pair family is enabled with a name that is not
recognised. -/
def ForceFieldInput.badPair (inp : ForceFieldInput α) : Prop :=
  inp.use_pair_pot = true ∧ ¬ (inp.pair_name = "TruncatedLJ" ∨ inp.pair_name = "HardSphere")

/-- The test of lines 129-137 for the long-range family. -/
def ForceFieldInput.badEwald (inp : ForceFieldInput α) : Prop :=
  inp.use_ewald_pot = true ∧ ¬ (inp.ewald_name = "Coul")

/-- The test of lines 142-150 for the bonded family. -/
def ForceFieldInput.badBond (inp : ForceFieldInput α) : Prop :=
  inp.use_bond_pot = true ∧ ¬ (inp.bond_name = "Spring")

/-- The test of lines 162-180 for the external family. -/
def ForceFieldInput.badExt (inp : ForceFieldInput α) : Prop :=
  inp.use_ext_pot = true ∧ ¬ (inp.ext_name = "TruncatedLJWall" ∨ inp.ext_name = "HardWall"
    ∨ inp.ext_name = "WellWall")

instance (inp : ForceFieldInput α) : Decidable inp.badPair := by
  unfold ForceFieldInput.badPair; infer_instance

instance (inp : ForceFieldInput α) : Decidable inp.badEwald := by
  unfold ForceFieldInput.badEwald; infer_instance

instance (inp : ForceFieldInput α) : Decidable inp.badBond := by
  unfold ForceFieldInput.badBond; infer_instance

instance (inp : ForceFieldInput α) : Decidable inp.badExt := by
  unfold ForceFieldInput.badExt; infer_instance

/-- Lines 41-47 and 104-181, 321-331: the force field as it stands when
`InitializeEnergy` is called. The pointer of a disabled family is never
assigned. -/
def ForceFieldInput.forceField (inp : ForceFieldInput α) (beta_in : α) (npbc_in : Int)
    (box_l_in : Vec3 α) (n_mol : Int) (chain_len : Int) : ForceField α :=
  { beta := beta_in, npbc := npbc_in, box_l := box_l_in,
    vol := box_l_in.x * box_l_in.y * box_l_in.z,
    use_gc := inp.use_gc, use_pair_pot := inp.use_pair_pot,
    use_ewald_pot := inp.use_ewald_pot, use_bond_pot := inp.use_bond_pot,
    use_bond_rigid := inp.use_bond_rigid, use_ext_pot := inp.use_ext_pot,
    gc_bead_symbol := if inp.use_gc then inp.gc_bead_symbol else "P",
    gc_chain_len := if inp.use_gc then inp.gc_chain_len else chain_len,
    gc_bead_charge := if inp.use_gc then inp.gc_bead_charge else 0,
    chem_pot := inp.chem_pot,
    gc_deBroglie_prefactor := if inp.use_gc then inp.gc_deBroglie_prefactor else 1,
    cbmc_no_of_trials := if inp.use_gc then inp.cbmc_no_of_trials else 20,
    cbmc_trial_weights := [], cbmc_trial_beads := [], cbmc_chain := [],
    pair_pot := if inp.use_pair_pot then inp.newPair inp.pair_name else inp.unsetPair,
    ewald_pot := if inp.use_ewald_pot then inp.newEwald inp.ewald_name box_l_in
      else inp.unsetEwald,
    bond_pot := if inp.use_bond_pot then inp.newBond n_mol inp.bond_name else inp.unsetBond,
    rigid_bond := if inp.use_bond_rigid then inp.rigid_bond else -1,
    ext_pot := if inp.use_ext_pot then inp.newExt inp.ext_name else inp.unsetExt }

/-- Lines 254-285 and 321: the estimator as `Initialize` leaves it. -/
def ForceFieldInput.estimator (inp : ForceFieldInput α) (box_l_in : Vec3 α)
    (mols : List (Molecule α)) (chain_len : Int) (counts : Int × Int × Int) : Estimator α :=
  { n_mol := (mols.length : Int), chain_len := chain_len,
    n_chain := counts.1, n_cion := counts.2.1, n_aion := counts.2.2,
    mu_tot_ins := 100,
    p_tensor := ⟨0, 0, 0⟩, p_tensor_hs := ⟨0, 0, 0⟩, p_tensor_el := ⟨0, 0, 0⟩,
    p_tensor_el_tot := ⟨0, 0, 0⟩,
    vp_bead_size := inp.vp_bead_size,
    vp_g_res := inp.vp_bead_size * (1 / 100),
    vp_hs_res := inp.vp_bead_size * (1 / 100),
    vp_el_res := inp.vp_el_res,
    vp_g_bin := Int.floor ((1 / 2 * box_l_in.x - inp.vp_bead_size)
      / (inp.vp_bead_size * (1 / 100))),
    vp_hs_bin := 4,
    vp_g_s := (chain_len + 2) * (chain_len + 2),
    vp_hs_rr := List.replicate (4 * 3 * ((chain_len + 2) * (chain_len + 2))).toNat 0,
    vp_zwall_rr := List.replicate 4 0,
    vp_hs_rr_lsx := (List.range 4).map
      (fun i => ((i : α) + 1 / 2) * (inp.vp_bead_size * (1 / 100)) + inp.vp_bead_size),
    vp_hs_rr_lsx2 := (List.range 4).map
      (fun i => ((i : α) + 1 / 2) * (inp.vp_bead_size * (1 / 100)) + inp.vp_bead_size / 2),
    vp_hs_rr_lsy := List.replicate 4 0,
    vp_z := 0 }

/-- The array lengths of lines 263-265 and 288-294 are defined and not negative:
no division by a zero resolution, no negative bin count. -/
def ForceFieldInput.arraysDefined (inp : ForceFieldInput α) (box_l_in : Vec3 α)
    (chain_len : Int) : Prop :=
  inp.vp_bead_size * (1 / 100) ≠ 0 ∧
  0 ≤ Int.floor ((1 / 2 * box_l_in.x - inp.vp_bead_size) / (inp.vp_bead_size * (1 / 100)))
      * 3 * ((chain_len + 2) * (chain_len + 2)) ∧
  (inp.use_ewald_pot = true →
    inp.vp_el_res ≠ 0 ∧
    0 ≤ Int.floor (1 / 2 * box_l_in.x / inp.vp_el_res) * ((chain_len + 2) * (chain_len + 2)) ∧
    0 ≤ Int.floor (1 / 2 * box_l_in.y / inp.vp_el_res) * ((chain_len + 2) * (chain_len + 2)) ∧
    0 ≤ Int.floor (1 / 2 * box_l_in.z / inp.vp_el_res) * ((chain_len + 2) * (chain_len + 2)))

instance (inp : ForceFieldInput α) (box_l_in : Vec3 α) (chain_len : Int) :
    Decidable (inp.arraysDefined box_l_in chain_len) := by
  unfold ForceFieldInput.arraysDefined; infer_instance

/-- The C++ `ForceField::Initialize` (lines 38-335). Output to `cout` is not
modelled. The outcome is `fault` where the source dereferences the pair pointer of
a disabled pair family (line 203), reads `bds[0]` of an empty molecule (lines 245,
248), or computes an array length that is undefined or negative (lines 263-265,
288-294). -/
def ForceField.Initialize (inp : ForceFieldInput α) (beta_in : α) (npbc_in : Int)
    (box_l_in : Vec3 α) (n_mol : Int) (mols : List (Molecule α)) :
    Startup (ForceField α × Estimator α) :=
  if inp.badPair then Startup.exit "Undefined pair potential! Exiting."
  else if inp.badEwald then Startup.exit "Undefined Ewald potential! Exiting."
  else if inp.badBond then Startup.exit "Undefined bonded potential! Exiting."
  else if inp.badExt then Startup.exit "Undefined external potential! Exiting."
  else if inp.vp_bead_size < 0 then
    Startup.exit "Virial bead size has to be bigger than zero!Exiting! Program complete."
  else if inp.use_pair_pot = false then Startup.fault
  else
    let chain_len : Int := if inp.use_gc then inp.gc_chain_len else firstChainLen mols (-1)
    match countSpecies mols (0, 0, 0) with
    | none => Startup.fault
    | some counts =>
      if inp.arraysDefined box_l_in chain_len then
        Startup.ok
          ((inp.forceField beta_in npbc_in box_l_in n_mol chain_len).InitializeEnergy inp.junk,
            inp.estimator box_l_in mols chain_len counts)
      else Startup.fault

end Initialize

/-! ## `simulation.cc`: start-up validation and the translational move -/

/-- Modelled from the spec: `Bead::UpdateCurrentPos`, the commit of the trial
snapshot to the current one. -/
def Bead.UpdateCurrentPos {α : Type} (b : Bead α) : Bead α :=
  { b with c_crd := b.t_crd }

/-- Modelled from the spec: `Bead::UpdateTrialPos`, the revert of the trial
snapshot to the current one. -/
def Bead.UpdateTrialPos {α : Type} (b : Bead α) : Bead α :=
  { b with t_crd := b.c_crd }

/-- Modelled from the spec: `Bead::UnsetMoved`, which clears the moved flag. -/
def Bead.UnsetMoved {α : Type} (b : Bead α) : Bead α :=
  { b with moved := false }

/-- The move methods of `class Molecule` (`molecules/molecule.h`, outside the
tree): each takes the molecule, its arguments and the generator, and gives the
molecule with its proposed coordinates and the advanced generator. -/
structure Moves (α : Type) where
  BeadTranslate : Molecule α → α → Vec3 α → Rng → Molecule α × Rng
  COMTranslate : Molecule α → α → Rng → Molecule α × Rng
  Pivot : Molecule α → α → Rng → α → Molecule α × Rng
  Crankshaft : Molecule α → α → Rng → Molecule α × Rng
  RandomReptation : Molecule α → Rng → α → Molecule α × Rng

/-- The members of `class Simulation` read or written by the constructor checks,
`TranslationalMove`, `GenBeadID` and `GCMove`; `id_list` is the content of the
`set<int>` of bead identities handed out. `finalized` is not a member: it records, in
order, the arguments `(accept, moved_mol)` of the calls of
`ForceField::FinalizeEnergies`, whose effect is on the energy caches of the
potentials. -/
structure Simulation (α : Type) where
  npbc : Int
  beta : α
  move_size : α
  calc_chem_pot : Bool
  phantom : Int
  move_prob : List α
  step : Int
  steps_eq : Int
  id_counter : Int
  id_list : List Int
  n_mol : Int
  n_chain : Int
  n_bead : Int
  box_l : Vec3 α
  mols : List (Molecule α)
  force_field : ForceField α
  rand_gen : Rng
  accepted : List Int
  attempted : List Int
  insertion_accepted : Int
  insertion_attempted : Int
  deletion_accepted : Int
  deletion_attempted : Int
  finalized : List (Bool × Int)

section SimulationDefs

variable {α : Type} [LinearOrderedField α] [FloorRing α]

/-- Lines 138-141 of the constructor: `n` more terms of the sum of the move
probabilities, from index `i` on. -/
def sumMoveProb (move_prob : List α) : Nat → Nat → α → Option α
  | 0, _, tot => some tot
  | n + 1, i, tot =>
    match move_prob[i]? with
    | none => none
    | some p => sumMoveProb move_prob n (i + 1) (tot + p)

/-- Lines 119-171 of `Simulation::Simulation`: the start-up checks. The constants
`kNoMoveType` and `kMedSmallNumber` are those of `utilities/constants.h`. The
warnings of lines 147-154 and the notes only print. -/
def Simulation.startupChecks (kMedSmallNumber : α) (kNoMoveType : Nat)
    (s : Simulation α) : Startup Unit :=
  if s.beta ≤ 0 then
    Startup.exit "not an acceptable beta value. Exiting! Program complete."
  else if s.npbc > 3 ∨ s.npbc < 2 then
    Startup.exit "invalid number of periodic dimensions! Exiting! Program complete."
  else
    match sumMoveProb s.move_prob kNoMoveType 0 0 with
    | none => Startup.fault
    | some tot_move_prob =>
      if |tot_move_prob - 1| > kMedSmallNumber then
        Startup.exit "MC move probabilities do not sum up to 1.0. Exiting! Program complete."
      else
        match s.move_prob[3]?, s.move_prob[4]? with
        | some p3, some p4 =>
          if p3 > 0 ∧ s.force_field.use_bond_rigid = true then
            Startup.exit "The current crankshaft MC move and rigid bond cannot be used at the same time. Exiting! Program complete."
          else if p4 > 0 ∧ ¬ (s.force_field.use_bond_rigid = true) then
            Startup.exit "The current reptation MC move and rigid bond have to be used at the same time. Exiting! Program complete."
          else if s.calc_chem_pot = true ∧ s.force_field.use_gc = true then
            Startup.exit "ERROR: Chemical potential cannot be calculate when GCMC is used. Exiting. Program complete."
          else Startup.ok ()
        | _, _ => Startup.fault

/-- The conversion `(int)x` of a `double`: truncation toward zero. -/
def truncToInt (x : α) : Int :=
  if 0 ≤ x then Int.floor x else Int.ceil x

/-- Lines 278-286 and 292-300 of `TranslationalMove`: the search for the molecule
whose rank among the molecules satisfying `p` is `target`; `n` more iterations
from index `i` on. The result is `-1` when the loop ends without a match. -/
def findMol (p : Molecule α → Bool) (target : Int) (mols : List (Molecule α)) :
    Nat → Nat → Int → Option Int
  | 0, _, _ => some (-1)
  | n + 1, i, counter =>
    match mols[i]? with
    | none => none
    | some m =>
      let counter1 : Int := if p m then counter + 1 else counter
      if counter1 = target then some (i : Int)
      else findMol p target mols n (i + 1) counter1

/-- Write the molecule `m` at index `mol_id` of the population (`none` outside). -/
def setMol (mols : List (Molecule α)) (mol_id : Int) (m : Molecule α) :
    Option (List (Molecule α)) :=
  if 0 ≤ mol_id then setAt mols mol_id.toNat m else none

/-- One counter of the arrays `attempted` and `accepted` incremented. -/
def bump (counters : List Int) (i : Int) : Option (List Int) :=
  match getAt counters i with
  | none => none
  | some c => if 0 ≤ i then setAt counters i.toNat (c + 1) else none

/-- The dispatch of `TranslationalMove` on the move type: a bead translation of
the chosen single-bead molecule, or one of the chain moves on the chosen chain; the
result is the index of the moved molecule (`-1` when nothing was moved), the
population and the generator. -/
def Simulation.moveMolecule (mv : Moves α) (s : Simulation α)
    (move_type single_id chain_id : Int) (g : Rng) :
    Option (Int × List (Molecule α) × Rng) :=
  if move_type = 0 ∧ s.n_mol - s.n_chain > 0 then
    match findMol (fun m => decide (m.Size = 1)) single_id s.mols s.n_mol.toNat 0 (-1) with
    | none => none
    | some mol_id =>
      match getAt s.mols mol_id with
      | none => none
      | some m =>
        let r := mv.BeadTranslate m s.move_size s.box_l g
        match setMol s.mols mol_id r.1 with
        | none => none
        | some mols1 => some (mol_id, mols1, r.2)
  else if s.n_chain > 0 then
    match findMol (fun m => decide (m.Size > 1)) chain_id s.mols s.n_mol.toNat 0 (-1) with
    | none => none
    | some mol_id =>
      match getAt s.mols mol_id with
      | none => none
      | some m =>
        let r : Molecule α × Rng :=
          if move_type = 1 then mv.COMTranslate m s.move_size g
          else if move_type = 2 then mv.Pivot m s.move_size g s.force_field.rigid_bond
          else if move_type = 3 then mv.Crankshaft m s.move_size g
          else if move_type = 4 then mv.RandomReptation m g s.force_field.rigid_bond
          else (m, g)
        match setMol s.mols mol_id r.1 with
        | none => none
        | some mols1 => some (mol_id, mols1, r.2)
  else some (-1, s.mols, g)

/-- Lines 256-316 of `TranslationalMove`: the choice of the molecule and the move
type and the proposal. The result is the chosen `mol_id`, the `move_type`, and the
simulation with the proposed coordinates, the advanced generator and the counter
`attempted[move_type]` incremented. -/
def Simulation.propose (mv : Moves α) (kNoMoveType : Nat) (s : Simulation α) :
    Option (Int × Int × Simulation α) :=
  let u1 : α × Rng := Rng.uniform s.rand_gen
  let chain_id0 : Int := truncToInt (u1.1 * ((s.n_chain : Int) : α))
  let u2 : α × Rng := Rng.uniform u1.2
  let single_id0 : Int := truncToInt (u2.1 * (((s.n_mol - s.n_chain - s.phantom : Int)) : α))
  let chain_id : Int := if chain_id0 = s.n_chain then chain_id0 - 1 else chain_id0
  let single_id : Int :=
    if single_id0 = s.n_mol - s.n_chain - s.phantom then single_id0 - 1 else single_id0
  let u3 : α × Rng := Rng.uniform u2.2
  match rosenbluthSelect s.move_prob u3.1 with
  | none => none
  | some walked =>
    let move_type : Int :=
      if (walked : Int) ≥ (kNoMoveType : Int) then (kNoMoveType : Int) - 1 else (walked : Int)
    let moved : Option (Int × List (Molecule α) × Rng) :=
      s.moveMolecule mv move_type single_id chain_id u3.2
    match moved with
    | none => none
    | some (mol_id, mols1, g1) =>
      match bump s.attempted move_type with
      | none => none
      | some attempted1 =>
        some (mol_id, move_type,
          { s with mols := mols1, rand_gen := g1, attempted := attempted1 })

/-- Lines 318-324 of `TranslationalMove`: the accept flag and the generator; the
uniform draw is made only below the sentinel. -/
def Simulation.metropolis (env : Env α) (s : Simulation α) (dE : α) : Bool × Rng :=
  if dE ≥ env.kVeryLargeEnergy then (false, s.rand_gen)
  else
    let u : α × Rng := Rng.uniform s.rand_gen
    (decide (u.1 < env.exp (-s.beta * dE)), u.2)

/-- Lines 327-341: the beads of the moved molecule after the decision. -/
def settleBead (accept : Bool) (b : Bead α) : Bead α :=
  (if accept then b.UpdateCurrentPos else b.UpdateTrialPos).UnsetMoved

/-- Lines 317-341 of `TranslationalMove`: energy difference, decision, the call of
`FinalizeEnergies` and the commit or the rollback of the coordinates. -/
def Simulation.decide (env : Env α) (s : Simulation α) (mol_id move_type : Int) :
    Option (Simulation α) :=
  let dE := s.force_field.EnergyDifference env s.mols mol_id
  let a := s.metropolis env dE
  match getAt s.mols mol_id with
  | none => none
  | some m =>
    match setMol s.mols mol_id { m with bds := m.bds.map (settleBead a.1) } with
    | none => none
    | some mols1 =>
      if a.1 then
        match bump s.accepted move_type with
        | none => none
        | some accepted1 =>
          some { s with mols := mols1, rand_gen := a.2, accepted := accepted1,
                        finalized := s.finalized ++ [(a.1, mol_id)] }
      else
        some { s with mols := mols1, rand_gen := a.2,
                      finalized := s.finalized ++ [(a.1, mol_id)] }

/-- The C++ `Simulation::TranslationalMove` (lines 254-344). -/
def Simulation.TranslationalMove (env : Env α) (mv : Moves α) (kNoMoveType : Nat)
    (s : Simulation α) : Option (Simulation α) :=
  if s.n_mol > 0 then
    match s.propose mv kNoMoveType with
    | none => none
    | some (mol_id, move_type, s1) => s1.decide env mol_id move_type
  else some s

/-- The proposals write trial coordinates only: every move method leaves the
current snapshot of every bead as it is (the population contract of section 6 of
the specification). -/
def Moves.keepsCurrent (mv : Moves α) : Prop :=
  ∀ (m : Molecule α) (d rigid : α) (box_l : Vec3 α) (g : Rng),
    (mv.BeadTranslate m d box_l g).1.bds.map Bead.c_crd = m.bds.map Bead.c_crd ∧
    (mv.COMTranslate m d g).1.bds.map Bead.c_crd = m.bds.map Bead.c_crd ∧
    (mv.Pivot m d g rigid).1.bds.map Bead.c_crd = m.bds.map Bead.c_crd ∧
    (mv.Crankshaft m d g).1.bds.map Bead.c_crd = m.bds.map Bead.c_crd ∧
    (mv.RandomReptation m g rigid).1.bds.map Bead.c_crd = m.bds.map Bead.c_crd

/-- Modelled from the spec: `Bead::SetID`, which stores the bead identity. -/
def Bead.SetID {α : Type} (b : Bead α) (id : Int) : Bead α :=
  { b with id := id }

/-- Modelled from the spec: `Bead::SetChainID`, which stores the identity of the
owning molecule. -/
def Bead.SetChainID {α : Type} (b : Bead α) (chain_id : Int) : Bead α :=
  { b with chain_id := chain_id }

/-- The `while` loop of `Simulation::GenBeadID` (lines 561-565): the first value
from `id_counter` on that is not in `id_list`, within `fuel` insertions. -/
def genBeadIDLoop (id_list : List Int) : Nat → Int → Option Int
  | 0, _ => none
  | fuel + 1, id_counter =>
    if id_counter ∈ id_list then genBeadIDLoop id_list fuel (id_counter + 1)
    else some id_counter

/-- The C++ `Simulation::GenBeadID` (lines 557-571): the identity returned and the
simulation with that identity recorded and the counter one past it. A set of `n`
identities rejects at most `n` insertions, so `n + 1` iterations are enough. -/
def Simulation.GenBeadID (s : Simulation α) : Option (Int × Simulation α) :=
  match genBeadIDLoop s.id_list (s.id_list.length + 1) s.id_counter with
  | none => none
  | some id => some (id, { s with id_list := id :: s.id_list, id_counter := id + 1 })

/-- Lines 360-363 of `GCMove`: the beads of one new molecule get a fresh identity
and the chain identity `chain_id`, in order. -/
def labelBeads (chain_id : Int) :
    List (Bead α) → Simulation α → Option (List (Bead α) × Simulation α)
  | [], s => some ([], s)
  | b :: rest, s =>
    match s.GenBeadID with
    | none => none
    | some (id, s1) =>
      match labelBeads chain_id rest s1 with
      | none => none
      | some (bds, s2) => some ((b.SetID id).SetChainID chain_id :: bds, s2)

/-- Lines 356-364 of `GCMove`: `n` more iterations of the loop over the molecules
an accepted insertion appended, from index `i` on. `n_mol` is the member as it
stands during the loop, the population size before the insertion. The member
`mols` of the state is set by the caller after the loop. -/
def labelNew (n_mol : Int) :
    Nat → Nat → List (Molecule α) → Simulation α → Option (List (Molecule α) × Simulation α)
  | 0, _, mols, s => some (mols, s)
  | n + 1, i, mols, s =>
    match mols[i]? with
    | none => none
    | some m =>
      let mol_len := m.Size
      let s1 := { s with n_bead := s.n_bead + mol_len,
                         n_chain := if mol_len > 1 then s.n_chain + 1 else s.n_chain }
      match labelBeads (n_mol + (i : Int)) m.bds s1 with
      | none => none
      | some (bds, s2) => labelNew n_mol n (i + 1) (mols.set i { m with bds := bds }) s2

/-- The expression `(int)round(abs(x))` of line 383: rounding of a non-negative
value to the nearest integer, halves upwards. -/
def roundAbs (x : α) : Int :=
  Int.floor (|x| + 1 / 2)

/-- Lines 381-383 of `GCMove`: the sum of the rounded absolute charges of the beads
of the deleted chain. -/
def deletedCount (m : Molecule α) : Int :=
  (m.bds.map (fun b => roundAbs b.charge)).sum

/-- Lines 384-389 of `GCMove`: `n` more iterations of the erase loop, from index `i`
downwards. Reading a molecule outside the population is a failure. -/
def eraseDown :
    Nat → Int → List (Molecule α) → Simulation α → Option (List (Molecule α) × Simulation α)
  | 0, _, mols, s => some (mols, s)
  | n + 1, i, mols, s =>
    match getAt mols i with
    | none => none
    | some m =>
      let mol_len := m.Size
      let s1 := { s with n_bead := s.n_bead - mol_len,
                         n_chain := if mol_len > 1 then s.n_chain - 1 else s.n_chain }
      eraseDown n (i - 1) (mols.eraseIdx i.toNat) s1

/-- The C++ `Simulation::GCMove` (lines 346-395). `fuel` bounds the redraws of the
species loop of `CBMCChainDeletion`. The call of `EnergyInitForAddedMolecule` only
touches the energy caches of the potentials. -/
def Simulation.GCMove (env : Env α) (s : Simulation α) (fuel : Nat) :
    Option (Simulation α) :=
  let r := s.rand_gen.next
  let insert : Bool := Decidable.decide (r.1 % 2 ≠ 0)
  if insert then
    let s1 := { s with insertion_attempted :=
      if s.step > s.steps_eq then s.insertion_attempted + 1 else s.insertion_attempted }
    match s.force_field.CBMCChainInsertion env s.mols r.2 with
    | none => none
    | some (accept, mols1, ff1, g1) =>
      let s2 := { s1 with force_field := ff1, rand_gen := g1 }
      if accept then
        let s3 := { s2 with insertion_accepted :=
          if s.step > s.steps_eq then s.insertion_accepted + 1 else s.insertion_accepted }
        if s.n_mol < 0 then none
        else
          match labelNew s.n_mol (mols1.length - s.n_mol.toNat) s.n_mol.toNat mols1 s3 with
          | none => none
          | some (mols2, s4) => some { s4 with mols := mols2, n_mol := (mols2.length : Int) }
      else some { s2 with mols := mols1 }
  else
    let s1 := { s with rand_gen := r.2, deletion_attempted :=
      if s.step > s.steps_eq then s.deletion_attempted + 1 else s.deletion_attempted }
    if s.n_mol = 0 then some s1
    else
      match s.force_field.CBMCChainDeletion env s.mols r.2 fuel with
      | none => none
      | some (delete_id, ff1, g1) =>
        let s2 := { s1 with force_field := ff1, rand_gen := g1 }
        if delete_id ≠ -1 then
          let s3 := { s2 with deletion_accepted :=
            if s.step > s.steps_eq then s.deletion_accepted + 1 else s.deletion_accepted }
          match getAt s.mols delete_id with
          | none => none
          | some m =>
            let deleted := deletedCount m
            match eraseDown (deleted + 1).toNat (delete_id + deleted) s.mols s3 with
            | none => none
            | some (mols2, s4) => some { s4 with mols := mols2, n_mol := (mols2.length : Int) }
        else some s2

/-- The population bookkeeping: `n_mol` is the number of molecules, `n_bead` the
number of beads over all molecules, `n_chain` the number of molecules with more than
one bead. -/
def Simulation.bookkeeping (s : Simulation α) : Prop :=
  s.n_mol = (s.mols.length : Int) ∧
  s.n_bead = (s.mols.map (fun m => m.Size)).sum ∧
  s.n_chain = ((s.mols.filter (fun m => Decidable.decide (m.Size > 1))).length : Int)

end SimulationDefs

/-! ## `force_field.cc`: the chemical-potential estimator -/

section ChemicalPotential

variable {α : Type} [LinearOrderedField α]

/-- Lines 955-969 of `CalcChemicalPotential`: `n` more iterations of the growth
loop, from bead `i` on. The list `log` is not program state: it records, for each
bead grown, the trial weights `cbmc_trial_weights[0 .. cbmc_no_of_trials - 1]` that
`CBMCGenTrialBeads` left. -/
def ForceField.chemGrow (env : Env α) (mols : List (Molecule α)) :
    Nat → Nat → ForceField α → Rng → α → List (List α) →
      Option (α × List (List α) × ForceField α × Rng)
  | 0, _, ff, g, weight, log => some (weight, log, ff, g)
  | n + 1, i, ff, g, weight, log =>
    match getAt ff.cbmc_chain ((i : Int) - 1) with
    | none => none
    | some end_bead =>
      match ff.CBMCGenTrialBeads env end_bead mols (i : Int) g (-1) 0 with
      | none => none
      | some (Wi, ff1, g1) =>
        let weight1 := weight * (Wi / (ff1.cbmc_no_of_trials : α))
        let u : α × Rng := Rng.uniform g1
        let rand_num := u.1 * Wi
        match rosenbluthSelect ff1.cbmc_trial_weights rand_num with
        | none => none
        | some current_bead =>
          match ff1.cbmc_trial_beads[current_bead]? with
          | none => none
          | some tb =>
            let xyz : Vec3 α := ⟨tb.GetCrd 0, tb.GetCrd 1, tb.GetCrd 2⟩
            match ff1.cbmc_chain[i]? with
            | none => none
            | some c =>
              ForceField.chemGrow env mols n (i + 1)
                (ff1.withChain (ff1.cbmc_chain.set i (c.SetAllCrd xyz))) u.2 weight1
                (log ++ [ff1.cbmc_trial_weights.take ff1.cbmc_no_of_trials.toNat])

/-- Lines 947-969 of `CalcChemicalPotential`: one growth attempt. The result is the
weight of the attempt, the energy of the first bead and the trial weights of the
later beads (both only recorded), the force field and the generator. -/
def ForceField.chemAttempt (env : Env α) (ff : ForceField α) (mols : List (Molecule α))
    (g : Rng) : Option (α × (α × List (List α)) × ForceField α × Rng) :=
  let p := ff.randomBoxPoint g
  match ff.cbmc_chain[0]? with
  | none => none
  | some c0 =>
    let b0 := ff.firstBead g c0
    let ff0 := ff.withChain (ff.cbmc_chain.set 0 b0)
    match ff0.BeadEnergy b0 mols 0 (-1) 0 with
    | none => none
    | some e0 =>
      let weight0 : α := 1 * env.exp (-ff.beta * e0)
      match ForceField.chemGrow env mols (ff0.gc_chain_len - 1).toNat 1 ff0 p.2 weight0 [] with
      | none => none
      | some (weight, log, ff1, g1) => some (weight, (e0, log), ff1, g1)

/-- The loop of lines 946-973 of `CalcChemicalPotential`: `n` more attempts. The
list `log` collects what the attempts recorded. -/
def ForceField.chemAttempts (env : Env α) (mols : List (Molecule α)) :
    Nat → ForceField α → Rng → α → List (α × List (List α)) →
      Option (α × List (α × List (List α)) × ForceField α × Rng)
  | 0, ff, g, total, log => some (total, log, ff, g)
  | n + 1, ff, g, total, log =>
    match ff.chemAttempt env mols g with
    | none => none
    | some (weight, rec, ff1, g1) =>
      ForceField.chemAttempts env mols n ff1 g1
        (total + (ff1.vol * weight) /
          (ff1.gc_deBroglie_prefactor * ((((mols.length : Int) + 1 : Int)) : α)))
        (log ++ [rec])

/-- The C++ `ForceField::CalcChemicalPotential` (lines 943-977): the returned value,
the population (passed by reference), the record of the attempts, the force field
(scratch buffers) and the generator. -/
def ForceField.CalcChemicalPotential (env : Env α) (ff : ForceField α) (est : Estimator α)
    (mols : List (Molecule α)) (g : Rng) :
    Option (α × List (Molecule α) × List (α × List (List α)) × ForceField α × Rng) :=
  match ForceField.chemAttempts env mols est.mu_tot_ins.toNat ff g 0 [] with
  | none => none
  | some (total, log, ff1, g1) => some (total / (est.mu_tot_ins : α), mols, log, ff1, g1)

/-- In the words of the specification: the weight `W_c` of one growth attempt, the
Boltzmann factor of the first bead times, for every later bead, the sum of its trial
weights over the number of trials. -/
def chainWeight (env : Env α) (beta : α) (cbmc_no_of_trials : Int) (E_first : α)
    (trial_weights : List (List α)) : α :=
  env.exp (-beta * E_first) *
    (trial_weights.map (fun ws => ws.sum / (cbmc_no_of_trials : α))).prod

/-- In the words of the specification: the arithmetic mean over `mu_tot_ins` attempts
of `vol * W_c / (gc_deBroglie_prefactor * (N + 1))`. -/
def insertionMean (vol gc_deBroglie_prefactor : α) (N : Nat) (mu_tot_ins : Int)
    (W : List α) : α :=
  (W.map (fun W_c => vol * W_c / (gc_deBroglie_prefactor * ((N : α) + 1)))).sum
    / (mu_tot_ins : α)

/-- The state in which the estimator runs without a fault when neither the pair nor
the external family is enabled: at least one trial per bead, and scratch buffers
that hold the trials and the chain. -/
def ForceField.chemReady (ff : ForceField α) : Prop :=
  ff.use_pair_pot = false ∧ ff.use_ext_pot = false ∧ 1 ≤ ff.cbmc_no_of_trials ∧
  ff.cbmc_no_of_trials.toNat ≤ ff.cbmc_trial_beads.length ∧
  ff.cbmc_no_of_trials.toNat ≤ ff.cbmc_trial_weights.length ∧
  1 ≤ ff.cbmc_chain.length ∧ ff.gc_chain_len.toNat ≤ ff.cbmc_chain.length

end ChemicalPotential

/-! ## `force_field.cc`: the virial pressure estimator -/

/-- What `CalcPressureVirialHSEL` takes from outside the tree: the constant `kPi`,
the function `Interpolate`, the bead methods `BBDistVec`, `BBDistVecWithRef` and
`DistToWall` (the two numbers the returned string holds), the name
`ext_pot->PotentialName()` and the method `ewald_pot->PUPV`. -/
structure VirialEnv (α : Type) where
  kPi : α
  Interpolate : List α → List α → Int → α → α
  BBDistVec : Bead α → Bead α → Vec3 α → Int → Int → α
  BBDistVecWithRef : Bead α → Bead α → Bead α → Bead α → Vec3 α → Int → Int → α
  DistToWall : Bead α → Vec3 α → α × α
  extName : String
  PUPV : List (Molecule α) → α → Int → α

/-- A `for` loop over the indices `xs` with a body that may fault. -/
def forLoop {σ : Type} : List Nat → (Nat → σ → Option σ) → σ → Option σ
  | [], _, s => some s
  | x :: xs, body, s =>
    match body x s with
    | none => none
    | some s1 => forLoop xs body s1

section Pressure

variable {α : Type} [LinearOrderedField α] [FloorRing α]

/-- The statement `xs[i] += v` with a C++ `int` index; `none` outside the array. -/
def addAt (xs : List α) (i : Int) (v : α) : Option (List α) :=
  match getAt xs i with
  | none => none
  | some x => some (xs.set i.toNat (x + v))

/-- Lines 513-514 of `CalcPressureVirialHSEL`: the shell index of a pair of beads
at the separation `vlen`; a negative index is raised to `0`. -/
def Estimator.pairBin (est : Estimator α) (vlen : α) : Int :=
  let bin_id : Int := Int.floor ((vlen - est.vp_bead_size) / est.vp_hs_res)
  if bin_id < 0 then 0 else bin_id

/-- Lines 549-550 of `CalcPressureVirialHSEL`: the shell index of a bead at the
distance `dist` from a wall. -/
def Estimator.wallBin (est : Estimator α) (dist : α) : Int :=
  Int.floor ((dist - est.vp_bead_size / 2) / est.vp_hs_res)

/-- Lines 471-524 of `CalcPressureVirialHSEL`: the body of the innermost loop for
bead `i` of molecule `mol_k` and bead `j` of another molecule `mol_l`; the code under the
constant flag `use_g_el = false` is left out. -/
def Estimator.pairVisit (est : Estimator α) (venv : VirialEnv α) (env : Env α)
    (ff : ForceField α) (n_mol : Int) (mol_k mol_l : Molecule α) (i j : Nat) (hist : List α) :
    Option (List α) :=
  match mol_k.bds[i]?, mol_l.bds[j]?, mol_k.bds[0]?, mol_l.bds[0]? with
  | some bki, some blj, some bk0, some bl0 =>
    let z1 := bki.charge
    let z2 := blj.charge
    let C : α := 1 / ((n_mol * n_mol : Int) : α)
    let site1 : Int :=
      if mol_k.Size > 1 then (i : Int) else if z1 ≥ 0 then est.chain_len else est.chain_len + 1
    let site2 : Int :=
      if mol_l.Size > 1 then (j : Int) else if z2 ≥ 0 then est.chain_len else est.chain_len + 1
    let vx := venv.BBDistVec blj bki ff.box_l ff.npbc 0
    let vy := venv.BBDistVec blj bki ff.box_l ff.npbc 1
    let vz := venv.BBDistVec blj bki ff.box_l ff.npbc 2
    let vcx := venv.BBDistVecWithRef bl0 bk0 blj bki ff.box_l ff.npbc 0
    let vcy := venv.BBDistVecWithRef bl0 bk0 blj bki ff.box_l ff.npbc 1
    let vcz := venv.BBDistVecWithRef bl0 bk0 blj bki ff.box_l ff.npbc 2
    let vlen := env.sqrt (vx * vx + vy * vy + vz * vz)
    let dot_xx := vcx * vx / vlen
    let dot_yy := vcy * vy / vlen
    let dot_zz := vcz * vz / vlen
    if vlen ≤ est.vp_bead_size + est.vp_hs_res * (est.vp_hs_bin : α) then
      let bin_id : Int := est.pairBin vlen
      let ix := bin_id * 3 * est.vp_g_s + 0 * est.vp_g_s + site1 * (est.chain_len + 2) + site2
      let iy := bin_id * 3 * est.vp_g_s + 1 * est.vp_g_s + site1 * (est.chain_len + 2) + site2
      let iz := bin_id * 3 * est.vp_g_s + 2 * est.vp_g_s + site1 * (est.chain_len + 2) + site2
      match addAt hist ix (C * dot_xx) with
      | none => none
      | some h1 =>
        match addAt h1 iy (C * dot_yy) with
        | none => none
        | some h2 => addAt h2 iz (C * dot_zz)
    else some hist
  | _, _, _, _ => none

/-- Lines 465-529: the loops over all pairs of beads of different molecules; the
state of the loops is the histogram `vp_hs_rr`. -/
def Estimator.pairCount (est : Estimator α) (venv : VirialEnv α) (env : Env α)
    (ff : ForceField α) (n_mol : Int) (mols : List (Molecule α)) (hist : List α) :
    Option (List α) :=
  forLoop (List.range n_mol.toNat) (fun k h =>
    match mols[k]? with
    | none => none
    | some mol_k =>
      forLoop (List.range mol_k.Size.toNat) (fun i h =>
        forLoop (List.range n_mol.toNat) (fun l h =>
          match mols[l]? with
          | none => none
          | some mol_l =>
            forLoop (List.range mol_l.Size.toNat) (fun j h =>
              if l ≠ k then est.pairVisit venv env ff n_mol mol_k mol_l i j h else some h) h) h) h)
    hist

/-- Lines 531-555: the loops over the beads for the hard-wall histogram
`vp_zwall_rr`. -/
def Estimator.wallCount (est : Estimator α) (venv : VirialEnv α) (ff : ForceField α)
    (n_mol : Int) (mols : List (Molecule α)) (wall : List α) : Option (List α) :=
  if ff.use_ext_pot ∧ venv.extName = "HardWall" then
    forLoop (List.range n_mol.toNat) (fun i w =>
      match mols[i]? with
      | none => none
      | some m =>
        forLoop (List.range m.Size.toNat) (fun j w =>
          match m.bds[j]? with
          | none => none
          | some b =>
            let d := venv.DistToWall b ff.box_l
            let C : α := 1 / ((n_mol : Int) : α)
            forLoop [0, 1] (fun k w =>
              let dk : α := if k = 0 then d.1 else d.2
              if dk ≤ est.vp_bead_size / 2 + est.vp_hs_res * (est.vp_hs_bin : α) then
                addAt w (est.wallBin dk) C
              else some w) w) w)
      wall
  else some wall

/-- Lines 597-609: the three sums of bin `b` over the pairs of sites. -/
def Estimator.binTotals (est : Estimator α) (hist : List α) (b : Nat) : Option (α × α × α) :=
  let C : α := 1 / (((b : α) + 1 / 2) * est.vp_hs_res + est.vp_bead_size)
  forLoop (List.range (est.chain_len + 2).toNat) (fun i t =>
    forLoop (List.range (est.chain_len + 2).toNat) (fun j t =>
      match getAt hist ((b : Int) * 3 * est.vp_g_s + 0 * est.vp_g_s
              + (i : Int) * (est.chain_len + 2) + (j : Int)),
            getAt hist ((b : Int) * 3 * est.vp_g_s + 1 * est.vp_g_s
              + (i : Int) * (est.chain_len + 2) + (j : Int)),
            getAt hist ((b : Int) * 3 * est.vp_g_s + 2 * est.vp_g_s
              + (i : Int) * (est.chain_len + 2) + (j : Int)) with
      | some hx, some hy, some hz => some (t.1 + C * hx, t.2.1 + C * hy, t.2.2 + C * hz)
      | _, _, _ => none) t)
    (0, 0, 0)

/-- Lines 595-615: the array `tot`, three entries per bin, filled bin by bin. -/
def Estimator.totals (est : Estimator α) (kPi vol : α) (hist : List α) (vp_z : α) :
    Option (List α) :=
  forLoop (List.range est.vp_hs_bin.toNat) (fun b tot =>
    match est.binTotals hist b with
    | none => none
    | some t =>
      let dis1 : α := ((b : α) + 0) * est.vp_hs_res + est.vp_bead_size
      let dis2 : α := ((b : α) + 1) * est.vp_hs_res + est.vp_bead_size
      let eps_vol : α := 4 / 3 * kPi * (dis2 ^ 3 - dis1 ^ 3)
      some (tot ++ [t.1 / (vp_z * eps_vol / vol), t.2.1 / (vp_z * eps_vol / vol),
        t.2.2 / (vp_z * eps_vol / vol)])) []

/-- The loops of lines 617-619 and 626-627: `vp_hs_rr_lsy[j] = value j` for every
bin `j`. -/
def writeLsy (vp_hs_bin : Int) (value : Nat → Option α) (lsy : List α) : Option (List α) :=
  forLoop (List.range vp_hs_bin.toNat) (fun j lsy =>
    match value j with
    | none => none
    | some v => setAt lsy j v) lsy

/-- Lines 616-622: component `i` of `p_tensor_hs`, with the array `vp_hs_rr_lsy` as
the loop leaves it. -/
def Estimator.hardSphere (est : Estimator α) (venv : VirialEnv α) (rho : α) (tot : List α)
    (i : Nat) (lsy : List α) : Option (List α × α) :=
  match writeLsy est.vp_hs_bin (fun j => getAt tot ((j : Int) * 3 + (i : Int))) lsy with
  | none => none
  | some lsy1 =>
    let f_sig := venv.Interpolate est.vp_hs_rr_lsx lsy1 est.vp_hs_bin est.vp_bead_size
    some (lsy1, 2 * venv.kPi / 1 * rho * est.vp_bead_size ^ 3 * f_sig)

/-- Lines 625-630: the hard-wall term of `p_tensor_hs[2]`. -/
def Estimator.hardWall (est : Estimator α) (venv : VirialEnv α) (ff : ForceField α)
    (rho vp_z : α) (wall : List α) (lsy : List α) (hs2 : α) : Option (List α × α) :=
  if ff.use_ext_pot ∧ venv.extName = "HardWall" then
    match writeLsy est.vp_hs_bin
        (fun b => (wall[b]?).map (fun w => w / (vp_z * est.vp_hs_res / ff.box_l.z))) lsy with
    | none => none
    | some lsy1 =>
      let f_sig := venv.Interpolate est.vp_hs_rr_lsx2 lsy1 est.vp_hs_bin (est.vp_bead_size / 2)
      some (lsy1, hs2 + 2 * venv.kPi / 1 * rho * est.vp_bead_size ^ 3 * f_sig)
  else some (lsy, hs2)

/-- Lines 658-670: the accumulator `p_tensor_el_tot` and the electrostatic term
`p_tensor_el` (the branch under `use_g_el` is never taken). -/
def electro (venv : VirialEnv α) (ff : ForceField α) (n_mol : Int) (mols : List (Molecule α))
    (p_tensor_el_tot : Vec3 α) (vp_z : α) : Vec3 α × Vec3 α :=
  if ff.use_ewald_pot then
    let p_el := venv.PUPV mols ff.vol ff.npbc
    let d : α := -p_el * ff.beta / (((n_mol : Int) : α) / ff.vol)
    let el_tot : Vec3 α := ⟨p_tensor_el_tot.x + d, p_tensor_el_tot.y + d, p_tensor_el_tot.z + d⟩
    (el_tot, ⟨el_tot.x / vp_z, el_tot.y / vp_z, el_tot.z / vp_z⟩)
  else (p_tensor_el_tot, ⟨0, 0, 0⟩)

/-- Lines 443-459: `n_mol`, `n_chain`, `n_cion` and `n_aion` as the counting loops
read them; in grand-canonical mode they are counted anew. -/
def Estimator.recount (est : Estimator α) (use_gc : Bool) (mols : List (Molecule α)) :
    Option (Int × Int × Int × Int) :=
  if use_gc then
    (countSpecies mols (0, 0, 0)).map (fun c => ((mols.length : Int), c))
  else some (est.n_mol, est.n_chain, est.n_cion, est.n_aion)

/-- The C++ `ForceField::CalcPressureVirialHSEL` (lines 428-677); the local flag
`use_g_el` is the constant `false` and `use_d_el` is `use_ewald_pot`. -/
def ForceField.CalcPressureVirialHSEL (venv : VirialEnv α) (env : Env α) (ff : ForceField α)
    (est : Estimator α) (mols : List (Molecule α)) (rho : α) : Option (Estimator α) :=
  match est.recount ff.use_gc mols with
  | none => none
  | some (n_mol, n_chain, n_cion, n_aion) =>
    let vp_z := est.vp_z + 1
    match est.pairCount venv env ff n_mol mols est.vp_hs_rr with
    | none => none
    | some hs_rr =>
      match est.wallCount venv ff n_mol mols est.vp_zwall_rr with
      | none => none
      | some zwall =>
        match est.totals venv.kPi ff.vol hs_rr vp_z with
        | none => none
        | some tot =>
          match est.hardSphere venv rho tot 0 est.vp_hs_rr_lsy with
          | none => none
          | some (lsy0, hs0) =>
            match est.hardSphere venv rho tot 1 lsy0 with
            | none => none
            | some (lsy1, hs1) =>
              match est.hardSphere venv rho tot 2 lsy1 with
              | none => none
              | some (lsy2, hs2) =>
                match est.hardWall venv ff rho vp_z zwall lsy2 hs2 with
                | none => none
                | some (lsy3, hs2w) =>
                  let e := electro venv ff n_mol mols est.p_tensor_el_tot vp_z
                  some { est with
                    n_mol := n_mol, n_chain := n_chain, n_cion := n_cion, n_aion := n_aion,
                    vp_z := vp_z, vp_hs_rr := hs_rr, vp_zwall_rr := zwall,
                    vp_hs_rr_lsy := lsy3,
                    p_tensor_hs := ⟨hs0, hs1, hs2w⟩,
                    p_tensor_el_tot := e.1, p_tensor_el := e.2,
                    p_tensor := ⟨1 + hs0 + e.2.x, 1 + hs1 + e.2.y, 1 + hs2w + e.2.z⟩ }

/-- The estimator as `Initialize` leaves it, as far as `CalcPressureVirialHSEL`
reads it before writing: no sample, empty histograms, no accumulated electrostatic
term, and a fitting array of one entry per bin. -/
def Estimator.Fresh (est : Estimator α) : Prop :=
  est.vp_z = 0 ∧ (∀ x ∈ est.vp_hs_rr, x = 0) ∧ (∀ x ∈ est.vp_zwall_rr, x = 0) ∧
  est.p_tensor_el_tot = ⟨0, 0, 0⟩ ∧ est.vp_hs_rr_lsy.length = est.vp_hs_bin.toNat

/-- Two estimators with the same parameters: everything that
`CalcPressureVirialHSEL` reads and never writes. -/
def Estimator.sameParams (est est1 : Estimator α) : Prop :=
  est1.chain_len = est.chain_len ∧ est1.vp_bead_size = est.vp_bead_size ∧
  est1.vp_hs_res = est.vp_hs_res ∧ est1.vp_hs_bin = est.vp_hs_bin ∧
  est1.vp_g_s = est.vp_g_s ∧ est1.vp_hs_rr_lsx = est.vp_hs_rr_lsx ∧
  est1.vp_hs_rr_lsx2 = est.vp_hs_rr_lsx2

/-- Histogram `b` is histogram `a` with `d i` added to every bin `i`. -/
def shiftedBy (d : Nat → α) (a b : List α) : Prop :=
  b.length = a.length ∧ ∀ (i : Nat) (x : α), a[i]? = some x → b[i]? = some (x + d i)

end Pressure

/-! ## Concrete configurations for the worked examples -/

section Examples

variable {α : Type} [LinearOrderedField α]

/-- Euclidean distance of the current coordinates, without periodic images (the
distance `BBDist` returns in a box with `npbc = 0`). -/
def plainDist (sqrt : α → α) (a b : Bead α) (_box_l : Vec3 α) (_npbc : Int) : α :=
  sqrt ((a.c_crd.x - b.c_crd.x) ^ 2 + (a.c_crd.y - b.c_crd.y) ^ 2
    + (a.c_crd.z - b.c_crd.z) ^ 2)

/-- An environment built from an exponential, a square root and the two
constants; the direction sampler always answers the unit vector along `z`. -/
def Env.ofLibm (exp sqrt : α → α) (kVeryLargeEnergy k216 : α) : Env α :=
  { kVeryLargeEnergy := kVeryLargeEnergy, k216 := k216, exp := exp, sqrt := sqrt,
    BBDist := plainDist sqrt, randSphere := fun g => (⟨0, 0, 1⟩, g) }

/-- A bead of type `symbol` and charge `charge` at the point `(x, y, z)`. -/
def Bead.placed (symbol : String) (charge : Int) (x y z : α) : Bead α :=
  (Bead.fresh symbol charge).SetAllCrd ⟨x, y, z⟩

/-- A pair family with constant pair energy `e` and constant move delta `d`. -/
def PotentialPair.const (e d : α) : PotentialPair α :=
  { PairEnergy := fun _ _ _ _ => e, EnergyDifference := fun _ _ _ _ => d }

/-- An external family with constant bead energy `e` and constant move delta `d`. -/
def PotentialExternal.const (e d : α) : PotentialExternal α :=
  { BeadEnergy := fun _ _ => e, EnergyDifference := fun _ _ _ _ => d }

/-- A long-range family with constant trial-chain energy `e` and move delta `d`. -/
def PotentialEwald.const (e d : α) : PotentialEwald α :=
  { TrialChainEnergy := fun _ _ _ _ _ => e, EnergyDifference := fun _ _ _ => d }

/-- A bonded family with constant bond length `l` and constant move delta `d`. -/
def PotentialBond.const (l d : α) : PotentialBond α :=
  { RandomBondLen := fun _ g => (l, g), EnergyDifference := fun _ _ _ _ => d }

/-- A force field in a box of edges `(lx, 1, 1)` with `beta = 1`, chemical
potential `0`, de Broglie prefactor `1`, no potential family enabled, and a
grand-canonical species of `len` beads of charge `charge`, before
`InitializeEnergy`. -/
def ForceField.plain (lx : α) (len charge trials : Int) : ForceField α :=
  { beta := 1, npbc := 3, box_l := ⟨lx, 1, 1⟩, vol := lx * 1 * 1,
    use_gc := true, use_pair_pot := false, use_ewald_pot := false, use_bond_pot := false,
    use_bond_rigid := false, use_ext_pot := false,
    gc_bead_symbol := "A", gc_chain_len := len, gc_bead_charge := charge,
    chem_pot := 0, gc_deBroglie_prefactor := 1, cbmc_no_of_trials := trials,
    cbmc_trial_weights := [], cbmc_trial_beads := [], cbmc_chain := [],
    pair_pot := PotentialPair.const 0 0, ewald_pot := PotentialEwald.const 0 0,
    bond_pot := PotentialBond.const 0 0, rigid_bond := -1,
    ext_pot := PotentialExternal.const 0 0 }

/-- The generator whose every raw output is `r`. -/
def Rng.const (r : Nat) : Rng :=
  { out := fun _ => r }

/-- An input for `Initialize`: only the pair family enabled, with the name
`HardSphere`; virial bead size `size`; grand-canonical mode `use_gc` with a species
of `len` beads of charge `charge` and `trials` CBMC trials; every potential
constructor builds a constant potential. -/
def ForceFieldInput.sample (size : α) (use_gc : Bool) (len charge trials : Int) :
    ForceFieldInput α :=
  { vp_el_res := 1, vp_bead_size := size,
    use_pair_pot := true, use_ewald_pot := false, use_bond_pot := false,
    use_bond_rigid := false, use_angle_pot := false, use_dihed_pot := false,
    use_ext_pot := false, use_gc := use_gc,
    chem_pot := 0, gc_deBroglie_prefactor := 1, gc_freq := 1,
    gc_chain_len := len, gc_bead_charge := charge, gc_bead_symbol := "A",
    cbmc_no_of_trials := trials,
    pair_name := "HardSphere", ewald_name := "none", bond_name := "none", rigid_bond := 1,
    ext_name := "none",
    newPair := fun _ => PotentialPair.const 0 0,
    newEwald := fun _ _ => PotentialEwald.const 0 0,
    newBond := fun _ _ => PotentialBond.const 0 0,
    newExt := fun _ => PotentialExternal.const 0 0,
    unsetPair := PotentialPair.const 0 0, unsetEwald := PotentialEwald.const 0 0,
    unsetBond := PotentialBond.const 0 0, unsetExt := PotentialExternal.const 0 0,
    junk := fun _ => 0 }

/-- A simulation state after a start-up with the five move probabilities
`move_prob`, the population `mols` (of which `n_chain` are chains), the force
field `ff` and the generator `g`; `beta = 1`, three periodic dimensions, box of
edge `10`. -/
def Simulation.sample (move_prob : List α) (mols : List (Molecule α)) (n_chain : Int)
    (calc_chem_pot : Bool) (ff : ForceField α) (g : Rng) : Simulation α :=
  { npbc := 3, beta := 1, move_size := 1, calc_chem_pot := calc_chem_pot, phantom := 0,
    move_prob := move_prob, step := 0, steps_eq := 0, id_counter := 0, id_list := [],
    n_mol := (mols.length : Int), n_chain := n_chain, n_bead := 0,
    box_l := ⟨10, 10, 10⟩, mols := mols, force_field := ff, rand_gen := g,
    accepted := [0, 0, 0, 0, 0], attempted := [0, 0, 0, 0, 0],
    insertion_accepted := 0, insertion_attempted := 0,
    deletion_accepted := 0, deletion_attempted := 0, finalized := [] }

/-- A bead with its trial coordinate shifted by `d` along `x` and flagged as
moved. -/
def Bead.shifted (d : α) (b : Bead α) : Bead α :=
  { b with t_crd := ⟨b.t_crd.x + d, b.t_crd.y, b.t_crd.z⟩, moved := true }

/-- Moves that shift every trial coordinate by `move_size` along `x` and leave the
current coordinates and the generator as they are; the chain moves other than the
centre-of-mass translation propose no change. -/
def Moves.shift : Moves α :=
  { BeadTranslate := fun m d _ g => ({ m with bds := m.bds.map (Bead.shifted d) }, g),
    COMTranslate := fun m d g => ({ m with bds := m.bds.map (Bead.shifted d) }, g),
    Pivot := fun m _ g _ => (m, g),
    Crankshaft := fun m _ g => (m, g),
    RandomReptation := fun m g _ => (m, g) }

/-- Out-of-tree pieces for the pressure estimator in which every pair of beads is at
the separation vector `(1, 0, 0)`, no wall is present, the long-range derivative is
zero, `kPi = 3` and the interpolation returns the first ordinate. -/
def VirialEnv.unit : VirialEnv α :=
  { kPi := 3,
    Interpolate := fun _ ys _ _ => ys.headD 0,
    BBDistVec := fun _ _ _ _ d => if d = 0 then 1 else 0,
    BBDistVecWithRef := fun _ _ _ _ _ _ d => if d = 0 then 1 else 0,
    DistToWall := fun _ _ => (0, 0),
    extName := "none",
    PUPV := fun _ _ _ => 0 }

/-- The force field that `Initialize` returns for the sample grand-canonical input
with a species of one neutral bead and one trial, in a box of edge `10`. -/
def ForceField.sampleGC [FloorRing α] : ForceField α :=
  ((ForceFieldInput.sample (1 : α) true 1 0 1).forceField
    1 3 ⟨10, 10, 10⟩ 0 1).InitializeEnergy (fun _ => 0)

/-- The estimator that `Initialize` returns for the same input. -/
def Estimator.sampleGC [FloorRing α] : Estimator α :=
  (ForceFieldInput.sample (1 : α) true 1 0 1).estimator ⟨10, 10, 10⟩ [] 1 (0, 0, 0)

/-- Two single-bead molecules. -/
def twoBeads : List (Molecule α) :=
  [{ bds := [Bead.placed "A" 0 0 0 0], bonds := [] },
   { bds := [Bead.placed "A" 0 1 0 0], bonds := [] }]

/-- An external family whose bead energy is the `x` coordinate of the bead. -/
def PotentialExternal.slope : PotentialExternal α :=
  { BeadEnergy := fun b _ => b.c_crd.x, EnergyDifference := fun _ _ _ _ => 0 }

/-- The plain force field with the external family `slope` enabled. -/
def ForceField.sloped (lx : α) (len charge trials : Int) : ForceField α :=
  { ForceField.plain lx len charge trials with
    use_ext_pot := true, ext_pot := PotentialExternal.slope }

/-- One chain of two neutral beads, at the origin and at `(1, 0, 0)`. -/
def oneDimer : List (Molecule α) :=
  [{ bds := [Bead.placed "A" 0 0 0 0, Bead.placed "A" 0 1 0 0], bonds := [(0, 1)] }]

/-- The plain force field with a pair family of constant pair energy `e`
enabled. -/
def ForceField.paired (e lx : α) (len charge trials : Int) : ForceField α :=
  { ForceField.plain lx len charge trials with
    use_pair_pot := true, pair_pot := PotentialPair.const e 0 }

/-- A chain of two beads of charge `1`, its two counterions and one more single
bead. -/
def chargedDimerAndOne : List (Molecule α) :=
  [{ bds := [Bead.placed "A" 1 0 0 0, Bead.placed "A" 1 1 0 0], bonds := [(0, 1)] },
   { bds := [Bead.placed "A" (-1) 0 1 0], bonds := [] },
   { bds := [Bead.placed "A" (-1) 1 1 0], bonds := [] },
   { bds := [Bead.placed "B" 0 0 0 1], bonds := [] }]

/-- Out-of-tree pieces for the pressure estimator in which every pair of beads is at
the separation vector `(v, 0, 0)` and every bead at the distances `dl` and `dr` from
the two walls of an external potential named `name`. -/
def VirialEnv.contact (v : α) (name : String) (dl dr : α) : VirialEnv α :=
  { kPi := 3,
    Interpolate := fun _ ys _ _ => ys.headD 0,
    BBDistVec := fun _ _ _ _ d => if d = 0 then v else 0,
    BBDistVecWithRef := fun _ _ _ _ _ _ d => if d = 0 then v else 0,
    DistToWall := fun _ _ => (dl, dr),
    extName := name,
    PUPV := fun _ _ _ => 0 }

/-- One neutral single-bead molecule at the origin. -/
def oneBead : List (Molecule α) :=
  [{ bds := [Bead.placed "A" 0 0 0 0], bonds := [] }]

/-- A single-bead chain of charge `2`, its counterion of charge `-2`, and one more
molecule, a neutral single bead. -/
def divalentPairAndOne : List (Molecule α) :=
  [{ bds := [Bead.placed "A" 2 0 0 0], bonds := [] },
   { bds := [Bead.placed "A" (-2) 0 0 0], bonds := [] },
   { bds := [Bead.placed "B" 0 1 0 0], bonds := [] }]

end Examples

set_option linter.unusedSectionVars false

/-! ## Theorems: writes into the scratch buffers leave the other fields alone -/

section Frame

variable {α : Type}

@[simp] theorem withChain_beta (ff : ForceField α) (chain : List (Bead α)) :
    (ff.withChain chain).beta = ff.beta := rfl

@[simp] theorem withChain_npbc (ff : ForceField α) (chain : List (Bead α)) :
    (ff.withChain chain).npbc = ff.npbc := rfl

@[simp] theorem withChain_box_l (ff : ForceField α) (chain : List (Bead α)) :
    (ff.withChain chain).box_l = ff.box_l := rfl

@[simp] theorem withChain_vol (ff : ForceField α) (chain : List (Bead α)) :
    (ff.withChain chain).vol = ff.vol := rfl

@[simp] theorem withChain_use_gc (ff : ForceField α) (chain : List (Bead α)) :
    (ff.withChain chain).use_gc = ff.use_gc := rfl

@[simp] theorem withChain_use_pair_pot (ff : ForceField α) (chain : List (Bead α)) :
    (ff.withChain chain).use_pair_pot = ff.use_pair_pot := rfl

@[simp] theorem withChain_use_ewald_pot (ff : ForceField α) (chain : List (Bead α)) :
    (ff.withChain chain).use_ewald_pot = ff.use_ewald_pot := rfl

@[simp] theorem withChain_use_bond_pot (ff : ForceField α) (chain : List (Bead α)) :
    (ff.withChain chain).use_bond_pot = ff.use_bond_pot := rfl

@[simp] theorem withChain_use_bond_rigid (ff : ForceField α) (chain : List (Bead α)) :
    (ff.withChain chain).use_bond_rigid = ff.use_bond_rigid := rfl

@[simp] theorem withChain_use_ext_pot (ff : ForceField α) (chain : List (Bead α)) :
    (ff.withChain chain).use_ext_pot = ff.use_ext_pot := rfl

@[simp] theorem withChain_gc_bead_symbol (ff : ForceField α) (chain : List (Bead α)) :
    (ff.withChain chain).gc_bead_symbol = ff.gc_bead_symbol := rfl

@[simp] theorem withChain_gc_chain_len (ff : ForceField α) (chain : List (Bead α)) :
    (ff.withChain chain).gc_chain_len = ff.gc_chain_len := rfl

@[simp] theorem withChain_gc_bead_charge (ff : ForceField α) (chain : List (Bead α)) :
    (ff.withChain chain).gc_bead_charge = ff.gc_bead_charge := rfl

@[simp] theorem withChain_chem_pot (ff : ForceField α) (chain : List (Bead α)) :
    (ff.withChain chain).chem_pot = ff.chem_pot := rfl

@[simp] theorem withChain_gc_deBroglie_prefactor (ff : ForceField α) (chain : List (Bead α)) :
    (ff.withChain chain).gc_deBroglie_prefactor = ff.gc_deBroglie_prefactor := rfl

@[simp] theorem withChain_cbmc_no_of_trials (ff : ForceField α) (chain : List (Bead α)) :
    (ff.withChain chain).cbmc_no_of_trials = ff.cbmc_no_of_trials := rfl

@[simp] theorem withChain_cbmc_trial_weights (ff : ForceField α) (chain : List (Bead α)) :
    (ff.withChain chain).cbmc_trial_weights = ff.cbmc_trial_weights := rfl

@[simp] theorem withChain_cbmc_trial_beads (ff : ForceField α) (chain : List (Bead α)) :
    (ff.withChain chain).cbmc_trial_beads = ff.cbmc_trial_beads := rfl

@[simp] theorem withChain_cbmc_chain (ff : ForceField α) (chain : List (Bead α)) :
    (ff.withChain chain).cbmc_chain = chain := rfl

@[simp] theorem withChain_pair_pot (ff : ForceField α) (chain : List (Bead α)) :
    (ff.withChain chain).pair_pot = ff.pair_pot := rfl

@[simp] theorem withChain_ewald_pot (ff : ForceField α) (chain : List (Bead α)) :
    (ff.withChain chain).ewald_pot = ff.ewald_pot := rfl

@[simp] theorem withChain_bond_pot (ff : ForceField α) (chain : List (Bead α)) :
    (ff.withChain chain).bond_pot = ff.bond_pot := rfl

@[simp] theorem withChain_rigid_bond (ff : ForceField α) (chain : List (Bead α)) :
    (ff.withChain chain).rigid_bond = ff.rigid_bond := rfl

@[simp] theorem withChain_ext_pot (ff : ForceField α) (chain : List (Bead α)) :
    (ff.withChain chain).ext_pot = ff.ext_pot := rfl

@[simp] theorem withTrialBeads_beta (ff : ForceField α) (beads : List (Bead α)) :
    (ff.withTrialBeads beads).beta = ff.beta := rfl

@[simp] theorem withTrialBeads_npbc (ff : ForceField α) (beads : List (Bead α)) :
    (ff.withTrialBeads beads).npbc = ff.npbc := rfl

@[simp] theorem withTrialBeads_box_l (ff : ForceField α) (beads : List (Bead α)) :
    (ff.withTrialBeads beads).box_l = ff.box_l := rfl

@[simp] theorem withTrialBeads_vol (ff : ForceField α) (beads : List (Bead α)) :
    (ff.withTrialBeads beads).vol = ff.vol := rfl

@[simp] theorem withTrialBeads_use_gc (ff : ForceField α) (beads : List (Bead α)) :
    (ff.withTrialBeads beads).use_gc = ff.use_gc := rfl

@[simp] theorem withTrialBeads_use_pair_pot (ff : ForceField α) (beads : List (Bead α)) :
    (ff.withTrialBeads beads).use_pair_pot = ff.use_pair_pot := rfl

@[simp] theorem withTrialBeads_use_ewald_pot (ff : ForceField α) (beads : List (Bead α)) :
    (ff.withTrialBeads beads).use_ewald_pot = ff.use_ewald_pot := rfl

@[simp] theorem withTrialBeads_use_bond_pot (ff : ForceField α) (beads : List (Bead α)) :
    (ff.withTrialBeads beads).use_bond_pot = ff.use_bond_pot := rfl

@[simp] theorem withTrialBeads_use_bond_rigid (ff : ForceField α) (beads : List (Bead α)) :
    (ff.withTrialBeads beads).use_bond_rigid = ff.use_bond_rigid := rfl

@[simp] theorem withTrialBeads_use_ext_pot (ff : ForceField α) (beads : List (Bead α)) :
    (ff.withTrialBeads beads).use_ext_pot = ff.use_ext_pot := rfl

@[simp] theorem withTrialBeads_gc_bead_symbol (ff : ForceField α) (beads : List (Bead α)) :
    (ff.withTrialBeads beads).gc_bead_symbol = ff.gc_bead_symbol := rfl

@[simp] theorem withTrialBeads_gc_chain_len (ff : ForceField α) (beads : List (Bead α)) :
    (ff.withTrialBeads beads).gc_chain_len = ff.gc_chain_len := rfl

@[simp] theorem withTrialBeads_gc_bead_charge (ff : ForceField α) (beads : List (Bead α)) :
    (ff.withTrialBeads beads).gc_bead_charge = ff.gc_bead_charge := rfl

@[simp] theorem withTrialBeads_chem_pot (ff : ForceField α) (beads : List (Bead α)) :
    (ff.withTrialBeads beads).chem_pot = ff.chem_pot := rfl

@[simp] theorem withTrialBeads_gc_deBroglie_prefactor (ff : ForceField α) (beads : List (Bead α)) :
    (ff.withTrialBeads beads).gc_deBroglie_prefactor = ff.gc_deBroglie_prefactor := rfl

@[simp] theorem withTrialBeads_cbmc_no_of_trials (ff : ForceField α) (beads : List (Bead α)) :
    (ff.withTrialBeads beads).cbmc_no_of_trials = ff.cbmc_no_of_trials := rfl

@[simp] theorem withTrialBeads_cbmc_trial_weights (ff : ForceField α) (beads : List (Bead α)) :
    (ff.withTrialBeads beads).cbmc_trial_weights = ff.cbmc_trial_weights := rfl

@[simp] theorem withTrialBeads_cbmc_trial_beads (ff : ForceField α) (beads : List (Bead α)) :
    (ff.withTrialBeads beads).cbmc_trial_beads = beads := rfl

@[simp] theorem withTrialBeads_cbmc_chain (ff : ForceField α) (beads : List (Bead α)) :
    (ff.withTrialBeads beads).cbmc_chain = ff.cbmc_chain := rfl

@[simp] theorem withTrialBeads_pair_pot (ff : ForceField α) (beads : List (Bead α)) :
    (ff.withTrialBeads beads).pair_pot = ff.pair_pot := rfl

@[simp] theorem withTrialBeads_ewald_pot (ff : ForceField α) (beads : List (Bead α)) :
    (ff.withTrialBeads beads).ewald_pot = ff.ewald_pot := rfl

@[simp] theorem withTrialBeads_bond_pot (ff : ForceField α) (beads : List (Bead α)) :
    (ff.withTrialBeads beads).bond_pot = ff.bond_pot := rfl

@[simp] theorem withTrialBeads_rigid_bond (ff : ForceField α) (beads : List (Bead α)) :
    (ff.withTrialBeads beads).rigid_bond = ff.rigid_bond := rfl

@[simp] theorem withTrialBeads_ext_pot (ff : ForceField α) (beads : List (Bead α)) :
    (ff.withTrialBeads beads).ext_pot = ff.ext_pot := rfl

@[simp] theorem withWeights_beta (ff : ForceField α) (weights : List α) :
    (ff.withWeights weights).beta = ff.beta := rfl

@[simp] theorem withWeights_npbc (ff : ForceField α) (weights : List α) :
    (ff.withWeights weights).npbc = ff.npbc := rfl

@[simp] theorem withWeights_box_l (ff : ForceField α) (weights : List α) :
    (ff.withWeights weights).box_l = ff.box_l := rfl

@[simp] theorem withWeights_vol (ff : ForceField α) (weights : List α) :
    (ff.withWeights weights).vol = ff.vol := rfl

@[simp] theorem withWeights_use_gc (ff : ForceField α) (weights : List α) :
    (ff.withWeights weights).use_gc = ff.use_gc := rfl

@[simp] theorem withWeights_use_pair_pot (ff : ForceField α) (weights : List α) :
    (ff.withWeights weights).use_pair_pot = ff.use_pair_pot := rfl

@[simp] theorem withWeights_use_ewald_pot (ff : ForceField α) (weights : List α) :
    (ff.withWeights weights).use_ewald_pot = ff.use_ewald_pot := rfl

@[simp] theorem withWeights_use_bond_pot (ff : ForceField α) (weights : List α) :
    (ff.withWeights weights).use_bond_pot = ff.use_bond_pot := rfl

@[simp] theorem withWeights_use_bond_rigid (ff : ForceField α) (weights : List α) :
    (ff.withWeights weights).use_bond_rigid = ff.use_bond_rigid := rfl

@[simp] theorem withWeights_use_ext_pot (ff : ForceField α) (weights : List α) :
    (ff.withWeights weights).use_ext_pot = ff.use_ext_pot := rfl

@[simp] theorem withWeights_gc_bead_symbol (ff : ForceField α) (weights : List α) :
    (ff.withWeights weights).gc_bead_symbol = ff.gc_bead_symbol := rfl

@[simp] theorem withWeights_gc_chain_len (ff : ForceField α) (weights : List α) :
    (ff.withWeights weights).gc_chain_len = ff.gc_chain_len := rfl

@[simp] theorem withWeights_gc_bead_charge (ff : ForceField α) (weights : List α) :
    (ff.withWeights weights).gc_bead_charge = ff.gc_bead_charge := rfl

@[simp] theorem withWeights_chem_pot (ff : ForceField α) (weights : List α) :
    (ff.withWeights weights).chem_pot = ff.chem_pot := rfl

@[simp] theorem withWeights_gc_deBroglie_prefactor (ff : ForceField α) (weights : List α) :
    (ff.withWeights weights).gc_deBroglie_prefactor = ff.gc_deBroglie_prefactor := rfl

@[simp] theorem withWeights_cbmc_no_of_trials (ff : ForceField α) (weights : List α) :
    (ff.withWeights weights).cbmc_no_of_trials = ff.cbmc_no_of_trials := rfl

@[simp] theorem withWeights_cbmc_trial_weights (ff : ForceField α) (weights : List α) :
    (ff.withWeights weights).cbmc_trial_weights = weights := rfl

@[simp] theorem withWeights_cbmc_trial_beads (ff : ForceField α) (weights : List α) :
    (ff.withWeights weights).cbmc_trial_beads = ff.cbmc_trial_beads := rfl

@[simp] theorem withWeights_cbmc_chain (ff : ForceField α) (weights : List α) :
    (ff.withWeights weights).cbmc_chain = ff.cbmc_chain := rfl

@[simp] theorem withWeights_pair_pot (ff : ForceField α) (weights : List α) :
    (ff.withWeights weights).pair_pot = ff.pair_pot := rfl

@[simp] theorem withWeights_ewald_pot (ff : ForceField α) (weights : List α) :
    (ff.withWeights weights).ewald_pot = ff.ewald_pot := rfl

@[simp] theorem withWeights_bond_pot (ff : ForceField α) (weights : List α) :
    (ff.withWeights weights).bond_pot = ff.bond_pot := rfl

@[simp] theorem withWeights_rigid_bond (ff : ForceField α) (weights : List α) :
    (ff.withWeights weights).rigid_bond = ff.rigid_bond := rfl

@[simp] theorem withWeights_ext_pot (ff : ForceField α) (weights : List α) :
    (ff.withWeights weights).ext_pot = ff.ext_pot := rfl

end Frame

/-! ## Theorems: the truncated Lennard-Jones pair potential -/

section LJTheorems

variable {α : Type} [LinearOrderedField α]

/-- The full Lennard-Jones branch written with twelfth powers. -/
theorem fullLJ_eq (epsilon sigma lj_cutoff r : α) :
    fullLJ epsilon sigma lj_cutoff r =
      4 * epsilon * ((sigma / r) ^ 12 - (sigma / r) ^ 6)
        - 4 * epsilon * ((sigma / lj_cutoff) ^ 12 - (sigma / lj_cutoff) ^ 6) := by
  unfold fullLJ
  ring

/-- The energy at a non-positive separation is the sentinel. -/
theorem PairEnergy_of_nonpos (env : Env α) (p : PotentialTruncatedLJ α) (b1 b2 : Bead α)
    (box_l : Vec3 α) (npbc : Int) (h : env.BBDist b1 b2 box_l npbc ≤ 0) :
    p.PairEnergy env b1 b2 box_l npbc = env.kVeryLargeEnergy := by
  unfold PotentialTruncatedLJ.PairEnergy
  simp [h]

/-- The energy at a positive separation is that of the Lennard-Jones branches. -/
theorem PairEnergy_of_pos (env : Env α) (p : PotentialTruncatedLJ α) (b1 b2 : Bead α)
    (box_l : Vec3 α) (npbc : Int) (h : 0 < env.BBDist b1 b2 box_l npbc) :
    p.PairEnergy env b1 b2 box_l npbc =
      p.softEnergy env.k216 (p.mixEpsilon env b1 b2) (p.mixSigma b1 b2)
        (env.BBDist b1 b2 box_l npbc) := by
  unfold PotentialTruncatedLJ.PairEnergy
  have h1 : ¬ env.BBDist b1 b2 box_l npbc ≤ 0 := not_le.mpr h
  have h2 : ¬ ((0 : α) = -1) := by norm_num
  simp [h1, h2]

/-- C5: `PairEnergy` returns exactly `kVeryLargeEnergy` whenever the separation is
`<= 0`, whatever the cutoff mode, sigma and epsilon are; for a separation `> 0` the
sentinel branch is not taken: the result is the value of the Lennard-Jones
branches (`softEnergy`), in which the sentinel does not occur. -/
theorem PairEnergy_sentinel_iff (env : Env α) (p : PotentialTruncatedLJ α) (b1 b2 : Bead α)
    (box_l : Vec3 α) (npbc : Int) :
    (env.BBDist b1 b2 box_l npbc ≤ 0 →
        p.PairEnergy env b1 b2 box_l npbc = env.kVeryLargeEnergy) ∧
    (0 < env.BBDist b1 b2 box_l npbc →
        p.PairEnergy env b1 b2 box_l npbc =
          p.softEnergy env.k216 (p.mixEpsilon env b1 b2) (p.mixSigma b1 b2)
            (env.BBDist b1 b2 box_l npbc)) :=
  ⟨PairEnergy_of_nonpos env p b1 b2 box_l npbc, PairEnergy_of_pos env p b1 b2 box_l npbc⟩

/-- C5, a concrete instance over the reals: two coincident beads (separation `0`)
get the sentinel, two beads at separation `1` get the value of the
Lennard-Jones branches. -/
theorem PairEnergy_sentinel_iff_witness :
    PotentialTruncatedLJ.PairEnergy
        (Env.ofLibm Real.exp Real.sqrt (10000000000 : ℝ) (2 ^ ((1 : ℝ) / 6)))
        ⟨2, fun _ => 1, fun _ => 1⟩
        (Bead.placed "A" 0 0 0 0) (Bead.placed "A" 0 0 0 0) ⟨10, 10, 10⟩ 3 = 10000000000 ∧
    PotentialTruncatedLJ.PairEnergy
        (Env.ofLibm Real.exp Real.sqrt (10000000000 : ℝ) (2 ^ ((1 : ℝ) / 6)))
        ⟨2, fun _ => 1, fun _ => 1⟩
        (Bead.placed "A" 0 0 0 0) (Bead.placed "A" 0 1 0 0) ⟨10, 10, 10⟩ 3 =
      PotentialTruncatedLJ.softEnergy (2 ^ ((1 : ℝ) / 6)) ⟨2, fun _ => 1, fun _ => 1⟩
        (Real.sqrt (1 * 1)) ((1 + 1) / 2) 1 := by
  constructor
  · exact (PairEnergy_sentinel_iff
      (Env.ofLibm Real.exp Real.sqrt (10000000000 : ℝ) (2 ^ ((1 : ℝ) / 6)))
      ⟨2, fun _ => 1, fun _ => 1⟩
      (Bead.placed "A" 0 0 0 0) (Bead.placed "A" 0 0 0 0) ⟨10, 10, 10⟩ 3).1
      (by simp [Env.ofLibm, plainDist, Bead.placed, Bead.SetAllCrd, Bead.fresh])
  · have h := (PairEnergy_sentinel_iff
      (Env.ofLibm Real.exp Real.sqrt (10000000000 : ℝ) (2 ^ ((1 : ℝ) / 6)))
      ⟨2, fun _ => 1, fun _ => 1⟩
      (Bead.placed "A" 0 0 0 0) (Bead.placed "A" 0 1 0 0) ⟨10, 10, 10⟩ 3).2
      (by simp [Env.ofLibm, plainDist, Bead.placed, Bead.SetAllCrd, Bead.fresh])
    simpa [Env.ofLibm, plainDist, Bead.placed, Bead.SetAllCrd, Bead.fresh,
      PotentialTruncatedLJ.mixEpsilon, PotentialTruncatedLJ.mixSigma] using h

/-- C6 as stated fails: with `epsilon = 1`, `sigma = 1`, cutoff `2` (full mode,
`r < lj_cutoff`) two beads of one type at separation `r = sigma = 1` have pair
energy `63/1024`, not `0`. -/
theorem PairEnergy_at_sigma_counterexample :
    (Env.ofLibm Real.exp Real.sqrt (10000000000 : ℝ) (2 ^ ((1 : ℝ) / 6))).BBDist
        (Bead.placed "A" 0 0 0 0) (Bead.placed "A" 0 1 0 0) ⟨10, 10, 10⟩ 3 = 1 ∧
    PotentialTruncatedLJ.mixSigma (⟨2, fun _ => 1, fun _ => 1⟩ : PotentialTruncatedLJ ℝ)
        (Bead.placed "A" 0 0 0 0) (Bead.placed "A" 0 1 0 0) = 1 ∧
    PotentialTruncatedLJ.PairEnergy
        (Env.ofLibm Real.exp Real.sqrt (10000000000 : ℝ) (2 ^ ((1 : ℝ) / 6)))
        ⟨2, fun _ => 1, fun _ => 1⟩
        (Bead.placed "A" 0 0 0 0) (Bead.placed "A" 0 1 0 0) ⟨10, 10, 10⟩ 3 = 63 / 1024 ∧
    PotentialTruncatedLJ.PairEnergy
        (Env.ofLibm Real.exp Real.sqrt (10000000000 : ℝ) (2 ^ ((1 : ℝ) / 6)))
        ⟨2, fun _ => 1, fun _ => 1⟩
        (Bead.placed "A" 0 0 0 0) (Bead.placed "A" 0 1 0 0) ⟨10, 10, 10⟩ 3 ≠ 0 := by
  have hd : (Env.ofLibm Real.exp Real.sqrt (10000000000 : ℝ) (2 ^ ((1 : ℝ) / 6))).BBDist
        (Bead.placed "A" 0 0 0 0) (Bead.placed "A" 0 1 0 0) ⟨10, 10, 10⟩ 3 = 1 := by
    simp [Env.ofLibm, plainDist, Bead.placed, Bead.SetAllCrd, Bead.fresh]
  have he : PotentialTruncatedLJ.PairEnergy
        (Env.ofLibm Real.exp Real.sqrt (10000000000 : ℝ) (2 ^ ((1 : ℝ) / 6)))
        ⟨2, fun _ => 1, fun _ => 1⟩
        (Bead.placed "A" 0 0 0 0) (Bead.placed "A" 0 1 0 0) ⟨10, 10, 10⟩ 3 = 63 / 1024 := by
    rw [PairEnergy_of_pos _ _ _ _ _ _ (by rw [hd]; norm_num), hd]
    simp only [PotentialTruncatedLJ.softEnergy, PotentialTruncatedLJ.mixEpsilon,
      PotentialTruncatedLJ.mixSigma, Env.ofLibm, fullLJ_eq]
    norm_num
  refine ⟨hd, ?_, he, ?_⟩
  · simp [PotentialTruncatedLJ.mixSigma]
  · rw [he]; norm_num

/-- C6, amended: for two beads of one type with `epsilon = 1` and `sigma = 1` at
separation `r = sigma = 1` and a cutoff `c > 1` (full mode), the unshifted
Lennard-Jones term vanishes and `PairEnergy` is minus the reference energy,
`4 * ((1/c)^6 - (1/c)^12)`, which is strictly positive. -/
theorem PairEnergy_at_sigma (env : Env α) (p : PotentialTruncatedLJ α) (b1 b2 : Bead α)
    (box_l : Vec3 α) (npbc : Int)
    (hsame : b2.symbol = b1.symbol) (hsig : p.sigmas b1.symbol = 1)
    (heps : p.epsilons b1.symbol = 1) (hsqrt : env.sqrt 1 = 1)
    (hr : env.BBDist b1 b2 box_l npbc = 1) (hc : 1 < p.lj_cutoff) :
    p.PairEnergy env b1 b2 box_l npbc
        = 4 * ((1 / p.lj_cutoff) ^ 6 - (1 / p.lj_cutoff) ^ 12) ∧
    0 < p.PairEnergy env b1 b2 box_l npbc := by
  have hpos : 0 < env.BBDist b1 b2 box_l npbc := by rw [hr]; exact one_pos
  have hc0 : ¬ p.lj_cutoff < 0 := not_lt.mpr (le_of_lt (lt_trans one_pos hc))
  have hval : p.PairEnergy env b1 b2 box_l npbc
      = 4 * ((1 / p.lj_cutoff) ^ 6 - (1 / p.lj_cutoff) ^ 12) := by
    rw [PairEnergy_of_pos env p b1 b2 box_l npbc hpos, hr]
    simp only [PotentialTruncatedLJ.softEnergy, PotentialTruncatedLJ.mixEpsilon,
      PotentialTruncatedLJ.mixSigma, hsame, hsig, heps, hc0, hc, if_true, if_false, fullLJ_eq]
    rw [show (1 : α) * 1 = 1 by ring, hsqrt]
    ring
  refine ⟨hval, ?_⟩
  rw [hval]
  have hx0 : 0 < 1 / p.lj_cutoff := by positivity
  have hx1 : 1 / p.lj_cutoff < 1 := by
    rw [div_lt_one (lt_trans one_pos hc)]; exact hc
  have h6 : (1 / p.lj_cutoff) ^ 6 < 1 := pow_lt_one₀ (le_of_lt hx0) hx1 (by norm_num)
  have h60 : 0 < (1 / p.lj_cutoff) ^ 6 := by positivity
  have h12 : (1 / p.lj_cutoff) ^ 12 = ((1 / p.lj_cutoff) ^ 6) * ((1 / p.lj_cutoff) ^ 6) := by
    ring
  rw [h12]
  nlinarith

/-- C6 amended, a concrete instance over the reals with cutoff `2`. -/
theorem PairEnergy_at_sigma_witness :
    PotentialTruncatedLJ.PairEnergy
        (Env.ofLibm Real.exp Real.sqrt (10000000000 : ℝ) (2 ^ ((1 : ℝ) / 6)))
        ⟨2, fun _ => 1, fun _ => 1⟩
        (Bead.placed "A" 0 0 0 0) (Bead.placed "A" 0 1 0 0) ⟨10, 10, 10⟩ 3
      = 4 * ((1 / 2) ^ 6 - (1 / 2) ^ 12) ∧
    0 < PotentialTruncatedLJ.PairEnergy
        (Env.ofLibm Real.exp Real.sqrt (10000000000 : ℝ) (2 ^ ((1 : ℝ) / 6)))
        ⟨2, fun _ => 1, fun _ => 1⟩
        (Bead.placed "A" 0 0 0 0) (Bead.placed "A" 0 1 0 0) ⟨10, 10, 10⟩ 3 :=
  PairEnergy_at_sigma
    (Env.ofLibm Real.exp Real.sqrt (10000000000 : ℝ) (2 ^ ((1 : ℝ) / 6)))
    ⟨2, fun _ => 1, fun _ => 1⟩
    (Bead.placed "A" 0 0 0 0) (Bead.placed "A" 0 1 0 0) ⟨10, 10, 10⟩ 3
    rfl rfl rfl (by simp [Env.ofLibm])
    (by simp [Env.ofLibm, plainDist, Bead.placed, Bead.SetAllCrd, Bead.fresh])
    (by norm_num)

/-- C7: in the full mode with `lj_cutoff > 0`, `PairEnergy` at a separation equal
to the cutoff is `0`, and the shifted expression of the in-range branch,
`4*eps*((sigma/r)^12 - (sigma/r)^6) - E_ref` (the function `fullLJ`, see
`fullLJ_eq`), is `0` at `r = lj_cutoff` as well,
for every sigma and epsilon: the energy has no jump at the cutoff. -/
theorem PairEnergy_continuous_at_cutoff (env : Env α) (p : PotentialTruncatedLJ α)
    (b1 b2 : Bead α) (box_l : Vec3 α) (npbc : Int)
    (hc : 0 < p.lj_cutoff) (hr : env.BBDist b1 b2 box_l npbc = p.lj_cutoff) :
    p.PairEnergy env b1 b2 box_l npbc = 0 ∧
    (∀ epsilon sigma : α, fullLJ epsilon sigma p.lj_cutoff p.lj_cutoff = 0) := by
  have hpos : 0 < env.BBDist b1 b2 box_l npbc := by rw [hr]; exact hc
  refine ⟨?_, ?_⟩
  · rw [PairEnergy_of_pos env p b1 b2 box_l npbc hpos, hr]
    simp [PotentialTruncatedLJ.softEnergy, not_lt.mpr (le_of_lt hc)]
  · intro epsilon sigma
    rw [fullLJ_eq]; ring

/-- C7, a concrete instance over the reals: cutoff `1`, beads at separation `1`. -/
theorem PairEnergy_continuous_at_cutoff_witness :
    PotentialTruncatedLJ.PairEnergy
        (Env.ofLibm Real.exp Real.sqrt (10000000000 : ℝ) (2 ^ ((1 : ℝ) / 6)))
        ⟨1, fun _ => 3, fun _ => 5⟩
        (Bead.placed "A" 0 0 0 0) (Bead.placed "A" 0 1 0 0) ⟨10, 10, 10⟩ 3 = 0 :=
  (PairEnergy_continuous_at_cutoff
    (Env.ofLibm Real.exp Real.sqrt (10000000000 : ℝ) (2 ^ ((1 : ℝ) / 6)))
    ⟨1, fun _ => 3, fun _ => 5⟩
    (Bead.placed "A" 0 0 0 0) (Bead.placed "A" 0 1 0 0) ⟨10, 10, 10⟩ 3
    (by norm_num)
    (by simp [Env.ofLibm, plainDist, Bead.placed, Bead.SetAllCrd, Bead.fresh])).1

/-- C8: `PairEnergy(A, B) = PairEnergy(B, A)` for every two beads, given that the
distance query answers the same for both orders. The mixed sigma and epsilon do
not depend on the order, in both cutoff modes and in the sentinel case. -/
theorem PairEnergy_symm (env : Env α) (p : PotentialTruncatedLJ α) (b1 b2 : Bead α)
    (box_l : Vec3 α) (npbc : Int)
    (hsym : env.BBDist b1 b2 box_l npbc = env.BBDist b2 b1 box_l npbc) :
    p.PairEnergy env b1 b2 box_l npbc = p.PairEnergy env b2 b1 box_l npbc := by
  have hs : p.mixSigma b1 b2 = p.mixSigma b2 b1 := by
    unfold PotentialTruncatedLJ.mixSigma; rw [add_comm]
  have he : p.mixEpsilon env b1 b2 = p.mixEpsilon env b2 b1 := by
    unfold PotentialTruncatedLJ.mixEpsilon; rw [mul_comm]
  unfold PotentialTruncatedLJ.PairEnergy
  rw [hsym, hs, he]

/-- C8, a concrete instance over the reals: beads of two types at the points
`(0,0,0)` and `(3,4,0)`. -/
theorem PairEnergy_symm_witness :
    PotentialTruncatedLJ.PairEnergy
        (Env.ofLibm Real.exp Real.sqrt (10000000000 : ℝ) (2 ^ ((1 : ℝ) / 6)))
        ⟨6, fun s => if s = "A" then 1 else 2, fun s => if s = "A" then 1 else 4⟩
        (Bead.placed "A" 0 0 0 0) (Bead.placed "B" 0 3 4 0) ⟨10, 10, 10⟩ 3 =
    PotentialTruncatedLJ.PairEnergy
        (Env.ofLibm Real.exp Real.sqrt (10000000000 : ℝ) (2 ^ ((1 : ℝ) / 6)))
        ⟨6, fun s => if s = "A" then 1 else 2, fun s => if s = "A" then 1 else 4⟩
        (Bead.placed "B" 0 3 4 0) (Bead.placed "A" 0 0 0 0) ⟨10, 10, 10⟩ 3 :=
  PairEnergy_symm
    (Env.ofLibm Real.exp Real.sqrt (10000000000 : ℝ) (2 ^ ((1 : ℝ) / 6)))
    ⟨6, fun s => if s = "A" then 1 else 2, fun s => if s = "A" then 1 else 4⟩
    (Bead.placed "A" 0 0 0 0) (Bead.placed "B" 0 3 4 0) ⟨10, 10, 10⟩ 3
    (by simp [Env.ofLibm, plainDist, Bead.placed, Bead.SetAllCrd, Bead.fresh])

/-- C9 as stated fails at the corner `lj_cutoff = 0`, `r = 0`: the separation
satisfies `r >= lj_cutoff`, yet `PairEnergy` is the sentinel and not `0`. -/
theorem PairEnergy_beyond_cutoff_counterexample :
    (0 : ℝ) ≤ (⟨0, fun _ => 1, fun _ => 1⟩ : PotentialTruncatedLJ ℝ).lj_cutoff ∧
    (⟨0, fun _ => 1, fun _ => 1⟩ : PotentialTruncatedLJ ℝ).lj_cutoff ≤
      (Env.ofLibm Real.exp Real.sqrt (10000000000 : ℝ) (2 ^ ((1 : ℝ) / 6))).BBDist
        (Bead.placed "A" 0 0 0 0) (Bead.placed "A" 0 0 0 0) ⟨10, 10, 10⟩ 3 ∧
    PotentialTruncatedLJ.PairEnergy
        (Env.ofLibm Real.exp Real.sqrt (10000000000 : ℝ) (2 ^ ((1 : ℝ) / 6)))
        ⟨0, fun _ => 1, fun _ => 1⟩
        (Bead.placed "A" 0 0 0 0) (Bead.placed "A" 0 0 0 0) ⟨10, 10, 10⟩ 3 ≠ 0 := by
  have hd : (Env.ofLibm Real.exp Real.sqrt (10000000000 : ℝ) (2 ^ ((1 : ℝ) / 6))).BBDist
        (Bead.placed "A" 0 0 0 0) (Bead.placed "A" 0 0 0 0) ⟨10, 10, 10⟩ 3 = 0 := by
    simp [Env.ofLibm, plainDist, Bead.placed, Bead.SetAllCrd, Bead.fresh]
  refine ⟨le_refl _, ?_, ?_⟩
  · rw [hd]
  · rw [PairEnergy_of_nonpos _ _ _ _ _ _ (le_of_eq hd)]
    simp [Env.ofLibm]

/-- C9, amended: in the full mode (`lj_cutoff >= 0`) two beads of types `a` and `b`
at a separation `0 < r < lj_cutoff` have pair energy
`4*eps*((s/r)^12 - (s/r)^6) - 4*eps*((s/lj_cutoff)^12 - (s/lj_cutoff)^6)` with
`s = (sigma_a + sigma_b)/2` and `eps = sqrt(epsilon_a * epsilon_b)`, and pair
energy `0` at every separation `r >= lj_cutoff` that is positive. -/
theorem PairEnergy_full_mode (env : Env α) (p : PotentialTruncatedLJ α) (b1 b2 : Bead α)
    (box_l : Vec3 α) (npbc : Int) (hc : 0 ≤ p.lj_cutoff) :
    (0 < env.BBDist b1 b2 box_l npbc → env.BBDist b1 b2 box_l npbc < p.lj_cutoff →
      p.PairEnergy env b1 b2 box_l npbc =
        4 * env.sqrt (p.epsilons b1.symbol * p.epsilons b2.symbol)
            * ((((p.sigmas b1.symbol + p.sigmas b2.symbol) / 2)
                  / env.BBDist b1 b2 box_l npbc) ^ 12
              - (((p.sigmas b1.symbol + p.sigmas b2.symbol) / 2)
                  / env.BBDist b1 b2 box_l npbc) ^ 6)
          - 4 * env.sqrt (p.epsilons b1.symbol * p.epsilons b2.symbol)
            * ((((p.sigmas b1.symbol + p.sigmas b2.symbol) / 2) / p.lj_cutoff) ^ 12
              - (((p.sigmas b1.symbol + p.sigmas b2.symbol) / 2) / p.lj_cutoff) ^ 6)) ∧
    (0 < env.BBDist b1 b2 box_l npbc → p.lj_cutoff ≤ env.BBDist b1 b2 box_l npbc →
      p.PairEnergy env b1 b2 box_l npbc = 0) := by
  have hc0 : ¬ p.lj_cutoff < 0 := not_lt.mpr hc
  constructor
  · intro hpos hlt
    rw [PairEnergy_of_pos env p b1 b2 box_l npbc hpos]
    simp only [PotentialTruncatedLJ.softEnergy, hc0, hlt, if_true, if_false, fullLJ_eq,
      PotentialTruncatedLJ.mixEpsilon, PotentialTruncatedLJ.mixSigma]
  · intro hpos hge
    rw [PairEnergy_of_pos env p b1 b2 box_l npbc hpos]
    simp [PotentialTruncatedLJ.softEnergy, hc0, not_lt.mpr hge]

/-- C9 amended, a concrete instance over the reals: cutoff `1`, beads at
separation `5`. -/
theorem PairEnergy_full_mode_witness :
    PotentialTruncatedLJ.PairEnergy
        (Env.ofLibm Real.exp Real.sqrt (10000000000 : ℝ) (2 ^ ((1 : ℝ) / 6)))
        ⟨1, fun _ => 1, fun _ => 1⟩
        (Bead.placed "A" 0 0 0 0) (Bead.placed "A" 0 3 4 0) ⟨10, 10, 10⟩ 3 = 0 := by
  have hd : (Env.ofLibm Real.exp Real.sqrt (10000000000 : ℝ) (2 ^ ((1 : ℝ) / 6))).BBDist
        (Bead.placed "A" 0 0 0 0) (Bead.placed "A" 0 3 4 0) ⟨10, 10, 10⟩ 3 = 5 := by
    simp only [Env.ofLibm, plainDist, Bead.placed, Bead.SetAllCrd, Bead.fresh]
    rw [show ((0 : ℝ) - 3) ^ 2 + (0 - 4) ^ 2 + (0 - 0) ^ 2 = 5 ^ 2 by norm_num]
    exact Real.sqrt_sq (by norm_num)
  exact (PairEnergy_full_mode
    (Env.ofLibm Real.exp Real.sqrt (10000000000 : ℝ) (2 ^ ((1 : ℝ) / 6)))
    ⟨1, fun _ => 1, fun _ => 1⟩
    (Bead.placed "A" 0 0 0 0) (Bead.placed "A" 0 3 4 0) ⟨10, 10, 10⟩ 3
    (by norm_num)).2 (by rw [hd]; norm_num) (by rw [hd]; norm_num)

end LJTheorems

/-! ## Theorems: the orchestrator and the grand-canonical acceptance rule -/

section AcceptanceTheorems

variable {α : Type} [LinearOrderedField α]

/-- When the pair family is enabled and its delta reaches the sentinel,
`EnergyDifference` returns that delta at once. -/
theorem EnergyDifference_pair_sentinel (env : Env α) (ff : ForceField α)
    (mols : List (Molecule α)) (moved_mol : Int) (hp : ff.use_pair_pot = true)
    (h : env.kVeryLargeEnergy ≤ ff.pair_pot.EnergyDifference mols moved_mol ff.box_l ff.npbc) :
    ff.EnergyDifference env mols moved_mol
      = ff.pair_pot.EnergyDifference mols moved_mol ff.box_l ff.npbc := by
  unfold ForceField.EnergyDifference
  simp [hp, h]

/-- C4, the failing input: pair and external families enabled, pair delta `-1`,
external delta equal to the sentinel `10^10`, the soft families disabled. The
external delta is at the sentinel, yet `EnergyDifference` returns `10^10 - 1`,
which is below the sentinel. -/
theorem EnergyDifference_ext_sentinel_lost :
    (Env.ofLibm Real.exp Real.sqrt (10000000000 : ℝ) (2 ^ ((1 : ℝ) / 6))).kVeryLargeEnergy
      ≤ (PotentialExternal.const (0 : ℝ) 10000000000).EnergyDifference [] 0 ⟨1, 1, 1⟩ 3 ∧
    ForceField.EnergyDifference
        (Env.ofLibm Real.exp Real.sqrt (10000000000 : ℝ) (2 ^ ((1 : ℝ) / 6)))
        { ForceField.plain (1 : ℝ) 1 0 1 with
            use_pair_pot := true, use_ext_pot := true,
            pair_pot := PotentialPair.const 0 (-1),
            ext_pot := PotentialExternal.const 0 10000000000 }
        [] 0 = 9999999999 ∧
    ForceField.EnergyDifference
        (Env.ofLibm Real.exp Real.sqrt (10000000000 : ℝ) (2 ^ ((1 : ℝ) / 6)))
        { ForceField.plain (1 : ℝ) 1 0 1 with
            use_pair_pot := true, use_ext_pot := true,
            pair_pot := PotentialPair.const 0 (-1),
            ext_pot := PotentialExternal.const 0 10000000000 }
        [] 0
      < (Env.ofLibm Real.exp Real.sqrt (10000000000 : ℝ) (2 ^ ((1 : ℝ) / 6))).kVeryLargeEnergy := by
  have hv : ForceField.EnergyDifference
        (Env.ofLibm Real.exp Real.sqrt (10000000000 : ℝ) (2 ^ ((1 : ℝ) / 6)))
        { ForceField.plain (1 : ℝ) 1 0 1 with
            use_pair_pot := true, use_ext_pot := true,
            pair_pot := PotentialPair.const 0 (-1),
            ext_pot := PotentialExternal.const 0 10000000000 }
        [] 0 = 9999999999 := by
    simp only [ForceField.EnergyDifference, ForceField.plain, PotentialPair.const,
      PotentialExternal.const, Env.ofLibm]
    norm_num
  refine ⟨?_, hv, ?_⟩
  · simp [Env.ofLibm, PotentialExternal.const]
  · rw [hv]; simp only [Env.ofLibm]; norm_num

/-- C1: the threshold `CBMCChainInsertion` computes on a population of `N`
molecules, `T = vol*exp(beta*mu - beta*dE)*W / (prefactor*(N+1))`, and the
threshold `CBMCChainDeletion` computes on `N+1` molecules with the same `W` and
`dE` are reciprocals: their product is `1`, the deletion threshold is `1/T`, and
`min(1,T) / min(1,1/T) = T`. This holds for every `N`, `beta`, chemical potential
and `dE`, with `vol`, the prefactor and `W` positive (and `exp` positive). -/
theorem insertion_deletion_reciprocal (env : Env α) (ff : ForceField α) (N : Nat)
    (W dE : α) (hexp : ∀ x, 0 < env.exp x) (hvol : 0 < ff.vol)
    (hpre : 0 < ff.gc_deBroglie_prefactor) (hW : 0 < W) :
    ff.insertionThreshold env N W dE
      = ff.vol * env.exp (ff.beta * ff.chem_pot - ff.beta * dE) * W
          / (ff.gc_deBroglie_prefactor * ((N : α) + 1)) ∧
    ff.insertionThreshold env N W dE * ff.deletionThreshold env (N + 1) W dE = 1 ∧
    ff.deletionThreshold env (N + 1) W dE = 1 / ff.insertionThreshold env N W dE ∧
    min 1 (ff.insertionThreshold env N W dE)
        / min 1 (1 / ff.insertionThreshold env N W dE)
      = ff.insertionThreshold env N W dE := by
  have hN : (0 : α) < (N : α) + 1 := by positivity
  have hX : 0 < ff.vol * env.exp (ff.beta * ff.chem_pot - ff.beta * dE) * W :=
    mul_pos (mul_pos hvol (hexp _)) hW
  have hT : ff.insertionThreshold env N W dE
      = ff.vol * env.exp (ff.beta * ff.chem_pot - ff.beta * dE) * W
          / (ff.gc_deBroglie_prefactor * ((N : α) + 1)) := by
    unfold ForceField.insertionThreshold
    push_cast
    rfl
  have hD : ff.deletionThreshold env (N + 1) W dE
      = ((N : α) + 1) * ff.gc_deBroglie_prefactor
          / (ff.vol * env.exp (ff.beta * ff.chem_pot - ff.beta * dE) * W) := by
    unfold ForceField.deletionThreshold
    push_cast
    rfl
  have hTpos : 0 < ff.insertionThreshold env N W dE := by
    rw [hT]; exact div_pos hX (mul_pos hpre hN)
  have hrec : ff.deletionThreshold env (N + 1) W dE
      = 1 / ff.insertionThreshold env N W dE := by
    rw [hT, hD]
    field_simp
    ring
  refine ⟨hT, ?_, hrec, ?_⟩
  · rw [hrec]; field_simp
  · rcases le_total 1 (ff.insertionThreshold env N W dE) with h | h
    · have h1 : 1 / ff.insertionThreshold env N W dE ≤ 1 := by
        rw [div_le_one hTpos]; exact h
      rw [min_eq_left h, min_eq_right h1]
      field_simp
    · have h1 : 1 ≤ 1 / ff.insertionThreshold env N W dE := by
        rw [le_div_iff₀ hTpos]; simpa using h
      rw [min_eq_right h, min_eq_left h1]
      simp

/-- C1, a concrete instance over the reals: a box of volume `2`, `beta = 1`,
chemical potential `0`, prefactor `1`, three molecules, weight `1/2`, delta `1`. -/
theorem insertion_deletion_reciprocal_witness :
    ForceField.insertionThreshold
        (Env.ofLibm Real.exp Real.sqrt (10000000000 : ℝ) (2 ^ ((1 : ℝ) / 6)))
        (ForceField.plain (2 : ℝ) 1 0 1) 3 (1 / 2) 1
      * ForceField.deletionThreshold
        (Env.ofLibm Real.exp Real.sqrt (10000000000 : ℝ) (2 ^ ((1 : ℝ) / 6)))
        (ForceField.plain (2 : ℝ) 1 0 1) (3 + 1) (1 / 2) 1 = 1 :=
  (insertion_deletion_reciprocal
    (Env.ofLibm Real.exp Real.sqrt (10000000000 : ℝ) (2 ^ ((1 : ℝ) / 6)))
    (ForceField.plain (2 : ℝ) 1 0 1) 3 (1 / 2) 1
    (fun x => Real.exp_pos x) (by simp [ForceField.plain])
    (by simp [ForceField.plain]) (by norm_num)).2.1

/-- A uniform draw lies in `[0, 1]`. -/
theorem Rng.uniform_mem (g : Rng) :
    0 ≤ (Rng.uniform g : α × Rng).1 ∧ (Rng.uniform g : α × Rng).1 ≤ 1 := by
  unfold Rng.uniform Rng.next
  have hpos : (0 : α) < 4294967295 := by norm_num
  constructor
  · positivity
  · rw [div_le_one hpos]
    have h : g.out 0 % 4294967296 ≤ 4294967295 :=
      Nat.le_of_lt_succ (Nat.mod_lt _ (by norm_num))
    exact_mod_cast h

/-- With no molecule and no grown bead only the external term remains. -/
theorem BeadEnergy_nil_zero (ff : ForceField α) (bead : Bead α) (delete_id type : Int) :
    ff.BeadEnergy bead [] 0 delete_id type
      = some (if ff.use_ext_pot then 0 + ff.ext_pot.BeadEnergy bead ff.box_l else 0) := by
  unfold ForceField.BeadEnergy
  simp only [ForceField.beadVsMols, Int.toNat_zero, ForceField.beadVsChain]
  split <;> rfl

/-- The thresholds and the long-range delta read no scratch buffer but the chain. -/
theorem insertionThreshold_withChain (env : Env α) (ff : ForceField α)
    (chain : List (Bead α)) (n : Nat) (W dE : α) :
    (ff.withChain chain).insertionThreshold env n W dE = ff.insertionThreshold env n W dE :=
  rfl

/-- The deletion threshold reads no scratch buffer. -/
theorem deletionThreshold_withChain (env : Env α) (ff : ForceField α)
    (chain : List (Bead α)) (n : Nat) (W dE : α) :
    (ff.withChain chain).deletionThreshold env n W dE = ff.deletionThreshold env n W dE :=
  rfl

/-- For a neutral single-bead species an accepted attempt appends one molecule
holding `cbmc_chain[0]`, without bonds. -/
theorem appendInserted_single (ff : ForceField α) (mols : List (Molecule α))
    (b0 : Bead α) (rest : List (Bead α))
    (hlen : ff.gc_chain_len = 1) (hq : ff.gc_bead_charge = 0)
    (hbuf : ff.cbmc_chain = b0 :: rest) :
    ff.appendInserted mols = some (mols ++ [{ bds := [b0], bonds := [] }]) := by
  unfold ForceField.appendInserted ForceField.toadd
  simp [hlen, hq, hbuf, addBeads, addBonds, addCounterions, Molecule.AddBead,
    Molecule.empty, Molecule.Size]

/-- The insertion of a neutral single-bead species, step by step: the first bead
is placed, its energy `e0` gives the weight, the growth loop has no iteration and
the acceptance test decides. -/
theorem insertion_single (env : Env α) (ff : ForceField α) (mols : List (Molecule α))
    (g : Rng) (c0 : Bead α) (rest : List (Bead α)) (e0 : α)
    (hlen : ff.gc_chain_len = 1) (hq : ff.gc_bead_charge = 0)
    (hbuf : ff.cbmc_chain = c0 :: rest)
    (he : (ff.withChain (ff.firstBead g c0 :: rest)).BeadEnergy
        (ff.firstBead g c0) mols 0 (-1) 0 = some e0) :
    ff.CBMCChainInsertion env mols g =
      if (Rng.uniform (ff.randomBoxPoint g).2 : α × Rng).1
          < ff.insertionThreshold env mols.length (1 * env.exp (-ff.beta * e0))
              ((ff.withChain (ff.firstBead g c0 :: rest)).trialChainDE
                mols 1 (-1))
      then some (true,
        mols ++ [{ bds := [ff.firstBead g c0], bonds := [] }],
        ff.withChain (ff.firstBead g c0 :: rest),
        (Rng.uniform (ff.randomBoxPoint g).2 : α × Rng).2)
      else some (false, mols,
        ff.withChain (ff.firstBead g c0 :: rest),
        (Rng.uniform (ff.randomBoxPoint g).2 : α × Rng).2) := by
  have happ := appendInserted_single
    (ff.withChain (ff.firstBead g c0 :: rest)) mols
    (ff.firstBead g c0) rest hlen hq rfl
  have htoadd : (ff.withChain (ff.firstBead g c0 :: rest)).toadd = 1 := by
    simp [ForceField.toadd, hlen, hq]
  unfold ForceField.CBMCChainInsertion
  simp only [hbuf, List.getElem?_cons_zero, List.set_cons_zero, he, htoadd, sub_self,
    Int.toNat_zero, ForceField.growRest, happ, insertionThreshold_withChain]

/-- C2 (scenario B): for a neutral single-bead species (`gc_chain_len = 1`,
`gc_bead_charge = 0`) and an empty population, the first bead `b0` is placed, its
energy `e0` is defined, and if the acceptance threshold
`vol*exp(beta*mu - beta*dE)*W / prefactor` (with `W = exp(-beta*e0)` the weight and
`dE` the long-range delta the attempt computes) exceeds `1`, then
`CBMCChainInsertion` returns `true` for every generator and the population
afterwards is exactly one molecule holding exactly the one bead `b0`. -/
theorem scenarioB_insertion_accepts (env : Env α) (ff : ForceField α) (g : Rng)
    (c0 : Bead α) (rest : List (Bead α))
    (hlen : ff.gc_chain_len = 1) (hq : ff.gc_bead_charge = 0)
    (hbuf : ff.cbmc_chain = c0 :: rest) :
    ∃ e0 : α,
      (ff.withChain (ff.firstBead g c0 :: rest)).BeadEnergy
        (ff.firstBead g c0) [] 0 (-1) 0 = some e0 ∧
      (1 < ff.vol * env.exp (ff.beta * ff.chem_pot - ff.beta *
              (ff.withChain (ff.firstBead g c0 :: rest)).trialChainDE
                [] 1 (-1))
            * (1 * env.exp (-ff.beta * e0)) / ff.gc_deBroglie_prefactor →
        ∃ (ff1 : ForceField α) (g1 : Rng) (mols1 : List (Molecule α)),
          ff.CBMCChainInsertion env [] g = some (true, mols1, ff1, g1) ∧
          mols1 = [{ bds := [ff.firstBead g c0], bonds := [] }] ∧
          mols1.length = 1 ∧ (∀ m ∈ mols1, m.bds.length = 1)) := by
  refine ⟨_, BeadEnergy_nil_zero _ _ _ _, ?_⟩
  intro hT
  have hins := insertion_single env ff [] g c0 rest _ hlen hq hbuf
    (BeadEnergy_nil_zero _ _ _ _)
  have hthr : ff.insertionThreshold env ([] : List (Molecule α)).length
      (1 * env.exp (-ff.beta *
        (if (ff.withChain (ff.firstBead g c0 :: rest)).use_ext_pot then
          0 + (ff.withChain (ff.firstBead g c0 :: rest)).ext_pot.BeadEnergy
            (ff.firstBead g c0)
            (ff.withChain (ff.firstBead g c0 :: rest)).box_l
         else 0)))
      ((ff.withChain (ff.firstBead g c0 :: rest)).trialChainDE [] 1 (-1))
      = ff.vol * env.exp (ff.beta * ff.chem_pot - ff.beta *
              (ff.withChain (ff.firstBead g c0 :: rest)).trialChainDE
                [] 1 (-1))
            * (1 * env.exp (-ff.beta *
        (if (ff.withChain (ff.firstBead g c0 :: rest)).use_ext_pot then
          0 + (ff.withChain (ff.firstBead g c0 :: rest)).ext_pot.BeadEnergy
            (ff.firstBead g c0)
            (ff.withChain (ff.firstBead g c0 :: rest)).box_l
         else 0))) / ff.gc_deBroglie_prefactor := by
    unfold ForceField.insertionThreshold
    simp
  have hlt : (Rng.uniform (ff.randomBoxPoint g).2 : α × Rng).1
      < ff.insertionThreshold env ([] : List (Molecule α)).length
      (1 * env.exp (-ff.beta *
        (if (ff.withChain (ff.firstBead g c0 :: rest)).use_ext_pot then
          0 + (ff.withChain (ff.firstBead g c0 :: rest)).ext_pot.BeadEnergy
            (ff.firstBead g c0)
            (ff.withChain (ff.firstBead g c0 :: rest)).box_l
         else 0)))
      ((ff.withChain (ff.firstBead g c0 :: rest)).trialChainDE [] 1 (-1)) := by
    rw [hthr]
    exact lt_of_le_of_lt (Rng.uniform_mem _).2 hT
  rw [if_pos hlt] at hins
  exact ⟨_, _, _, hins, by simp, by simp, by simp⟩

/-- C2, a concrete instance over the reals: box of volume `2`, `beta = 1`,
chemical potential `0`, prefactor `1`, no potential enabled (threshold `2`), the
buffers as `InitializeEnergy` sizes them, and the generator whose every draw is `1`. -/
theorem scenarioB_insertion_accepts_witness :
    ∃ (ff1 : ForceField ℝ) (g1 : Rng),
      ForceField.CBMCChainInsertion
          (Env.ofLibm Real.exp Real.sqrt (10000000000 : ℝ) (2 ^ ((1 : ℝ) / 6)))
          ((ForceField.plain (2 : ℝ) 1 0 1).InitializeEnergy (fun _ => 0)) []
          (Rng.const 4294967295)
        = some (true,
            [{ bds := [ForceField.firstBead
                ((ForceField.plain (2 : ℝ) 1 0 1).InitializeEnergy (fun _ => 0))
                (Rng.const 4294967295) (Bead.fresh "A" 0)], bonds := [] }],
            ff1, g1) := by
  obtain ⟨e0, he, h⟩ := scenarioB_insertion_accepts
    (Env.ofLibm Real.exp Real.sqrt (10000000000 : ℝ) (2 ^ ((1 : ℝ) / 6)))
    ((ForceField.plain (2 : ℝ) 1 0 1).InitializeEnergy (fun _ => 0))
    (Rng.const 4294967295) (Bead.fresh "A" 0) [] rfl rfl
    (by simp [ForceField.InitializeEnergy, ForceField.plain])
  rw [BeadEnergy_nil_zero] at he
  have he0 : e0 = 0 := by
    simpa [ForceField.InitializeEnergy, ForceField.plain] using he.symm
  subst he0
  obtain ⟨ff1, g1, mols1, hins, hm, _, _⟩ := h (by
    simp [ForceField.InitializeEnergy, ForceField.plain, ForceField.trialChainDE,
      Env.ofLibm])
  exact ⟨ff1, g1, hm ▸ hins⟩

/-- The deletion threshold on `n + 1` molecules is the reciprocal of the insertion
threshold on `n` molecules, for the same weight and long-range delta. -/
theorem deletionThreshold_eq_inv (env : Env α) (ff : ForceField α) (n : Nat) (W dE : α) :
    ff.deletionThreshold env (n + 1) W dE = 1 / ff.insertionThreshold env n W dE := by
  unfold ForceField.deletionThreshold ForceField.insertionThreshold
  rw [one_div_div]
  push_cast
  rw [mul_comm]

/-- The product of the insertion threshold on `n` molecules and the deletion
threshold on `m` molecules, for the same weight and long-range delta, is
`m / (n + 1)`. -/
theorem thresholds_product (env : Env α) (ff : ForceField α) (n m : Nat) (W dE : α)
    (hexp : ∀ x, 0 < env.exp x) (hvol : 0 < ff.vol)
    (hpre : 0 < ff.gc_deBroglie_prefactor) (hW : 0 < W) :
    ff.insertionThreshold env n W dE * ff.deletionThreshold env m W dE
      = (m : α) / ((n : α) + 1) := by
  have hN : (0 : α) < (n : α) + 1 := by positivity
  have hX : 0 < ff.vol * env.exp (ff.beta * ff.chem_pot - ff.beta * dE) * W :=
    mul_pos (mul_pos hvol (hexp _)) hW
  unfold ForceField.insertionThreshold ForceField.deletionThreshold
  push_cast
  field_simp
  ring

end AcceptanceTheorems

/-! ## Theorems: chain deletion -/

section DeletionTheorems

variable {α : Type} [LinearOrderedField α] [FloorRing α]

/-- The generator after `drawIndex` is the generator after one uniform draw. -/
theorem drawIndex_rng (size : Nat) (g : Rng) :
    (drawIndex α size g).2 = (Rng.uniform g : α × Rng).2 := rfl

/-- On a non-empty population the drawn index is a valid index: the draw equal to
`1` is clamped to the last molecule. -/
theorem drawIndex_mem (size : Nat) (g : Rng) (hsize : 0 < size) :
    0 ≤ (drawIndex α size g).1 ∧ (drawIndex α size g).1 < (size : Int) := by
  have hu := Rng.uniform_mem (α := α) g
  have hs : (0 : α) ≤ (((size : Int) : α)) := by positivity
  have hx0 : 0 ≤ (Rng.uniform g : α × Rng).1 * (((size : Int) : α)) :=
    mul_nonneg hu.1 hs
  have hx1 : (Rng.uniform g : α × Rng).1 * (((size : Int) : α)) ≤ (((size : Int) : α)) := by
    calc (Rng.uniform g : α × Rng).1 * (((size : Int) : α))
        ≤ 1 * (((size : Int) : α)) := mul_le_mul_of_nonneg_right hu.2 hs
      _ = (((size : Int) : α)) := one_mul _
  have hd0 : 0 ≤ Int.floor ((Rng.uniform g : α × Rng).1 * (((size : Int) : α))) :=
    Int.floor_nonneg.mpr hx0
  have hd1 : Int.floor ((Rng.uniform g : α × Rng).1 * (((size : Int) : α))) ≤ (size : Int) := by
    have h := le_trans (Int.floor_le _) hx1
    exact_mod_cast h
  have hsz : (0 : Int) < (size : Int) := by exact_mod_cast hsize
  unfold drawIndex
  by_cases hEq : Int.floor ((Rng.uniform g : α × Rng).1 * (((size : Int) : α))) = (size : Int)
  · simp only [hEq, if_true]
    constructor <;> omega
  · simp only [hEq, if_false]
    constructor
    · exact hd0
    · omega

/-- In a population of one molecule the drawn index is `0`. -/
theorem drawIndex_one (g : Rng) : (drawIndex α 1 g).1 = 0 := by
  have h := drawIndex_mem (α := α) 1 g (by norm_num)
  have h2 : (drawIndex α 1 g).1 < 1 := by simpa using h.2
  omega

/-- The bead of the only molecule, with that molecule excluded: only the external
term remains. -/
theorem BeadEnergy_single_excluded (ff : ForceField α) (bead : Bead α) (m : Molecule α)
    (type : Int) (hq : ff.gc_bead_charge = 0) :
    ff.BeadEnergy bead [m] 0 0 type
      = some (if ff.use_ext_pot then 0 + ff.ext_pot.BeadEnergy bead ff.box_l else 0) := by
  unfold ForceField.BeadEnergy
  simp only [hq, ne_eq, not_true_eq_false, if_false, ForceField.beadVsMols, Int.toNat_zero,
    ForceField.beadVsChain]
  norm_num
  split <;> rfl

/-- The deletion of the only molecule, a single bead of the configured neutral
species, step by step: index `0` is picked without a redraw, the regrowth loop has
no iteration, and the acceptance test against the deletion threshold decides. -/
theorem deletion_single (env : Env α) (ff : ForceField α) (g : Rng) (fuel : Nat)
    (b : Bead α) (bonds : List (Int × Int)) (c0 : Bead α) (rest : List (Bead α)) (e0 : α)
    (hlen : ff.gc_chain_len = 1) (hq : ff.gc_bead_charge = 0)
    (hbuf : ff.cbmc_chain = c0 :: rest) (hb : b.charge = 0)
    (he : ff.BeadEnergy b [{ bds := [b], bonds := bonds }] 0 0 0 = some e0) :
    ff.CBMCChainDeletion env [{ bds := [b], bonds := bonds }] g fuel =
      some (if (Rng.uniform (Rng.uniform g : α × Rng).2 : α × Rng).1
                < ff.deletionThreshold env 1 (1 * env.exp (-ff.beta * e0))
                    ((ff.withChain
                        (c0.SetAllCrd ⟨b.GetCrd 0, b.GetCrd 1, b.GetCrd 2⟩ :: rest)).trialChainDE
                      [{ bds := [b], bonds := bonds }] 1 0)
            then 0 else -1,
        ff.withChain (c0.SetAllCrd ⟨b.GetCrd 0, b.GetCrd 1, b.GetCrd 2⟩ :: rest),
        (Rng.uniform (Rng.uniform g : α × Rng).2 : α × Rng).2) := by
  have hmis : ff.speciesMismatch [{ bds := [b], bonds := bonds }] 0 = some false := by
    simp [ForceField.speciesMismatch, getAt, Molecule.Size, hlen, hq, hb]
  have hpick : ff.pickSpecies [{ bds := [b], bonds := bonds }] fuel
      (drawIndex α 1 g).1 (drawIndex α 1 g).2 = some (0, (Rng.uniform g : α × Rng).2) := by
    rw [drawIndex_one, drawIndex_rng]
    cases fuel <;> simp [ForceField.pickSpecies, hmis]
  have htoadd : (ff.withChain
      (c0.SetAllCrd ⟨b.GetCrd 0, b.GetCrd 1, b.GetCrd 2⟩ :: rest)).toadd = 1 := by
    simp [ForceField.toadd, hlen, hq]
  unfold ForceField.CBMCChainDeletion
  simp only [List.length_singleton, hpick, getAt, le_refl, if_true, Int.toNat_zero,
    List.getElem?_cons_zero, he, hbuf, List.set_cons_zero, htoadd, sub_self,
    ForceField.regrowRest, deletionThreshold_withChain]
  split <;> rfl

/-- C3 as stated fails: in the configuration of scenario B (box of volume `2`,
`beta = 1`, chemical potential `0`, prefactor `1`, no potential enabled) the
insertion threshold is `2 > 1`, and on the population made of the single-bead
molecule that insertion produced, with the generator whose every draw is `1`,
`CBMCChainDeletion` returns `-1`: the deletion is not accepted with probability 1. -/
theorem scenarioC_deletion_counterexample :
    1 < ForceField.insertionThreshold
          (Env.ofLibm Real.exp Real.sqrt (10000000000 : ℝ) (2 ^ ((1 : ℝ) / 6)))
          ((ForceField.plain (2 : ℝ) 1 0 1).InitializeEnergy (fun _ => 0)) 0
          (1 * Real.exp (-1 * 0)) 0 ∧
    ∃ (ff1 : ForceField ℝ) (g1 : Rng),
      ForceField.CBMCChainDeletion
          (Env.ofLibm Real.exp Real.sqrt (10000000000 : ℝ) (2 ^ ((1 : ℝ) / 6)))
          ((ForceField.plain (2 : ℝ) 1 0 1).InitializeEnergy (fun _ => 0))
          [{ bds := [ForceField.firstBead
                ((ForceField.plain (2 : ℝ) 1 0 1).InitializeEnergy (fun _ => 0))
                (Rng.const 4294967295) (Bead.fresh "A" 0)], bonds := [] }]
          (Rng.const 4294967295) 3
        = some (-1, ff1, g1) := by
  constructor
  · simp [ForceField.insertionThreshold, ForceField.InitializeEnergy, ForceField.plain,
      Env.ofLibm]
  · have hdel := deletion_single
      (Env.ofLibm Real.exp Real.sqrt (10000000000 : ℝ) (2 ^ ((1 : ℝ) / 6)))
      ((ForceField.plain (2 : ℝ) 1 0 1).InitializeEnergy (fun _ => 0))
      (Rng.const 4294967295) 3
      (ForceField.firstBead
        ((ForceField.plain (2 : ℝ) 1 0 1).InitializeEnergy (fun _ => 0))
        (Rng.const 4294967295) (Bead.fresh "A" 0)) [] (Bead.fresh "A" 0) [] 0 rfl rfl
      (by simp [ForceField.InitializeEnergy, ForceField.plain])
      (by simp [ForceField.firstBead, Bead.SetAllCrd, Bead.fresh])
      (by rw [BeadEnergy_single_excluded _ _ _ _ rfl]
          simp [ForceField.InitializeEnergy, ForceField.plain])
    have hno : ¬ ((Rng.uniform (Rng.uniform (Rng.const 4294967295) : ℝ × Rng).2 : ℝ × Rng).1
        < ForceField.deletionThreshold
            (Env.ofLibm Real.exp Real.sqrt (10000000000 : ℝ) (2 ^ ((1 : ℝ) / 6)))
            ((ForceField.plain (2 : ℝ) 1 0 1).InitializeEnergy (fun _ => 0)) 1
            (1 * (Env.ofLibm Real.exp Real.sqrt (10000000000 : ℝ) (2 ^ ((1 : ℝ) / 6))).exp
              (-((ForceField.plain (2 : ℝ) 1 0 1).InitializeEnergy (fun _ => 0)).beta * 0))
            ((((ForceField.plain (2 : ℝ) 1 0 1).InitializeEnergy (fun _ => 0)).withChain
                ((Bead.fresh "A" 0).SetAllCrd
                  ⟨(ForceField.firstBead
                      ((ForceField.plain (2 : ℝ) 1 0 1).InitializeEnergy (fun _ => 0))
                      (Rng.const 4294967295) (Bead.fresh "A" 0)).GetCrd 0,
                   (ForceField.firstBead
                      ((ForceField.plain (2 : ℝ) 1 0 1).InitializeEnergy (fun _ => 0))
                      (Rng.const 4294967295) (Bead.fresh "A" 0)).GetCrd 1,
                   (ForceField.firstBead
                      ((ForceField.plain (2 : ℝ) 1 0 1).InitializeEnergy (fun _ => 0))
                      (Rng.const 4294967295) (Bead.fresh "A" 0)).GetCrd 2⟩ :: [])).trialChainDE
              [{ bds := [ForceField.firstBead
                  ((ForceField.plain (2 : ℝ) 1 0 1).InitializeEnergy (fun _ => 0))
                  (Rng.const 4294967295) (Bead.fresh "A" 0)], bonds := [] }] 1 0)) := by
      simp only [ForceField.deletionThreshold, ForceField.trialChainDE,
        ForceField.InitializeEnergy, ForceField.plain, Env.ofLibm, Rng.uniform, Rng.next,
        Rng.const, ForceField.withChain]
      norm_num
    rw [if_neg hno] at hdel
    exact ⟨_, _, hdel⟩

/-- C3, amended: on the population made of one single-bead molecule of the
configured neutral species, `CBMCChainDeletion` picks index `0`, and returns `0`
exactly when the acceptance draw `u` is below `1/T`, and `-1` otherwise, for every
generator and every fuel; `T` is the insertion threshold of scenario B evaluated
with the weight `W = exp(-beta*e0)` and the long-range delta of this attempt. When
`T > 1` the bound `1/T` is below `1`: the acceptance probability is `1/T`, not `1`. -/
theorem scenarioC_deletion (env : Env α) (ff : ForceField α) (g : Rng) (fuel : Nat)
    (b : Bead α) (bonds : List (Int × Int)) (c0 : Bead α) (rest : List (Bead α))
    (hlen : ff.gc_chain_len = 1) (hq : ff.gc_bead_charge = 0)
    (hbuf : ff.cbmc_chain = c0 :: rest) (hb : b.charge = 0) :
    ∃ e0 : α,
      ff.BeadEnergy b [{ bds := [b], bonds := bonds }] 0 0 0 = some e0 ∧
      ff.CBMCChainDeletion env [{ bds := [b], bonds := bonds }] g fuel =
        some (if (Rng.uniform (Rng.uniform g : α × Rng).2 : α × Rng).1
                  < 1 / ff.insertionThreshold env 0 (1 * env.exp (-ff.beta * e0))
                      ((ff.withChain
                          (c0.SetAllCrd ⟨b.GetCrd 0, b.GetCrd 1, b.GetCrd 2⟩ :: rest)).trialChainDE
                        [{ bds := [b], bonds := bonds }] 1 0)
              then 0 else -1,
          ff.withChain (c0.SetAllCrd ⟨b.GetCrd 0, b.GetCrd 1, b.GetCrd 2⟩ :: rest),
          (Rng.uniform (Rng.uniform g : α × Rng).2 : α × Rng).2) ∧
      (1 < ff.insertionThreshold env 0 (1 * env.exp (-ff.beta * e0))
              ((ff.withChain
                  (c0.SetAllCrd ⟨b.GetCrd 0, b.GetCrd 1, b.GetCrd 2⟩ :: rest)).trialChainDE
                [{ bds := [b], bonds := bonds }] 1 0) →
        1 / ff.insertionThreshold env 0 (1 * env.exp (-ff.beta * e0))
              ((ff.withChain
                  (c0.SetAllCrd ⟨b.GetCrd 0, b.GetCrd 1, b.GetCrd 2⟩ :: rest)).trialChainDE
                [{ bds := [b], bonds := bonds }] 1 0) < 1) := by
  refine ⟨_, BeadEnergy_single_excluded ff b _ 0 hq, ?_, ?_⟩
  · rw [deletion_single env ff g fuel b bonds c0 rest _ hlen hq hbuf hb
      (BeadEnergy_single_excluded ff b _ 0 hq)]
    rw [show (1 : Nat) = 0 + 1 from rfl, deletionThreshold_eq_inv]
  · intro hT
    rw [div_lt_one (lt_trans one_pos hT)]
    exact hT

/-- C3 amended, a concrete instance over the reals: the configuration of scenario B
(threshold `T = 2`) with the generator whose every draw is `0`; the draw `0` is
below `1/2` and the deletion returns index `0`. -/
theorem scenarioC_deletion_witness :
    ∃ (ff1 : ForceField ℝ) (g1 : Rng),
      ForceField.CBMCChainDeletion
          (Env.ofLibm Real.exp Real.sqrt (10000000000 : ℝ) (2 ^ ((1 : ℝ) / 6)))
          ((ForceField.plain (2 : ℝ) 1 0 1).InitializeEnergy (fun _ => 0))
          [{ bds := [Bead.placed "A" 0 2 1 1], bonds := [] }]
          (Rng.const 0) 3
        = some (0, ff1, g1) := by
  obtain ⟨e0, he, hdel, _⟩ := scenarioC_deletion
    (Env.ofLibm Real.exp Real.sqrt (10000000000 : ℝ) (2 ^ ((1 : ℝ) / 6)))
    ((ForceField.plain (2 : ℝ) 1 0 1).InitializeEnergy (fun _ => 0))
    (Rng.const 0) 3 (Bead.placed "A" 0 2 1 1) [] (Bead.fresh "A" 0) [] rfl rfl
    (by simp [ForceField.InitializeEnergy, ForceField.plain])
    (by simp [Bead.placed, Bead.SetAllCrd, Bead.fresh])
  rw [BeadEnergy_single_excluded _ _ _ _ rfl] at he
  have he0 : e0 = 0 := by
    simpa [ForceField.InitializeEnergy, ForceField.plain] using he.symm
  subst he0
  rw [if_pos (by
    simp only [ForceField.insertionThreshold, ForceField.trialChainDE,
      ForceField.InitializeEnergy, ForceField.plain, Env.ofLibm, Rng.uniform, Rng.next,
      Rng.const, ForceField.withChain]
    norm_num)] at hdel
  exact ⟨_, _, hdel⟩

/-- C10, the failing input: a charged single-bead species (`gc_chain_len = 1`,
`gc_bead_charge = 1`, one trial per growth step) in a box of volume `2` with
`beta = 1`, chemical potential `0`, prefactor `1` and no potential enabled, so that
the weight is `1` and the long-range delta `0` in both directions.

* `CBMCChainInsertion` on the empty population (every draw `0`) accepts and appends
  two molecules, the chain and its counterion.
* The insertion threshold on the empty population is `2`, the deletion threshold on
  the population just produced is `1`: their product is `2`, not `1`.
* `CBMCChainDeletion` on that population, with index draw `0` and acceptance draw
  `3221225472 / 4294967295` (about `3/4`, above the reciprocal `1/2` of the
  insertion threshold), accepts and returns index `0`. -/
theorem charged_thresholds_not_reciprocal :
    (∃ (ff1 : ForceField ℝ) (g1 : Rng),
      ForceField.CBMCChainInsertion
          (Env.ofLibm Real.exp Real.sqrt (10000000000 : ℝ) (2 ^ ((1 : ℝ) / 6)))
          ((ForceField.plain (2 : ℝ) 1 1 1).InitializeEnergy (fun _ => 0)) []
          (Rng.const 0)
        = some (true,
            [{ bds := [Bead.placed "A" 1 0 0 0], bonds := [] },
             { bds := [Bead.placed "A" (-1) 0 0 0], bonds := [] }], ff1, g1)) ∧
    ForceField.insertionThreshold
        (Env.ofLibm Real.exp Real.sqrt (10000000000 : ℝ) (2 ^ ((1 : ℝ) / 6)))
        ((ForceField.plain (2 : ℝ) 1 1 1).InitializeEnergy (fun _ => 0))
        ([] : List (Molecule ℝ)).length 1 0 = 2 ∧
    ForceField.deletionThreshold
        (Env.ofLibm Real.exp Real.sqrt (10000000000 : ℝ) (2 ^ ((1 : ℝ) / 6)))
        ((ForceField.plain (2 : ℝ) 1 1 1).InitializeEnergy (fun _ => 0))
        ([{ bds := [Bead.placed "A" 1 0 0 0], bonds := [] },
          { bds := [Bead.placed "A" (-1) 0 0 0], bonds := [] }] : List (Molecule ℝ)).length
        1 0 = 1 ∧
    ForceField.insertionThreshold
        (Env.ofLibm Real.exp Real.sqrt (10000000000 : ℝ) (2 ^ ((1 : ℝ) / 6)))
        ((ForceField.plain (2 : ℝ) 1 1 1).InitializeEnergy (fun _ => 0))
        ([] : List (Molecule ℝ)).length 1 0
      * ForceField.deletionThreshold
        (Env.ofLibm Real.exp Real.sqrt (10000000000 : ℝ) (2 ^ ((1 : ℝ) / 6)))
        ((ForceField.plain (2 : ℝ) 1 1 1).InitializeEnergy (fun _ => 0))
        ([{ bds := [Bead.placed "A" 1 0 0 0], bonds := [] },
          { bds := [Bead.placed "A" (-1) 0 0 0], bonds := [] }] : List (Molecule ℝ)).length
        1 0 ≠ 1 ∧
    (∃ (ff1 : ForceField ℝ) (g1 : Rng),
      ForceField.CBMCChainDeletion
          (Env.ofLibm Real.exp Real.sqrt (10000000000 : ℝ) (2 ^ ((1 : ℝ) / 6)))
          ((ForceField.plain (2 : ℝ) 1 1 1).InitializeEnergy (fun _ => 0))
          [{ bds := [Bead.placed "A" 1 0 0 0], bonds := [] },
           { bds := [Bead.placed "A" (-1) 0 0 0], bonds := [] }]
          { out := fun n => if n = 0 then 0 else 3221225472 } 0
        = some (0, ff1, g1)) := by
  have hins : ForceField.insertionThreshold
        (Env.ofLibm Real.exp Real.sqrt (10000000000 : ℝ) (2 ^ ((1 : ℝ) / 6)))
        ((ForceField.plain (2 : ℝ) 1 1 1).InitializeEnergy (fun _ => 0))
        ([] : List (Molecule ℝ)).length 1 0 = 2 := by
    norm_num [ForceField.insertionThreshold, ForceField.InitializeEnergy, ForceField.plain,
      Env.ofLibm]
  have hdel : ForceField.deletionThreshold
        (Env.ofLibm Real.exp Real.sqrt (10000000000 : ℝ) (2 ^ ((1 : ℝ) / 6)))
        ((ForceField.plain (2 : ℝ) 1 1 1).InitializeEnergy (fun _ => 0))
        ([{ bds := [Bead.placed "A" 1 0 0 0], bonds := [] },
          { bds := [Bead.placed "A" (-1) 0 0 0], bonds := [] }] : List (Molecule ℝ)).length
        1 0 = 1 := by
    norm_num [ForceField.deletionThreshold, ForceField.InitializeEnergy, ForceField.plain,
      Env.ofLibm]
  refine ⟨?_, hins, hdel, ?_, ?_⟩
  · norm_num [ForceField.CBMCChainInsertion, ForceField.InitializeEnergy, ForceField.plain,
      ForceField.firstBead, ForceField.randomBoxPoint, Rng.uniform, Rng.next, Rng.const,
      ForceField.BeadEnergy, ForceField.beadVsMols, ForceField.beadVsChain,
      ForceField.withChain, ForceField.withTrialBeads, ForceField.withWeights,
      ForceField.toadd, ForceField.growRest, ForceField.CBMCGenTrialBeads,
      ForceField.genTrials, ForceField.trialBondLen, ForceField.trialCoord, getAt, setAt,
      rosenbluthSelect, selectWalk, ForceField.trialChainDE, ForceField.insertionThreshold,
      ForceField.appendInserted, addBeads, addBonds, addCounterions, Env.ofLibm,
      Molecule.AddBead, Molecule.empty, Molecule.Size, Bead.SetAllCrd, Bead.fresh,
      Bead.GetCrd, Bead.placed, Vec3.get]
  · rw [hins, hdel]; norm_num
  · norm_num [ForceField.CBMCChainDeletion, ForceField.InitializeEnergy, ForceField.plain,
      ForceField.firstBead, ForceField.randomBoxPoint, Rng.uniform, Rng.next, Rng.const,
      ForceField.BeadEnergy, ForceField.beadVsMols, ForceField.beadVsChain,
      ForceField.withChain, ForceField.withTrialBeads, ForceField.withWeights,
      ForceField.toadd, ForceField.regrowRest, ForceField.CBMCGenTrialBeads,
      ForceField.genTrials, ForceField.trialBondLen, ForceField.trialCoord, getAt, setAt,
      sumWeights, ForceField.trialChainDE, ForceField.deletionThreshold,
      ForceField.pickSpecies, ForceField.speciesMismatch, drawIndex, Env.ofLibm,
      Molecule.AddBead, Molecule.empty, Molecule.Size, Bead.SetAllCrd, Bead.fresh,
      Bead.GetCrd, Bead.placed, Vec3.get]

end DeletionTheorems

/-! ## Theorems: the sum returned by `EnergyDifference` -/

section SumTheorems

variable {α : Type} [LinearOrderedField α]

/-- The pair contribution to the running sum: the delta when the family is
enabled, `0` otherwise. -/
theorem enabledDeltas_sum (ff : ForceField α) (mols : List (Molecule α)) (moved_mol : Int) :
    (ff.enabledDeltas mols moved_mol).sum =
      (if ff.use_pair_pot then
          ff.pair_pot.EnergyDifference mols moved_mol ff.box_l ff.npbc else 0)
      + (if ff.use_ext_pot then
          ff.ext_pot.EnergyDifference mols moved_mol ff.box_l ff.npbc else 0)
      + (if ff.use_ewald_pot then
          ff.ewald_pot.EnergyDifference mols moved_mol ff.npbc else 0)
      + (if ff.use_bond_pot then
          ff.bond_pot.EnergyDifference mols ff.box_l ff.npbc moved_mol else 0) := by
  unfold ForceField.enabledDeltas
  cases ff.use_pair_pot <;> cases ff.use_ext_pot <;> cases ff.use_ewald_pot <;>
    cases ff.use_bond_pot <;> simp <;> ring

/-- C16: `EnergyDifference` returns (1) the pair delta alone when the pair family
is enabled and its delta is at or above the sentinel; (2) otherwise the partial
sum pair + external (a disabled pair family counting `0`) when the external
family is enabled and that partial sum is at or above the sentinel, the Ewald and
bonded deltas not being added; (3) otherwise, no early exit occurring, exactly the
sum of the deltas of all enabled families, which is the sum of those deltas taken
in any order. Disabled families contribute nothing. -/
theorem EnergyDifference_sum (env : Env α) (ff : ForceField α) (mols : List (Molecule α))
    (moved_mol : Int) :
    ((ff.use_pair_pot = true ∧
        env.kVeryLargeEnergy ≤ ff.pair_pot.EnergyDifference mols moved_mol ff.box_l ff.npbc) →
      ff.EnergyDifference env mols moved_mol
        = ff.pair_pot.EnergyDifference mols moved_mol ff.box_l ff.npbc ∧
      env.kVeryLargeEnergy ≤ ff.EnergyDifference env mols moved_mol) ∧
    (¬ (ff.use_pair_pot = true ∧
        env.kVeryLargeEnergy ≤ ff.pair_pot.EnergyDifference mols moved_mol ff.box_l ff.npbc) →
      (ff.use_ext_pot = true ∧ env.kVeryLargeEnergy ≤
        (if ff.use_pair_pot then
            ff.pair_pot.EnergyDifference mols moved_mol ff.box_l ff.npbc else 0)
          + ff.ext_pot.EnergyDifference mols moved_mol ff.box_l ff.npbc) →
      ff.EnergyDifference env mols moved_mol
        = (if ff.use_pair_pot then
            ff.pair_pot.EnergyDifference mols moved_mol ff.box_l ff.npbc else 0)
          + ff.ext_pot.EnergyDifference mols moved_mol ff.box_l ff.npbc ∧
      env.kVeryLargeEnergy ≤ ff.EnergyDifference env mols moved_mol) ∧
    (¬ (ff.use_pair_pot = true ∧
        env.kVeryLargeEnergy ≤ ff.pair_pot.EnergyDifference mols moved_mol ff.box_l ff.npbc) →
      ¬ (ff.use_ext_pot = true ∧ env.kVeryLargeEnergy ≤
        (if ff.use_pair_pot then
            ff.pair_pot.EnergyDifference mols moved_mol ff.box_l ff.npbc else 0)
          + ff.ext_pot.EnergyDifference mols moved_mol ff.box_l ff.npbc) →
      ff.EnergyDifference env mols moved_mol = (ff.enabledDeltas mols moved_mol).sum ∧
      ∀ l : List α, l.Perm (ff.enabledDeltas mols moved_mol) →
        ff.EnergyDifference env mols moved_mol = l.sum) := by
  have hsum := enabledDeltas_sum ff mols moved_mol
  have hdef : ff.EnergyDifference env mols moved_mol =
      (if ff.use_pair_pot = true ∧ env.kVeryLargeEnergy
            ≤ ff.pair_pot.EnergyDifference mols moved_mol ff.box_l ff.npbc then
          ff.pair_pot.EnergyDifference mols moved_mol ff.box_l ff.npbc
        else if ff.use_ext_pot = true ∧ env.kVeryLargeEnergy ≤
            (if ff.use_pair_pot then
                ff.pair_pot.EnergyDifference mols moved_mol ff.box_l ff.npbc else 0)
              + ff.ext_pot.EnergyDifference mols moved_mol ff.box_l ff.npbc then
          (if ff.use_pair_pot then
              ff.pair_pot.EnergyDifference mols moved_mol ff.box_l ff.npbc else 0)
            + ff.ext_pot.EnergyDifference mols moved_mol ff.box_l ff.npbc
        else (ff.enabledDeltas mols moved_mol).sum) := by
    rw [hsum]
    unfold ForceField.EnergyDifference
    generalize ff.pair_pot.EnergyDifference mols moved_mol ff.box_l ff.npbc = P
    generalize ff.ext_pot.EnergyDifference mols moved_mol ff.box_l ff.npbc = E
    generalize ff.ewald_pot.EnergyDifference mols moved_mol ff.npbc = W
    generalize ff.bond_pot.EnergyDifference mols ff.box_l ff.npbc moved_mol = B
    generalize env.kVeryLargeEnergy = K
    cases ff.use_pair_pot <;> cases ff.use_ext_pot <;> cases ff.use_ewald_pot <;>
      cases ff.use_bond_pot <;> simp
  refine ⟨?_, ?_, ?_⟩
  · intro h
    rw [hdef, if_pos h]
    exact ⟨rfl, h.2⟩
  · intro h1 h2
    rw [hdef, if_neg h1, if_pos h2]
    exact ⟨rfl, h2.2⟩
  · intro h1 h2
    rw [hdef, if_neg h1, if_neg h2]
    refine ⟨rfl, ?_⟩
    intro l hl
    rw [hl.sum_eq]

/-- C16, a concrete instance over the reals: all four families enabled with the
deltas `1`, `2`, `3`, `4` and the sentinel `10^10`; no early exit occurs and the
result is the sum of the four deltas, also when they are listed in the order
bonded, long-range, external, pair. -/
theorem EnergyDifference_sum_witness :
    ForceField.EnergyDifference
        (Env.ofLibm Real.exp Real.sqrt (10000000000 : ℝ) (2 ^ ((1 : ℝ) / 6)))
        { ForceField.plain (1 : ℝ) 1 0 1 with
            use_pair_pot := true, use_ext_pot := true, use_ewald_pot := true,
            use_bond_pot := true,
            pair_pot := PotentialPair.const 0 1, ext_pot := PotentialExternal.const 0 2,
            ewald_pot := PotentialEwald.const 0 3, bond_pot := PotentialBond.const 0 4 }
        [] 0 = ([4, 3, 2, 1] : List ℝ).sum :=
  ((EnergyDifference_sum
      (Env.ofLibm Real.exp Real.sqrt (10000000000 : ℝ) (2 ^ ((1 : ℝ) / 6)))
      { ForceField.plain (1 : ℝ) 1 0 1 with
          use_pair_pot := true, use_ext_pot := true, use_ewald_pot := true,
          use_bond_pot := true,
          pair_pot := PotentialPair.const 0 1, ext_pot := PotentialExternal.const 0 2,
          ewald_pot := PotentialEwald.const 0 3, bond_pot := PotentialBond.const 0 4 }
      [] 0).2.2
    (by norm_num [ForceField.plain, PotentialPair.const, Env.ofLibm])
    (by norm_num [ForceField.plain, PotentialPair.const, PotentialExternal.const,
      Env.ofLibm])).2 [4, 3, 2, 1]
    (by
      simp only [ForceField.enabledDeltas, ForceField.plain, PotentialPair.const,
        PotentialExternal.const, PotentialEwald.const, PotentialBond.const, if_true,
        List.singleton_append]
      exact (List.reverse_perm [1, 2, 3, 4]))

end SumTheorems

/-! ## Theorems: the effect of an insertion on the population -/

section InsertionEffect

variable {α : Type} [LinearOrderedField α]

/-- A force field differs from itself in no field. -/
theorem scratchOnly_refl (ff : ForceField α) : ff.scratchOnly ff :=
  ⟨ff.cbmc_trial_weights, ff.cbmc_trial_beads, ff.cbmc_chain, rfl⟩

/-- Writes into the scratch buffers compose. -/
theorem scratchOnly_trans {ff ff1 ff2 : ForceField α} (h1 : ff.scratchOnly ff1)
    (h2 : ff1.scratchOnly ff2) : ff.scratchOnly ff2 := by
  obtain ⟨w, tb, ch, rfl⟩ := h1
  obtain ⟨w2, tb2, ch2, rfl⟩ := h2
  exact ⟨w2, tb2, ch2, rfl⟩

/-- A write into the trial chain touches a scratch buffer only. -/
theorem scratchOnly_withChain (ff : ForceField α) (ch : List (Bead α)) :
    ff.scratchOnly (ff.withChain ch) :=
  ⟨ff.cbmc_trial_weights, ff.cbmc_trial_beads, ch, rfl⟩

/-- A write into the trial beads touches a scratch buffer only. -/
theorem scratchOnly_withTrialBeads (ff : ForceField α) (tb : List (Bead α)) :
    ff.scratchOnly (ff.withTrialBeads tb) :=
  ⟨ff.cbmc_trial_weights, tb, ff.cbmc_chain, rfl⟩

/-- A write into the trial weights touches a scratch buffer only. -/
theorem scratchOnly_withWeights (ff : ForceField α) (w : List α) :
    ff.scratchOnly (ff.withWeights w) :=
  ⟨w, ff.cbmc_trial_beads, ff.cbmc_chain, rfl⟩

/-- The species read by the sampler is not a scratch buffer. -/
theorem scratchOnly_species {ff ff1 : ForceField α} (h : ff.scratchOnly ff1) :
    ff1.gc_chain_len = ff.gc_chain_len ∧ ff1.gc_bead_charge = ff.gc_bead_charge ∧
    ff1.cbmc_no_of_trials = ff.cbmc_no_of_trials := by
  obtain ⟨w, tb, ch, rfl⟩ := h
  exact ⟨rfl, rfl, rfl⟩

/-- The trial loop writes trial beads and trial weights only; the trial chain is
as before. -/
theorem genTrials_scratchOnly (env : Env α) (end_bead : Bead α) (mols : List (Molecule α))
    (current_len delete_id type : Int) (n : Nat) :
    ∀ (i : Nat) (ff : ForceField α) (g : Rng) (Wi : α) (r : α × ForceField α × Rng),
      ForceField.genTrials env end_bead mols current_len delete_id type n i ff g Wi = some r →
      ff.scratchOnly r.2.1 ∧ r.2.1.cbmc_chain = ff.cbmc_chain := by
  induction n with
  | zero =>
    intro i ff g Wi r h
    simp only [ForceField.genTrials, Option.some.injEq] at h
    subst h
    exact ⟨scratchOnly_refl ff, rfl⟩
  | succ n ih =>
    intro i ff g Wi r h
    simp only [ForceField.genTrials] at h
    split at h
    · exact absurd h (by simp)
    · split at h
      · exact absurd h (by simp)
      · split at h
        · exact absurd h (by simp)
        · obtain ⟨h1, h2⟩ := ih _ _ _ _ _ h
          refine ⟨scratchOnly_trans
            (scratchOnly_trans (scratchOnly_withTrialBeads ff _) (scratchOnly_withWeights _ _))
            h1, ?_⟩
          rw [h2]
          rfl

/-- The growth loop of the insertion writes scratch buffers only. -/
theorem growRest_scratchOnly (env : Env α) (mols : List (Molecule α)) (n : Nat) :
    ∀ (i : Nat) (type : Int) (ff : ForceField α) (g : Rng) (weight : α)
      (r : α × ForceField α × Rng),
      ForceField.growRest env mols n i type ff g weight = some r →
      ff.scratchOnly r.2.1 := by
  induction n with
  | zero =>
    intro i type ff g weight r h
    simp only [ForceField.growRest, Option.some.injEq] at h
    subst h
    exact scratchOnly_refl ff
  | succ n ih =>
    intro i type ff g weight r h
    simp only [ForceField.growRest] at h
    split at h
    · split at h
      · exact absurd h (by simp)
      · split at h
        · exact absurd h (by simp)
        · rename_i Wi ff1 g1 hgen
          split at h
          · exact absurd h (by simp)
          · split at h
            · exact absurd h (by simp)
            · split at h
              · exact absurd h (by simp)
              · have h1 := (genTrials_scratchOnly env _ mols _ _ _ _ _ _ _ _ _ hgen).1
                exact scratchOnly_trans h1
                  (scratchOnly_trans (scratchOnly_withChain _ _) (ih _ _ _ _ _ _ h))
    · simp only [Option.some.injEq] at h
      subst h
      exact scratchOnly_refl ff

/-- The beads added by lines 836-838 are `chain[i], ..., chain[i+n-1]`. -/
theorem addBeads_eq (chain : List (Bead α)) (n : Nat) :
    ∀ (i : Nat) (m m1 : Molecule α), addBeads chain n i m = some m1 →
      m1 = { bds := m.bds ++ (chain.drop i).take n, bonds := m.bonds } ∧
      ((chain.drop i).take n).length = n := by
  induction n with
  | zero =>
    intro i m m1 h
    simp only [addBeads, Option.some.injEq] at h
    subst h
    simp
  | succ n ih =>
    intro i m m1 h
    simp only [addBeads] at h
    split at h
    · exact absurd h (by simp)
    · rename_i b hb
      obtain ⟨h1, h2⟩ := ih _ _ _ h
      have hlt : i < chain.length := (List.getElem?_eq_some_iff.mp hb).1
      have hbv : chain[i] = b := (List.getElem?_eq_some_iff.mp hb).2
      rw [List.drop_eq_getElem_cons hlt, hbv]
      refine ⟨?_, by simp [h2]⟩
      rw [h1]
      simp [Molecule.AddBead]

/-- The bonds added by lines 840-842 are `(i, i+1), ..., (i+n-1, i+n)`. -/
theorem addBonds_eq (n : Nat) :
    ∀ (i : Nat) (m : Molecule α),
      addBonds n i m =
        ({ bds := m.bds,
           bonds := m.bonds ++ (List.range n).map
            (fun k => (Int.ofNat (i + k), Int.ofNat (i + k) + 1)) } : Molecule α) := by
  induction n with
  | zero => intro i m; simp [addBonds]
  | succ n ih =>
    intro i m
    simp only [addBonds]
    rw [ih]
    simp only [Molecule.AddBond, List.range_succ_eq_map, List.map_cons, List.map_map,
      List.append_assoc, List.singleton_append, Nat.add_zero]
    congr 2
    congr 1
    apply List.map_congr_left
    intro k _
    simp only [Function.comp]
    have : i + 1 + k = i + (k + 1) := by omega
    rw [this]

/-- The molecules added by lines 844-847 hold `chain[i], ..., chain[i+n-1]`. -/
theorem addCounterions_eq (chain : List (Bead α)) (n : Nat) :
    ∀ (i : Nat) (mols mols1 : List (Molecule α)), addCounterions chain n i mols = some mols1 →
      mols1 = mols ++ ((chain.drop i).take n).map (fun b => { bds := [b], bonds := [] }) ∧
      ((chain.drop i).take n).length = n := by
  induction n with
  | zero =>
    intro i mols mols1 h
    simp only [addCounterions, Option.some.injEq] at h
    subst h
    simp
  | succ n ih =>
    intro i mols mols1 h
    simp only [addCounterions] at h
    split at h
    · exact absurd h (by simp)
    · rename_i b hb
      obtain ⟨h1, h2⟩ := ih _ _ _ h
      have hlt : i < chain.length := (List.getElem?_eq_some_iff.mp hb).1
      have hbv : chain[i] = b := (List.getElem?_eq_some_iff.mp hb).2
      rw [List.drop_eq_getElem_cons hlt, hbv]
      refine ⟨?_, by simp [h2]⟩
      rw [h1]
      simp [Molecule.AddBead, Molecule.empty]

/-- What lines 835-847 append: the chain molecule, then the counterions of a
charged species. -/
theorem appendInserted_eq (ff : ForceField α) (mols mols1 : List (Molecule α))
    (h : ff.appendInserted mols = some mols1) :
    mols1 = mols ++ [insertedChain ff.cbmc_chain ff.gc_chain_len.toNat]
      ++ (if ff.gc_bead_charge ≠ 0 then
            insertedCounterions ff.cbmc_chain ff.gc_chain_len.toNat else []) ∧
    (insertedChain ff.cbmc_chain ff.gc_chain_len.toNat).bds.length = ff.gc_chain_len.toNat ∧
    (ff.gc_bead_charge ≠ 0 →
      (insertedCounterions ff.cbmc_chain ff.gc_chain_len.toNat).length
        = ff.gc_chain_len.toNat) := by
  unfold ForceField.appendInserted at h
  split at h
  · exact absurd h (by simp)
  · rename_i m hm
    dsimp only at h
    obtain ⟨hm1, hlen⟩ := addBeads_eq _ _ _ _ _ hm
    simp only [Molecule.empty, List.nil_append, List.drop_zero] at hm1 hlen
    obtain ⟨hc1, hc2⟩ := addCounterions_eq _ _ _ _ _ h
    have hsize : (m.Size - 1).toNat = ff.gc_chain_len.toNat - 1 := by
      rw [hm1]
      simp only [Molecule.Size, hlen]
      omega
    have hchain : addBonds (m.Size - 1).toNat 0 m
        = insertedChain ff.cbmc_chain ff.gc_chain_len.toNat := by
      rw [addBonds_eq, hsize, hm1]
      simp [insertedChain]
    rw [hchain] at hc1
    by_cases hq : ff.gc_bead_charge = 0
    · have hn : (ff.toadd - ff.gc_chain_len).toNat = 0 := by
        simp [ForceField.toadd, hq]
      rw [hn] at hc1
      refine ⟨?_, by simpa [insertedChain] using hlen, fun hne => absurd hq hne⟩
      rw [hc1]
      simp [hq]
    · have hn : (ff.toadd - ff.gc_chain_len).toNat = ff.gc_chain_len.toNat := by
        simp only [ForceField.toadd, hq, ne_eq, not_false_eq_true, if_true]
        congr 1
        ring
      rw [hn] at hc1 hc2
      refine ⟨?_, by simpa [insertedChain] using hlen, fun _ => ?_⟩
      · rw [hc1]
        simp [hq, insertedCounterions]
      · simpa [insertedCounterions] using hc2

/-- C17: whenever `CBMCChainInsertion` returns, only scratch buffers of the force
field have changed, and the population afterwards is: for the result `true`, the
old population followed by one molecule whose beads are
`cbmc_chain[0..gc_chain_len)` in order with the bonds `(0,1), ...,
(gc_chain_len-2, gc_chain_len-1)`, followed, when `gc_bead_charge != 0`, by
`gc_chain_len` single-bead molecules holding
`cbmc_chain[gc_chain_len..2*gc_chain_len)`; for the result `false`, the old
population. In both cases the old population is a prefix of the new one: existing
molecules are not modified. -/
theorem CBMCChainInsertion_effect (env : Env α) (ff : ForceField α)
    (mols : List (Molecule α)) (g : Rng) (acc : Bool) (mols1 : List (Molecule α))
    (ff1 : ForceField α) (g1 : Rng)
    (h : ff.CBMCChainInsertion env mols g = some (acc, mols1, ff1, g1)) :
    ff.scratchOnly ff1 ∧
    (acc = true →
      mols1 = mols ++ [insertedChain ff1.cbmc_chain ff.gc_chain_len.toNat]
        ++ (if ff.gc_bead_charge ≠ 0 then
              insertedCounterions ff1.cbmc_chain ff.gc_chain_len.toNat else []) ∧
      (insertedChain ff1.cbmc_chain ff.gc_chain_len.toNat).bds.length
        = ff.gc_chain_len.toNat ∧
      (ff.gc_bead_charge ≠ 0 →
        (insertedCounterions ff1.cbmc_chain ff.gc_chain_len.toNat).length
          = ff.gc_chain_len.toNat)) ∧
    (acc = false → mols1 = mols) ∧
    mols <+: mols1 := by
  unfold ForceField.CBMCChainInsertion at h
  dsimp only at h
  split at h
  · exact absurd h (by simp)
  · rename_i c0 hc0
    split at h
    · exact absurd h (by simp)
    · split at h
      · exact absurd h (by simp)
      · rename_i weight ff1' g1' hgrow
        have hs : ff.scratchOnly ff1' :=
          scratchOnly_trans (scratchOnly_withChain _ _)
            (growRest_scratchOnly env mols _ _ _ _ _ _ _ hgrow)
        obtain ⟨hL, hQ, _⟩ := scratchOnly_species hs
        split at h
        · split at h
          · exact absurd h (by simp)
          · rename_i molsA happ
            simp only [Option.some.injEq, Prod.mk.injEq] at h
            obtain ⟨rfl, rfl, rfl, rfl⟩ := h
            obtain ⟨he, hl1, hl2⟩ := appendInserted_eq _ _ _ happ
            rw [hL, hQ] at he
            rw [hL] at hl1
            rw [hL, hQ] at hl2
            refine ⟨hs, fun _ => ⟨he, hl1, hl2⟩, by simp, ?_⟩
            rw [he, List.append_assoc]
            exact List.prefix_append _ _
        · simp only [Option.some.injEq, Prod.mk.injEq] at h
          obtain ⟨rfl, rfl, rfl, rfl⟩ := h
          exact ⟨hs, by simp, fun _ => rfl, List.prefix_refl _⟩

/-- C17, a concrete instance over the reals: the charged single-bead species of
the worked example (every draw `0`); the accepted insertion into the empty
population yields the chain molecule followed by its counterion, both read from
the trial chain. -/
theorem CBMCChainInsertion_effect_witness :
    ∃ (ff1 : ForceField ℝ) (g1 : Rng) (mols1 : List (Molecule ℝ)),
      ForceField.CBMCChainInsertion
          (Env.ofLibm Real.exp Real.sqrt (10000000000 : ℝ) (2 ^ ((1 : ℝ) / 6)))
          ((ForceField.plain (2 : ℝ) 1 1 1).InitializeEnergy (fun _ => 0)) []
          (Rng.const 0)
        = some (true, mols1, ff1, g1) ∧
      mols1 = [] ++ [insertedChain ff1.cbmc_chain 1] ++ insertedCounterions ff1.cbmc_chain 1 ∧
      mols1.length = 2 := by
  have hrun : ∃ (ff1 : ForceField ℝ) (g1 : Rng),
      ForceField.CBMCChainInsertion
          (Env.ofLibm Real.exp Real.sqrt (10000000000 : ℝ) (2 ^ ((1 : ℝ) / 6)))
          ((ForceField.plain (2 : ℝ) 1 1 1).InitializeEnergy (fun _ => 0)) []
          (Rng.const 0)
        = some (true,
            [{ bds := [Bead.placed "A" 1 0 0 0], bonds := [] },
             { bds := [Bead.placed "A" (-1) 0 0 0], bonds := [] }], ff1, g1) := by
    norm_num [ForceField.CBMCChainInsertion, ForceField.InitializeEnergy, ForceField.plain,
      ForceField.firstBead, ForceField.randomBoxPoint, Rng.uniform, Rng.next, Rng.const,
      ForceField.BeadEnergy, ForceField.beadVsMols, ForceField.beadVsChain,
      ForceField.withChain, ForceField.withTrialBeads, ForceField.withWeights,
      ForceField.toadd, ForceField.growRest, ForceField.CBMCGenTrialBeads,
      ForceField.genTrials, ForceField.trialBondLen, ForceField.trialCoord, getAt, setAt,
      rosenbluthSelect, selectWalk, ForceField.trialChainDE, ForceField.insertionThreshold,
      ForceField.appendInserted, addBeads, addBonds, addCounterions, Env.ofLibm,
      Molecule.AddBead, Molecule.empty, Molecule.Size, Bead.SetAllCrd, Bead.fresh,
      Bead.GetCrd, Bead.placed, Vec3.get]
  obtain ⟨ff1, g1, h⟩ := hrun
  have heff := CBMCChainInsertion_effect _ _ _ _ _ _ _ _ h
  refine ⟨ff1, g1, _, h, ?_, rfl⟩
  have h2 := (heff.2.1 rfl).1
  simpa [ForceField.InitializeEnergy, ForceField.plain] using h2

end InsertionEffect

/-! ## Theorems: the index returned by a deletion -/

section DeletionIndex

variable {α : Type} [LinearOrderedField α] [FloorRing α]

/-- A molecule that passes the species test lies in the population, has
`gc_chain_len` beads and a first bead of charge `gc_bead_charge`. -/
theorem speciesMismatch_false (ff : ForceField α) (mols : List (Molecule α))
    (delete_id : Int) (h : ff.speciesMismatch mols delete_id = some false) :
    0 ≤ delete_id ∧ delete_id < (mols.length : Int) ∧
    ∃ (m : Molecule α) (b : Bead α), mols[delete_id.toNat]? = some m ∧
      m.Size = ff.gc_chain_len ∧ m.bds[0]? = some b ∧
      b.charge = (ff.gc_bead_charge : α) := by
  unfold ForceField.speciesMismatch getAt at h
  by_cases h0 : 0 ≤ delete_id
  · simp only [h0, if_true] at h
    split at h
    · exact absurd h (by simp)
    · rename_i m hm
      have hlt : delete_id.toNat < mols.length := (List.getElem?_eq_some_iff.mp hm).1
      split at h
      · exact absurd h (by simp)
      · rename_i hsize
        split at h
        · exact absurd h (by simp)
        · rename_i b hb
          simp only [Option.some.injEq, decide_eq_false_iff_not, not_not] at h
          refine ⟨h0, by omega, m, b, hm, ?_, hb, h⟩
          exact not_not.mp hsize
  · simp [h0] at h

/-- The rejection loop exits only on a molecule that passes the species test. -/
theorem pickSpecies_some (ff : ForceField α) (mols : List (Molecule α)) (fuel : Nat) :
    ∀ (delete_id : Int) (g : Rng) (r : Int × Rng),
      ff.pickSpecies mols fuel delete_id g = some r →
      ff.speciesMismatch mols r.1 = some false := by
  induction fuel with
  | zero =>
    intro delete_id g r h
    simp only [ForceField.pickSpecies] at h
    split at h
    · rename_i hm
      simp only [Option.some.injEq] at h
      subst h
      exact hm
    · exact absurd h (by simp)
  | succ fuel ih =>
    intro delete_id g r h
    simp only [ForceField.pickSpecies] at h
    split at h
    · exact absurd h (by simp)
    · rename_i hm
      simp only [Option.some.injEq] at h
      subst h
      exact hm
    · exact ih _ _ _ h

/-- The index `CBMCChainDeletion` returns is `-1` or the index the rejection loop
picked. -/
theorem CBMCChainDeletion_index (env : Env α) (ff : ForceField α)
    (mols : List (Molecule α)) (g : Rng) (fuel : Nat) (d : Int) (ff1 : ForceField α)
    (g1 : Rng) (h : ff.CBMCChainDeletion env mols g fuel = some (d, ff1, g1)) :
    d = -1 ∨ ff.speciesMismatch mols d = some false := by
  unfold ForceField.CBMCChainDeletion at h
  dsimp only at h
  split at h
  · exact absurd h (by simp)
  · rename_i delete_id g1' hpick
    have hsp := pickSpecies_some ff mols fuel _ _ _ hpick
    split at h
    · exact absurd h (by simp)
    · split at h
      · exact absurd h (by simp)
      · split at h
        · exact absurd h (by simp)
        · split at h
          · exact absurd h (by simp)
          · split at h
            · exact absurd h (by simp)
            · split at h
              · simp only [Option.some.injEq, Prod.mk.injEq] at h
                exact Or.inr (h.1 ▸ hsp)
              · simp only [Option.some.injEq, Prod.mk.injEq] at h
                exact Or.inl h.1.symm

/-- C18: whenever `CBMCChainDeletion` returns, its result `d` is `-1` or an index
with `0 <= d < mols.size()` whose molecule has exactly `gc_chain_len` beads and a
first bead of charge `gc_bead_charge`; the population after the call is the
population before it (same molecules, same coordinates); and on a non-empty
population every index draw lies in `[0, mols.size())`, the draw `u = 1` being
clamped to the last index. -/
theorem CBMCChainDeletion_result (env : Env α) (ff : ForceField α)
    (mols : List (Molecule α)) (g : Rng) (fuel : Nat) (d : Int)
    (mols1 : List (Molecule α)) (ff1 : ForceField α) (g1 : Rng)
    (h : ff.CBMCChainDeletionPop env mols g fuel = some (d, mols1, ff1, g1)) :
    (d = -1 ∨
      (0 ≤ d ∧ d < (mols.length : Int) ∧
        ∃ (m : Molecule α) (b : Bead α), mols[d.toNat]? = some m ∧
          (m.bds.length : Int) = ff.gc_chain_len ∧ m.bds[0]? = some b ∧
          b.charge = (ff.gc_bead_charge : α))) ∧
    mols1 = mols ∧
    (0 < mols.length → ∀ g2 : Rng,
      0 ≤ (drawIndex α mols.length g2).1 ∧
      (drawIndex α mols.length g2).1 < (mols.length : Int)) := by
  unfold ForceField.CBMCChainDeletionPop at h
  split at h
  · exact absurd h (by simp)
  · rename_i d' ff1' g1' hdel
    simp only [Option.some.injEq, Prod.mk.injEq] at h
    obtain ⟨rfl, rfl, rfl, rfl⟩ := h
    refine ⟨?_, rfl, fun hpos g2 => drawIndex_mem _ g2 hpos⟩
    rcases CBMCChainDeletion_index env ff _ g fuel _ _ _ hdel with h1 | h1
    · exact Or.inl h1
    · exact Or.inr (speciesMismatch_false ff _ _ h1)

/-- C18, a concrete instance over the reals: the population of one neutral
single-bead molecule of the configured species, every draw `0`; the call returns
index `0`, which is a valid index of a matching molecule. -/
theorem CBMCChainDeletion_result_witness :
    ∃ (m : Molecule ℝ) (b : Bead ℝ),
      ([{ bds := [Bead.placed "A" 0 2 1 1], bonds := [] }] : List (Molecule ℝ))[0]? = some m ∧
      (m.bds.length : Int) = 1 ∧ m.bds[0]? = some b ∧ b.charge = 0 := by
  have hrun : ∃ (ff1 : ForceField ℝ) (g1 : Rng),
      ForceField.CBMCChainDeletionPop
          (Env.ofLibm Real.exp Real.sqrt (10000000000 : ℝ) (2 ^ ((1 : ℝ) / 6)))
          ((ForceField.plain (2 : ℝ) 1 0 1).InitializeEnergy (fun _ => 0))
          [{ bds := [Bead.placed "A" 0 2 1 1], bonds := [] }]
          (Rng.const 0) 3
        = some (0, [{ bds := [Bead.placed "A" 0 2 1 1], bonds := [] }], ff1, g1) := by
    have hd := deletion_single
      (Env.ofLibm Real.exp Real.sqrt (10000000000 : ℝ) (2 ^ ((1 : ℝ) / 6)))
      ((ForceField.plain (2 : ℝ) 1 0 1).InitializeEnergy (fun _ => 0))
      (Rng.const 0) 3 (Bead.placed "A" 0 2 1 1) [] (Bead.fresh "A" 0) [] 0 rfl rfl
      (by simp [ForceField.InitializeEnergy, ForceField.plain])
      (by simp [Bead.placed, Bead.SetAllCrd, Bead.fresh])
      (by rw [BeadEnergy_single_excluded _ _ _ _ rfl]
          simp [ForceField.InitializeEnergy, ForceField.plain])
    rw [if_pos (by
      simp only [ForceField.deletionThreshold, ForceField.trialChainDE,
        ForceField.InitializeEnergy, ForceField.plain, Env.ofLibm, Rng.uniform, Rng.next,
        Rng.const, ForceField.withChain]
      norm_num)] at hd
    unfold ForceField.CBMCChainDeletionPop
    rw [hd]
    exact ⟨_, _, rfl⟩
  obtain ⟨ff1, g1, h⟩ := hrun
  rcases (CBMCChainDeletion_result _ _ _ _ _ _ _ _ _ h).1 with h1 | h1
  · exact absurd h1 (by norm_num)
  · obtain ⟨_, _, m, b, hm, hl, hb, hc⟩ := h1
    refine ⟨m, b, hm, ?_, hb, ?_⟩
    · simpa [ForceField.InitializeEnergy, ForceField.plain] using hl
    · simpa [ForceField.InitializeEnergy, ForceField.plain] using hc

end DeletionIndex

/-! ## Theorems: the fatal exits of `ForceField::Initialize` -/

section InitializeTheorems

variable {α : Type} [LinearOrderedField α] [FloorRing α]

/-- `Initialize` calls `exit(1)` exactly on an unrecognised name of an enabled
family and on a negative virial bead size. -/
theorem Initialize_isExit_iff (inp : ForceFieldInput α) (beta_in : α) (npbc_in : Int)
    (box_l_in : Vec3 α) (n_mol : Int) (mols : List (Molecule α)) :
    (ForceField.Initialize inp beta_in npbc_in box_l_in n_mol mols).isExit = true ↔
      (inp.badPair ∨ inp.badEwald ∨ inp.badBond ∨ inp.badExt) ∨ inp.vp_bead_size < 0 := by
  unfold ForceField.Initialize
  by_cases h1 : inp.badPair
  · simp [h1, Startup.isExit]
  by_cases h2 : inp.badEwald
  · simp [h1, h2, Startup.isExit]
  by_cases h3 : inp.badBond
  · simp [h1, h2, h3, Startup.isExit]
  by_cases h4 : inp.badExt
  · simp [h1, h2, h3, h4, Startup.isExit]
  by_cases h5 : inp.vp_bead_size < 0
  · simp [h1, h2, h3, h4, h5, Startup.isExit]
  simp only [h1, h2, h3, h4, h5, if_false, or_self, iff_false, Bool.not_eq_true]
  split
  · rfl
  · split
    · rfl
    · split <;> split <;> rfl

/-- What `Initialize` returns when it returns. -/
theorem Initialize_ok (inp : ForceFieldInput α) (beta_in : α) (npbc_in : Int)
    (box_l_in : Vec3 α) (n_mol : Int) (mols : List (Molecule α))
    (ff : ForceField α) (est : Estimator α)
    (h : ForceField.Initialize inp beta_in npbc_in box_l_in n_mol mols = Startup.ok (ff, est)) :
    ∃ (chain_len : Int) (counts : Int × Int × Int),
      ff = (inp.forceField beta_in npbc_in box_l_in n_mol chain_len).InitializeEnergy inp.junk ∧
      est = inp.estimator box_l_in mols chain_len counts := by
  unfold ForceField.Initialize at h
  split at h
  · exact Startup.noConfusion h
  split at h
  · exact Startup.noConfusion h
  split at h
  · exact Startup.noConfusion h
  split at h
  · exact Startup.noConfusion h
  split at h
  · exact Startup.noConfusion h
  split at h
  · exact Startup.noConfusion h
  dsimp only at h
  cases hc : countSpecies mols (0, 0, 0) with
  | none =>
    rw [hc] at h
    exact Startup.noConfusion h
  | some counts =>
    rw [hc] at h
    dsimp only at h
    generalize (if inp.use_gc = true then inp.gc_chain_len else firstChainLen mols (-1)) = cl at h
    split at h
    · simp only [Startup.ok.injEq, Prod.mk.injEq] at h
      exact ⟨cl, counts, h.1.symm, h.2.symm⟩
    · exact Startup.noConfusion h

/-- The sample input passes the four name tests. -/
theorem sample_names_ok (size : α) (use_gc : Bool) (len charge trials : Int) :
    ¬ ((ForceFieldInput.sample size use_gc len charge trials).badPair ∨
       (ForceFieldInput.sample size use_gc len charge trials).badEwald ∨
       (ForceFieldInput.sample size use_gc len charge trials).badBond ∨
       (ForceFieldInput.sample size use_gc len charge trials).badExt) := by
  simp [ForceFieldInput.badPair, ForceFieldInput.badEwald, ForceFieldInput.badBond,
    ForceFieldInput.badExt, ForceFieldInput.sample]

/-- With the sample input, a positive bead size that fits the box and an empty
population, `Initialize` returns. -/
theorem sample_isOk (use_gc : Bool) (len charge trials : Int) :
    (ForceField.Initialize (ForceFieldInput.sample (1 : ℝ) use_gc len charge trials)
      1 3 ⟨10, 10, 10⟩ 0 []).isOk = true := by
  have hfl : (0 : Int) ≤ Int.floor (((1 : ℝ) / 2 * 10 - 1) / (1 * (1 / 100))) :=
    Int.floor_nonneg.mpr (by norm_num)
  have harr : ∀ cl : Int, (ForceFieldInput.sample (1 : ℝ) use_gc len charge trials).arraysDefined
      ⟨10, 10, 10⟩ cl := by
    intro cl
    refine ⟨by norm_num [ForceFieldInput.sample], ?_, ?_⟩
    · simp only [ForceFieldInput.sample]
      exact mul_nonneg (mul_nonneg hfl (by norm_num)) (mul_self_nonneg _)
    · intro h
      simp [ForceFieldInput.sample] at h
  unfold ForceField.Initialize
  have hn := sample_names_ok (1 : ℝ) use_gc len charge trials
  simp only [not_or] at hn
  rw [if_neg hn.1, if_neg hn.2.1, if_neg hn.2.2.1, if_neg hn.2.2.2,
    if_neg (by norm_num [ForceFieldInput.sample]), if_neg (by simp [ForceFieldInput.sample])]
  simp only [countSpecies]
  rw [if_pos (harr _)]
  rfl

/-- C12, the failing input: the sample configuration (recognised names, empty
population, box of edge `10`) with virial bead size `0`. `Initialize` does not
call `exit(1)`: the test of line 191 is `vp_bead_size < 0`, although the message
it prints asks for a size "bigger than zero". With the size `-1` it exits, with
the size `1` it returns. -/
theorem Initialize_zero_bead_size_not_rejected :
    (ForceField.Initialize (ForceFieldInput.sample (0 : ℝ) false 1 0 1)
      1 3 ⟨10, 10, 10⟩ 0 []).isExit = false ∧
    (ForceField.Initialize (ForceFieldInput.sample (-1 : ℝ) false 1 0 1)
      1 3 ⟨10, 10, 10⟩ 0 []).isExit = true ∧
    (ForceField.Initialize (ForceFieldInput.sample (1 : ℝ) false 1 0 1)
      1 3 ⟨10, 10, 10⟩ 0 []).isOk = true := by
  refine ⟨?_, ?_, sample_isOk false 1 0 1⟩
  · rw [Bool.eq_false_iff]
    intro h
    rcases (Initialize_isExit_iff _ _ _ _ _ _).mp h with h1 | h1
    · exact sample_names_ok _ _ _ _ _ h1
    · simp [ForceFieldInput.sample] at h1
  · exact (Initialize_isExit_iff _ _ _ _ _ _).mpr
      (Or.inr (by norm_num [ForceFieldInput.sample]))

/-- C13 as stated fails: with the sample configuration, in which the only enabled
family has the recognised name `HardSphere`, and the virial bead size `-1`,
`Initialize` terminates fatally although no enabled family has an unrecognised
name. -/
theorem Initialize_exit_without_bad_name_counterexample :
    (ForceField.Initialize (ForceFieldInput.sample (-1 : ℝ) false 1 0 1)
      1 3 ⟨10, 10, 10⟩ 0 []).isExit = true ∧
    ¬ ((ForceFieldInput.sample (-1 : ℝ) false 1 0 1).badPair ∨
       (ForceFieldInput.sample (-1 : ℝ) false 1 0 1).badEwald ∨
       (ForceFieldInput.sample (-1 : ℝ) false 1 0 1).badBond ∨
       (ForceFieldInput.sample (-1 : ℝ) false 1 0 1).badExt) :=
  ⟨(Initialize_isExit_iff _ _ _ _ _ _).mpr (Or.inr (by norm_num [ForceFieldInput.sample])),
    sample_names_ok _ _ _ _ _⟩

/-- C13, amended: for every virial bead size other than `0`, `Initialize` terminates
fatally (calls `exit(1)`) if and only if some enabled potential family is configured
with a name outside its recognised set -- pair: `TruncatedLJ`, `HardSphere`; Ewald:
`Coul`; bonded: `Spring`; external: `TruncatedLJWall`, `HardWall`, `WellWall`; names
compared exactly -- or the virial bead size is not positive. The size `0` is left
out of the statement. The name of a disabled family is not consulted: replacing it
changes nothing in the outcome, whatever the size. -/
theorem Initialize_exit_iff_names (inp : ForceFieldInput α) (beta_in : α) (npbc_in : Int)
    (box_l_in : Vec3 α) (n_mol : Int) (mols : List (Molecule α)) :
    (inp.vp_bead_size ≠ 0 →
      ((ForceField.Initialize inp beta_in npbc_in box_l_in n_mol mols).isExit = true ↔
        ((inp.use_pair_pot = true ∧
            ¬ (inp.pair_name = "TruncatedLJ" ∨ inp.pair_name = "HardSphere")) ∨
          (inp.use_ewald_pot = true ∧ ¬ (inp.ewald_name = "Coul")) ∨
          (inp.use_bond_pot = true ∧ ¬ (inp.bond_name = "Spring")) ∨
          (inp.use_ext_pot = true ∧
            ¬ (inp.ext_name = "TruncatedLJWall" ∨ inp.ext_name = "HardWall"
              ∨ inp.ext_name = "WellWall"))) ∨
        inp.vp_bead_size ≤ 0)) ∧
    (inp.use_pair_pot = false → ∀ name : String,
      ForceField.Initialize { inp with pair_name := name } beta_in npbc_in box_l_in n_mol mols
        = ForceField.Initialize inp beta_in npbc_in box_l_in n_mol mols) ∧
    (inp.use_ewald_pot = false → ∀ name : String,
      ForceField.Initialize { inp with ewald_name := name } beta_in npbc_in box_l_in n_mol mols
        = ForceField.Initialize inp beta_in npbc_in box_l_in n_mol mols) ∧
    (inp.use_bond_pot = false → ∀ name : String,
      ForceField.Initialize { inp with bond_name := name } beta_in npbc_in box_l_in n_mol mols
        = ForceField.Initialize inp beta_in npbc_in box_l_in n_mol mols) ∧
    (inp.use_ext_pot = false → ∀ name : String,
      ForceField.Initialize { inp with ext_name := name } beta_in npbc_in box_l_in n_mol mols
        = ForceField.Initialize inp beta_in npbc_in box_l_in n_mol mols) := by
  refine ⟨?_, ?_, ?_, ?_, ?_⟩
  · intro hsize
    have hlt : inp.vp_bead_size < 0 ↔ inp.vp_bead_size ≤ 0 :=
      ⟨le_of_lt, fun hle => lt_of_le_of_ne hle hsize⟩
    rw [← hlt]
    exact Initialize_isExit_iff inp beta_in npbc_in box_l_in n_mol mols
  · intro h name
    unfold ForceField.Initialize
    simp [ForceFieldInput.badPair, ForceFieldInput.badEwald, ForceFieldInput.badBond,
      ForceFieldInput.badExt, h]
  · intro h name
    unfold ForceField.Initialize
    simp [ForceFieldInput.badPair, ForceFieldInput.badEwald, ForceFieldInput.badBond,
      ForceFieldInput.badExt, ForceFieldInput.arraysDefined, ForceFieldInput.forceField,
      ForceFieldInput.estimator, h]
  · intro h name
    unfold ForceField.Initialize
    simp [ForceFieldInput.badPair, ForceFieldInput.badEwald, ForceFieldInput.badBond,
      ForceFieldInput.badExt, ForceFieldInput.arraysDefined, ForceFieldInput.forceField,
      ForceFieldInput.estimator, h]
  · intro h name
    unfold ForceField.Initialize
    simp [ForceFieldInput.badPair, ForceFieldInput.badEwald, ForceFieldInput.badBond,
      ForceFieldInput.badExt, ForceFieldInput.arraysDefined, ForceFieldInput.forceField,
      ForceFieldInput.estimator, h]

/-- C13 amended, concrete instances over the reals, all with a bead size other than
`0`: with the external family disabled the name `hardwall` in its place changes
nothing; with the external family enabled the same name, which differs from
`HardWall` in case only, is fatal; with recognised names the size `-1` is fatal and
the size `1` is not. -/
theorem Initialize_exit_iff_names_witness :
    ForceField.Initialize
        { ForceFieldInput.sample (1 : ℝ) false 1 0 1 with ext_name := "hardwall" }
        1 3 ⟨10, 10, 10⟩ 0 []
      = ForceField.Initialize (ForceFieldInput.sample (1 : ℝ) false 1 0 1)
        1 3 ⟨10, 10, 10⟩ 0 [] ∧
    (ForceField.Initialize
        { ForceFieldInput.sample (1 : ℝ) false 1 0 1 with
            use_ext_pot := true, ext_name := "hardwall" }
        1 3 ⟨10, 10, 10⟩ 0 []).isExit = true ∧
    (ForceField.Initialize (ForceFieldInput.sample (-1 : ℝ) false 1 0 1)
        1 3 ⟨10, 10, 10⟩ 0 []).isExit = true ∧
    ¬ ((ForceField.Initialize (ForceFieldInput.sample (1 : ℝ) false 1 0 1)
        1 3 ⟨10, 10, 10⟩ 0 []).isExit = true) :=
  ⟨(Initialize_exit_iff_names (ForceFieldInput.sample (1 : ℝ) false 1 0 1)
      1 3 ⟨10, 10, 10⟩ 0 []).2.2.2.2 rfl "hardwall",
   ((Initialize_exit_iff_names
      { ForceFieldInput.sample (1 : ℝ) false 1 0 1 with
          use_ext_pot := true, ext_name := "hardwall" }
      1 3 ⟨10, 10, 10⟩ 0 []).1 (by norm_num [ForceFieldInput.sample])).mpr
      (Or.inl (Or.inr (Or.inr (Or.inr ⟨rfl, by simp [ForceFieldInput.sample]⟩)))),
   ((Initialize_exit_iff_names (ForceFieldInput.sample (-1 : ℝ) false 1 0 1)
      1 3 ⟨10, 10, 10⟩ 0 []).1 (by norm_num [ForceFieldInput.sample])).mpr
      (Or.inr (by norm_num [ForceFieldInput.sample])),
   fun h =>
     (((Initialize_exit_iff_names (ForceFieldInput.sample (1 : ℝ) false 1 0 1)
        1 3 ⟨10, 10, 10⟩ 0 []).1 (by norm_num [ForceFieldInput.sample])).mp h).elim
       (fun hn => by simp [ForceFieldInput.sample] at hn)
       (fun hs => by norm_num [ForceFieldInput.sample] at hs)⟩

/-- C14 as stated fails: with grand-canonical mode enabled, chain length `0` and
trial count `0` in an otherwise valid configuration, `Initialize` does not
terminate fatally: it returns. -/
theorem Initialize_zero_chain_counterexample :
    (ForceFieldInput.sample (1 : ℝ) true 0 0 0).use_gc = true ∧
    (ForceFieldInput.sample (1 : ℝ) true 0 0 0).gc_chain_len = 0 ∧
    (ForceFieldInput.sample (1 : ℝ) true 0 0 0).cbmc_no_of_trials = 0 ∧
    (ForceField.Initialize (ForceFieldInput.sample (1 : ℝ) true 0 0 0)
      1 3 ⟨10, 10, 10⟩ 0 []).isOk = true ∧
    (ForceField.Initialize (ForceFieldInput.sample (1 : ℝ) true 0 0 0)
      1 3 ⟨10, 10, 10⟩ 0 []).isExit = false := by
  refine ⟨rfl, rfl, rfl, sample_isOk true 0 0 0, ?_⟩
  rw [Bool.eq_false_iff]
  intro h
  rcases (Initialize_isExit_iff _ _ _ _ _ _).mp h with h1 | h1
  · exact sample_names_ok _ _ _ _ _ h1
  · norm_num [ForceFieldInput.sample] at h1

/-- C14, amended: initialisation performs no check of the configured chain length
or CBMC trial count. Whether `Initialize` terminates fatally does not depend on
them; when it returns in grand-canonical mode, the force field carries the
configured values unchanged, and for a configured chain length of zero the trial
chain is empty, so that every `CBMCChainInsertion` indexes outside it (no
result). -/
theorem Initialize_gc_sizes_unchecked (inp : ForceFieldInput α) (beta_in : α)
    (npbc_in : Int) (box_l_in : Vec3 α) (n_mol : Int) (mols : List (Molecule α)) :
    (∀ len trials : Int,
      (ForceField.Initialize { inp with gc_chain_len := len, cbmc_no_of_trials := trials }
          beta_in npbc_in box_l_in n_mol mols).isExit
        = (ForceField.Initialize inp beta_in npbc_in box_l_in n_mol mols).isExit) ∧
    (∀ (ff : ForceField α) (est : Estimator α),
      ForceField.Initialize inp beta_in npbc_in box_l_in n_mol mols = Startup.ok (ff, est) →
      inp.use_gc = true →
      ff.gc_chain_len = inp.gc_chain_len ∧ ff.cbmc_no_of_trials = inp.cbmc_no_of_trials ∧
      (inp.gc_chain_len = 0 →
        ff.cbmc_chain = [] ∧
        ∀ (env : Env α) (pop : List (Molecule α)) (g : Rng),
          ff.CBMCChainInsertion env pop g = none)) := by
  constructor
  · intro len trials
    rw [Bool.eq_iff_iff, Initialize_isExit_iff, Initialize_isExit_iff]
    simp [ForceFieldInput.badPair, ForceFieldInput.badEwald, ForceFieldInput.badBond,
      ForceFieldInput.badExt]
  · intro ff est h hgc
    obtain ⟨cl, counts, hff, _⟩ := Initialize_ok _ _ _ _ _ _ _ _ h
    subst hff
    refine ⟨by simp [ForceField.InitializeEnergy, ForceFieldInput.forceField, hgc],
      by simp [ForceField.InitializeEnergy, ForceFieldInput.forceField, hgc], ?_⟩
    intro h0
    have hch : ((inp.forceField beta_in npbc_in box_l_in n_mol cl).InitializeEnergy
        inp.junk).cbmc_chain = [] := by
      simp [ForceField.InitializeEnergy, ForceFieldInput.forceField, hgc, h0]
    refine ⟨hch, ?_⟩
    intro env pop g
    unfold ForceField.CBMCChainInsertion
    simp [hch]

/-- C14 amended, a concrete instance over the reals: the sample configuration in
grand-canonical mode with chain length `0` and trial count `0`; `Initialize`
returns a force field on which `CBMCChainInsertion` has no result. -/
theorem Initialize_gc_sizes_unchecked_witness :
    ∃ (ff : ForceField ℝ) (est : Estimator ℝ),
      ForceField.Initialize (ForceFieldInput.sample (1 : ℝ) true 0 0 0)
        1 3 ⟨10, 10, 10⟩ 0 [] = Startup.ok (ff, est) ∧
      ff.cbmc_chain = [] ∧
      ff.CBMCChainInsertion
        (Env.ofLibm Real.exp Real.sqrt (10000000000 : ℝ) (2 ^ ((1 : ℝ) / 6))) []
        (Rng.const 0) = none := by
  have hok := sample_isOk true 0 0 0
  cases hres : ForceField.Initialize (ForceFieldInput.sample (1 : ℝ) true 0 0 0)
      1 3 ⟨10, 10, 10⟩ 0 [] with
  | ok v =>
    obtain ⟨ff, est⟩ := v
    have h := (Initialize_gc_sizes_unchecked (ForceFieldInput.sample (1 : ℝ) true 0 0 0)
      1 3 ⟨10, 10, 10⟩ 0 []).2 ff est hres rfl
    exact ⟨ff, est, rfl, (h.2.2 rfl).1, (h.2.2 rfl).2 _ _ _⟩
  | exit msg => rw [hres] at hok; exact absurd hok (by simp [Startup.isOk])
  | fault => rw [hres] at hok; exact absurd hok (by simp [Startup.isOk])

end InitializeTheorems

/-! ## Theorems: the start-up checks of the simulation -/

section StartupTheorems

variable {α : Type} [LinearOrderedField α] [FloorRing α]

/-- The sum of lines 138-141 over five move probabilities. -/
theorem sumMoveProb_five (p0 p1 p2 p3 p4 : α) :
    sumMoveProb [p0, p1, p2, p3, p4] 5 0 0 = some (p0 + p1 + p2 + p3 + p4) := by
  simp [sumMoveProb]

/-- C15: with five move probabilities, the start-up checks of the constructor
terminate fatally whenever the probabilities do not sum to `1` within
`kMedSmallNumber`, or the crankshaft probability is positive with rigid bonds
enabled, or the reptation probability is positive with rigid bonds disabled, or
the chemical-potential calculation is requested in grand-canonical mode; and,
given `beta > 0` and `2 <= npbc <= 3`, they terminate in those cases only and
return otherwise. -/
theorem startupChecks_exit_iff (kMedSmallNumber : α) (s : Simulation α)
    (p0 p1 p2 p3 p4 : α) (hmp : s.move_prob = [p0, p1, p2, p3, p4]) :
    ((|p0 + p1 + p2 + p3 + p4 - 1| > kMedSmallNumber ∨
        (p3 > 0 ∧ s.force_field.use_bond_rigid = true) ∨
        (p4 > 0 ∧ s.force_field.use_bond_rigid = false) ∨
        (s.calc_chem_pot = true ∧ s.force_field.use_gc = true)) →
      (s.startupChecks kMedSmallNumber 5).isExit = true) ∧
    (0 < s.beta → 2 ≤ s.npbc → s.npbc ≤ 3 →
      ((s.startupChecks kMedSmallNumber 5).isExit = true ↔
        (|p0 + p1 + p2 + p3 + p4 - 1| > kMedSmallNumber ∨
          (p3 > 0 ∧ s.force_field.use_bond_rigid = true) ∨
          (p4 > 0 ∧ s.force_field.use_bond_rigid = false) ∨
          (s.calc_chem_pot = true ∧ s.force_field.use_gc = true))) ∧
      ((s.startupChecks kMedSmallNumber 5).isExit = false →
        s.startupChecks kMedSmallNumber 5 = Startup.ok ())) := by
  have key : ¬ s.beta ≤ 0 → ¬ (s.npbc > 3 ∨ s.npbc < 2) →
      s.startupChecks kMedSmallNumber 5 =
        if |p0 + p1 + p2 + p3 + p4 - 1| > kMedSmallNumber then
          Startup.exit "MC move probabilities do not sum up to 1.0. Exiting! Program complete."
        else if p3 > 0 ∧ s.force_field.use_bond_rigid = true then
          Startup.exit "The current crankshaft MC move and rigid bond cannot be used at the same time. Exiting! Program complete."
        else if p4 > 0 ∧ ¬ (s.force_field.use_bond_rigid = true) then
          Startup.exit "The current reptation MC move and rigid bond have to be used at the same time. Exiting! Program complete."
        else if s.calc_chem_pot = true ∧ s.force_field.use_gc = true then
          Startup.exit "ERROR: Chemical potential cannot be calculate when GCMC is used. Exiting. Program complete."
        else Startup.ok () := by
    intro hb hn
    unfold Simulation.startupChecks
    rw [if_neg hb, if_neg hn, hmp, sumMoveProb_five]
    rfl
  have hiff : ¬ s.beta ≤ 0 → ¬ (s.npbc > 3 ∨ s.npbc < 2) →
      ((s.startupChecks kMedSmallNumber 5).isExit = true ↔
        (|p0 + p1 + p2 + p3 + p4 - 1| > kMedSmallNumber ∨
          (p3 > 0 ∧ s.force_field.use_bond_rigid = true) ∨
          (p4 > 0 ∧ s.force_field.use_bond_rigid = false) ∨
          (s.calc_chem_pot = true ∧ s.force_field.use_gc = true))) := by
    intro hb hn
    rw [key hb hn]
    by_cases c1 : |p0 + p1 + p2 + p3 + p4 - 1| > kMedSmallNumber
    · simp [c1, Startup.isExit]
    by_cases c2 : p3 > 0 ∧ s.force_field.use_bond_rigid = true
    · simp [c1, c2, Startup.isExit]
    by_cases c3 : p4 > 0 ∧ ¬ (s.force_field.use_bond_rigid = true)
    · rw [if_neg c1, if_neg c2, if_pos c3]
      simp only [Startup.isExit, true_iff]
      exact Or.inr (Or.inr (Or.inl ⟨c3.1, by simpa using c3.2⟩))
    by_cases c4 : s.calc_chem_pot = true ∧ s.force_field.use_gc = true
    · rw [if_neg c1, if_neg c2, if_neg c3, if_pos c4]
      simp only [Startup.isExit, true_iff]
      exact Or.inr (Or.inr (Or.inr c4))
    rw [if_neg c1, if_neg c2, if_neg c3, if_neg c4]
    simp only [Startup.isExit, Bool.false_eq_true, false_iff, not_or]
    exact ⟨c1, c2, fun h => c3 ⟨h.1, by simp [h.2]⟩, c4⟩
  constructor
  · intro h
    by_cases hb : s.beta ≤ 0
    · unfold Simulation.startupChecks
      rw [if_pos hb]
      rfl
    by_cases hn : s.npbc > 3 ∨ s.npbc < 2
    · unfold Simulation.startupChecks
      rw [if_neg hb, if_pos hn]
      rfl
    exact (hiff hb hn).mpr h
  · intro hb h2 h3
    have hb' : ¬ s.beta ≤ 0 := not_le.mpr hb
    have hn' : ¬ (s.npbc > 3 ∨ s.npbc < 2) := by omega
    refine ⟨hiff hb' hn', ?_⟩
    intro hne
    rw [key hb' hn'] at hne ⊢
    split_ifs at hne ⊢ <;> first | rfl | (simp [Startup.isExit] at hne)

/-- C15, a concrete instance over the reals: move probabilities
`1/2, 1/2, 0, 0, 0` with `kMedSmallNumber = 1/1000000` pass the checks, and the
same state with the chemical-potential calculation requested in grand-canonical
mode is rejected. -/
theorem startupChecks_exit_iff_witness :
    (Simulation.sample [1 / 2, 1 / 2, 0, 0, 0] [] 0 false
        (ForceField.plain (1 : ℝ) 1 0 1) (Rng.const 0)).startupChecks (1 / 1000000) 5
      = Startup.ok () ∧
    ((Simulation.sample [1 / 2, 1 / 2, 0, 0, 0] [] 0 true
        (ForceField.plain (1 : ℝ) 1 0 1) (Rng.const 0)).startupChecks (1 / 1000000) 5).isExit
      = true := by
  constructor
  · have h := (startupChecks_exit_iff (1 / 1000000 : ℝ)
      (Simulation.sample [1 / 2, 1 / 2, 0, 0, 0] [] 0 false
        (ForceField.plain (1 : ℝ) 1 0 1) (Rng.const 0))
      (1 / 2) (1 / 2) 0 0 0 rfl).2
      (by norm_num [Simulation.sample]) (by norm_num [Simulation.sample])
      (by norm_num [Simulation.sample])
    apply h.2
    rw [Bool.eq_false_iff]
    intro hex
    have := h.1.mp hex
    norm_num [Simulation.sample, ForceField.plain] at this
  · exact (startupChecks_exit_iff (1 / 1000000 : ℝ)
      (Simulation.sample [1 / 2, 1 / 2, 0, 0, 0] [] 0 true
        (ForceField.plain (1 : ℝ) 1 0 1) (Rng.const 0))
      (1 / 2) (1 / 2) 0 0 0 rfl).1
      (Or.inr (Or.inr (Or.inr ⟨rfl, rfl⟩)))

end StartupTheorems

/-! ## Theorems: the Metropolis decision of the translational move -/

section MetropolisTheorems

variable {α : Type} [LinearOrderedField α] [FloorRing α]

/-- A molecule written into the population is read back at the same index. -/
theorem getAt_setMol (mols mols1 : List (Molecule α)) (mol_id : Int) (m : Molecule α)
    (h : setMol mols mol_id m = some mols1) : getAt mols1 mol_id = some m := by
  unfold setMol setAt at h
  split at h
  · rename_i h0
    split at h
    · rename_i hlt
      simp only [Option.some.injEq] at h
      subst h
      simp [getAt, h0, hlt]
    · exact absurd h (by simp)
  · exact absurd h (by simp)

/-- The accept flag of lines 318-324: the move is accepted exactly when the energy
difference is below the sentinel and the uniform draw is below the Boltzmann
factor. -/
theorem metropolis_accept_iff (env : Env α) (s : Simulation α) (dE : α) :
    (s.metropolis env dE).1 = true ↔
      (dE < env.kVeryLargeEnergy ∧
        (Rng.uniform s.rand_gen : α × Rng).1 < env.exp (-s.beta * dE)) := by
  unfold Simulation.metropolis
  by_cases h : dE ≥ env.kVeryLargeEnergy
  · simp only [h, if_true, Bool.false_eq_true, false_iff, not_and]
    intro h1
    exact absurd h (not_le.mpr h1)
  · simp only [h, if_false, decide_eq_true_eq, iff_and_self]
    intro _
    exact not_le.mp h

/-- The coordinates of a bead after the decision: both snapshots agree; they hold
the proposed (trial) position after an acceptance and the current position after a
rejection. -/
theorem settleBead_coords (accept : Bool) (b : Bead α) :
    (settleBead accept b).t_crd = (settleBead accept b).c_crd ∧
    (accept = true → (settleBead accept b).c_crd = b.t_crd) ∧
    (accept = false → (settleBead accept b).c_crd = b.c_crd) := by
  cases accept <;>
    simp [settleBead, Bead.UpdateCurrentPos, Bead.UpdateTrialPos, Bead.UnsetMoved]

/-- What lines 317-341 do to the state. -/
theorem decide_some (env : Env α) (s s2 : Simulation α) (mol_id move_type : Int)
    (h : s.decide env mol_id move_type = some s2) :
    ∃ m : Molecule α, getAt s.mols mol_id = some m ∧
      s2.finalized = s.finalized ++
        [((s.metropolis env (s.force_field.EnergyDifference env s.mols mol_id)).1, mol_id)] ∧
      getAt s2.mols mol_id = some
        { m with
          bds := m.bds.map (settleBead
            (s.metropolis env (s.force_field.EnergyDifference env s.mols mol_id)).1) } := by
  unfold Simulation.decide at h
  dsimp only at h
  split at h
  · exact absurd h (by simp)
  · rename_i m hm
    split at h
    · exact absurd h (by simp)
    · rename_i mols1 hset
      have hget := getAt_setMol _ _ _ _ hset
      split at h
      · split at h
        · exact absurd h (by simp)
        · simp only [Option.some.injEq] at h
          subst h
          exact ⟨m, hm, rfl, hget⟩
      · simp only [Option.some.injEq] at h
        subst h
        exact ⟨m, hm, rfl, hget⟩

/-- The molecule the dispatch leaves at the index it reports comes from the
molecule that was there by at most one move method. -/
theorem moveMolecule_some (mv : Moves α) (s : Simulation α)
    (move_type single_id chain_id : Int) (g g1 : Rng) (mol_id : Int)
    (mols1 : List (Molecule α)) (m : Molecule α)
    (h : s.moveMolecule mv move_type single_id chain_id g = some (mol_id, mols1, g1))
    (hm : getAt mols1 mol_id = some m) :
    ∃ m0 : Molecule α, getAt s.mols mol_id = some m0 ∧
      (mv.keepsCurrent → m.bds.map Bead.c_crd = m0.bds.map Bead.c_crd) := by
  unfold Simulation.moveMolecule at h
  by_cases hc : move_type = 0 ∧ s.n_mol - s.n_chain > 0
  · rw [if_pos hc] at h
    dsimp only at h
    split at h
    · exact absurd h (by simp)
    · split at h
      · exact absurd h (by simp)
      · rename_i m0 hm0
        split at h
        · exact absurd h (by simp)
        · rename_i mols2 hset
          simp only [Option.some.injEq, Prod.mk.injEq] at h
          obtain ⟨rfl, rfl, rfl⟩ := h
          have hget := getAt_setMol _ _ _ _ hset
          rw [hget] at hm
          simp only [Option.some.injEq] at hm
          subst hm
          exact ⟨m0, hm0, fun hk => (hk m0 s.move_size 0 s.box_l g).1⟩
  · rw [if_neg hc] at h
    by_cases hn : s.n_chain > 0
    · rw [if_pos hn] at h
      dsimp only at h
      split at h
      · exact absurd h (by simp)
      · split at h
        · exact absurd h (by simp)
        · rename_i m0 hm0
          generalize hr : (if move_type = 1 then mv.COMTranslate m0 s.move_size g
            else if move_type = 2 then mv.Pivot m0 s.move_size g s.force_field.rigid_bond
            else if move_type = 3 then mv.Crankshaft m0 s.move_size g
            else if move_type = 4 then mv.RandomReptation m0 g s.force_field.rigid_bond
            else (m0, g)) = r at h
          have hcur : mv.keepsCurrent → r.1.bds.map Bead.c_crd = m0.bds.map Bead.c_crd := by
            intro hk
            have hk1 := hk m0 s.move_size s.force_field.rigid_bond s.box_l g
            rw [← hr]
            split_ifs
            · exact hk1.2.1
            · exact hk1.2.2.1
            · exact hk1.2.2.2.1
            · exact hk1.2.2.2.2
            · rfl
          split at h
          · exact absurd h (by simp)
          · rename_i mols2 hset
            simp only [Option.some.injEq, Prod.mk.injEq] at h
            obtain ⟨rfl, rfl, rfl⟩ := h
            have hget := getAt_setMol _ _ _ _ hset
            rw [hget] at hm
            simp only [Option.some.injEq] at hm
            subst hm
            exact ⟨m0, hm0, hcur⟩
    · rw [if_neg hn] at h
      simp only [Option.some.injEq, Prod.mk.injEq] at h
      obtain ⟨rfl, rfl, rfl⟩ := h
      simp [getAt] at hm

/-- The proposal calls no `FinalizeEnergies`, keeps the force field and the
temperature, and the molecule it leaves at the chosen index comes from the molecule
that was there by at most one move method. -/
theorem propose_some (mv : Moves α) (kNoMoveType : Nat) (s s1 : Simulation α)
    (mol_id move_type : Int) (m : Molecule α)
    (h : s.propose mv kNoMoveType = some (mol_id, move_type, s1))
    (hm : getAt s1.mols mol_id = some m) :
    s1.finalized = s.finalized ∧ s1.force_field = s.force_field ∧ s1.beta = s.beta ∧
    ∃ m0 : Molecule α, getAt s.mols mol_id = some m0 ∧
      (mv.keepsCurrent → m.bds.map Bead.c_crd = m0.bds.map Bead.c_crd) := by
  unfold Simulation.propose at h
  dsimp only at h
  split at h
  · exact absurd h (by simp)
  · rename_i walked _
    split at h
    · exact absurd h (by simp)
    · rename_i id1 mols1 g1 hmoved
      split at h
      · exact absurd h (by simp)
      · rename_i attempted1 _
        simp only [Option.some.injEq, Prod.mk.injEq] at h
        obtain ⟨rfl, rfl, rfl⟩ := h
        exact ⟨rfl, rfl, rfl, moveMolecule_some mv s _ _ _ _ _ _ _ m hmoved hm⟩

/-- C20: whenever `TranslationalMove` completes a step on a non-empty system, with
`mol_id` the molecule chosen by the proposal, `dE` the energy difference
`EnergyDifference(mols, mol_id)` and `u` the uniform draw: the accept flag is
`true` if and only if `dE < kVeryLargeEnergy` and `u < exp(-beta*dE)`;
`FinalizeEnergies` was called once, with that flag and that molecule; and every
bead of the moved molecule ends with its trial coordinates equal to its current
coordinates, both equal to the proposed (trial) position if the move was accepted
and both equal to the current position of before the decision if it was rejected,
which is the position of before the move since the proposals write trial
coordinates only. -/
theorem TranslationalMove_metropolis (env : Env α) (mv : Moves α) (kNoMoveType : Nat)
    (s s2 : Simulation α) (hn : s.n_mol > 0)
    (h : s.TranslationalMove env mv kNoMoveType = some s2) :
    ∃ (mol_id move_type : Int) (s1 : Simulation α) (m m0 : Molecule α) (accept : Bool),
      s.propose mv kNoMoveType = some (mol_id, move_type, s1) ∧
      getAt s.mols mol_id = some m0 ∧ getAt s1.mols mol_id = some m ∧
      (accept = true ↔
        (s.force_field.EnergyDifference env s1.mols mol_id < env.kVeryLargeEnergy ∧
          (Rng.uniform s1.rand_gen : α × Rng).1
            < env.exp (-s.beta * s.force_field.EnergyDifference env s1.mols mol_id))) ∧
      s2.finalized = s.finalized ++ [(accept, mol_id)] ∧
      getAt s2.mols mol_id = some { m with bds := m.bds.map (settleBead accept) } ∧
      (∀ b ∈ m.bds,
        (settleBead accept b).t_crd = (settleBead accept b).c_crd ∧
        (accept = true → (settleBead accept b).c_crd = b.t_crd) ∧
        (accept = false → (settleBead accept b).c_crd = b.c_crd)) ∧
      (mv.keepsCurrent → m.bds.map Bead.c_crd = m0.bds.map Bead.c_crd) := by
  unfold Simulation.TranslationalMove at h
  rw [if_pos hn] at h
  split at h
  · exact absurd h (by simp)
  · rename_i mol_id move_type s1 hprop
    obtain ⟨m, hm, hfin, hget⟩ := decide_some env s1 s2 mol_id move_type h
    obtain ⟨hf, hff, hbeta, m0, hm0, hcur⟩ := propose_some mv kNoMoveType s s1 _ _ m hprop hm
    refine ⟨mol_id, move_type, s1, m, m0,
      (s1.metropolis env (s1.force_field.EnergyDifference env s1.mols mol_id)).1,
      hprop, hm0, hm, ?_, ?_, hget, fun b _ => settleBead_coords _ b, hcur⟩
    · rw [metropolis_accept_iff, hff, hbeta]
    · rw [hfin, hf]

/-- Witness for C20: one single-bead molecule at `(1, 2, 3)`, only bead translations
enabled, every draw `0`, no potential family enabled; the step completes, so the
hypotheses of `TranslationalMove_metropolis` hold, and the step made one call of
`FinalizeEnergies` and left trial and current coordinates equal. -/
theorem TranslationalMove_metropolis_witness :
    ∃ (s2 : Simulation ℝ) (accept : Bool) (mol_id : Int) (m : Molecule ℝ),
      (Simulation.sample [1, 0, 0, 0, 0]
          [{ bds := [Bead.placed "A" 0 (1 : ℝ) 2 3], bonds := [] }] 0 false
          (ForceField.plain (10 : ℝ) 1 0 1) (Rng.const 0)).TranslationalMove
        (Env.ofLibm Real.exp Real.sqrt (10000000000 : ℝ) (2 ^ ((1 : ℝ) / 6)))
        Moves.shift 5 = some s2 ∧
      s2.finalized = [(accept, mol_id)] ∧
      getAt s2.mols mol_id = some { m with bds := m.bds.map (settleBead accept) } ∧
      ∀ b ∈ m.bds, (settleBead accept b).t_crd = (settleBead accept b).c_crd := by
  have hrun : ∃ s2 : Simulation ℝ,
      (Simulation.sample [1, 0, 0, 0, 0]
          [{ bds := [Bead.placed "A" 0 (1 : ℝ) 2 3], bonds := [] }] 0 false
          (ForceField.plain (10 : ℝ) 1 0 1) (Rng.const 0)).TranslationalMove
        (Env.ofLibm Real.exp Real.sqrt (10000000000 : ℝ) (2 ^ ((1 : ℝ) / 6)))
        Moves.shift 5 = some s2 := by
    norm_num [Simulation.TranslationalMove, Simulation.propose, Simulation.moveMolecule,
      Simulation.decide, Simulation.metropolis, Simulation.sample, Moves.shift,
      ForceField.EnergyDifference, ForceField.plain, Rng.uniform, Rng.next, Rng.const,
      rosenbluthSelect, selectWalk, findMol, truncToInt, getAt, setAt, setMol, bump,
      Molecule.Size, Env.ofLibm]
  obtain ⟨s2, h⟩ := hrun
  obtain ⟨mol_id, _, _, m, _, accept, _, _, _, _, hfin, hget, hcrd, _⟩ :=
    TranslationalMove_metropolis _ _ _ _ s2 (by norm_num [Simulation.sample]) h
  exact ⟨s2, accept, mol_id, m, h, by simpa [Simulation.sample] using hfin, hget,
    fun b hb => (hcrd b hb).1⟩

end MetropolisTheorems

/-! ## Theorems: the chemical-potential estimator -/

section ChemicalPotentialTheorems

variable {α : Type} [LinearOrderedField α]

/-- The Rosenbluth sum returned by the trial loop is the sum of the trial weights it
wrote; the loop writes the entries `i, ..., i+n-1` of the weight buffer only. -/
theorem genTrials_sum (env : Env α) (end_bead : Bead α) (mols : List (Molecule α))
    (current_len delete_id type : Int) (n : Nat) :
    ∀ (i : Nat) (ff : ForceField α) (g : Rng) (Wi : α) (r : α × ForceField α × Rng),
      ForceField.genTrials env end_bead mols current_len delete_id type n i ff g Wi = some r →
      r.2.1.cbmc_trial_weights.length = ff.cbmc_trial_weights.length ∧
      (∀ j, j < i → r.2.1.cbmc_trial_weights[j]? = ff.cbmc_trial_weights[j]?) ∧
      (0 < n → i + n ≤ ff.cbmc_trial_weights.length) ∧
      r.1 = Wi + ((r.2.1.cbmc_trial_weights.drop i).take n).sum := by
  induction n with
  | zero =>
    intro i ff g Wi r h
    simp only [ForceField.genTrials, Option.some.injEq] at h
    subst h
    simp
  | succ n ih =>
    intro i ff g Wi r h
    simp only [ForceField.genTrials] at h
    split at h
    · exact absurd h (by simp)
    · split at h
      · exact absurd h (by simp)
      · split at h
        · exact absurd h (by simp)
        · rename_i ws hset
          obtain ⟨h1, h2, h3, h4⟩ := ih _ _ _ _ _ h
          simp only [setAt, withTrialBeads_cbmc_trial_weights] at hset
          split at hset
          · rename_i hi
            simp only [Option.some.injEq] at hset
            subst hset
            simp only [withWeights_cbmc_trial_weights, List.length_set] at h1 h2 h3
            have hi1 : i < r.2.1.cbmc_trial_weights.length := by omega
            have hwi := h2 i (Nat.lt_succ_self i)
            rw [List.getElem?_set_self hi] at hwi
            have hv := (List.getElem?_eq_some_iff.mp hwi).2
            refine ⟨h1, ?_, fun _ => by omega, ?_⟩
            · intro j hj
              rw [h2 j (Nat.lt_succ_of_lt hj), List.getElem?_set_ne (Nat.ne_of_gt hj)]
            · rw [h4, List.drop_eq_getElem_cons hi1, List.take_succ_cons, List.sum_cons, hv]
              ring
          · exact absurd hset (by simp)

/-- The parameters read by the estimator are not scratch buffers. -/
theorem scratchOnly_params {ff ff1 : ForceField α} (h : ff.scratchOnly ff1) :
    ff1.beta = ff.beta ∧ ff1.vol = ff.vol ∧
    ff1.gc_deBroglie_prefactor = ff.gc_deBroglie_prefactor ∧
    ff1.cbmc_no_of_trials = ff.cbmc_no_of_trials ∧ ff1.gc_chain_len = ff.gc_chain_len ∧
    ff1.use_pair_pot = ff.use_pair_pot ∧ ff1.use_ext_pot = ff.use_ext_pot := by
  obtain ⟨w, tb, ch, rfl⟩ := h
  exact ⟨rfl, rfl, rfl, rfl, rfl, rfl, rfl⟩

/-- The growth loop of the estimator multiplies the weight, for each bead grown, by
the sum of the recorded trial weights over the number of trials; it writes scratch
buffers only. -/
theorem chemGrow_weight (env : Env α) (mols : List (Molecule α)) (n : Nat) :
    ∀ (i : Nat) (ff : ForceField α) (g : Rng) (weight : α) (log : List (List α))
      (r : α × List (List α) × ForceField α × Rng),
      ForceField.chemGrow env mols n i ff g weight log = some r →
      ff.scratchOnly r.2.2.1 ∧
      ∃ new : List (List α), r.2.1 = log ++ new ∧ new.length = n ∧
        (∀ ws ∈ new, ws.length = ff.cbmc_no_of_trials.toNat) ∧
        r.1 = weight * (new.map (fun ws => ws.sum / (ff.cbmc_no_of_trials : α))).prod := by
  induction n with
  | zero =>
    intro i ff g weight log r h
    simp only [ForceField.chemGrow, Option.some.injEq] at h
    subst h
    exact ⟨scratchOnly_refl ff, [], by simp⟩
  | succ n ih =>
    intro i ff g weight log r h
    simp only [ForceField.chemGrow] at h
    split at h
    · exact absurd h (by simp)
    · split at h
      · exact absurd h (by simp)
      · rename_i Wi ff1 g1 hgen
        split at h
        · exact absurd h (by simp)
        · split at h
          · exact absurd h (by simp)
          · split at h
            · exact absurd h (by simp)
            · have hs1 := (genTrials_scratchOnly env _ mols _ _ _ _ _ _ _ _ _ hgen).1
              obtain ⟨hl, _, hb, hsum⟩ := genTrials_sum env _ mols _ _ _ _ _ _ _ _ _ hgen
              have hT : ff1.cbmc_no_of_trials = ff.cbmc_no_of_trials :=
                (scratchOnly_params hs1).2.2.2.1
              obtain ⟨hs2, new, hlog, hlen, hws, hw⟩ := ih _ _ _ _ _ _ h
              simp only [withChain_cbmc_no_of_trials, hT] at hlog hws hw
              simp only [List.drop_zero, zero_add] at hsum hb
              refine ⟨scratchOnly_trans hs1 (scratchOnly_trans (scratchOnly_withChain _ _) hs2),
                (ff1.cbmc_trial_weights.take ff.cbmc_no_of_trials.toNat) :: new, ?_, ?_, ?_, ?_⟩
              · rw [hlog, List.append_assoc, List.singleton_append]
              · simp [hlen]
              · intro ws hmem
                rcases List.mem_cons.mp hmem with rfl | hmem
                · rw [List.length_take, hl]
                  by_cases h0 : 0 < ff.cbmc_no_of_trials.toNat
                  · exact min_eq_left (hb h0)
                  · have h00 : ff.cbmc_no_of_trials.toNat = 0 := by omega
                    simp [h00]
                · exact hws ws hmem
              · rw [hw, hsum, List.map_cons, List.prod_cons]
                ring

/-- Without a pair family the loop over the beads of a molecule adds nothing. -/
theorem beadVsMolecule_disabled (ff : ForceField α) (bead : Bead α)
    (hp : ff.use_pair_pot = false) (bds : List (Bead α)) :
    ∀ energy : α, ff.beadVsMolecule bead bds energy = energy := by
  induction bds with
  | nil => intro energy; rfl
  | cons b bds ih => intro energy; simp [ForceField.beadVsMolecule, hp, ih]

/-- Without a pair family the loop over the population adds nothing. -/
theorem beadVsMols_disabled (ff : ForceField α) (bead : Bead α) (delete_id counterion : Int)
    (hp : ff.use_pair_pot = false) (mols : List (Molecule α)) :
    ∀ (i : Nat) (energy : α), ff.beadVsMols bead delete_id counterion mols i energy = energy := by
  induction mols with
  | nil => intro i energy; rfl
  | cons m ms ih =>
    intro i energy
    simp [ForceField.beadVsMols, ih, beadVsMolecule_disabled ff bead hp]

/-- Without a pair family the loop over the trial chain adds nothing and reads
nothing. -/
theorem beadVsChain_disabled (ff : ForceField α) (bead : Bead α) (current_len type : Int)
    (hp : ff.use_pair_pot = false) (n : Nat) :
    ∀ (i : Nat) (energy : α),
      ff.beadVsChain bead current_len type n i energy = some energy := by
  induction n with
  | zero => intro i energy; rfl
  | succ n ih => intro i energy; simp [ForceField.beadVsChain, hp, ih]

/-- With neither the pair nor the external family enabled every bead energy is
zero. -/
theorem BeadEnergy_disabled (ff : ForceField α) (bead : Bead α) (mols : List (Molecule α))
    (current_len delete_id type : Int)
    (hp : ff.use_pair_pot = false) (he : ff.use_ext_pot = false) :
    ff.BeadEnergy bead mols current_len delete_id type = some 0 := by
  simp [ForceField.BeadEnergy, beadVsMols_disabled ff bead _ _ hp,
    beadVsChain_disabled ff bead _ _ hp, he]

/-- The selection walk over weights that are all `1` ends within the weights when
the threshold is at most their sum. -/
theorem selectWalk_ones (rand_num : α) (m : Nat) :
    ∀ (rest : List α) (k : Nat) (c : α),
      (∀ j, j < m → rest[j]? = some 1) → rand_num ≤ c + (m : α) →
      ∃ cb, selectWalk rand_num rest k c = some cb ∧ cb ≤ k + m := by
  induction m with
  | zero =>
    intro rest k c _ hr
    have hc : ¬ c < rand_num := by simpa using hr
    cases rest with
    | nil => exact ⟨k, by simp [selectWalk, hc], by omega⟩
    | cons w rest => exact ⟨k, by simp [selectWalk, hc], by omega⟩
  | succ m ih =>
    intro rest k c hones hr
    cases rest with
    | nil => exact absurd (hones 0 (Nat.succ_pos m)) (by simp)
    | cons w rest =>
      have hw : w = 1 := by simpa using hones 0 (Nat.succ_pos m)
      by_cases hc : c < rand_num
      · obtain ⟨cb, h1, h2⟩ := ih rest (k + 1) (c + w)
          (fun j hj => by simpa using hones (j + 1) (Nat.succ_lt_succ hj))
          (by rw [hw]; push_cast at hr; linarith)
        exact ⟨cb, by simp [selectWalk, hc, h1], by omega⟩
      · exact ⟨k, by simp [selectWalk, hc], by omega⟩

/-- One iteration of the trial loop when neither the pair nor the external family
is enabled: the weight written is `exp 0`. -/
theorem genTrials_free_step (env : Env α) (hexp : env.exp 0 = 1) (end_bead : Bead α)
    (mols : List (Molecule α)) (current_len delete_id : Int) (n i : Nat)
    (ff : ForceField α) (g : Rng) (Wi : α)
    (hp : ff.use_pair_pot = false) (he : ff.use_ext_pot = false)
    (hi : i < ff.cbmc_trial_beads.length) (hiw : i < ff.cbmc_trial_weights.length) :
    ForceField.genTrials env end_bead mols current_len delete_id 0 (n + 1) i ff g Wi =
      ForceField.genTrials env end_bead mols current_len delete_id 0 n (i + 1)
        ((ff.withTrialBeads (ff.cbmc_trial_beads.set i (ff.cbmc_trial_beads[i].SetAllCrd
          (ff.trialCoord env end_bead (ff.trialBondLen g 0).1
            (ff.trialBondLen g 0).2 0).1))).withWeights (ff.cbmc_trial_weights.set i 1))
        (ff.trialCoord env end_bead (ff.trialBondLen g 0).1 (ff.trialBondLen g 0).2 0).2
        (Wi + 1) := by
  simp [ForceField.genTrials, getAt, setAt, hi, hiw, BeadEnergy_disabled, hp, he, hexp]

/-- The trial loop when neither the pair nor the external family is enabled: it
completes, every weight it writes is `1`, and the Rosenbluth sum grows by the number
of trials. -/
theorem genTrials_free (env : Env α) (hexp : env.exp 0 = 1) (end_bead : Bead α)
    (mols : List (Molecule α)) (current_len delete_id : Int) (n : Nat) :
    ∀ (i : Nat) (ff : ForceField α) (g : Rng) (Wi : α),
      ff.use_pair_pot = false → ff.use_ext_pot = false →
      i + n ≤ ff.cbmc_trial_beads.length → i + n ≤ ff.cbmc_trial_weights.length →
      ∃ r : α × ForceField α × Rng,
        ForceField.genTrials env end_bead mols current_len delete_id 0 n i ff g Wi = some r ∧
        r.1 = Wi + (n : α) ∧
        r.2.1.cbmc_trial_beads.length = ff.cbmc_trial_beads.length ∧
        (∀ j, i ≤ j → j < i + n → r.2.1.cbmc_trial_weights[j]? = some 1) := by
  induction n with
  | zero =>
    intro i ff g Wi _ _ _ _
    exact ⟨(Wi, ff, g), rfl, by simp, rfl, fun j h1 h2 => absurd h2 (by omega)⟩
  | succ n ih =>
    intro i ff g Wi hp he hb hw
    have hi : i < ff.cbmc_trial_beads.length := by omega
    have hiw : i < ff.cbmc_trial_weights.length := by omega
    rw [genTrials_free_step env hexp end_bead mols current_len delete_id n i ff g Wi hp he hi hiw]
    obtain ⟨r, hr, h1, h2, h3⟩ := ih (i + 1)
      ((ff.withTrialBeads (ff.cbmc_trial_beads.set i (ff.cbmc_trial_beads[i].SetAllCrd
        (ff.trialCoord env end_bead (ff.trialBondLen g 0).1
          (ff.trialBondLen g 0).2 0).1))).withWeights (ff.cbmc_trial_weights.set i 1))
      (ff.trialCoord env end_bead (ff.trialBondLen g 0).1 (ff.trialBondLen g 0).2 0).2
      (Wi + 1) (by simpa using hp) (by simpa using he)
      (by simp; omega) (by simp; omega)
    have hpre := (genTrials_sum env _ mols _ _ _ _ _ _ _ _ _ hr).2.1
    refine ⟨r, hr, ?_, ?_, ?_⟩
    · rw [h1]; push_cast; ring
    · simpa using h2
    · intro j hj1 hj2
      by_cases hji : j = i
      · subst hji
        rw [hpre j (Nat.lt_succ_self j)]
        simp [hiw]
      · exact h3 j (by omega) (by omega)

/-- Rosenbluth selection over a weight buffer whose first `T` entries are `1`, with
a threshold of at most `T`: a trial below `T` is selected. -/
theorem rosenbluthSelect_ones (weights : List α) (T : Nat) (rand_num : α) (hT : 1 ≤ T)
    (hones : ∀ j, j < T → weights[j]? = some 1) (hr : rand_num ≤ (T : α)) :
    ∃ cb, rosenbluthSelect weights rand_num = some cb ∧ cb < T := by
  cases weights with
  | nil => exact absurd (hones 0 hT) (by simp)
  | cons w0 rest =>
    have hw : w0 = 1 := by simpa using hones 0 hT
    obtain ⟨cb, h1, h2⟩ := selectWalk_ones rand_num (T - 1) rest 0 w0
      (fun j hj => by simpa using hones (j + 1) (by omega))
      (by
        rw [hw]
        have hc : ((T - 1 : Nat) : α) = (T : α) - 1 := by
          rw [Nat.cast_sub hT]; simp
        rw [hc]; linarith)
    exact ⟨cb, h1, by omega⟩

/-- The growth loop of the estimator when neither the pair nor the external family
is enabled: it completes and leaves the weight as it was. -/
theorem chemGrow_free (env : Env α) (hexp : env.exp 0 = 1) (mols : List (Molecule α))
    (n : Nat) :
    ∀ (i : Nat) (ff : ForceField α) (g : Rng) (weight : α) (log : List (List α)),
      ff.chemReady → 1 ≤ i → i + n ≤ ff.cbmc_chain.length →
      ∃ r : α × List (List α) × ForceField α × Rng,
        ForceField.chemGrow env mols n i ff g weight log = some r ∧
        r.1 = weight ∧ r.2.2.1.chemReady := by
  induction n with
  | zero =>
    intro i ff g weight log hready _ _
    exact ⟨(weight, log, ff, g), rfl, rfl, hready⟩
  | succ n ih =>
    intro i ff g weight log hready hi hlen
    obtain ⟨hp, he, hT, htb, htw, hc1, hcl⟩ := hready
    have hget : getAt ff.cbmc_chain ((i : Int) - 1) = some (ff.cbmc_chain.get ⟨i - 1, by omega⟩) := by
      have h0 : (0 : Int) ≤ (i : Int) - 1 := by omega
      have h1 : ((i : Int) - 1).toNat = i - 1 := by omega
      simp only [getAt, h0, if_true, h1]
      exact List.getElem?_eq_getElem _
    obtain ⟨⟨Wi, ff1, g1⟩, hgen, hWi, hlb, hones⟩ :=
      genTrials_free env hexp (ff.cbmc_chain.get ⟨i - 1, by omega⟩) mols (i : Int) (-1)
        ff.cbmc_no_of_trials.toNat 0 ff g 0 hp he (by omega) (by omega)
    have hs1 := genTrials_scratchOnly env _ mols _ _ _ _ _ _ _ _ _ hgen
    have hsum := genTrials_sum env _ mols _ _ _ _ _ _ _ _ _ hgen
    simp only at hWi hlb hones hs1 hsum
    obtain ⟨_, _, _, hT1, hL1, hp1, he1⟩ := scratchOnly_params hs1.1
    have hTn : 1 ≤ ff.cbmc_no_of_trials.toNat := by omega
    have hu := Rng.uniform_mem (α := α) g1
    obtain ⟨cb, hsel, hcb⟩ := rosenbluthSelect_ones ff1.cbmc_trial_weights
      ff.cbmc_no_of_trials.toNat ((Rng.uniform g1 : α × Rng).1 * Wi) hTn
      (fun j hj => hones j (Nat.zero_le j) (by omega))
      (by
        rw [hWi, zero_add]
        have h0 : (0 : α) ≤ (ff.cbmc_no_of_trials.toNat : α) := Nat.cast_nonneg _
        nlinarith [hu.1, hu.2])
    have hcbl : cb < ff1.cbmc_trial_beads.length := by omega
    have hil : i < ff1.cbmc_chain.length := by rw [hs1.2]; omega
    obtain ⟨r, hr, hr1, hr2⟩ := ih (i + 1)
      (ff1.withChain (ff1.cbmc_chain.set i ((ff1.cbmc_chain.get ⟨i, hil⟩).SetAllCrd
        ⟨(ff1.cbmc_trial_beads.get ⟨cb, hcbl⟩).GetCrd 0,
          (ff1.cbmc_trial_beads.get ⟨cb, hcbl⟩).GetCrd 1,
          (ff1.cbmc_trial_beads.get ⟨cb, hcbl⟩).GetCrd 2⟩)))
      (Rng.uniform g1 : α × Rng).2 (weight * (Wi / (ff1.cbmc_no_of_trials : α)))
      (log ++ [ff1.cbmc_trial_weights.take ff1.cbmc_no_of_trials.toNat])
      ⟨by simpa using hp1.trans hp, by simpa using he1.trans he, by simpa [hT1] using hT,
        by simp only [withChain_cbmc_no_of_trials, withChain_cbmc_trial_beads, hT1, hlb]
           exact htb,
        by simp only [withChain_cbmc_no_of_trials, withChain_cbmc_trial_weights, hT1, hsum.1]
           exact htw,
        by simp only [withChain_cbmc_chain, List.length_set, hs1.2]
           exact hc1,
        by simp only [withChain_cbmc_chain, withChain_gc_chain_len, List.length_set, hs1.2, hL1]
           exact hcl⟩
      (by omega) (by simp [hs1.2]; omega)
    refine ⟨r, ?_, ?_, hr2⟩
    · have hgen2 : ff.CBMCGenTrialBeads env (ff.cbmc_chain.get ⟨i - 1, by omega⟩) mols
          (i : Int) g (-1) 0 = some (Wi, ff1, g1) := hgen
      have htbq : ff1.cbmc_trial_beads[cb]? = some (ff1.cbmc_trial_beads.get ⟨cb, hcbl⟩) :=
        List.getElem?_eq_getElem _
      have hcq : ff1.cbmc_chain[i]? = some (ff1.cbmc_chain.get ⟨i, hil⟩) :=
        List.getElem?_eq_getElem _
      simp only [ForceField.chemGrow, hget, hgen2, hsel, htbq, hcq]
      exact hr
    · rw [hr1, hWi, hT1, zero_add]
      have hcast : ((ff.cbmc_no_of_trials.toNat : Nat) : α) = ((ff.cbmc_no_of_trials : Int) : α) := by
        have h := Int.toNat_of_nonneg (show (0 : Int) ≤ ff.cbmc_no_of_trials by omega)
        calc ((ff.cbmc_no_of_trials.toNat : Nat) : α)
            = (((ff.cbmc_no_of_trials.toNat : Nat) : Int) : α) := by push_cast; rfl
          _ = ((ff.cbmc_no_of_trials : Int) : α) := by rw [h]
      have hne : ((ff.cbmc_no_of_trials : Int) : α) ≠ 0 := by
        have : (0 : Int) < ff.cbmc_no_of_trials := by omega
        exact_mod_cast (ne_of_gt this)
      rw [hcast, div_self hne, mul_one]

/-- One growth attempt of the estimator: the weight it returns is the chain weight
of the energies it recorded; it writes scratch buffers only. -/
theorem chemAttempt_weight (env : Env α) (ff : ForceField α) (mols : List (Molecule α))
    (g : Rng) (r : α × (α × List (List α)) × ForceField α × Rng)
    (h : ff.chemAttempt env mols g = some r) :
    ff.scratchOnly r.2.2.1 ∧ r.2.1.2.length = (ff.gc_chain_len - 1).toNat ∧
    (∀ ws ∈ r.2.1.2, ws.length = ff.cbmc_no_of_trials.toNat) ∧
    r.1 = chainWeight env ff.beta ff.cbmc_no_of_trials r.2.1.1 r.2.1.2 := by
  unfold ForceField.chemAttempt at h
  dsimp only at h
  split at h
  · exact absurd h (by simp)
  · split at h
    · exact absurd h (by simp)
    · rename_i e0 _
      split at h
      · exact absurd h (by simp)
      · rename_i weight log ff1 g1 hgrow
        simp only [Option.some.injEq] at h
        subst h
        obtain ⟨hs, new, hlog, hlen, hws, hw⟩ := chemGrow_weight env mols _ _ _ _ _ _ _ hgrow
        simp only [List.nil_append] at hlog
        simp only [withChain_cbmc_no_of_trials] at hws hw
        subst hlog
        refine ⟨scratchOnly_trans (scratchOnly_withChain _ _) hs, by simpa using hlen, hws, ?_⟩
        rw [hw, chainWeight, one_mul]

/-- The attempts of the estimator add, per attempt, `vol * W_c` over
`gc_deBroglie_prefactor * (N + 1)` to the total. -/
theorem chemAttempts_total (env : Env α) (mols : List (Molecule α)) (n : Nat) :
    ∀ (ff : ForceField α) (g : Rng) (total : α) (log : List (α × List (List α)))
      (r : α × List (α × List (List α)) × ForceField α × Rng),
      ForceField.chemAttempts env mols n ff g total log = some r →
      ff.scratchOnly r.2.2.1 ∧
      ∃ new : List (α × List (List α)), r.2.1 = log ++ new ∧ new.length = n ∧
        (∀ a ∈ new, a.2.length = (ff.gc_chain_len - 1).toNat ∧
          ∀ ws ∈ a.2, ws.length = ff.cbmc_no_of_trials.toNat) ∧
        r.1 = total + (new.map (fun a =>
          ff.vol * chainWeight env ff.beta ff.cbmc_no_of_trials a.1 a.2 /
            (ff.gc_deBroglie_prefactor * ((mols.length : α) + 1)))).sum := by
  induction n with
  | zero =>
    intro ff g total log r h
    simp only [ForceField.chemAttempts, Option.some.injEq] at h
    subst h
    exact ⟨scratchOnly_refl ff, [], by simp⟩
  | succ n ih =>
    intro ff g total log r h
    simp only [ForceField.chemAttempts] at h
    split at h
    · exact absurd h (by simp)
    · rename_i weight rec ff1 g1 hatt
      obtain ⟨hs1, hl1, hws1, hw1⟩ := chemAttempt_weight env ff mols g _ hatt
      simp only at hs1 hl1 hws1 hw1
      obtain ⟨hbeta, hvol, hpre, hT, hL, _, _⟩ := scratchOnly_params hs1
      obtain ⟨hs2, new, hlog, hlen, hrec, htot⟩ := ih _ _ _ _ _ h
      simp only [hbeta, hvol, hpre, hT, hL] at hrec htot
      refine ⟨scratchOnly_trans hs1 hs2, rec :: new, ?_, by simp [hlen], ?_, ?_⟩
      · rw [hlog, List.append_assoc, List.singleton_append]
      · intro a ha
        rcases List.mem_cons.mp ha with rfl | ha
        · exact ⟨hl1, hws1⟩
        · exact hrec a ha
      · rw [htot, List.map_cons, List.sum_cons, hw1]
        push_cast
        ring

/-- One growth attempt when neither the pair nor the external family is enabled: it
completes with weight `1`. -/
theorem chemAttempt_free (env : Env α) (hexp : env.exp 0 = 1) (ff : ForceField α)
    (mols : List (Molecule α)) (g : Rng) (hready : ff.chemReady) :
    ∃ r : α × (α × List (List α)) × ForceField α × Rng,
      ff.chemAttempt env mols g = some r ∧ r.1 = 1 ∧ r.2.2.1.chemReady := by
  obtain ⟨hp, he, hT, htb, htw, hc1, hcl⟩ := hready
  have hc0 : ff.cbmc_chain[0]? = some (ff.cbmc_chain.get ⟨0, by omega⟩) :=
    List.getElem?_eq_getElem _
  have hE := BeadEnergy_disabled
    (ff.withChain (ff.cbmc_chain.set 0 (ff.firstBead g (ff.cbmc_chain.get ⟨0, by omega⟩))))
    (ff.firstBead g (ff.cbmc_chain.get ⟨0, by omega⟩)) mols 0 (-1) 0
    (by simpa using hp) (by simpa using he)
  obtain ⟨⟨weight, log, ff1, g1⟩, hr, hr1, hr2⟩ := chemGrow_free env hexp mols
    (ff.gc_chain_len - 1).toNat 1
    (ff.withChain (ff.cbmc_chain.set 0 (ff.firstBead g (ff.cbmc_chain.get ⟨0, by omega⟩))))
    (ff.randomBoxPoint g).2 (1 * env.exp (-ff.beta * 0)) []
    ⟨by simpa using hp, by simpa using he, by simpa using hT,
      by simp only [withChain_cbmc_no_of_trials, withChain_cbmc_trial_beads]
         exact htb,
      by simp only [withChain_cbmc_no_of_trials, withChain_cbmc_trial_weights]
         exact htw,
      by simp only [withChain_cbmc_chain, List.length_set]
         exact hc1,
      by simp only [withChain_cbmc_chain, withChain_gc_chain_len, List.length_set]
         exact hcl⟩
    (le_refl 1)
    (by simp only [withChain_cbmc_chain, List.length_set]; omega)
  refine ⟨(weight, (0, log), ff1, g1), ?_, ?_, hr2⟩
  · unfold ForceField.chemAttempt
    simp only [hc0, hE, withChain_gc_chain_len]
    rw [hr]
  · simp only at hr1
    rw [hr1, mul_zero, hexp, mul_one]

/-- The attempts when neither the pair nor the external family is enabled: they
complete, and every attempt adds `vol / (gc_deBroglie_prefactor * (N + 1))`. -/
theorem chemAttempts_free (env : Env α) (hexp : env.exp 0 = 1) (mols : List (Molecule α))
    (n : Nat) :
    ∀ (ff : ForceField α) (g : Rng) (total : α) (log : List (α × List (List α))),
      ff.chemReady →
      ∃ r : α × List (α × List (List α)) × ForceField α × Rng,
        ForceField.chemAttempts env mols n ff g total log = some r ∧
        r.1 = total + (n : α) *
          (ff.vol / (ff.gc_deBroglie_prefactor * ((mols.length : α) + 1))) := by
  induction n with
  | zero =>
    intro ff g total log _
    exact ⟨(total, log, ff, g), rfl, by simp⟩
  | succ n ih =>
    intro ff g total log hready
    obtain ⟨⟨weight, rec, ff1, g1⟩, hr, hr1, hr2⟩ := chemAttempt_free env hexp ff mols g hready
    obtain ⟨_, hvol, hpre, _, _, _, _⟩ := scratchOnly_params (chemAttempt_weight env ff mols g _ hr).1
    simp only at hr1 hr2 hvol hpre
    obtain ⟨r, hrr, hrt⟩ := ih ff1 g1
      (total + (ff1.vol * weight) /
        (ff1.gc_deBroglie_prefactor * ((((mols.length : Int) + 1 : Int)) : α)))
      (log ++ [rec]) hr2
    refine ⟨r, ?_, ?_⟩
    · simp only [ForceField.chemAttempts, hr]
      exact hrr
    · rw [hrt, hr1, hvol, hpre]
      push_cast
      ring

/-- C19: `CalcChemicalPotential` returns the arithmetic mean, over the `mu_tot_ins`
growth attempts, of `vol * W_c / (gc_deBroglie_prefactor * (N + 1))`, where `N` is
the size of the population and `W_c` is the Boltzmann factor of the energy of the
first bead times, for every later bead, the sum of its trial weights over
`cbmc_no_of_trials` (the energies and trial weights being those the run recorded:
one record per attempt, `gc_chain_len - 1` trial-weight lists per record,
`cbmc_no_of_trials` weights per list), and it returns the population as it was. In
particular, with neither the pair nor the external family enabled, `exp 0 = 1`, at
least one trial per bead and scratch buffers that hold the trials and the chain, it
returns `vol / (gc_deBroglie_prefactor * (N + 1))` for every random stream. And
`mu_tot_ins` is `100` in every estimator that `Initialize` returns. -/
theorem CalcChemicalPotential_mean [FloorRing α] (env : Env α) (ff : ForceField α)
    (est : Estimator α) (mols : List (Molecule α)) (g : Rng) :
    (∀ r : α × List (Molecule α) × List (α × List (List α)) × ForceField α × Rng,
      ff.CalcChemicalPotential env est mols g = some r →
      r.2.1 = mols ∧ r.2.2.1.length = est.mu_tot_ins.toNat ∧
      (∀ a ∈ r.2.2.1, a.2.length = (ff.gc_chain_len - 1).toNat ∧
        ∀ ws ∈ a.2, ws.length = ff.cbmc_no_of_trials.toNat) ∧
      r.1 = insertionMean ff.vol ff.gc_deBroglie_prefactor mols.length est.mu_tot_ins
        (r.2.2.1.map (fun a => chainWeight env ff.beta ff.cbmc_no_of_trials a.1 a.2))) ∧
    (0 < est.mu_tot_ins → env.exp 0 = 1 →
      ff.use_pair_pot = false → ff.use_ext_pot = false → 1 ≤ ff.cbmc_no_of_trials →
      ff.cbmc_no_of_trials.toNat ≤ ff.cbmc_trial_beads.length →
      ff.cbmc_no_of_trials.toNat ≤ ff.cbmc_trial_weights.length →
      1 ≤ ff.cbmc_chain.length → ff.gc_chain_len.toNat ≤ ff.cbmc_chain.length →
      ∃ (log : List (α × List (List α))) (ff1 : ForceField α) (g1 : Rng),
        ff.CalcChemicalPotential env est mols g =
          some (ff.vol / (ff.gc_deBroglie_prefactor * ((mols.length : α) + 1)),
            mols, log, ff1, g1)) ∧
    (∀ (inp : ForceFieldInput α) (beta_in : α) (npbc_in : Int) (box_l_in : Vec3 α)
      (n_mol : Int) (mols0 : List (Molecule α)) (ff0 : ForceField α) (est0 : Estimator α),
      ForceField.Initialize inp beta_in npbc_in box_l_in n_mol mols0 = Startup.ok (ff0, est0) →
      est0.mu_tot_ins = 100) := by
  refine ⟨?_, ?_, ?_⟩
  · intro r h
    unfold ForceField.CalcChemicalPotential at h
    split at h
    · exact absurd h (by simp)
    · rename_i total log ff1 g1 hrun
      simp only [Option.some.injEq] at h
      subst h
      obtain ⟨_, new, hlog, hlen, hrec, htot⟩ := chemAttempts_total env mols _ _ _ _ _ _ hrun
      simp only [List.nil_append] at hlog
      subst hlog
      refine ⟨rfl, hlen, hrec, ?_⟩
      simp only at htot
      simp only [insertionMean, List.map_map, htot, zero_add]
      rfl
  · intro hmu hexp hp he hT htb htw hc1 hcl
    obtain ⟨⟨total, log, ff1, g1⟩, hr, hr1⟩ := chemAttempts_free env hexp mols
      est.mu_tot_ins.toNat ff g 0 [] ⟨hp, he, hT, htb, htw, hc1, hcl⟩
    refine ⟨log, ff1, g1, ?_⟩
    unfold ForceField.CalcChemicalPotential
    rw [hr]
    simp only at hr1
    have hcast : ((est.mu_tot_ins.toNat : Nat) : α) = ((est.mu_tot_ins : Int) : α) := by
      have h := Int.toNat_of_nonneg (le_of_lt hmu)
      calc ((est.mu_tot_ins.toNat : Nat) : α)
          = (((est.mu_tot_ins.toNat : Nat) : Int) : α) := by push_cast; rfl
        _ = ((est.mu_tot_ins : Int) : α) := by rw [h]
    have hne : ((est.mu_tot_ins : Int) : α) ≠ 0 := by exact_mod_cast (ne_of_gt hmu)
    simp only [hr1, zero_add, hcast]
    rw [mul_comm, mul_div_assoc, div_self hne, mul_one]
  · intro inp beta_in npbc_in box_l_in n_mol mols0 ff0 est0 h
    obtain ⟨chain_len, counts, _, hest⟩ :=
      Initialize_ok inp beta_in npbc_in box_l_in n_mol mols0 ff0 est0 h
    rw [hest]
    rfl

/-- Witness for C19: a neutral species of three beads with two trials per bead, no
potential family enabled, in the box `2 x 1 x 1` with an empty population and the
estimator as `Initialize` leaves it: the hypotheses of the second part of
`CalcChemicalPotential_mean` hold, the value returned is `2 / (1 * (0 + 1)) = 2`,
and the run made one hundred attempts. -/
theorem CalcChemicalPotential_mean_witness :
    ∃ (log : List (ℝ × List (List ℝ))) (ff1 : ForceField ℝ) (g1 : Rng),
      ((ForceField.plain (2 : ℝ) 3 0 2).InitializeEnergy (fun _ => 0)).CalcChemicalPotential
          (Env.ofLibm Real.exp Real.sqrt (10000000000 : ℝ) (2 ^ ((1 : ℝ) / 6)))
          ((ForceFieldInput.sample (1 : ℝ) true 3 0 2).estimator ⟨2, 1, 1⟩ [] 3 (0, 0, 0))
          [] (Rng.const 7)
        = some (2, [], log, ff1, g1) ∧
      log.length = 100 := by
  have hthm := CalcChemicalPotential_mean
    (Env.ofLibm Real.exp Real.sqrt (10000000000 : ℝ) (2 ^ ((1 : ℝ) / 6)))
    ((ForceField.plain (2 : ℝ) 3 0 2).InitializeEnergy (fun _ => 0))
    ((ForceFieldInput.sample (1 : ℝ) true 3 0 2).estimator ⟨2, 1, 1⟩ [] 3 (0, 0, 0))
    [] (Rng.const 7)
  obtain ⟨log, ff1, g1, h⟩ := hthm.2.1
    (by norm_num [ForceFieldInput.estimator])
    (by simp [Env.ofLibm])
    rfl rfl
    (by norm_num [ForceField.InitializeEnergy, ForceField.plain])
    (by simp [ForceField.InitializeEnergy, ForceField.plain])
    (by simp [ForceField.InitializeEnergy, ForceField.plain])
    (by simp [ForceField.InitializeEnergy, ForceField.plain])
    (by simp [ForceField.InitializeEnergy, ForceField.plain])
  have hlen := (hthm.1 _ h).2.1
  refine ⟨log, ff1, g1, ?_, ?_⟩
  · rw [h]
    have hv : ((ForceField.plain (2 : ℝ) 3 0 2).InitializeEnergy (fun _ => 0)).vol = 2 := by
      norm_num [ForceField.InitializeEnergy, ForceField.plain]
    have hq : ((ForceField.plain (2 : ℝ) 3 0 2).InitializeEnergy
        (fun _ => 0)).gc_deBroglie_prefactor = 1 := rfl
    have hval : (2 : ℝ) / (1 * ((([] : List (Molecule ℝ)).length : ℝ) + 1)) = 2 := by
      norm_num
    rw [hv, hq, hval]
  · exact hlen

end ChemicalPotentialTheorems

/-! ## Theorems: the virial pressure estimator -/

section PressureTheorems

variable {α : Type} [LinearOrderedField α] [FloorRing α]

/-- A loop preserves what every run of its body preserves. -/
theorem forLoop_inv {σ : Type} (P : σ → Prop) (body : Nat → σ → Option σ)
    (hstep : ∀ (x : Nat) (s s1 : σ), P s → body x s = some s1 → P s1) (xs : List Nat) :
    ∀ (s s1 : σ), P s → forLoop xs body s = some s1 → P s1 := by
  induction xs with
  | nil =>
    intro s s1 hs h
    simp only [forLoop, Option.some.injEq] at h
    exact h ▸ hs
  | cons x xs ih =>
    intro s s1 hs h
    simp only [forLoop] at h
    split at h
    · exact absurd h (by simp)
    · rename_i s2 hb
      exact ih s2 s1 (hstep x s s2 hs hb) h

/-- Two loops over the same indices whose bodies keep a relation between their
states: when the first completes, so does the second, in related states. -/
theorem forLoop_sim {σ τ : Type} (R : σ → τ → Prop) (f : Nat → σ → Option σ)
    (g : Nat → τ → Option τ)
    (hstep : ∀ (x : Nat) (s : σ) (t : τ) (s1 : σ), R s t → f x s = some s1 →
      ∃ t1, g x t = some t1 ∧ R s1 t1) (xs : List Nat) :
    ∀ (s : σ) (t : τ) (s1 : σ), R s t → forLoop xs f s = some s1 →
      ∃ t1, forLoop xs g t = some t1 ∧ R s1 t1 := by
  induction xs with
  | nil =>
    intro s t s1 hr h
    simp only [forLoop, Option.some.injEq] at h
    exact ⟨t, rfl, h ▸ hr⟩
  | cons x xs ih =>
    intro s t s1 hr h
    simp only [forLoop] at h
    split at h
    · exact absurd h (by simp)
    · rename_i s2 hb
      obtain ⟨t2, ht2, hr2⟩ := hstep x s t s2 hr hb
      obtain ⟨t1, ht1, hr1⟩ := ih s2 t2 s1 hr2 h
      exact ⟨t1, by simp only [forLoop, ht2, ht1], hr1⟩

/-- The statement `xs[i] += v` keeps the length of the array. -/
theorem addAt_length (xs xs1 : List α) (i : Int) (v : α) (h : addAt xs i v = some xs1) :
    xs1.length = xs.length := by
  unfold addAt at h
  split at h
  · exact absurd h (by simp)
  · simp only [Option.some.injEq] at h
    subst h
    simp

/-- The statement `xs[i] += v` on two histograms that differ by a fixed shift. -/
theorem addAt_sim (d : Nat → α) (a b a1 : List α) (i : Int) (v : α)
    (hr : shiftedBy d a b) (h : addAt a i v = some a1) :
    ∃ b1, addAt b i v = some b1 ∧ shiftedBy d a1 b1 := by
  unfold addAt at h
  split at h
  · exact absurd h (by simp)
  · rename_i x hx
    simp only [Option.some.injEq] at h
    subst h
    have h0 : 0 ≤ i := by
      by_contra hneg
      simp [getAt, hneg] at hx
    have hxa : a[i.toNat]? = some x := by simpa [getAt, h0] using hx
    have hxb : getAt b i = some (x + d i.toNat) := by
      simp only [getAt, h0, if_true]
      exact hr.2 _ _ hxa
    refine ⟨b.set i.toNat (x + d i.toNat + v), by simp only [addAt, hxb], ?_, ?_⟩
    · simp [hr.1]
    · intro j y hy
      by_cases hj : i.toNat = j
      · subst hj
        have hlt : i.toNat < a.length := (List.getElem?_eq_some_iff.mp hxa).1
        rw [List.getElem?_set_self hlt] at hy
        rw [List.getElem?_set_self (by rw [hr.1]; exact hlt)]
        simp only [Option.some.injEq] at hy
        subst hy
        congr 1
        ring
      · rw [List.getElem?_set_ne hj] at hy
        rw [List.getElem?_set_ne hj]
        exact hr.2 j y hy

/-- The body of the pair loops on two histograms that differ by a fixed shift. -/
theorem pairVisit_sim (d : Nat → α) (est : Estimator α) (venv : VirialEnv α) (env : Env α)
    (ff : ForceField α) (n_mol : Int) (mol_k mol_l : Molecule α) (i j : Nat)
    (a b a1 : List α) (hr : shiftedBy d a b)
    (h : est.pairVisit venv env ff n_mol mol_k mol_l i j a = some a1) :
    ∃ b1, est.pairVisit venv env ff n_mol mol_k mol_l i j b = some b1 ∧
      shiftedBy d a1 b1 := by
  unfold Estimator.pairVisit at h ⊢
  split at h
  · rename_i bki blj bk0 bl0 h1 h2 h3 h4
    simp only [h1, h2, h3, h4]
    dsimp only at h ⊢
    split at h
    · rename_i hc
      rw [if_pos hc]
      split at h
      · exact absurd h (by simp)
      · rename_i ax hax
        obtain ⟨bx, hbx, hrx⟩ := addAt_sim d _ _ _ _ _ hr hax
        simp only [hbx]
        split at h
        · exact absurd h (by simp)
        · rename_i ay hay
          obtain ⟨by1, hby, hry⟩ := addAt_sim d _ _ _ _ _ hrx hay
          simp only [hby]
          exact addAt_sim d _ _ _ _ _ hry h
    · rename_i hc
      rw [if_neg hc]
      simp only [Option.some.injEq] at h
      subst h
      exact ⟨b, rfl, hr⟩
  · exact absurd h (by simp)

/-- The body of the pair loops keeps the length of the histogram. -/
theorem pairVisit_length (est : Estimator α) (venv : VirialEnv α) (env : Env α)
    (ff : ForceField α) (n_mol : Int) (mol_k mol_l : Molecule α) (i j : Nat)
    (a a1 : List α) (h : est.pairVisit venv env ff n_mol mol_k mol_l i j a = some a1) :
    a1.length = a.length := by
  unfold Estimator.pairVisit at h
  split at h
  · dsimp only at h
    split at h
    · split at h
      · exact absurd h (by simp)
      · rename_i ax hax
        split at h
        · exact absurd h (by simp)
        · rename_i ay hay
          rw [addAt_length _ _ _ _ h, addAt_length _ _ _ _ hay, addAt_length _ _ _ _ hax]
    · simp only [Option.some.injEq] at h
      subst h
      rfl
  · exact absurd h (by simp)

/-- The pair loops on two histograms that differ by a fixed shift: the same
increments are added to both. -/
theorem pairCount_sim (d : Nat → α) (est : Estimator α) (venv : VirialEnv α) (env : Env α)
    (ff : ForceField α) (n_mol : Int) (mols : List (Molecule α))
    (a b a1 : List α) (hr : shiftedBy d a b)
    (h : est.pairCount venv env ff n_mol mols a = some a1) :
    ∃ b1, est.pairCount venv env ff n_mol mols b = some b1 ∧ shiftedBy d a1 b1 := by
  unfold Estimator.pairCount at h ⊢
  refine forLoop_sim (shiftedBy d) _ _ ?_ _ a b a1 hr h
  intro k s t s1 hst hk
  try dsimp only at hk ⊢
  split at hk
  · exact absurd hk (by simp)
  · rename_i mol_k hmk
    refine forLoop_sim (shiftedBy d) _ _ ?_ _ s t s1 hst hk
    intro i s t s1 hst hi
    try dsimp only at hi ⊢
    refine forLoop_sim (shiftedBy d) _ _ ?_ _ s t s1 hst hi
    intro l s t s1 hst hl
    try dsimp only at hl ⊢
    split at hl
    · exact absurd hl (by simp)
    · rename_i mol_l hml
      refine forLoop_sim (shiftedBy d) _ _ ?_ _ s t s1 hst hl
      intro j s t s1 hst hj
      try dsimp only at hj ⊢
      by_cases hlk : l ≠ k
      · rw [if_pos hlk] at hj ⊢
        exact pairVisit_sim d est venv env ff n_mol mol_k mol_l i j s t s1 hst hj
      · rw [if_neg hlk] at hj ⊢
        simp only [Option.some.injEq] at hj
        subst hj
        exact ⟨t, rfl, hst⟩

/-- The pair loops keep the length of the histogram. -/
theorem pairCount_length (est : Estimator α) (venv : VirialEnv α) (env : Env α)
    (ff : ForceField α) (n_mol : Int) (mols : List (Molecule α))
    (a a1 : List α) (h : est.pairCount venv env ff n_mol mols a = some a1) :
    a1.length = a.length := by
  unfold Estimator.pairCount at h
  refine forLoop_inv (fun x => x.length = a.length) _ ?_ _ a a1 rfl h
  intro k s s1 hs hk
  try dsimp only at hk
  split at hk
  · exact absurd hk (by simp)
  · refine forLoop_inv (fun x => x.length = a.length) _ ?_ _ s s1 hs hk
    intro i s s1 hs hi
    try dsimp only at hi
    refine forLoop_inv (fun x => x.length = a.length) _ ?_ _ s s1 hs hi
    intro l s s1 hs hl
    try dsimp only at hl
    split at hl
    · exact absurd hl (by simp)
    · refine forLoop_inv (fun x => x.length = a.length) _ ?_ _ s s1 hs hl
      intro j s s1 hs hj
      try dsimp only at hj
      split at hj
      · rw [pairVisit_length _ _ _ _ _ _ _ _ _ _ _ hj]
        exact hs
      · simp only [Option.some.injEq] at hj
        subst hj
        exact hs

/-- The wall loops on two histograms that differ by a fixed shift. -/
theorem wallCount_sim (d : Nat → α) (est : Estimator α) (venv : VirialEnv α)
    (ff : ForceField α) (n_mol : Int) (mols : List (Molecule α))
    (a b a1 : List α) (hr : shiftedBy d a b)
    (h : est.wallCount venv ff n_mol mols a = some a1) :
    ∃ b1, est.wallCount venv ff n_mol mols b = some b1 ∧ shiftedBy d a1 b1 := by
  unfold Estimator.wallCount at h ⊢
  by_cases hw : ff.use_ext_pot = true ∧ venv.extName = "HardWall"
  · rw [if_pos hw] at h ⊢
    refine forLoop_sim (shiftedBy d) _ _ ?_ _ a b a1 hr h
    intro i s t s1 hst hi
    try dsimp only at hi ⊢
    split at hi
    · exact absurd hi (by simp)
    · refine forLoop_sim (shiftedBy d) _ _ ?_ _ s t s1 hst hi
      intro j s t s1 hst hj
      try dsimp only at hj ⊢
      split at hj
      · exact absurd hj (by simp)
      · rename_i bead hbead
        refine forLoop_sim (shiftedBy d) _ _ ?_ _ s t s1 hst hj
        intro k s t s1 hst hk
        try dsimp only at hk ⊢
        generalize (if k = 0 then (venv.DistToWall bead ff.box_l).1
          else (venv.DistToWall bead ff.box_l).2) = dk at hk ⊢
        by_cases hc : dk ≤ est.vp_bead_size / 2 + est.vp_hs_res * (est.vp_hs_bin : α)
        · rw [if_pos hc] at hk ⊢
          exact addAt_sim d _ _ _ _ _ hst hk
        · rw [if_neg hc] at hk ⊢
          simp only [Option.some.injEq] at hk
          subst hk
          exact ⟨t, rfl, hst⟩
  · rw [if_neg hw] at h ⊢
    simp only [Option.some.injEq] at h
    subst h
    exact ⟨b, rfl, hr⟩

/-- The wall loops keep the length of the histogram. -/
theorem wallCount_length (est : Estimator α) (venv : VirialEnv α)
    (ff : ForceField α) (n_mol : Int) (mols : List (Molecule α))
    (a a1 : List α) (h : est.wallCount venv ff n_mol mols a = some a1) :
    a1.length = a.length := by
  unfold Estimator.wallCount at h
  split at h
  · refine forLoop_inv (fun x => x.length = a.length) _ ?_ _ a a1 rfl h
    intro i s s1 hs hi
    try dsimp only at hi
    split at hi
    · exact absurd hi (by simp)
    · refine forLoop_inv (fun x => x.length = a.length) _ ?_ _ s s1 hs hi
      intro j s s1 hs hj
      try dsimp only at hj
      split at hj
      · exact absurd hj (by simp)
      · rename_i bead hbead
        refine forLoop_inv (fun x => x.length = a.length) _ ?_ _ s s1 hs hj
        intro k s s1 hs hk
        try dsimp only at hk
        generalize (if k = 0 then (venv.DistToWall bead ff.box_l).1
          else (venv.DistToWall bead ff.box_l).2) = dk at hk
        by_cases hc : dk ≤ est.vp_bead_size / 2 + est.vp_hs_res * (est.vp_hs_bin : α)
        · rw [if_pos hc] at hk
          rw [addAt_length _ _ _ _ hk]
          exact hs
        · rw [if_neg hc] at hk
          simp only [Option.some.injEq] at hk
          subst hk
          exact hs
  · simp only [Option.some.injEq] at h
    subst h
    rfl

/-- A counting phase that adds the same increments whatever the histogram holds,
run a second time on the histogram it produced from an empty one, doubles every
bin. -/
theorem count_twice (count : List α → Option (List α))
    (hlen : ∀ a a1, count a = some a1 → a1.length = a.length)
    (hsim : ∀ (d : Nat → α) (a b a1 : List α), shiftedBy d a b → count a = some a1 →
      ∃ b1, count b = some b1 ∧ shiftedBy d a1 b1)
    (z h1 : List α) (hz : ∀ x ∈ z, x = 0) (h : count z = some h1) :
    count h1 = some (h1.map (fun x => 2 * x)) := by
  have hl := hlen z h1 h
  have hzh : shiftedBy (fun i => h1.getD i 0) z h1 := by
    refine ⟨hl, ?_⟩
    intro i x hx
    obtain ⟨hi, hxi⟩ := List.getElem?_eq_some_iff.mp hx
    have hx0 : x = 0 := hz x (hxi ▸ List.getElem_mem hi)
    have hi1 : i < h1.length := by rw [hl]; exact hi
    rw [List.getElem?_eq_getElem hi1, hx0, zero_add]
    simp [List.getD_eq_getElem?_getD, List.getElem?_eq_getElem hi1]
  obtain ⟨b1, hb1, hr⟩ := hsim _ z h1 h1 hzh h
  rw [hb1]
  congr 1
  apply List.ext_getElem?
  intro i
  by_cases hi : i < h1.length
  · have hx := hr.2 i h1[i] (List.getElem?_eq_getElem hi)
    rw [hx, List.getElem?_map, List.getElem?_eq_getElem hi]
    simp [List.getD_eq_getElem?_getD, List.getElem?_eq_getElem hi, two_mul]
  · have h1n : h1[i]? = none := List.getElem?_eq_none (not_lt.mp hi)
    have hbn : b1[i]? = none := List.getElem?_eq_none (by rw [hr.1]; exact not_lt.mp hi)
    rw [hbn, List.getElem?_map, h1n]
    rfl

/-- Reading a bin of a mapped histogram. -/
theorem getAt_map {β γ : Type} (f : β → γ) (xs : List β) (i : Int) :
    getAt (xs.map f) i = (getAt xs i).map f := by
  unfold getAt
  split
  · simp [List.getElem?_map]
  · rfl

/-- Doubling the sum and the sample counter leaves the normalised sum as it is. -/
theorem double_div (t z e v : α) : (2 * t) / ((2 * z) * e / v) = t / (z * e / v) := by
  have h : (2 * z) * e / v = 2 * (z * e / v) := by ring
  rw [h, mul_div_mul_left _ _ (two_ne_zero)]

/-- The sums of a bin over the site pairs are linear in the histogram. -/
theorem binTotals_double (est : Estimator α) (hist : List α) (b : Nat) (t : α × α × α)
    (h : est.binTotals hist b = some t) :
    est.binTotals (hist.map (fun x => 2 * x)) b = some (2 * t.1, 2 * t.2.1, 2 * t.2.2) := by
  unfold Estimator.binTotals at h ⊢
  dsimp only at h ⊢
  have hsim : ∃ t1, forLoop (List.range (est.chain_len + 2).toNat) (fun i t =>
      forLoop (List.range (est.chain_len + 2).toNat) (fun j t =>
        match getAt (hist.map (fun x => 2 * x)) ((b : Int) * 3 * est.vp_g_s + 0 * est.vp_g_s
                + (i : Int) * (est.chain_len + 2) + (j : Int)),
              getAt (hist.map (fun x => 2 * x)) ((b : Int) * 3 * est.vp_g_s + 1 * est.vp_g_s
                + (i : Int) * (est.chain_len + 2) + (j : Int)),
              getAt (hist.map (fun x => 2 * x)) ((b : Int) * 3 * est.vp_g_s + 2 * est.vp_g_s
                + (i : Int) * (est.chain_len + 2) + (j : Int)) with
        | some hx, some hy, some hz =>
          some (t.1 + 1 / (((b : α) + 1 / 2) * est.vp_hs_res + est.vp_bead_size) * hx,
            t.2.1 + 1 / (((b : α) + 1 / 2) * est.vp_hs_res + est.vp_bead_size) * hy,
            t.2.2 + 1 / (((b : α) + 1 / 2) * est.vp_hs_res + est.vp_bead_size) * hz)
        | _, _, _ => none) t) ((0 : α), (0 : α), (0 : α)) = some t1 ∧
      t1 = (2 * t.1, 2 * t.2.1, 2 * t.2.2) := by
    refine forLoop_sim (fun (a c : α × α × α) => c = (2 * a.1, 2 * a.2.1, 2 * a.2.2))
      _ _ ?_ _ (0, 0, 0) (0, 0, 0) t (by simp) h
    intro i s u s1 hsu hi
    try dsimp only at hi ⊢
    refine forLoop_sim (fun (a c : α × α × α) => c = (2 * a.1, 2 * a.2.1, 2 * a.2.2))
      _ _ ?_ _ s u s1 hsu hi
    intro j s u s1 hsu hj
    try dsimp only at hj ⊢
    split at hj
    · rename_i hx hy hz h1 h2 h3
      simp only [getAt_map, h1, h2, h3, Option.map_some', Option.some.injEq] at hj ⊢
      subst hj
      subst hsu
      refine ⟨_, rfl, ?_⟩
      simp only [Prod.mk.injEq]
      refine ⟨by ring, by ring, by ring⟩
    · exact absurd hj (by simp)
  obtain ⟨t1, ht1, hr⟩ := hsim
  rw [ht1, hr]

/-- The array `tot` is the same for a doubled histogram and a doubled sample
counter. -/
theorem totals_double (est : Estimator α) (kPi vol : α) (hist : List α) (vp_z : α)
    (tot : List α) (h : est.totals kPi vol hist vp_z = some tot) :
    est.totals kPi vol (hist.map (fun x => 2 * x)) (2 * vp_z) = some tot := by
  unfold Estimator.totals at h ⊢
  have hsim : ∃ t1, forLoop (List.range est.vp_hs_bin.toNat) (fun b tot =>
      match est.binTotals (hist.map (fun x => 2 * x)) b with
      | none => none
      | some t =>
        some (tot ++ [t.1 / (2 * vp_z * (4 / 3 * kPi *
            ((((b : α) + 1) * est.vp_hs_res + est.vp_bead_size) ^ 3
              - (((b : α) + 0) * est.vp_hs_res + est.vp_bead_size) ^ 3)) / vol),
          t.2.1 / (2 * vp_z * (4 / 3 * kPi *
            ((((b : α) + 1) * est.vp_hs_res + est.vp_bead_size) ^ 3
              - (((b : α) + 0) * est.vp_hs_res + est.vp_bead_size) ^ 3)) / vol),
          t.2.2 / (2 * vp_z * (4 / 3 * kPi *
            ((((b : α) + 1) * est.vp_hs_res + est.vp_bead_size) ^ 3
              - (((b : α) + 0) * est.vp_hs_res + est.vp_bead_size) ^ 3)) / vol)]))
      ([] : List α) = some t1 ∧ t1 = tot := by
    refine forLoop_sim (fun (a c : List α) => c = a) _ _ ?_ _ [] [] tot rfl h
    intro b s u s1 hsu hb
    try dsimp only at hb ⊢
    subst hsu
    split at hb
    · exact absurd hb (by simp)
    · rename_i t ht
      simp only [Option.some.injEq] at hb
      subst hb
      rw [binTotals_double est hist b t ht]
      refine ⟨_, rfl, ?_⟩
      simp only [double_div]
  obtain ⟨t1, ht1, hr⟩ := hsim
  rw [← hr]
  exact ht1

/-- A loop of assignments `lsy[j] = value j`: the entries of the visited indices hold
the values, the others are as before. -/
theorem writeLoop_spec (value : Nat → Option α) (xs : List Nat) :
    ∀ (l l1 : List α),
      forLoop xs (fun j lsy =>
        match value j with
        | none => none
        | some v => setAt lsy j v) l = some l1 →
      l1.length = l.length ∧ (∀ j ∈ xs, l1[j]? = value j) ∧
      (∀ j, j ∉ xs → l1[j]? = l[j]?) := by
  induction xs with
  | nil =>
    intro l l1 h
    simp only [forLoop, Option.some.injEq] at h
    subst h
    simp
  | cons x xs ih =>
    intro l l1 h
    simp only [forLoop] at h
    split at h
    · exact absurd h (by simp)
    · rename_i l2 hb
      split at hb
      · exact absurd hb (by simp)
      · rename_i v hv
        unfold setAt at hb
        split at hb
        · rename_i hx
          simp only [Option.some.injEq] at hb
          subst hb
          obtain ⟨h1, h2, h3⟩ := ih _ _ h
          refine ⟨by simpa using h1, ?_, ?_⟩
          · intro j hj
            by_cases hjx : j ∈ xs
            · exact h2 j hjx
            · have hjeq : j = x := by
                rcases List.mem_cons.mp hj with h' | h'
                · exact h'
                · exact absurd h' hjx
              subst hjeq
              rw [h3 j hjx, List.getElem?_set_self hx, hv]
          · intro j hj
            have hjx : j ∉ xs := fun h' => hj (List.mem_cons_of_mem _ h')
            have hne : x ≠ j := fun h' => hj (h' ▸ List.mem_cons_self _ _)
            rw [h3 j hjx, List.getElem?_set_ne hne]
        · exact absurd hb (by simp)

/-- The loop `vp_hs_rr_lsy[j] = value j` over all bins, on an array of one entry per
bin, leaves an array that does not depend on what the array held. -/
theorem writeLsy_indep (vp_hs_bin : Int) (value : Nat → Option α) (l m l1 : List α)
    (hl : l.length = vp_hs_bin.toNat) (hm : m.length = vp_hs_bin.toNat)
    (h : writeLsy vp_hs_bin value l = some l1) :
    writeLsy vp_hs_bin value m = some l1 ∧ l1.length = vp_hs_bin.toNat := by
  unfold writeLsy at h ⊢
  have hsim : ∃ m1, forLoop (List.range vp_hs_bin.toNat) (fun j lsy =>
        match value j with
        | none => none
        | some v => setAt lsy j v) m = some m1 ∧ m1.length = l1.length := by
    refine forLoop_sim (fun (a c : List α) => c.length = a.length) _ _ ?_ _ l m l1
      (hm.trans hl.symm) h
    intro j s t s1 hst hj
    try dsimp only at hj ⊢
    split at hj
    · exact absurd hj (by simp)
    · rename_i v hv
      unfold setAt at hj ⊢
      split at hj
      · rename_i hlt
        simp only [Option.some.injEq] at hj
        subst hj
        rw [if_pos (by rw [hst]; exact hlt)]
        exact ⟨_, rfl, by simp [hst]⟩
      · exact absurd hj (by simp)
  obtain ⟨m1, hm1, hlen⟩ := hsim
  obtain ⟨a1, a2, _⟩ := writeLoop_spec value _ l l1 h
  obtain ⟨b1, b2, _⟩ := writeLoop_spec value _ m m1 hm1
  have heq : m1 = l1 := by
    apply List.ext_getElem?
    intro i
    by_cases hi : i < vp_hs_bin.toNat
    · rw [a2 i (List.mem_range.mpr hi), b2 i (List.mem_range.mpr hi)]
    · rw [List.getElem?_eq_none (by rw [b1, hm]; exact not_lt.mp hi),
        List.getElem?_eq_none (by rw [a1, hl]; exact not_lt.mp hi)]
  rw [hm1, heq]
  exact ⟨rfl, by rw [a1, hl]⟩

/-- The counting and the read-out read the parameters of the estimator only. -/
theorem pairCount_params (est est1 : Estimator α) (hp : est.sameParams est1)
    (venv : VirialEnv α) (env : Env α) (ff : ForceField α) (n_mol : Int)
    (mols : List (Molecule α)) (hist : List α) :
    est1.pairCount venv env ff n_mol mols hist = est.pairCount venv env ff n_mol mols hist := by
  obtain ⟨h1, h2, h3, h4, h5, h6, h7⟩ := hp
  unfold Estimator.pairCount Estimator.pairVisit Estimator.pairBin
  simp only [h1, h2, h3, h4, h5]

/-- The wall loops read the parameters of the estimator only. -/
theorem wallCount_params (est est1 : Estimator α) (hp : est.sameParams est1)
    (venv : VirialEnv α) (ff : ForceField α) (n_mol : Int)
    (mols : List (Molecule α)) (wall : List α) :
    est1.wallCount venv ff n_mol mols wall = est.wallCount venv ff n_mol mols wall := by
  obtain ⟨h1, h2, h3, h4, h5, h6, h7⟩ := hp
  unfold Estimator.wallCount Estimator.wallBin
  simp only [h2, h3, h4]

/-- The array `tot` reads the parameters of the estimator only. -/
theorem totals_params (est est1 : Estimator α) (hp : est.sameParams est1)
    (kPi vol : α) (hist : List α) (vp_z : α) :
    est1.totals kPi vol hist vp_z = est.totals kPi vol hist vp_z := by
  obtain ⟨h1, h2, h3, h4, h5, h6, h7⟩ := hp
  unfold Estimator.totals Estimator.binTotals
  simp only [h1, h2, h3, h4, h5]

/-- The hard-sphere read-out reads the parameters of the estimator only. -/
theorem hardSphere_params (est est1 : Estimator α) (hp : est.sameParams est1)
    (venv : VirialEnv α) (rho : α) (tot : List α) (i : Nat) (lsy : List α) :
    est1.hardSphere venv rho tot i lsy = est.hardSphere venv rho tot i lsy := by
  obtain ⟨h1, h2, h3, h4, h5, h6, h7⟩ := hp
  unfold Estimator.hardSphere
  simp only [h2, h4, h6]

/-- The hard-wall read-out reads the parameters of the estimator only. -/
theorem hardWall_params (est est1 : Estimator α) (hp : est.sameParams est1)
    (venv : VirialEnv α) (ff : ForceField α) (rho vp_z : α) (wall lsy : List α) (hs2 : α) :
    est1.hardWall venv ff rho vp_z wall lsy hs2 = est.hardWall venv ff rho vp_z wall lsy hs2 := by
  obtain ⟨h1, h2, h3, h4, h5, h6, h7⟩ := hp
  unfold Estimator.hardWall
  simp only [h2, h3, h4, h7]

/-- The hard-sphere read-out of one component does not depend on what the fitting
array held. -/
theorem hardSphere_indep (est : Estimator α) (venv : VirialEnv α) (rho : α) (tot : List α)
    (i : Nat) (l m : List α) (r : List α × α)
    (hl : l.length = est.vp_hs_bin.toNat) (hm : m.length = est.vp_hs_bin.toNat)
    (h : est.hardSphere venv rho tot i l = some r) :
    est.hardSphere venv rho tot i m = some r ∧ r.1.length = est.vp_hs_bin.toNat := by
  unfold Estimator.hardSphere at h ⊢
  split at h
  · exact absurd h (by simp)
  · rename_i l1 hw
    obtain ⟨hw2, hlen⟩ := writeLsy_indep _ _ l m l1 hl hm hw
    simp only [Option.some.injEq] at h
    subst h
    rw [hw2]
    exact ⟨rfl, hlen⟩

/-- The hard-wall read-out is the same for a doubled wall histogram and a doubled
sample counter; it keeps the length of the fitting array. -/
theorem hardWall_double (est : Estimator α) (venv : VirialEnv α) (ff : ForceField α)
    (rho vp_z : α) (wall lsy : List α) (hs2 : α) (r : List α × α)
    (hl : lsy.length = est.vp_hs_bin.toNat)
    (h : est.hardWall venv ff rho vp_z wall lsy hs2 = some r) :
    est.hardWall venv ff rho (2 * vp_z) (wall.map (fun x => 2 * x)) lsy hs2 = some r ∧
    r.1.length = est.vp_hs_bin.toNat := by
  unfold Estimator.hardWall at h ⊢
  by_cases hw : ff.use_ext_pot = true ∧ venv.extName = "HardWall"
  · rw [if_pos hw] at h ⊢
    have hval : (fun (b : Nat) => ((wall.map (fun x => 2 * x))[b]?).map
          (fun w => w / (2 * vp_z * est.vp_hs_res / ff.box_l.z))) =
        (fun (b : Nat) => (wall[b]?).map
          (fun w => w / (vp_z * est.vp_hs_res / ff.box_l.z))) := by
      funext b
      rw [List.getElem?_map]
      cases wall[b]? with
      | none => rfl
      | some w => simp only [Option.map_some', double_div]
    rw [hval]
    split at h
    · exact absurd h (by simp)
    · rename_i l1 hw1
      simp only [Option.some.injEq] at h
      subst h
      exact ⟨rfl, (writeLsy_indep _ _ lsy lsy l1 hl hl hw1).2⟩
  · rw [if_neg hw] at h ⊢
    simp only [Option.some.injEq] at h
    subst h
    exact ⟨rfl, hl⟩

/-- The estimator that `Initialize` returns is fresh. -/
theorem Initialize_fresh (inp : ForceFieldInput α) (beta_in : α) (npbc_in : Int)
    (box_l_in : Vec3 α) (n_mol : Int) (mols : List (Molecule α))
    (ff : ForceField α) (est : Estimator α)
    (h : ForceField.Initialize inp beta_in npbc_in box_l_in n_mol mols = Startup.ok (ff, est)) :
    est.Fresh := by
  obtain ⟨chain_len, counts, _, hest⟩ := Initialize_ok inp beta_in npbc_in box_l_in n_mol mols ff est h
  subst hest
  refine ⟨rfl, ?_, ?_, rfl, rfl⟩
  · intro x hx
    exact List.eq_of_mem_replicate hx
  · intro x hx
    exact List.eq_of_mem_replicate hx

/-- The electrostatic term after two samples from an empty accumulator equals the
term after one. -/
theorem electro_twice (venv : VirialEnv α) (ff : ForceField α) (n_mol : Int)
    (mols : List (Molecule α)) :
    (electro venv ff n_mol mols (electro venv ff n_mol mols ⟨0, 0, 0⟩ (0 + 1)).1 (0 + 1 + 1)).2
      = (electro venv ff n_mol mols ⟨0, 0, 0⟩ (0 + 1)).2 := by
  unfold electro
  by_cases he : ff.use_ewald_pot = true
  · simp only [he, if_true, Vec3.mk.injEq]
    refine ⟨?_, ?_, ?_⟩ <;> norm_num
  · simp only [he]
    rfl

/-- C11: histogram additivity. Starting from the estimator that `Initialize`
returns, if a call of `CalcPressureVirialHSEL` on a population with a density
argument completes, then a second call on the same population with the same density
completes too; after it every bin of the raw histograms `vp_hs_rr` and `vp_zwall_rr`
and the sample counter `vp_z` hold twice their value after the first call, and
`p_tensor`, `p_tensor_hs` and `p_tensor_el` are as after the first call. -/
theorem CalcPressureVirialHSEL_twice (venv : VirialEnv α) (env : Env α)
    (inp : ForceFieldInput α) (beta_in : α) (npbc_in : Int) (box_l_in : Vec3 α)
    (n_mol : Int) (mols0 : List (Molecule α)) (ff0 : ForceField α) (est0 : Estimator α)
    (ff : ForceField α) (mols : List (Molecule α)) (rho : α) (est1 : Estimator α)
    (hinit : ForceField.Initialize inp beta_in npbc_in box_l_in n_mol mols0
      = Startup.ok (ff0, est0))
    (h1 : ff.CalcPressureVirialHSEL venv env est0 mols rho = some est1) :
    ∃ est2 : Estimator α,
      ff.CalcPressureVirialHSEL venv env est1 mols rho = some est2 ∧
      est2.vp_z = 2 * est1.vp_z ∧
      est2.vp_hs_rr = est1.vp_hs_rr.map (fun x => 2 * x) ∧
      est2.vp_zwall_rr = est1.vp_zwall_rr.map (fun x => 2 * x) ∧
      est2.p_tensor = est1.p_tensor ∧ est2.p_tensor_hs = est1.p_tensor_hs ∧
      est2.p_tensor_el = est1.p_tensor_el := by
  obtain ⟨hz, hh, hw, hel, hlsy⟩ :=
    Initialize_fresh inp beta_in npbc_in box_l_in n_mol mols0 ff0 est0 hinit
  unfold ForceField.CalcPressureVirialHSEL at h1
  split at h1
  · exact absurd h1 (by simp)
  rename_i n nc ci ai hrec
  dsimp only at h1
  split at h1
  · exact absurd h1 (by simp)
  rename_i hA hpair
  split at h1
  · exact absurd h1 (by simp)
  rename_i wA hwall
  split at h1
  · exact absurd h1 (by simp)
  rename_i tot htot
  split at h1
  · exact absurd h1 (by simp)
  rename_i lsy0 hs0 hhs0
  split at h1
  · exact absurd h1 (by simp)
  rename_i lsy1 hs1 hhs1
  split at h1
  · exact absurd h1 (by simp)
  rename_i lsy2 hs2 hhs2
  split at h1
  · exact absurd h1 (by simp)
  rename_i lsy3 hs2w hhw
  simp only [Option.some.injEq] at h1
  have hest1 := h1.symm
  clear h1
  have hp : est0.sameParams est1 := by
    rw [hest1]
    exact ⟨rfl, rfl, rfl, rfl, rfl, rfl, rfl⟩
  have hz1 : est1.vp_z = est0.vp_z + 1 := by rw [hest1]
  have hhr1 : est1.vp_hs_rr = hA := by rw [hest1]
  have hwr1 : est1.vp_zwall_rr = wA := by rw [hest1]
  have hly1 : est1.vp_hs_rr_lsy = lsy3 := by rw [hest1]
  have hn1 : (est1.n_mol, est1.n_chain, est1.n_cion, est1.n_aion) = (n, nc, ci, ai) := by
    rw [hest1]
  have htwo : est1.vp_z + 1 = 2 * (est0.vp_z + 1) := by
    rw [hz1, hz]
    norm_num
  have hrec2 : est1.recount ff.use_gc mols = some (n, nc, ci, ai) := by
    unfold Estimator.recount at hrec ⊢
    by_cases hgc : ff.use_gc = true
    · rw [if_pos hgc] at hrec ⊢
      exact hrec
    · rw [if_neg hgc]
      rw [hn1]
  have hpair2 : est1.pairCount venv env ff n mols est1.vp_hs_rr
      = some (hA.map (fun x => 2 * x)) := by
    rw [pairCount_params est0 est1 hp, hhr1]
    exact count_twice (fun a => est0.pairCount venv env ff n mols a)
      (fun a a1 => pairCount_length est0 venv env ff n mols a a1)
      (fun d a b a1 => pairCount_sim d est0 venv env ff n mols a b a1)
      est0.vp_hs_rr hA hh hpair
  have hwall2 : est1.wallCount venv ff n mols est1.vp_zwall_rr
      = some (wA.map (fun x => 2 * x)) := by
    rw [wallCount_params est0 est1 hp, hwr1]
    exact count_twice (fun a => est0.wallCount venv ff n mols a)
      (fun a a1 => wallCount_length est0 venv ff n mols a a1)
      (fun d a b a1 => wallCount_sim d est0 venv ff n mols a b a1)
      est0.vp_zwall_rr wA hw hwall
  have htot2 : est1.totals venv.kPi ff.vol (hA.map (fun x => 2 * x)) (est1.vp_z + 1)
      = some tot := by
    rw [totals_params est0 est1 hp, htwo]
    exact totals_double est0 _ _ _ _ _ htot
  have hl0 := (hardSphere_indep est0 venv rho tot 0 _ _ _ hlsy hlsy hhs0).2
  have hl1 := (hardSphere_indep est0 venv rho tot 1 _ _ _ hl0 hl0 hhs1).2
  have hl2 := (hardSphere_indep est0 venv rho tot 2 _ _ _ hl1 hl1 hhs2).2
  have hl3 := (hardWall_double est0 venv ff rho _ _ _ _ _ hl2 hhw).2
  simp only at hl0 hl1 hl2 hl3
  have hhs0b : est1.hardSphere venv rho tot 0 est1.vp_hs_rr_lsy = some (lsy0, hs0) := by
    rw [hardSphere_params est0 est1 hp, hly1]
    exact (hardSphere_indep est0 venv rho tot 0 _ _ _ hlsy hl3 hhs0).1
  have hhs1b : est1.hardSphere venv rho tot 1 lsy0 = some (lsy1, hs1) := by
    rw [hardSphere_params est0 est1 hp]
    exact hhs1
  have hhs2b : est1.hardSphere venv rho tot 2 lsy1 = some (lsy2, hs2) := by
    rw [hardSphere_params est0 est1 hp]
    exact hhs2
  have hhwb : est1.hardWall venv ff rho (est1.vp_z + 1) (wA.map (fun x => 2 * x)) lsy2 hs2
      = some (lsy3, hs2w) := by
    rw [hardWall_params est0 est1 hp, htwo]
    exact (hardWall_double est0 venv ff rho _ _ _ _ _ hl2 hhw).1
  unfold ForceField.CalcPressureVirialHSEL
  simp only [hrec2, hpair2, hwall2, htot2, hhs0b, hhs1b, hhs2b, hhwb]
  have hel1 : est1.p_tensor_el
      = (electro venv ff n mols est0.p_tensor_el_tot (est0.vp_z + 1)).2 := by
    rw [hest1]
  have helt1 : est1.p_tensor_el_tot
      = (electro venv ff n mols est0.p_tensor_el_tot (est0.vp_z + 1)).1 := by
    rw [hest1]
  have hhs1t : est1.p_tensor_hs = ⟨hs0, hs1, hs2w⟩ := by rw [hest1]
  have hpt1 : est1.p_tensor = ⟨1 + hs0 + est1.p_tensor_el.x, 1 + hs1 + est1.p_tensor_el.y,
      1 + hs2w + est1.p_tensor_el.z⟩ := by
    rw [hest1]
  have hel2 : (electro venv ff n mols est1.p_tensor_el_tot (est1.vp_z + 1)).2
      = est1.p_tensor_el := by
    rw [hel1, helt1, hz1, hz, hel]
    exact electro_twice venv ff n mols
  refine ⟨_, rfl, ?_, ?_, ?_, ?_, ?_, ?_⟩
  · show est1.vp_z + 1 = 2 * est1.vp_z
    rw [hz1, hz]
    norm_num
  · show hA.map (fun x => 2 * x) = est1.vp_hs_rr.map (fun x => 2 * x)
    rw [hhr1]
  · show wA.map (fun x => 2 * x) = est1.vp_zwall_rr.map (fun x => 2 * x)
    rw [hwr1]
  · rw [hpt1]
    simp only [hel2]
  · rw [hhs1t]
  · exact hel2

/-- The result of `Initialize` on the sample grand-canonical input with bead size
`1`, a box of edge `10` and an empty population. -/
theorem sample_Initialize (len charge trials : Int) :
    ForceField.Initialize (ForceFieldInput.sample (1 : ℝ) true len charge trials)
      1 3 ⟨10, 10, 10⟩ 0 [] =
    Startup.ok
      (((ForceFieldInput.sample (1 : ℝ) true len charge trials).forceField
          1 3 ⟨10, 10, 10⟩ 0 len).InitializeEnergy (fun _ => 0),
        (ForceFieldInput.sample (1 : ℝ) true len charge trials).estimator
          ⟨10, 10, 10⟩ [] len (0, 0, 0)) := by
  have hfl : (0 : Int) ≤ Int.floor (((1 : ℝ) / 2 * 10 - 1) / (1 * (1 / 100))) :=
    Int.floor_nonneg.mpr (by norm_num)
  have harr : ∀ cl : Int, (ForceFieldInput.sample (1 : ℝ) true len charge trials).arraysDefined
      ⟨10, 10, 10⟩ cl := by
    intro cl
    refine ⟨by norm_num [ForceFieldInput.sample], ?_, ?_⟩
    · simp only [ForceFieldInput.sample]
      exact mul_nonneg (mul_nonneg hfl (by norm_num)) (mul_self_nonneg _)
    · intro h
      simp [ForceFieldInput.sample] at h
  unfold ForceField.Initialize
  have hn := sample_names_ok (1 : ℝ) true len charge trials
  simp only [not_or] at hn
  rw [if_neg hn.1, if_neg hn.2.1, if_neg hn.2.2.1, if_neg hn.2.2.2,
    if_neg (by norm_num [ForceFieldInput.sample]), if_neg (by simp [ForceFieldInput.sample])]
  simp only [countSpecies]
  rw [if_pos (harr _)]
  rfl

/-- The first call of the estimator on two single-bead molecules, from the estimator
that `Initialize` returns, completes with one sample and a pair histogram that is
not empty. -/
theorem sampleGC_run :
    ∃ est1 : Estimator ℝ,
      (ForceField.sampleGC (α := ℝ)).CalcPressureVirialHSEL
        VirialEnv.unit (Env.ofLibm Real.exp Real.sqrt (10000000000 : ℝ) (2 ^ ((1 : ℝ) / 6)))
        Estimator.sampleGC twoBeads 1 = some est1 ∧
      est1.vp_z = 1 ∧ est1.vp_hs_rr[4]? = some (1 / 2) := by
  have hrec : (Estimator.sampleGC (α := ℝ)).recount (ForceField.sampleGC (α := ℝ)).use_gc twoBeads
      = some (2, 0, 2, 0) := by
    norm_num [Estimator.recount, countSpecies, ForceField.sampleGC, twoBeads,
      ForceFieldInput.forceField, ForceFieldInput.sample, ForceField.InitializeEnergy,
      Molecule.Size, Bead.placed, Bead.fresh, Bead.SetAllCrd]
  obtain ⟨H, hH, hH4⟩ : ∃ H : List ℝ, (Estimator.sampleGC (α := ℝ)).pairCount VirialEnv.unit
      (Env.ofLibm Real.exp Real.sqrt (10000000000 : ℝ) (2 ^ ((1 : ℝ) / 6)))
      ForceField.sampleGC 2 twoBeads (Estimator.sampleGC (α := ℝ)).vp_hs_rr = some H ∧
      H[4]? = some (1 / 2) := by
    norm_num [Estimator.pairCount, Estimator.pairVisit, Estimator.pairBin, Estimator.sampleGC,
      ForceField.sampleGC, twoBeads,
      forLoop, addAt, getAt, setAt, ForceFieldInput.estimator, ForceFieldInput.forceField,
      ForceFieldInput.sample, ForceField.InitializeEnergy, VirialEnv.unit, Env.ofLibm,
      Molecule.Size, Bead.placed, Bead.fresh, Bead.SetAllCrd, List.range_succ, Int.toNat]
  have hlen : H.length = 108 := by
    rw [pairCount_length _ _ _ _ _ _ _ _ hH]
    norm_num [Estimator.sampleGC, ForceFieldInput.estimator, Int.toNat]
  have hW : (Estimator.sampleGC (α := ℝ)).wallCount VirialEnv.unit ForceField.sampleGC 2
      twoBeads (Estimator.sampleGC (α := ℝ)).vp_zwall_rr
      = some (Estimator.sampleGC (α := ℝ)).vp_zwall_rr := by
    simp [Estimator.wallCount, VirialEnv.unit]
  obtain ⟨T, hT, hlenT⟩ : ∃ T : List ℝ, (Estimator.sampleGC (α := ℝ)).totals
      (VirialEnv.unit (α := ℝ)).kPi (ForceField.sampleGC (α := ℝ)).vol H
      ((Estimator.sampleGC (α := ℝ)).vp_z + 1) = some T ∧ T.length = 12 := by
    norm_num [Estimator.totals, Estimator.binTotals, Estimator.sampleGC,
      forLoop, getAt, ForceFieldInput.estimator,
      ForceFieldInput.sample, List.range_succ, hlen, List.getElem?_eq_getElem, Int.toNat]
  have hbin : (Estimator.sampleGC (α := ℝ)).vp_hs_bin.toNat = 4 := rfl
  have hlsy : (Estimator.sampleGC (α := ℝ)).vp_hs_rr_lsy.length = 4 := rfl
  have hHS0 : ∀ lsy : List ℝ, lsy.length = 4 → ∃ r,
      (Estimator.sampleGC (α := ℝ)).hardSphere VirialEnv.unit 1 T 0 lsy = some r := by
    intro lsy hl
    norm_num [Estimator.hardSphere, writeLsy, Estimator.sampleGC,
      forLoop, getAt, setAt, ForceFieldInput.estimator,
      ForceFieldInput.sample, List.range_succ, hl, hlenT, List.getElem?_eq_getElem, Int.toNat]
  have hHS1 : ∀ lsy : List ℝ, lsy.length = 4 → ∃ r,
      (Estimator.sampleGC (α := ℝ)).hardSphere VirialEnv.unit 1 T 1 lsy = some r := by
    intro lsy hl
    norm_num [Estimator.hardSphere, writeLsy, Estimator.sampleGC,
      forLoop, getAt, setAt, ForceFieldInput.estimator,
      ForceFieldInput.sample, List.range_succ, hl, hlenT, List.getElem?_eq_getElem, Int.toNat]
  have hHS2 : ∀ lsy : List ℝ, lsy.length = 4 → ∃ r,
      (Estimator.sampleGC (α := ℝ)).hardSphere VirialEnv.unit 1 T 2 lsy = some r := by
    intro lsy hl
    norm_num [Estimator.hardSphere, writeLsy, Estimator.sampleGC,
      forLoop, getAt, setAt, ForceFieldInput.estimator,
      ForceFieldInput.sample, List.range_succ, hl, hlenT, List.getElem?_eq_getElem, Int.toNat]
  obtain ⟨⟨lsy0, hs0⟩, h0⟩ := hHS0 _ hlsy
  have hl0 : lsy0.length = 4 := (hardSphere_indep (Estimator.sampleGC (α := ℝ)) _ _ _ _ _ _ _
    (hlsy.trans hbin.symm) (hlsy.trans hbin.symm) h0).2.trans hbin
  obtain ⟨⟨lsy1, hs1⟩, h1⟩ := hHS1 lsy0 hl0
  have hl1 : lsy1.length = 4 := (hardSphere_indep (Estimator.sampleGC (α := ℝ)) _ _ _ _ _ _ _
    (hl0.trans hbin.symm) (hl0.trans hbin.symm) h1).2.trans hbin
  obtain ⟨⟨lsy2, hs2⟩, h2⟩ := hHS2 lsy1 hl1
  have hWall : ∀ z : ℝ, (Estimator.sampleGC (α := ℝ)).hardWall VirialEnv.unit ForceField.sampleGC 1
      z (Estimator.sampleGC (α := ℝ)).vp_zwall_rr lsy2 hs2 = some (lsy2, hs2) := by
    intro z
    simp [Estimator.hardWall, VirialEnv.unit]
  unfold ForceField.CalcPressureVirialHSEL
  rw [hrec]
  dsimp only
  rw [hH]
  dsimp only
  rw [hW]
  dsimp only
  rw [hT]
  dsimp only
  rw [h0]
  dsimp only
  rw [h1]
  dsimp only
  rw [h2]
  dsimp only
  rw [hWall]
  refine ⟨_, rfl, ?_, hH4⟩
  norm_num [Estimator.sampleGC, ForceFieldInput.estimator]


/-- The sample input initialises to the sample force field and estimator. -/
theorem sampleGC_Initialize :
    ForceField.Initialize (ForceFieldInput.sample (1 : ℝ) true 1 0 1) 1 3 ⟨10, 10, 10⟩ 0 []
      = Startup.ok (ForceField.sampleGC, Estimator.sampleGC) :=
  sample_Initialize 1 0 1

/-- Witness for C11: the estimator that `Initialize` returns for the sample
grand-canonical input, called twice on two single-bead molecules at distance `1`
(the bead size) with density `1`; the first call completes, so the hypotheses of
`CalcPressureVirialHSEL_twice` hold; after the second call the sample counter is
`2` and the bin that held `1/2` holds `1`. -/
theorem CalcPressureVirialHSEL_twice_witness :
    ∃ est1 est2 : Estimator ℝ,
      (ForceField.sampleGC (α := ℝ)).CalcPressureVirialHSEL VirialEnv.unit
        (Env.ofLibm Real.exp Real.sqrt (10000000000 : ℝ) (2 ^ ((1 : ℝ) / 6)))
        Estimator.sampleGC twoBeads 1 = some est1 ∧
      (ForceField.sampleGC (α := ℝ)).CalcPressureVirialHSEL VirialEnv.unit
        (Env.ofLibm Real.exp Real.sqrt (10000000000 : ℝ) (2 ^ ((1 : ℝ) / 6)))
        est1 twoBeads 1 = some est2 ∧
      est1.vp_z = 1 ∧ est2.vp_z = 2 ∧
      est1.vp_hs_rr[4]? = some (1 / 2) ∧ est2.vp_hs_rr[4]? = some 1 ∧
      est2.p_tensor = est1.p_tensor := by
  obtain ⟨est1, h1, hz1, hb1⟩ := sampleGC_run
  obtain ⟨est2, h2, hz, hh, _, hp, _, _⟩ := CalcPressureVirialHSEL_twice VirialEnv.unit
    (Env.ofLibm Real.exp Real.sqrt (10000000000 : ℝ) (2 ^ ((1 : ℝ) / 6)))
    (ForceFieldInput.sample (1 : ℝ) true 1 0 1) 1 3 ⟨10, 10, 10⟩ 0 []
    ForceField.sampleGC Estimator.sampleGC ForceField.sampleGC twoBeads 1 est1
    sampleGC_Initialize h1
  refine ⟨est1, est2, h1, h2, hz1, ?_, hb1, ?_, hp⟩
  · rw [hz, hz1]
    norm_num
  · rw [hh, List.getElem?_map, hb1]
    norm_num

end PressureTheorems

/-! ## Theorems: Rosenbluth selection -/

section SelectionTheorems

variable {α : Type} [LinearOrderedField α]

/-- The cumulative-weight walk from index `k` with cumulative weight `c`: when the
threshold is at most the total, the walk ends after `m` steps at the first index
whose cumulative weight reaches the threshold. -/
theorem selectWalk_least (rand_num : α) (rest : List α) :
    ∀ (k : Nat) (c : α), rand_num ≤ c + rest.sum →
      ∃ m, m ≤ rest.length ∧ selectWalk rand_num rest k c = some (k + m) ∧
        rand_num ≤ c + (rest.take m).sum ∧
        ∀ j, j < m → c + (rest.take j).sum < rand_num := by
  induction rest with
  | nil =>
    intro k c h
    have hc : ¬ c < rand_num := by simpa using h
    exact ⟨0, le_refl 0, by simp [selectWalk, hc], by simpa using h,
      fun j hj => absurd hj (Nat.not_lt_zero j)⟩
  | cons w rest ih =>
    intro k c h
    by_cases hc : c < rand_num
    · obtain ⟨m, hm, hsel, hle, hlt⟩ := ih (k + 1) (c + w)
        (by rw [List.sum_cons] at h; linarith)
      refine ⟨m + 1, by simpa using hm, ?_, ?_, ?_⟩
      · simp only [selectWalk, hc, if_true, hsel]
        congr 1
        omega
      · rw [List.take_succ_cons, List.sum_cons]
        linarith
      · intro j hj
        cases j with
        | zero => simpa using hc
        | succ j =>
          have := hlt j (by omega)
          rw [List.take_succ_cons, List.sum_cons]
          linarith
    · exact ⟨0, Nat.zero_le _, by simp [selectWalk, hc], by simpa using not_lt.mp hc,
        fun j hj => absurd hj (Nat.not_lt_zero j)⟩

/-- The partial sums of non-negative weights do not decrease. -/
theorem take_sum_mono (weights : List α) (hnn : ∀ w ∈ weights, 0 ≤ w) :
    ∀ (i j : Nat), i ≤ j → (weights.take i).sum ≤ (weights.take j).sum := by
  induction weights with
  | nil => intro i j _; simp
  | cons w ws ih =>
    intro i j hij
    have hw : 0 ≤ w := hnn w (List.mem_cons_self _ _)
    have hws : ∀ x ∈ ws, 0 ≤ x := fun x hx => hnn x (List.mem_cons_of_mem _ hx)
    cases i with
    | zero =>
      simp only [List.take_zero, List.sum_nil]
      exact List.sum_nonneg (fun x hx => hnn x (List.mem_of_mem_take hx))
    | succ i =>
      cases j with
      | zero => omega
      | succ j =>
        simp only [List.take_succ_cons, List.sum_cons]
        have := ih hws i j (by omega)
        linarith

/-- C21: Rosenbluth selection. For every array of `k >= 1` non-negative trial
weights with sum `Wi` and every draw `d <= Wi` (in particular every `d` in
`[0, Wi]`), the cumulative-weight walk ends with a selected index `c < k`, and `c`
is the least index whose cumulative weight `w_0 + ... + w_c` is at least `d`.
Hence trial `c` is selected exactly by the draws `d` with
`w_0 + ... + w_(c-1) < d <= w_0 + ... + w_c` (for `c = 0`: by the draws
`d <= w_0`), an interval whose length is the weight `w_c`. -/
theorem rosenbluthSelect_least (weights : List α) (d : α) (hk : 1 ≤ weights.length)
    (hnn : ∀ w ∈ weights, 0 ≤ w) (hd : d ≤ weights.sum) :
    (∃ c, rosenbluthSelect weights d = some c ∧ c < weights.length ∧
      d ≤ (weights.take (c + 1)).sum ∧
      ∀ j, j < c → (weights.take (j + 1)).sum < d) ∧
    (∀ c, c < weights.length →
      (rosenbluthSelect weights d = some c ↔
        ((c = 0 ∨ (weights.take c).sum < d) ∧ d ≤ (weights.take (c + 1)).sum))) ∧
    (∀ c (hc : c < weights.length),
      (weights.take (c + 1)).sum - (weights.take c).sum = weights.get ⟨c, hc⟩) := by
  have hex : ∃ c, rosenbluthSelect weights d = some c ∧ c < weights.length ∧
      d ≤ (weights.take (c + 1)).sum ∧
      ∀ j, j < c → (weights.take (j + 1)).sum < d := by
    cases weights with
    | nil => simp at hk
    | cons w0 rest =>
      obtain ⟨m, hm, hsel, hle, hlt⟩ := selectWalk_least d rest 0 w0
        (by rw [List.sum_cons] at hd; exact hd)
      refine ⟨m, ?_, ?_, ?_, ?_⟩
      · simpa [rosenbluthSelect] using hsel
      · simp only [List.length_cons]
        omega
      · rw [List.take_succ_cons, List.sum_cons]
        exact hle
      · intro j hj
        rw [List.take_succ_cons, List.sum_cons]
        exact hlt j hj
  refine ⟨hex, ?_, ?_⟩
  · intro c hc
    obtain ⟨c0, hsel, hc0, hle, hlt⟩ := hex
    constructor
    · intro h
      rw [hsel] at h
      simp only [Option.some.injEq] at h
      subst h
      refine ⟨?_, hle⟩
      cases c0 with
      | zero => exact Or.inl rfl
      | succ c1 => exact Or.inr (hlt c1 (Nat.lt_succ_self c1))
    · rintro ⟨h1, h2⟩
      rw [hsel]
      congr 1
      rcases Nat.lt_trichotomy c0 c with hlt' | heq | hgt
      · exfalso
        rcases h1 with h0 | h1
        · omega
        · have := take_sum_mono weights hnn (c0 + 1) c (by omega)
          linarith
      · exact heq
      · exfalso
        have := hlt c hgt
        linarith
  · intro c hc
    have hsplit : weights.take (c + 1) = weights.take c ++ [weights.get ⟨c, hc⟩] := by
      rw [List.take_succ, List.getElem?_eq_getElem hc]
      rfl
    rw [hsplit, List.sum_append]
    simp

/-- Witness for C21: the weights `1, 2, 3` and the draw `5/2`; the walk selects
trial `1`, whose interval of draws is `(1, 3]`. -/
theorem rosenbluthSelect_least_witness :
    rosenbluthSelect [(1 : ℝ), 2, 3] (5 / 2) = some 1 ∧
    (rosenbluthSelect [(1 : ℝ), 2, 3] (5 / 2) = some 1 ↔
      (((1 : Nat) = 0 ∨ (([(1 : ℝ), 2, 3]).take 1).sum < 5 / 2) ∧
        (5 / 2 : ℝ) ≤ (([(1 : ℝ), 2, 3]).take (1 + 1)).sum)) := by
  have h := rosenbluthSelect_least [(1 : ℝ), 2, 3] (5 / 2) (by simp)
    (by intro w hw; simp at hw; rcases hw with rfl | rfl | rfl <;> norm_num)
    (by norm_num)
  have h2 := h.2.1 1 (by simp)
  exact ⟨h2.mpr ⟨Or.inr (by norm_num), by norm_num⟩, h2⟩

end SelectionTheorems

/-! ## Theorems: the Rosenbluth weight of the deletion path -/

section DeletionWeight

variable {α : Type} [LinearOrderedField α] [FloorRing α]

/-- The loop of lines 904-906 adds the entries `j, ..., j+n-1` of the weight
array. -/
theorem sumWeights_eq (weights : List α) (n : Nat) :
    ∀ (j : Nat) (Wi r : α), sumWeights weights n j Wi = some r →
      r = Wi + ((weights.drop j).take n).sum := by
  induction n with
  | zero =>
    intro j Wi r h
    simp only [sumWeights, Option.some.injEq] at h
    simp [h]
  | succ n ih =>
    intro j Wi r h
    simp only [sumWeights] at h
    split at h
    · exact absurd h (by simp)
    · rename_i w hw
      have hlt : j < weights.length := (List.getElem?_eq_some_iff.mp hw).1
      have hv : weights[j] = w := (List.getElem?_eq_some_iff.mp hw).2
      rw [ih _ _ _ h, List.drop_eq_getElem_cons hlt, List.take_succ_cons, List.sum_cons, hv]
      ring

/-- C22, amended: in every iteration of the regrowth loop of `CBMCChainDeletion`
(every bead after the first, at least one trial configured), the Rosenbluth sum
`W_i` that multiplies the running weight (as `W_i / cbmc_no_of_trials`) is the
Boltzmann weight of the real (existing) bead, which line 901 writes over the weight
of trial `0`, plus the Boltzmann weights of the resampled trials
`1, ..., cbmc_no_of_trials - 1`; the sum of the weights of all resampled trials,
which `CBMCGenTrialBeads` returns, is discarded. -/
theorem regrowRest_step_weight (env : Env α) (mols : List (Molecule α)) (delete_id : Int)
    (i : Nat) (type : Int) (ff : ForceField α) (g : Rng) (weight : α)
    (r : α × ForceField α × Rng) (hT : 1 ≤ ff.cbmc_no_of_trials)
    (h : ForceField.regrowRest env mols delete_id 1 i type ff g weight = some r) :
    ∃ (sb c end_bead : Bead α) (Wfresh : α) (ff2 : ForceField α) (g2 : Rng) (e : α),
      ff.realBead mols delete_id i = some sb ∧ ff.cbmc_chain[i]? = some c ∧
      (ff.withChain (ff.cbmc_chain.set i
          (c.SetAllCrd ⟨sb.GetCrd 0, sb.GetCrd 1, sb.GetCrd 2⟩))).CBMCGenTrialBeads env
        end_bead mols (i : Int) g delete_id (if (i : Int) < ff.gc_chain_len then type else 1)
        = some (Wfresh, ff2, g2) ∧
      Wfresh = (ff2.cbmc_trial_weights.take ff.cbmc_no_of_trials.toNat).sum ∧
      ff2.BeadEnergy (c.SetAllCrd ⟨sb.GetCrd 0, sb.GetCrd 1, sb.GetCrd 2⟩) mols (i : Int)
        delete_id (if (i : Int) < ff.gc_chain_len then type else 1) = some e ∧
      r.1 = weight * ((env.exp (-ff.beta * e)
        + ((ff2.cbmc_trial_weights.take ff.cbmc_no_of_trials.toNat).drop 1).sum)
          / (ff.cbmc_no_of_trials : α)) := by
  simp only [ForceField.regrowRest] at h
  have hsrc : ∀ o : Option (Bead α), ff.realBead mols delete_id i = o →
      (if (i : Int) < ff.gc_chain_len then
        match getAt mols delete_id with
        | none => none
        | some m => m.bds[i]?
      else
        match getAt mols (delete_id + (i : Int) - ff.gc_chain_len + 1) with
        | none => none
        | some m => m.bds[0]?) = o := fun o ho => ho
  cases hreal : ff.realBead mols delete_id i with
  | none =>
    rw [hsrc none hreal] at h
    exact absurd h (by simp)
  | some sb =>
    rw [hsrc (some sb) hreal] at h
    simp only at h
    split at h
    · exact absurd h (by simp)
    · rename_i c hc
      split at h
      · exact absurd h (by simp)
      · rename_i end_bead hend
        split at h
        · exact absurd h (by simp)
        · rename_i Wfresh ff2 g2 hgen
          split at h
          · exact absurd h (by simp)
          · rename_i e he
            split at h
            · exact absurd h (by simp)
            · rename_i ws hset
              split at h
              · exact absurd h (by simp)
              · rename_i Wi hsum
                simp only [Option.some.injEq] at h
                subst h
                have hs := (genTrials_scratchOnly env _ mols _ _ _ _ _ _ _ _ _ hgen).1
                obtain ⟨hbeta, _, _, hT2, _, _, _⟩ := scratchOnly_params hs
                simp only [withChain_beta, withChain_cbmc_no_of_trials] at hbeta hT2
                have hfresh := (genTrials_sum env _ mols _ _ _ _ _ _ _ _ _ hgen).2.2.2
                simp only [List.drop_zero, zero_add, withChain_cbmc_no_of_trials] at hfresh
                refine ⟨sb, c, end_bead, Wfresh, ff2, g2, e, rfl, hc, hgen, hfresh, he, ?_⟩
                have hWi := sumWeights_eq _ _ _ _ _ hsum
                unfold setAt at hset
                split at hset
                · rename_i hpos
                  simp only [Option.some.injEq] at hset
                  subst hset
                  simp only [List.drop_zero, zero_add] at hWi
                  rw [hWi, hbeta, hT2]
                  obtain ⟨n, hn⟩ : ∃ n, ff.cbmc_no_of_trials.toNat = n + 1 :=
                    ⟨ff.cbmc_no_of_trials.toNat - 1, by omega⟩
                  rw [hn]
                  cases hw : ff2.cbmc_trial_weights with
                  | nil => rw [hw] at hpos; simp at hpos
                  | cons w0 rest => simp
                · exact absurd hset (by simp)

/-- The regrowth of bead `1` of the dimer (real position `x = 1`, energy `1`) with
one trial per bead, in the external potential `slope`: the single resampled trial
lies at the previous bead (`x = 0`, weight `exp 0 = 1`), and the running weight is
multiplied by `exp (-1)`. -/
theorem sloped_regrow_run :
    ∃ (ff2 ff3 : ForceField ℝ) (g2 g3 : Rng),
      (((ForceField.sloped (2 : ℝ) 2 0 1).InitializeEnergy (fun _ => 0)).withChain
          ((((ForceField.sloped (2 : ℝ) 2 0 1).InitializeEnergy (fun _ => 0)).cbmc_chain).set 1
            ((Bead.fresh "A" 0).SetAllCrd ⟨1, 0, 0⟩))).CBMCGenTrialBeads
        (Env.ofLibm Real.exp Real.sqrt (10000000000 : ℝ) (2 ^ ((1 : ℝ) / 6)))
        (Bead.fresh "A" 0) oneDimer 1 (Rng.const 0) 0 0 = some (1, ff2, g2) ∧
      ForceField.regrowRest
        (Env.ofLibm Real.exp Real.sqrt (10000000000 : ℝ) (2 ^ ((1 : ℝ) / 6)))
        oneDimer 0 1 1 0 ((ForceField.sloped (2 : ℝ) 2 0 1).InitializeEnergy (fun _ => 0))
        (Rng.const 0) 1 = some (Real.exp (-1), ff3, g3) := by
  norm_num [ForceField.regrowRest, ForceField.CBMCGenTrialBeads, ForceField.genTrials,
    ForceField.InitializeEnergy, ForceField.sloped, ForceField.plain, oneDimer,
    PotentialExternal.slope, ForceField.trialBondLen, ForceField.trialCoord,
    ForceField.BeadEnergy, ForceField.beadVsMols, ForceField.beadVsMolecule,
    ForceField.beadVsChain, ForceField.withChain, ForceField.withTrialBeads,
    ForceField.withWeights, sumWeights, getAt, setAt, Env.ofLibm, Rng.const,
    Bead.SetAllCrd, Bead.fresh, Bead.GetCrd, Bead.placed, Vec3.get, Int.toNat]

/-- C22 as stated fails: in the regrowth of bead `1` of the dimer the Rosenbluth
sum of the resampled trial set, which `CBMCGenTrialBeads` returns, is `1`, but the
running weight `1` is multiplied by `exp (-1)`, the Boltzmann weight of the real
bead, and not by `1 / 1`. -/
theorem regrow_real_bead_counterexample :
    ∃ (ff2 ff3 : ForceField ℝ) (g2 g3 : Rng) (w : ℝ),
      (((ForceField.sloped (2 : ℝ) 2 0 1).InitializeEnergy (fun _ => 0)).withChain
          ((((ForceField.sloped (2 : ℝ) 2 0 1).InitializeEnergy (fun _ => 0)).cbmc_chain).set 1
            ((Bead.fresh "A" 0).SetAllCrd ⟨1, 0, 0⟩))).CBMCGenTrialBeads
        (Env.ofLibm Real.exp Real.sqrt (10000000000 : ℝ) (2 ^ ((1 : ℝ) / 6)))
        (Bead.fresh "A" 0) oneDimer 1 (Rng.const 0) 0 0 = some (1, ff2, g2) ∧
      ForceField.regrowRest
        (Env.ofLibm Real.exp Real.sqrt (10000000000 : ℝ) (2 ^ ((1 : ℝ) / 6)))
        oneDimer 0 1 1 0 ((ForceField.sloped (2 : ℝ) 2 0 1).InitializeEnergy (fun _ => 0))
        (Rng.const 0) 1 = some (w, ff3, g3) ∧
      w ≠ 1 * (1 / 1) := by
  obtain ⟨ff2, ff3, g2, g3, h1, h2⟩ := sloped_regrow_run
  refine ⟨ff2, ff3, g2, g3, Real.exp (-1), h1, h2, ?_⟩
  norm_num

/-- Witness for C22 (amended): the regrowth of bead `1` of the dimer satisfies the
hypotheses of `regrowRest_step_weight`; the factor is the weight of the real bead
plus the (empty) sum of the resampled trials after the first. -/
theorem regrowRest_step_weight_witness :
    ∃ (r : ℝ × ForceField ℝ × Rng) (ff2 : ForceField ℝ) (e : ℝ),
      ForceField.regrowRest
        (Env.ofLibm Real.exp Real.sqrt (10000000000 : ℝ) (2 ^ ((1 : ℝ) / 6)))
        oneDimer 0 1 1 0 ((ForceField.sloped (2 : ℝ) 2 0 1).InitializeEnergy (fun _ => 0))
        (Rng.const 0) 1 = some r ∧
      r.1 = 1 * ((Real.exp (-1 * e) + ((ff2.cbmc_trial_weights.take 1).drop 1).sum) / 1) := by
  obtain ⟨_, ff3, _, g3, _, h2⟩ := sloped_regrow_run
  obtain ⟨_, _, _, _, ff2, _, e, _, _, _, _, _, hw⟩ := regrowRest_step_weight
    (Env.ofLibm Real.exp Real.sqrt (10000000000 : ℝ) (2 ^ ((1 : ℝ) / 6)))
    oneDimer 0 1 0 ((ForceField.sloped (2 : ℝ) 2 0 1).InitializeEnergy (fun _ => 0))
    (Rng.const 0) 1 _ (by norm_num [ForceField.InitializeEnergy, ForceField.sloped,
      ForceField.plain]) h2
  refine ⟨_, ff2, e, h2, ?_⟩
  simpa [ForceField.InitializeEnergy, ForceField.sloped, ForceField.plain, Env.ofLibm] using hw

end DeletionWeight

/-! ## Theorems: the bead energy -/

section BeadEnergyTheorems

variable {α : Type} [LinearOrderedField α]

/-- The loop over the beads of one molecule adds their pair energies. -/
theorem beadVsMolecule_eq (ff : ForceField α) (bead : Bead α) (bds : List (Bead α)) :
    ∀ energy : α, ff.beadVsMolecule bead bds energy = energy +
      (if ff.use_pair_pot then
        (bds.map (fun b => ff.pair_pot.PairEnergy bead b ff.box_l ff.npbc)).sum else 0) := by
  induction bds with
  | nil => intro energy; simp [ForceField.beadVsMolecule]
  | cons b bds ih =>
    intro energy
    by_cases hp : ff.use_pair_pot = true
    · simp only [ForceField.beadVsMolecule, hp, if_true, ih, List.map_cons, List.sum_cons]
      ring
    · simp only [ForceField.beadVsMolecule, hp, ih]
      simp

/-- The loop over the population, from molecule `i` on, adds the pair energies of
the molecules outside the window. -/
theorem beadVsMols_eq (ff : ForceField α) (bead : Bead α) (delete_id c : Int)
    (mols : List (Molecule α)) :
    ∀ (i : Nat) (energy : α), ff.beadVsMols bead delete_id c mols i energy = energy +
      (if ff.use_pair_pot then
        (((mols.enumFrom i).filter (fun p =>
          decide (¬ (delete_id ≠ -1 ∧ delete_id ≤ (p.1 : Int) ∧ (p.1 : Int) ≤ delete_id + c)))).map
          (fun p => (p.2.bds.map
            (fun b => ff.pair_pot.PairEnergy bead b ff.box_l ff.npbc)).sum)).sum
        else 0) := by
  induction mols with
  | nil => intro i energy; simp [ForceField.beadVsMols]
  | cons m ms ih =>
    intro i energy
    by_cases hin : delete_id = -1 ∨ ((i : Int) < delete_id ∨ (i : Int) > delete_id + c)
    · have hdec : decide (¬ (delete_id ≠ -1 ∧ delete_id ≤ (i : Int) ∧ (i : Int) ≤ delete_id + c))
          = true := by
        rw [decide_eq_true_eq]
        rintro ⟨h1, h2, h3⟩
        rcases hin with h | h | h
        · exact h1 h
        · omega
        · omega
      simp only [ForceField.beadVsMols, hin, if_true, ih, beadVsMolecule_eq, List.enumFrom_cons,
        List.filter_cons, hdec, List.map_cons, List.sum_cons]
      by_cases hp : ff.use_pair_pot = true
      · simp only [hp, if_true]
        ring
      · simp [hp]
    · have hdec : decide (¬ (delete_id ≠ -1 ∧ delete_id ≤ (i : Int) ∧ (i : Int) ≤ delete_id + c))
          = false := by
        rw [decide_eq_false_iff_not, not_not]
        push_neg at hin
        exact ⟨hin.1, hin.2.1, hin.2.2⟩
      simp only [ForceField.beadVsMols, hin, if_false, ih, List.enumFrom_cons,
        List.filter_cons, hdec]
      simp

/-- The loop over the trial chain over indices that are all included adds their
pair energies; the beads are read only when the pair family is enabled. -/
theorem beadVsChain_included (ff : ForceField α) (bead : Bead α) (current_len type : Int)
    (n : Nat) :
    ∀ (i : Nat) (energy : α),
      (∀ j, i ≤ j → j < i + n → ((j : Int) < current_len - 1 ∨ type = 1)) →
      (ff.use_pair_pot = true → i + n ≤ ff.cbmc_chain.length) →
      ff.beadVsChain bead current_len type n i energy = some (energy +
        (if ff.use_pair_pot then
          (((ff.cbmc_chain.drop i).take n).map
            (fun b => ff.pair_pot.PairEnergy bead b ff.box_l ff.npbc)).sum else 0)) := by
  induction n with
  | zero => intro i energy _ _; simp [ForceField.beadVsChain]
  | succ n ih =>
    intro i energy hincl hlen
    have hi := hincl i (le_refl i) (by omega)
    by_cases hp : ff.use_pair_pot = true
    · have hlt : i < ff.cbmc_chain.length := by have := hlen hp; omega
      simp only [ForceField.beadVsChain, hi, if_true, hp, List.getElem?_eq_getElem hlt]
      rw [ih (i + 1) _ (fun j h1 h2 => hincl j (by omega) (by omega))
        (fun _ => by have := hlen hp; omega)]
      simp only [hp, if_true, List.drop_eq_getElem_cons hlt, List.take_succ_cons, List.map_cons,
        List.sum_cons]
      congr 1
      ring
    · simp only [ForceField.beadVsChain, hi, if_true, hp]
      rw [ih (i + 1) _ (fun j h1 h2 => hincl j (by omega) (by omega))
        (fun h => absurd h hp)]
      simp [hp]

/-- The loop over the trial chain, run in two parts. -/
theorem beadVsChain_append (ff : ForceField α) (bead : Bead α) (current_len type : Int)
    (n m : Nat) :
    ∀ (i : Nat) (energy : α),
      ff.beadVsChain bead current_len type (n + m) i energy =
        (ff.beadVsChain bead current_len type n i energy).bind
          (fun e => ff.beadVsChain bead current_len type m (i + n) e) := by
  induction n with
  | zero => intro i energy; simp [ForceField.beadVsChain]
  | succ n ih =>
    intro i energy
    have hnm : n + 1 + m = (n + m) + 1 := by omega
    have hin : i + (n + 1) = i + 1 + n := by omega
    rw [hnm, hin]
    simp only [ForceField.beadVsChain]
    split
    · split
      · split
        · rfl
        · exact ih _ _
      · exact ih _ _
    · exact ih _ _

/-- The loop over the trial chain, as `BeadEnergy` runs it: the beads before the last
grown one for a chain bead, all of them for a counterion. -/
theorem beadVsChain_eq (ff : ForceField α) (bead : Bead α) (current_len type : Int)
    (energy : α)
    (hlen : ff.use_pair_pot = true →
      (if type = 1 then current_len.toNat else (current_len - 1).toNat)
        ≤ ff.cbmc_chain.length) :
    ff.beadVsChain bead current_len type current_len.toNat 0 energy = some (energy +
      (if ff.use_pair_pot then
        ((ff.cbmc_chain.take (if type = 1 then current_len.toNat else (current_len - 1).toNat)).map
          (fun b => ff.pair_pot.PairEnergy bead b ff.box_l ff.npbc)).sum else 0)) := by
  by_cases ht : type = 1
  · simp only [ht, if_true] at hlen ⊢
    have h := beadVsChain_included ff bead current_len 1 current_len.toNat 0 energy
      (fun j _ _ => Or.inr rfl) (by simpa using hlen)
    simpa using h
  · simp only [ht, if_false] at hlen ⊢
    by_cases h0 : current_len.toNat = 0
    · have h1 : (current_len - 1).toNat = 0 := by omega
      rw [h0, h1]
      simp [ForceField.beadVsChain]
    · obtain ⟨m, hm⟩ : ∃ m, current_len.toNat = m + 1 := ⟨current_len.toNat - 1, by omega⟩
      have h1 : (current_len - 1).toNat = m := by omega
      rw [hm, h1, beadVsChain_append ff bead current_len type m 1 0 energy]
      rw [h1] at hlen
      rw [beadVsChain_included ff bead current_len type m 0 energy
        (fun j _ hj => Or.inl (by omega)) (by simpa using hlen)]
      have hex : ¬ (((0 + m : Nat) : Int) < current_len - 1 ∨ type = 1) := by
        rintro (h | h)
        · omega
        · exact ht h
      simp only [Option.some_bind, ForceField.beadVsChain, hex, if_false, List.drop_zero]

/-- C23: `BeadEnergy(bead, mols, current_len, delete_id, type)` is the sum of the
pair energies between `bead` and every bead of every molecule `i` of the population
except, when `delete_id` is not `-1`, the window `delete_id <= i <= delete_id + c`
with `c = gc_chain_len` if `gc_bead_charge != 0` and `c = 0` otherwise; plus the
sum of the pair energies between `bead` and `cbmc_chain[j]` for
`0 <= j < current_len - 1` when `type = 0` or for `0 <= j < current_len` when
`type = 1`; plus the bead energy of the external potential when enabled (the trial
chain holding the beads read). With `delete_id = -1` no molecule is excluded, and
with the pair potential disabled only the external term remains. -/
theorem BeadEnergy_eq_spec (ff : ForceField α) (bead : Bead α) (mols : List (Molecule α))
    (current_len delete_id type : Int)
    (hlen : ff.use_pair_pot = true →
      (if type = 1 then current_len.toNat else (current_len - 1).toNat)
        ≤ ff.cbmc_chain.length) :
    ff.BeadEnergy bead mols current_len delete_id type
      = some (ff.beadEnergySpec bead mols current_len delete_id type) ∧
    (delete_id = -1 → ff.use_pair_pot = true →
      ff.BeadEnergy bead mols current_len delete_id type = some (
        (mols.map (fun m => (m.bds.map
          (fun b => ff.pair_pot.PairEnergy bead b ff.box_l ff.npbc)).sum)).sum
        + ((ff.cbmc_chain.take
            (if type = 1 then current_len.toNat else (current_len - 1).toNat)).map
          (fun b => ff.pair_pot.PairEnergy bead b ff.box_l ff.npbc)).sum
        + (if ff.use_ext_pot then ff.ext_pot.BeadEnergy bead ff.box_l else 0))) ∧
    (ff.use_pair_pot = false →
      ff.BeadEnergy bead mols current_len delete_id type
        = some (if ff.use_ext_pot then ff.ext_pot.BeadEnergy bead ff.box_l else 0)) := by
  have hmain : ff.BeadEnergy bead mols current_len delete_id type
      = some (ff.beadEnergySpec bead mols current_len delete_id type) := by
    unfold ForceField.BeadEnergy ForceField.beadEnergySpec
    simp only [beadVsMols_eq, beadVsChain_eq ff bead current_len type _ hlen, List.enum]
    by_cases hp : ff.use_pair_pot = true <;> by_cases he : ff.use_ext_pot = true <;>
      simp [hp, he]
  refine ⟨hmain, ?_, ?_⟩
  · intro hd hp
    rw [hmain]
    unfold ForceField.beadEnergySpec
    have hall : (mols.enum.filter (fun p => decide (¬ (delete_id ≠ -1 ∧ delete_id ≤ (p.1 : Int) ∧
        (p.1 : Int) ≤ delete_id +
          (if ff.gc_bead_charge ≠ 0 then ff.gc_chain_len else 0))))) = mols.enum := by
      rw [List.filter_eq_self]
      intro p _
      simp [hd]
    simp only [hall, hp, if_true, List.map_map]
    congr 3
    have hsnd : mols.enum.map (fun p => (p.2.bds.map
        (fun b => ff.pair_pot.PairEnergy bead b ff.box_l ff.npbc)).sum)
        = (mols.enum.map Prod.snd).map (fun m => (m.bds.map
          (fun b => ff.pair_pot.PairEnergy bead b ff.box_l ff.npbc)).sum) := by
      rw [List.map_map]
      rfl
    rw [hsnd, List.enum_map_snd]
  · intro hp
    rw [hmain]
    unfold ForceField.beadEnergySpec
    simp [hp]

/-- Witness for C23: a charged species of two beads, constant pair energy `1`, the
population `chargedDimerAndOne` with the window of molecule `0` excluded and a
counterion as third bead of the trial chain: one pair term from the molecule
outside the window and three from the trial chain. -/
theorem BeadEnergy_eq_spec_witness :
    ((ForceField.paired (1 : ℝ) 2 2 1 1).InitializeEnergy (fun _ => 0)).BeadEnergy
      (Bead.placed "A" (-1) 0 0 0) chargedDimerAndOne 3 0 1 = some 4 := by
  have h := (BeadEnergy_eq_spec
    ((ForceField.paired (1 : ℝ) 2 2 1 1).InitializeEnergy (fun _ => 0))
    (Bead.placed "A" (-1) 0 0 0) chargedDimerAndOne 3 0 1
    (by
      intro _
      norm_num [ForceField.InitializeEnergy, ForceField.paired, ForceField.plain])).1
  rw [h]
  norm_num [ForceField.beadEnergySpec, ForceField.InitializeEnergy, ForceField.paired,
    ForceField.plain, chargedDimerAndOne, PotentialPair.const, List.enum, List.enumFrom,
    Int.toNat]

end BeadEnergyTheorems

/-! ## Theorems: the shell indices of the pressure estimator -/

section ShellIndexTheorems

variable {α : Type} [LinearOrderedField α] [FloorRing α]

/-- Strictly inside the near-contact range, with a positive resolution, the shell
index of a pair lies in `[0, vp_hs_bin)`. -/
theorem pairBin_range (est : Estimator α) (vlen : α) (hres : 0 < est.vp_hs_res)
    (hbin : 0 < est.vp_hs_bin)
    (h : vlen < est.vp_bead_size + est.vp_hs_res * (est.vp_hs_bin : α)) :
    0 ≤ est.pairBin vlen ∧ est.pairBin vlen < est.vp_hs_bin := by
  have hlt : Int.floor ((vlen - est.vp_bead_size) / est.vp_hs_res) < est.vp_hs_bin := by
    rw [Int.floor_lt, div_lt_iff₀ hres]
    linarith
  unfold Estimator.pairBin
  dsimp only
  split
  · rename_i hneg
    exact ⟨le_refl 0, by omega⟩
  · rename_i hnn
    exact ⟨by omega, hlt⟩

/-- Strictly inside the near-contact range and not closer to the wall than half a
bead size, with a positive resolution, the shell index of a bead and a wall lies in
`[0, vp_hs_bin)`. -/
theorem wallBin_range (est : Estimator α) (dist : α) (hres : 0 < est.vp_hs_res)
    (hlow : est.vp_bead_size / 2 ≤ dist)
    (h : dist < est.vp_bead_size / 2 + est.vp_hs_res * (est.vp_hs_bin : α)) :
    0 ≤ est.wallBin dist ∧ est.wallBin dist < est.vp_hs_bin := by
  unfold Estimator.wallBin
  constructor
  · apply Int.floor_nonneg.mpr
    apply div_nonneg _ (le_of_lt hres)
    linarith
  · rw [Int.floor_lt, div_lt_iff₀ hres]
    linarith

/-- C24, the failing inputs, with the estimator that `Initialize` returns for the
sample input (bead size `1`, resolution `1/100`, `vp_hs_bin = 4`, histograms of
`108` and `4` entries). A bead at the distance `0` from the left wall passes the
near-contact test and gets the shell index `-50`, which is not raised to `0` as the
index of a pair is: the write into `vp_zwall_rr` falls before the array. A pair of
beads at the separation `26/25 = vp_bead_size + vp_hs_res*vp_hs_bin` passes the test
`vlen <= ...` and gets the shell index `4 = vp_hs_bin`: the write into `vp_hs_rr`
falls behind the array. -/
theorem shell_index_out_of_range :
    ((0 : ℝ) ≤ (Estimator.sampleGC (α := ℝ)).vp_bead_size / 2
        + (Estimator.sampleGC (α := ℝ)).vp_hs_res * ((Estimator.sampleGC (α := ℝ)).vp_hs_bin : ℝ) ∧
      (Estimator.sampleGC (α := ℝ)).wallBin 0 = -50 ∧
      (Estimator.sampleGC (α := ℝ)).wallCount (VirialEnv.contact 3 "HardWall" 0 10)
        (ForceField.sloped (10 : ℝ) 1 0 1) 1
        [{ bds := [Bead.placed "A" 0 0 0 0], bonds := [] }]
        (Estimator.sampleGC (α := ℝ)).vp_zwall_rr = none) ∧
    ((26 / 25 : ℝ) ≤ (Estimator.sampleGC (α := ℝ)).vp_bead_size
        + (Estimator.sampleGC (α := ℝ)).vp_hs_res * ((Estimator.sampleGC (α := ℝ)).vp_hs_bin : ℝ) ∧
      (Estimator.sampleGC (α := ℝ)).pairBin (26 / 25) = 4 ∧
      (Estimator.sampleGC (α := ℝ)).vp_hs_bin = 4 ∧
      (Estimator.sampleGC (α := ℝ)).pairCount (VirialEnv.contact (26 / 25) "none" 0 0)
        (Env.ofLibm Real.exp Real.sqrt (10000000000 : ℝ) (2 ^ ((1 : ℝ) / 6)))
        ForceField.sampleGC 2 twoBeads (Estimator.sampleGC (α := ℝ)).vp_hs_rr = none) := by
  have hw : (Estimator.sampleGC (α := ℝ)).wallBin 0 = -50 := by
    norm_num [Estimator.wallBin, Estimator.sampleGC, ForceFieldInput.estimator,
      ForceFieldInput.sample]
  have hp : (Estimator.sampleGC (α := ℝ)).pairBin (26 / 25) = 4 := by
    norm_num [Estimator.pairBin, Estimator.sampleGC, ForceFieldInput.estimator,
      ForceFieldInput.sample]
  have hsqrt : Real.sqrt (676 / 625) = 26 / 25 := by
    rw [show (676 / 625 : ℝ) = (26 / 25) ^ 2 by norm_num]
    exact Real.sqrt_sq (by norm_num)
  refine ⟨⟨?_, hw, ?_⟩, ⟨?_, hp, rfl, ?_⟩⟩
  · norm_num [Estimator.sampleGC, ForceFieldInput.estimator, ForceFieldInput.sample]
  · norm_num [Estimator.wallCount, hw, VirialEnv.contact, ForceField.sloped, ForceField.plain,
      forLoop, addAt, getAt, Molecule.Size, Bead.placed, Bead.fresh, Bead.SetAllCrd,
      List.range_succ, Int.toNat]
    norm_num [Estimator.sampleGC, ForceFieldInput.estimator, ForceFieldInput.sample]
  · norm_num [Estimator.sampleGC, ForceFieldInput.estimator, ForceFieldInput.sample]
  · norm_num [Estimator.pairCount, Estimator.pairVisit, hp, hsqrt, VirialEnv.contact,
      ForceField.sampleGC, twoBeads, forLoop, addAt, getAt, ForceFieldInput.forceField,
      ForceFieldInput.sample, ForceField.InitializeEnergy, Env.ofLibm,
      Molecule.Size, Bead.placed, Bead.fresh, Bead.SetAllCrd, List.range_succ, Int.toNat]
    norm_num [Estimator.sampleGC, ForceFieldInput.estimator, ForceFieldInput.sample, Int.toNat]
    have hnone : (List.replicate 108 (0 : ℝ))[112]? = none := by simp
    simp only [hnone]

end ShellIndexTheorems

/-! ## Theorems: the sizes of the scratch buffers -/

section BufferTheorems

variable {α : Type} [LinearOrderedField α]

/-- `BeadEnergy` completes when the trial chain holds the beads it reads. -/
theorem BeadEnergy_total (ff : ForceField α) (bead : Bead α) (mols : List (Molecule α))
    (current_len delete_id type : Int)
    (hlen : ff.use_pair_pot = true → current_len.toNat ≤ ff.cbmc_chain.length) :
    ∃ e, ff.BeadEnergy bead mols current_len delete_id type = some e := by
  unfold ForceField.BeadEnergy
  dsimp only
  rw [beadVsChain_eq ff bead current_len type _ (by
    intro hp
    have := hlen hp
    split <;> omega)]
  dsimp only
  split <;> exact ⟨_, rfl⟩

/-- The selection walk over a non-empty weight array selects one of its indices when
the threshold is at most the sum of the weights. -/
theorem rosenbluthSelect_lt (weights : List α) (d : α) (hk : 1 ≤ weights.length)
    (hd : d ≤ weights.sum) :
    ∃ c, rosenbluthSelect weights d = some c ∧ c < weights.length := by
  cases weights with
  | nil => simp at hk
  | cons w0 rest =>
    obtain ⟨m, hm, hsel, _, _⟩ := selectWalk_least d rest 0 w0
      (by rw [List.sum_cons] at hd; exact hd)
    exact ⟨m, by simpa [rosenbluthSelect] using hsel, by simp only [List.length_cons]; omega⟩

/-- The trial loop completes when the trial-bead and weight buffers hold the
entries it writes and the trial chain the beads it reads; the weights it writes are
values of `exp`. -/
theorem genTrials_total (env : Env α) (hexp : ∀ x, 0 ≤ env.exp x) (end_bead : Bead α)
    (mols : List (Molecule α)) (current_len delete_id type : Int) (n : Nat) :
    ∀ (i : Nat) (ff : ForceField α) (g : Rng) (Wi : α),
      0 ≤ ff.cbmc_no_of_trials →
      (∀ j, i ≤ j → j < i + n →
        (if type = 1 then j + ff.cbmc_no_of_trials.toNat else j) < ff.cbmc_trial_beads.length) →
      i + n ≤ ff.cbmc_trial_weights.length →
      (ff.use_pair_pot = true → current_len.toNat ≤ ff.cbmc_chain.length) →
      ∃ r : α × ForceField α × Rng,
        ForceField.genTrials env end_bead mols current_len delete_id type n i ff g Wi = some r ∧
        r.2.1.cbmc_trial_beads.length = ff.cbmc_trial_beads.length ∧
        (∀ j, i ≤ j → j < i + n → ∃ w, r.2.1.cbmc_trial_weights[j]? = some w ∧ 0 ≤ w) := by
  induction n with
  | zero =>
    intro i ff g Wi _ _ _ _
    exact ⟨(Wi, ff, g), rfl, rfl, fun j h1 h2 => absurd h2 (by omega)⟩
  | succ n ih =>
    intro i ff g Wi hT hb hw hc
    have hidx := hb i (le_refl i) (by omega)
    have hiw : i < ff.cbmc_trial_weights.length := by omega
    simp only [ForceField.genTrials]
    have hget : ∃ tb, getAt ff.cbmc_trial_beads
        (if type = 1 then (i : Int) + ff.cbmc_no_of_trials else (i : Int)) = some tb := by
      by_cases ht : type = 1
      · simp only [ht, if_true] at hidx ⊢
        have h0 : (0 : Int) ≤ (i : Int) + ff.cbmc_no_of_trials := by omega
        have h1 : ((i : Int) + ff.cbmc_no_of_trials).toNat = i + ff.cbmc_no_of_trials.toNat := by
          omega
        simp only [getAt, h0, if_true, h1]
        exact ⟨_, List.getElem?_eq_getElem hidx⟩
      · simp only [ht, if_false] at hidx ⊢
        simp only [getAt, Int.ofNat_nonneg, if_true, Int.toNat_ofNat]
        exact ⟨_, List.getElem?_eq_getElem hidx⟩
    obtain ⟨tb, htb⟩ := hget
    rw [htb]
    simp only
    obtain ⟨e, he⟩ := BeadEnergy_total
      (ff.withTrialBeads (ff.cbmc_trial_beads.set
        (if type = 1 then (i : Int) + ff.cbmc_no_of_trials else (i : Int)).toNat
        (tb.SetAllCrd (ff.trialCoord env end_bead (ff.trialBondLen g type).1
          (ff.trialBondLen g type).2 type).1)))
      (tb.SetAllCrd (ff.trialCoord env end_bead (ff.trialBondLen g type).1
          (ff.trialBondLen g type).2 type).1) mols current_len delete_id type
      (by simpa using hc)
    rw [he]
    simp only [setAt, withTrialBeads_cbmc_trial_weights, hiw, if_true]
    obtain ⟨r, hr, hlen, hws⟩ := ih (i + 1)
      ((ff.withTrialBeads (ff.cbmc_trial_beads.set
        (if type = 1 then (i : Int) + ff.cbmc_no_of_trials else (i : Int)).toNat
        (tb.SetAllCrd (ff.trialCoord env end_bead (ff.trialBondLen g type).1
          (ff.trialBondLen g type).2 type).1))).withWeights
        (ff.cbmc_trial_weights.set i (env.exp (-ff.beta * e))))
      (ff.trialCoord env end_bead (ff.trialBondLen g type).1
          (ff.trialBondLen g type).2 type).2
      (Wi + env.exp (-ff.beta * e))
      (by simpa using hT)
      (by
        intro j h1 h2
        simpa using hb j (by omega) (by omega))
      (by simp; omega)
      (by simpa using hc)
    have hpre := (genTrials_sum env _ mols _ _ _ _ _ _ _ _ _ hr).2.1
    refine ⟨r, hr, by simpa using hlen, ?_⟩
    intro j hj1 hj2
    by_cases hji : j = i
    · subst hji
      rw [hpre j (Nat.lt_succ_self j)]
      refine ⟨env.exp (-ff.beta * e), ?_, hexp _⟩
      simp [hiw]
    · exact hws j (by omega) (by omega)

/-- The sum of a list of non-negative weights, each read through `get?`, is not
negative. -/
theorem sum_nonneg_of_get (ws : List α)
    (h : ∀ j, j < ws.length → ∃ w, ws[j]? = some w ∧ 0 ≤ w) : 0 ≤ ws.sum := by
  apply List.sum_nonneg
  intro x hx
  obtain ⟨j, hj, rfl⟩ := List.getElem_of_mem hx
  obtain ⟨w, hw, hw0⟩ := h j hj
  rw [List.getElem?_eq_getElem hj] at hw
  simp only [Option.some.injEq] at hw
  rw [hw]
  exact hw0

/-- A write into the trial chain keeps the buffer sizes. -/
theorem sized_withChain_set (ff : ForceField α) (h : ff.sized) (i : Nat) (b : Bead α) :
    (ff.withChain (ff.cbmc_chain.set i b)).sized := by
  obtain ⟨h1, h2, h3, h4, h5⟩ := h
  refine ⟨h1, h2, ?_, h4, h5⟩
  simp only [withChain_cbmc_chain, List.length_set]
  exact h3

/-- With buffers of the sizes `InitializeEnergy` gives them, `CBMCGenTrialBeads`
completes for every growth type the species admits and leaves the sizes as they
are; the weights it writes are not negative and sum to the value it returns. -/
theorem CBMCGenTrialBeads_total (env : Env α) (hexp : ∀ x, 0 ≤ env.exp x)
    (ff : ForceField α) (h : ff.sized) (end_bead : Bead α) (mols : List (Molecule α))
    (current_len : Int) (g : Rng) (delete_id type : Int)
    (htype : type = 1 → ff.gc_bead_charge ≠ 0)
    (hlen : ff.use_pair_pot = true → current_len.toNat ≤ ff.cbmc_chain.length) :
    ∃ r : α × ForceField α × Rng,
      ff.CBMCGenTrialBeads env end_bead mols current_len g delete_id type = some r ∧
      r.2.1.sized ∧ r.2.1.cbmc_chain = ff.cbmc_chain ∧
      r.1 = r.2.1.cbmc_trial_weights.sum ∧ 0 ≤ r.1 := by
  obtain ⟨h1, h2, h3, h4, h5⟩ := h
  unfold ForceField.CBMCGenTrialBeads
  obtain ⟨r, hr, hlb, hws⟩ := genTrials_total env hexp end_bead mols current_len delete_id type
    ff.cbmc_no_of_trials.toNat 0 ff g 0 (by omega)
    (by
      intro j _ hj
      rw [h4]
      by_cases ht : type = 1
      · simp only [ht, if_true, htype ht, ne_eq, not_false_eq_true]
        omega
      · simp only [ht, if_false]
        split <;> omega)
    (by omega) hlen
  obtain ⟨hso, hch⟩ := genTrials_scratchOnly env end_bead mols current_len delete_id type
    _ _ _ _ _ _ hr
  obtain ⟨hl, _, _, hsum⟩ := genTrials_sum env end_bead mols current_len delete_id type
    _ _ _ _ _ _ hr
  obtain ⟨s1, s2, s3⟩ := scratchOnly_species hso
  have hwl : r.2.1.cbmc_trial_weights.length = ff.cbmc_no_of_trials.toNat := by rw [hl, h5]
  have hsum2 : r.1 = r.2.1.cbmc_trial_weights.sum := by
    rw [hsum, List.drop_zero, ← hwl, List.take_length, zero_add]
  refine ⟨r, hr, ⟨by rw [s1]; exact h1, by rw [s3]; exact h2, ?_, ?_, by rw [s3]; exact hwl⟩,
    hch, hsum2, ?_⟩
  · rw [hch, h3]
    unfold ForceField.toadd
    rw [s1, s2]
  · rw [hlb, h4, s2, s3]
  · rw [hsum2]
    apply sum_nonneg_of_get
    intro j hj
    exact hws j (Nat.zero_le j) (by omega)

/-- With buffers of the sizes `InitializeEnergy` gives them the growth loop of the
insertion completes and leaves the sizes as they are. -/
theorem growRest_total (env : Env α) (hexp : ∀ x, 0 ≤ env.exp x) (mols : List (Molecule α))
    (n : Nat) :
    ∀ (i : Nat) (type : Int) (ff : ForceField α) (g : Rng) (weight : α),
      ff.sized → 1 ≤ i → i + n ≤ ff.toadd.toNat →
      (type = 1 → ff.gc_bead_charge ≠ 0) →
      ∃ r : α × ForceField α × Rng,
        ForceField.growRest env mols n i type ff g weight = some r ∧ r.2.1.sized := by
  induction n with
  | zero =>
    intro i type ff g weight hs _ _ _
    exact ⟨(weight, ff, g), rfl, hs⟩
  | succ n ih =>
    intro i type ff g weight hs hi hin htype
    have hs0 := hs
    obtain ⟨h1, h2, h3, h4, h5⟩ := hs
    simp only [ForceField.growRest]
    by_cases hw : weight > 0
    swap
    · rw [if_neg hw]
      exact ⟨(weight, ff, g), rfl, hs0⟩
    rw [if_pos hw]
    have htype1 : (if (i : Int) ≥ ff.gc_chain_len then (1 : Int) else type) = 1 →
        ff.gc_bead_charge ≠ 0 := by
      intro ht hq
      by_cases hge : (i : Int) ≥ ff.gc_chain_len
      · unfold ForceField.toadd at hin
        rw [if_neg (by simpa using hq)] at hin
        omega
      · rw [if_neg hge] at ht
        exact htype ht hq
    have hend : ∃ eb, getAt ff.cbmc_chain ((i : Int) - 1) = some eb := by
      have h0 : (0 : Int) ≤ (i : Int) - 1 := by omega
      have hlt : ((i : Int) - 1).toNat < ff.cbmc_chain.length := by omega
      simp only [getAt, h0, if_true]
      exact ⟨_, List.getElem?_eq_getElem hlt⟩
    obtain ⟨eb, heb⟩ := hend
    rw [heb]
    simp only
    obtain ⟨r, hr, hrs, hrc, hrsum, hr0⟩ := CBMCGenTrialBeads_total env hexp ff hs0 eb mols
      (i : Int) g (-1) (if (i : Int) ≥ ff.gc_chain_len then (1 : Int) else type) htype1
      (by intro _; simp only [Int.toNat_ofNat]; omega)
    obtain ⟨Wi, ff1, g1⟩ := r
    rw [hr]
    simp only at hrs hrc hrsum hr0 ⊢
    have hrs0 := hrs
    obtain ⟨k1, k2, k3, k4, k5⟩ := hrs
    have hspec : ff1.gc_chain_len = ff.gc_chain_len ∧ ff1.gc_bead_charge = ff.gc_bead_charge ∧
        ff1.cbmc_no_of_trials = ff.cbmc_no_of_trials :=
      scratchOnly_species (genTrials_scratchOnly env eb mols _ _ _ _ _ _ _ _ _ hr).1
    obtain ⟨cb, hcb, hcblt⟩ := rosenbluthSelect_lt ff1.cbmc_trial_weights
      ((Rng.uniform g1 : α × Rng).1 * Wi) (by omega)
      (by
        rw [← hrsum]
        calc (Rng.uniform g1 : α × Rng).1 * Wi ≤ 1 * Wi :=
              mul_le_mul_of_nonneg_right (Rng.uniform_mem g1).2 hr0
          _ = Wi := one_mul Wi)
    rw [hcb]
    simp only
    have htb : ∃ tb, getAt ff1.cbmc_trial_beads
        (if (if (i : Int) ≥ ff.gc_chain_len then (1 : Int) else type) = 1
          then (cb : Int) + ff1.cbmc_no_of_trials else (cb : Int)) = some tb := by
      by_cases ht : (if (i : Int) ≥ ff.gc_chain_len then (1 : Int) else type) = 1
      · have hq := htype1 ht
        rw [← hspec.2.1] at hq
        rw [if_pos ht]
        have h0 : (0 : Int) ≤ (cb : Int) + ff1.cbmc_no_of_trials := by omega
        have hlt : ((cb : Int) + ff1.cbmc_no_of_trials).toNat < ff1.cbmc_trial_beads.length := by
          rw [k4, if_pos hq]
          omega
        simp only [getAt, h0, if_true]
        exact ⟨_, List.getElem?_eq_getElem hlt⟩
      · rw [if_neg ht]
        have hlt : cb < ff1.cbmc_trial_beads.length := by
          rw [k4]
          split <;> omega
        simp only [getAt, Int.ofNat_nonneg, if_true, Int.toNat_ofNat]
        exact ⟨_, List.getElem?_eq_getElem hlt⟩
    obtain ⟨tb, htb⟩ := htb
    rw [htb]
    simp only
    have hci : i < ff1.cbmc_chain.length := by rw [hrc]; omega
    rw [List.getElem?_eq_getElem hci]
    simp only
    apply ih
    · exact sized_withChain_set ff1 hrs0 _ _
    · omega
    · have : (ff1.withChain (ff1.cbmc_chain.set i
          ((ff1.cbmc_chain[i]).SetAllCrd ⟨tb.GetCrd 0, tb.GetCrd 1, tb.GetCrd 2⟩))).toadd
          = ff.toadd := by
        unfold ForceField.toadd
        simp only [withChain_gc_bead_charge, withChain_gc_chain_len, hspec.1, hspec.2.1]
      rw [this]
      omega
    · intro ht
      simp only [withChain_gc_bead_charge, hspec.2.1]
      exact htype1 ht

/-- The bead loop of lines 836-838 completes when the chain holds the beads it
reads. -/
theorem addBeads_total (chain : List (Bead α)) (n : Nat) :
    ∀ (i : Nat) (m : Molecule α), i + n ≤ chain.length →
      ∃ m1, addBeads chain n i m = some m1 := by
  induction n with
  | zero => intro i m _; exact ⟨m, rfl⟩
  | succ n ih =>
    intro i m h
    have hi : i < chain.length := by omega
    simp only [addBeads, List.getElem?_eq_getElem hi]
    exact ih _ _ (by omega)

/-- The counterion loop of lines 844-847 completes when the chain holds the beads
it reads. -/
theorem addCounterions_total (chain : List (Bead α)) (n : Nat) :
    ∀ (i : Nat) (mols : List (Molecule α)), i + n ≤ chain.length →
      ∃ mols1, addCounterions chain n i mols = some mols1 := by
  induction n with
  | zero => intro i mols _; exact ⟨mols, rfl⟩
  | succ n ih =>
    intro i mols h
    have hi : i < chain.length := by omega
    simp only [addCounterions, List.getElem?_eq_getElem hi]
    exact ih _ _ (by omega)

/-- With a trial chain of `toadd` beads the append of lines 835-847 completes. -/
theorem appendInserted_total (ff : ForceField α) (h : ff.sized) (mols : List (Molecule α)) :
    ∃ mols1, ff.appendInserted mols = some mols1 := by
  obtain ⟨h1, h2, h3, h4, h5⟩ := h
  have htoadd : ff.gc_chain_len ≤ ff.toadd := by
    unfold ForceField.toadd
    split <;> omega
  unfold ForceField.appendInserted
  obtain ⟨m, hm⟩ := addBeads_total ff.cbmc_chain ff.gc_chain_len.toNat 0 Molecule.empty
    (by omega)
  rw [hm]
  exact addCounterions_total ff.cbmc_chain _ _ _ (by omega)

/-- With buffers of the sizes `InitializeEnergy` gives them, `CBMCChainInsertion`
completes: no index it uses leaves a buffer. -/
theorem CBMCChainInsertion_total (env : Env α) (hexp : ∀ x, 0 ≤ env.exp x)
    (ff : ForceField α) (h : ff.sized) (mols : List (Molecule α)) (g : Rng) :
    ∃ r, ff.CBMCChainInsertion env mols g = some r := by
  have h0 := h
  obtain ⟨h1, h2, h3, h4, h5⟩ := h
  have htoadd : 1 ≤ ff.toadd := by
    unfold ForceField.toadd
    split <;> omega
  have hc0 : 0 < ff.cbmc_chain.length := by omega
  unfold ForceField.CBMCChainInsertion
  simp only [List.getElem?_eq_getElem hc0]
  obtain ⟨e0, he0⟩ := BeadEnergy_total
    (ff.withChain (ff.cbmc_chain.set 0 (ff.firstBead g ff.cbmc_chain[0])))
    (ff.firstBead g ff.cbmc_chain[0]) mols 0 (-1) 0 (by intro _; simp)
  rw [he0]
  simp only
  obtain ⟨r, hr, hrs⟩ := growRest_total env hexp mols
    ((ff.withChain (ff.cbmc_chain.set 0 (ff.firstBead g ff.cbmc_chain[0]))).toadd - 1).toNat
    1 0 (ff.withChain (ff.cbmc_chain.set 0 (ff.firstBead g ff.cbmc_chain[0])))
    (ff.randomBoxPoint g).2 (1 * env.exp (-ff.beta * e0))
    (sized_withChain_set ff h0 _ _) (le_refl 1)
    (by
      have : (ff.withChain (ff.cbmc_chain.set 0 (ff.firstBead g ff.cbmc_chain[0]))).toadd
          = ff.toadd := rfl
      rw [this]
      omega)
    (by intro h; exact absurd h (by decide))
  obtain ⟨weight, ff1, g1⟩ := r
  rw [hr]
  simp only
  split
  · obtain ⟨mols1, hm⟩ := appendInserted_total ff1 hrs mols
    rw [hm]
    exact ⟨_, rfl⟩
  · exact ⟨_, rfl⟩

/-- On empty buffers `InitializeEnergy` builds buffers of the stated sizes. -/
theorem InitializeEnergy_sized (ff : ForceField α) (junk : Nat → α)
    (hc : ff.cbmc_chain = []) (ht : ff.cbmc_trial_beads = [])
    (hL : 1 ≤ ff.gc_chain_len) (hT : 1 ≤ ff.cbmc_no_of_trials) :
    (ff.InitializeEnergy junk).sized := by
  unfold ForceField.sized ForceField.toadd ForceField.InitializeEnergy
  simp only [hc, ht, List.nil_append]
  refine ⟨hL, hT, ?_, ?_, by simp⟩
  · split
    · simp only [List.length_append, List.length_replicate]
      omega
    · simp
  · split
    · simp only [List.length_append, List.length_replicate]
      omega
    · simp

/-- On empty buffers `InitializeEnergy` fills the trial chain and the trial beads
with fresh beads of the species, followed for a charged species by as many of the
opposite charge. -/
theorem InitializeEnergy_contents (ff : ForceField α) (junk : Nat → α)
    (hc : ff.cbmc_chain = []) (ht : ff.cbmc_trial_beads = []) :
    (ff.InitializeEnergy junk).cbmc_chain
      = List.replicate ff.gc_chain_len.toNat (Bead.fresh ff.gc_bead_symbol ff.gc_bead_charge)
        ++ (if ff.gc_bead_charge ≠ 0 then
              List.replicate ff.gc_chain_len.toNat
                (Bead.fresh ff.gc_bead_symbol (-ff.gc_bead_charge))
            else []) ∧
    (ff.InitializeEnergy junk).cbmc_trial_beads
      = List.replicate ff.cbmc_no_of_trials.toNat
          (Bead.fresh ff.gc_bead_symbol ff.gc_bead_charge)
        ++ (if ff.gc_bead_charge ≠ 0 then
              List.replicate ff.cbmc_no_of_trials.toNat
                (Bead.fresh ff.gc_bead_symbol (-ff.gc_bead_charge))
            else []) := by
  unfold ForceField.InitializeEnergy
  simp only [hc, ht, List.nil_append]
  by_cases hq : ff.gc_bead_charge ≠ 0
  · simp only [if_pos hq, and_self]
  · simp only [if_neg hq, List.append_nil, and_self]

/-- C25: buffer sizes. If `Initialize` succeeds with a force field whose species has
at least one bead and at least one trial, then `cbmc_chain` holds `gc_chain_len`
fresh beads of charge `gc_bead_charge` and `cbmc_trial_beads` holds
`cbmc_no_of_trials` of them, each followed for a charged species by as many beads of
charge `-gc_bead_charge`; `cbmc_trial_weights` has `cbmc_no_of_trials` entries; so
the chain has `toadd` beads. With these buffers, and an `exp` that is never
negative, `CBMCChainInsertion` completes on every population and generator, and
`CBMCGenTrialBeads` completes for every growth type the species admits and chain
prefix within the chain: none of their indices leaves a buffer. -/
theorem Initialize_buffers {α : Type} [LinearOrderedField α] [FloorRing α]
    (inp : ForceFieldInput α) (beta_in : α) (npbc_in : Int) (box_l_in : Vec3 α)
    (n_mol : Int) (mols : List (Molecule α)) (ff : ForceField α) (est : Estimator α)
    (h : ForceField.Initialize inp beta_in npbc_in box_l_in n_mol mols = Startup.ok (ff, est))
    (hL : 1 ≤ ff.gc_chain_len) (hT : 1 ≤ ff.cbmc_no_of_trials) :
    ff.cbmc_chain
      = List.replicate ff.gc_chain_len.toNat (Bead.fresh ff.gc_bead_symbol ff.gc_bead_charge)
        ++ (if ff.gc_bead_charge ≠ 0 then
              List.replicate ff.gc_chain_len.toNat
                (Bead.fresh ff.gc_bead_symbol (-ff.gc_bead_charge))
            else []) ∧
    ff.cbmc_trial_beads
      = List.replicate ff.cbmc_no_of_trials.toNat
          (Bead.fresh ff.gc_bead_symbol ff.gc_bead_charge)
        ++ (if ff.gc_bead_charge ≠ 0 then
              List.replicate ff.cbmc_no_of_trials.toNat
                (Bead.fresh ff.gc_bead_symbol (-ff.gc_bead_charge))
            else []) ∧
    ff.cbmc_trial_weights.length = ff.cbmc_no_of_trials.toNat ∧
    ff.cbmc_chain.length = ff.toadd.toNat ∧
    (∀ (env : Env α), (∀ x, 0 ≤ env.exp x) →
      (∀ (pop : List (Molecule α)) (g : Rng), ∃ r, ff.CBMCChainInsertion env pop g = some r) ∧
      (∀ (end_bead : Bead α) (pop : List (Molecule α)) (current_len : Int) (g : Rng)
          (delete_id type : Int),
        (type = 1 → ff.gc_bead_charge ≠ 0) → current_len ≤ ff.toadd →
        ∃ r, ff.CBMCGenTrialBeads env end_bead pop current_len g delete_id type = some r)) := by
  obtain ⟨chain_len, counts, hff, _⟩ :=
    Initialize_ok inp beta_in npbc_in box_l_in n_mol mols ff est h
  have hsized : ff.sized := by
    rw [hff] at hL hT ⊢
    exact InitializeEnergy_sized _ _ rfl rfl hL hT
  refine ⟨?_, ?_, hsized.2.2.2.2, hsized.2.2.1, ?_⟩
  · rw [hff]
    exact (InitializeEnergy_contents _ _ rfl rfl).1
  · rw [hff]
    exact (InitializeEnergy_contents _ _ rfl rfl).2
  · intro env hexp
    refine ⟨fun pop g => CBMCChainInsertion_total env hexp ff hsized pop g, ?_⟩
    intro end_bead pop current_len g delete_id type htype hcur
    obtain ⟨r, hr, _⟩ := CBMCGenTrialBeads_total env hexp ff hsized end_bead pop current_len g
      delete_id type htype (by
        intro _
        rw [hsized.2.2.1]
        omega)
    exact ⟨r, hr⟩

/-- The hypotheses of `Initialize_buffers` hold for the sample grand-canonical input
with a species of two beads of charge `1` and three trials: the trial chain has four
beads, the trial-bead buffer six, the weight buffer three entries, and an insertion
into the empty population completes. -/
theorem Initialize_buffers_witness :
    (((ForceFieldInput.sample (1 : ℝ) true 2 1 3).forceField
        1 3 ⟨10, 10, 10⟩ 0 2).InitializeEnergy (fun _ => 0)).cbmc_chain.length = 4 ∧
    (((ForceFieldInput.sample (1 : ℝ) true 2 1 3).forceField
        1 3 ⟨10, 10, 10⟩ 0 2).InitializeEnergy (fun _ => 0)).cbmc_trial_beads.length = 6 ∧
    (((ForceFieldInput.sample (1 : ℝ) true 2 1 3).forceField
        1 3 ⟨10, 10, 10⟩ 0 2).InitializeEnergy (fun _ => 0)).cbmc_trial_weights.length = 3 ∧
    ∃ r, (((ForceFieldInput.sample (1 : ℝ) true 2 1 3).forceField
        1 3 ⟨10, 10, 10⟩ 0 2).InitializeEnergy (fun _ => 0)).CBMCChainInsertion
          (Env.ofLibm Real.exp Real.sqrt (10000000000 : ℝ) (2 ^ ((1 : ℝ) / 6))) []
          (Rng.const 0) = some r := by
  have H := Initialize_buffers (ForceFieldInput.sample (1 : ℝ) true 2 1 3) 1 3 ⟨10, 10, 10⟩ 0 []
    _ _ (sample_Initialize 2 1 3)
    (by norm_num [ForceField.InitializeEnergy, ForceFieldInput.forceField,
      ForceFieldInput.sample])
    (by norm_num [ForceField.InitializeEnergy, ForceFieldInput.forceField,
      ForceFieldInput.sample])
  refine ⟨?_, ?_, ?_, ?_⟩
  · rw [H.1]
    norm_num [ForceField.InitializeEnergy, ForceFieldInput.forceField, ForceFieldInput.sample,
      Int.toNat]
  · rw [H.2.1]
    norm_num [ForceField.InitializeEnergy, ForceFieldInput.forceField, ForceFieldInput.sample,
      Int.toNat]
  · rw [H.2.2.1]
    norm_num [ForceField.InitializeEnergy, ForceFieldInput.forceField, ForceFieldInput.sample,
      Int.toNat]
  · exact (H.2.2.2.2 (Env.ofLibm Real.exp Real.sqrt (10000000000 : ℝ) (2 ^ ((1 : ℝ) / 6)))
      (fun x => (Real.exp_pos x).le)).1 [] (Rng.const 0)

end BufferTheorems

/-! ## Theorems: the species-selection loop of the deletion -/

section SpeciesLoopTheorems

variable {α : Type} [LinearOrderedField α] [FloorRing α]

/-- The loop condition is false at an index exactly when the molecule there is of
the configured species. -/
theorem speciesMismatch_false_iff (ff : ForceField α) (mols : List (Molecule α)) (d : Int) :
    ff.speciesMismatch mols d = some false ↔
      ∃ m, getAt mols d = some m ∧ ff.isSpecies m := by
  unfold ForceField.speciesMismatch ForceField.isSpecies
  cases hg : getAt mols d with
  | none => simp
  | some m =>
    simp only [Option.some.injEq, exists_eq_left']
    by_cases hs : m.Size = ff.gc_chain_len
    · simp only [hs, ne_eq, not_true_eq_false, if_false, true_and]
      cases hb : m.bds[0]? with
      | none => simp
      | some b => simp
    · simp [hs]

/-- With no molecule of the species in the population the loop exits from no
index, whatever the fuel and the generator. -/
theorem pickSpecies_none (ff : ForceField α) (mols : List (Molecule α))
    (hno : ∀ m ∈ mols, ¬ ff.isSpecies m) (fuel : Nat) :
    ∀ (d : Int) (g : Rng), ff.pickSpecies mols fuel d g = none := by
  have hmis : ∀ d : Int, ff.speciesMismatch mols d ≠ some false := by
    intro d hd
    obtain ⟨m, hm, hsp⟩ := (speciesMismatch_false_iff ff mols d).mp hd
    unfold getAt at hm
    split at hm
    · obtain ⟨hlt, hmm⟩ := List.getElem?_eq_some_iff.mp hm
      exact hno m (hmm ▸ List.getElem_mem hlt) hsp
    · exact absurd hm (by simp)
  induction fuel with
  | zero =>
    intro d g
    simp only [ForceField.pickSpecies]
    split
    · rename_i h
      exact absurd h (hmis d)
    · rfl
  | succ fuel ih =>
    intro d g
    simp only [ForceField.pickSpecies]
    split
    · rfl
    · rename_i h
      exact absurd h (hmis d)
    · exact ih _ _

/-- Every index of a population of at most `4294967295` molecules is the index
drawn from some generator. -/
theorem drawIndex_surj (size k : Nat) (hk : k < size) (hsize : size ≤ 4294967295) :
    (drawIndex α size (Rng.const ((k * 4294967295 + size - 1) / size))).1 = (k : Int) := by
  have hs0 : 0 < size := by omega
  have hdm := Nat.div_add_mod (k * 4294967295 + size - 1) size
  have hml := Nat.mod_lt (k * 4294967295 + size - 1) hs0
  generalize hr : (k * 4294967295 + size - 1) / size = r at hdm
  have hlo : k * 4294967295 ≤ r * size := by
    rw [Nat.mul_comm r size]
    omega
  have hhi : r * size < (k + 1) * 4294967295 := by
    rw [Nat.mul_comm r size]
    omega
  have hrM : r ≤ 4294967295 := by
    by_contra hc
    have h1 : 4294967296 * size ≤ r * size := Nat.mul_le_mul_right size (by omega)
    have h2 : (k + 1) * 4294967295 ≤ size * 4294967295 := Nat.mul_le_mul_right _ (by omega)
    omega
  have hmod : r % 4294967296 = r := Nat.mod_eq_of_lt (by omega)
  have hfloor : Int.floor ((((r : Nat) : α) / 4294967295) * (((size : Int) : α))) = (k : Int) := by
    rw [Int.floor_eq_iff]
    have hM : (0 : α) < 4294967295 := by norm_num
    have hloR : ((k : α)) * 4294967295 ≤ (r : α) * (size : α) := by exact_mod_cast hlo
    have hhiR : (r : α) * (size : α) < ((k : α) + 1) * 4294967295 := by exact_mod_cast hhi
    constructor
    · rw [div_mul_eq_mul_div, le_div_iff₀ hM]
      push_cast
      exact hloR
    · rw [div_mul_eq_mul_div, div_lt_iff₀ hM]
      push_cast
      exact hhiR
  unfold drawIndex Rng.uniform Rng.next Rng.const
  simp only [hmod, hfloor]
  rw [if_neg (by omega)]

/-- C28: the species-selection loop of `CBMCChainDeletion`. The loop exits only at
an index that holds a molecule of the configured species (`gc_chain_len` beads,
first-bead charge `gc_bead_charge`). On a population with no such molecule it exits
for no fuel, start index and generator, so `CBMCChainDeletion` gives no result, and
at every index holding a non-empty molecule the loop condition is true. If the
molecule at index `k` is of the species and the population has at most `4294967295`
molecules, there is a generator whose draw is `k`: the loop started at that draw
exits at once, and started at any index where the condition is true it exits after
one redraw. -/
theorem species_loop_exit (env : Env α) (ff : ForceField α) (mols : List (Molecule α)) :
    (∀ (fuel : Nat) (d : Int) (g : Rng) (r : Int × Rng),
      ff.pickSpecies mols fuel d g = some r →
      ∃ m, getAt mols r.1 = some m ∧ ff.isSpecies m) ∧
    ((∀ m ∈ mols, ¬ ff.isSpecies m) →
      (∀ (fuel : Nat) (d : Int) (g : Rng), ff.pickSpecies mols fuel d g = none) ∧
      (∀ (fuel : Nat) (g : Rng), ff.CBMCChainDeletion env mols g fuel = none) ∧
      (∀ (k : Nat) (hk : k < mols.length), (mols.get ⟨k, hk⟩).bds ≠ [] →
        ff.speciesMismatch mols (k : Int) = some true)) ∧
    (∀ (k : Nat) (hk : k < mols.length), ff.isSpecies (mols.get ⟨k, hk⟩) →
      mols.length ≤ 4294967295 →
      ∃ g : Rng, (drawIndex α mols.length g).1 = (k : Int) ∧
        (∀ fuel : Nat,
          ff.pickSpecies mols fuel (drawIndex α mols.length g).1 (drawIndex α mols.length g).2
            = some ((k : Int), (drawIndex α mols.length g).2)) ∧
        (∀ (fuel : Nat) (d : Int), ff.speciesMismatch mols d = some true →
          ff.pickSpecies mols (fuel + 1) d g
            = some ((k : Int), (drawIndex α mols.length g).2))) := by
  refine ⟨?_, ?_, ?_⟩
  · intro fuel d g r h
    exact (speciesMismatch_false_iff ff mols r.1).mp (pickSpecies_some ff mols fuel d g r h)
  · intro hno
    refine ⟨fun fuel d g => pickSpecies_none ff mols hno fuel d g, ?_, ?_⟩
    · intro fuel g
      unfold ForceField.CBMCChainDeletion
      simp only [pickSpecies_none ff mols hno fuel]
    · intro k hk hne
      have hnk := hno (mols.get ⟨k, hk⟩) (List.get_mem mols k hk)
      unfold ForceField.isSpecies at hnk
      unfold ForceField.speciesMismatch getAt
      simp only [Int.ofNat_nonneg, if_true, Int.toNat_ofNat, List.getElem?_eq_getElem hk]
      simp only [List.get_eq_getElem] at hnk hne
      by_cases hs : (mols[k]).Size = ff.gc_chain_len
      · rw [if_neg (by simpa using hs)]
        cases hb : (mols[k]).bds with
        | nil => exact absurd hb hne
        | cons b rest =>
          simp only [hb, List.length_cons, Nat.zero_lt_succ, List.getElem?_eq_getElem,
            List.getElem_cons_zero, Option.some.injEq, decide_eq_true_eq]
          intro hq
          apply hnk
          refine ⟨hs, ?_⟩
          simp [hb, hq]
      · rw [if_pos hs]
  · intro k hk hsp hsize
    have hmis : ff.speciesMismatch mols (k : Int) = some false := by
      rw [speciesMismatch_false_iff]
      refine ⟨mols.get ⟨k, hk⟩, ?_, hsp⟩
      simp [getAt, List.getElem?_eq_getElem hk]
    have hdraw := drawIndex_surj (α := α) mols.length k hk hsize
    have hexit : ∀ (fuel : Nat) (g1 : Rng),
        ff.pickSpecies mols fuel (k : Int) g1 = some ((k : Int), g1) := by
      intro fuel g1
      cases fuel with
      | zero => simp only [ForceField.pickSpecies, hmis]
      | succ n => simp only [ForceField.pickSpecies, hmis]
    refine ⟨Rng.const ((k * 4294967295 + mols.length - 1) / mols.length), hdraw, ?_, ?_⟩
    · intro fuel
      rw [hdraw]
      exact hexit fuel _
    · intro fuel d hd
      simp only [ForceField.pickSpecies, hd]
      rw [hdraw]
      exact hexit fuel _

/-- The population of two neutral single beads: with a species of two beads the
loop never exits; with a species of one bead there is a generator that draws
index `1`, where the loop exits. -/
theorem species_loop_exit_witness :
    (∀ (fuel : Nat) (d : Int) (g : Rng),
      (ForceField.plain (2 : ℝ) 2 0 1).pickSpecies twoBeads fuel d g = none) ∧
    (∃ g : Rng, (drawIndex ℝ (twoBeads : List (Molecule ℝ)).length g).1 = ((1 : Nat) : Int) ∧
      (∀ fuel : Nat,
        (ForceField.plain (2 : ℝ) 1 0 1).pickSpecies twoBeads fuel
            (drawIndex ℝ (twoBeads : List (Molecule ℝ)).length g).1
            (drawIndex ℝ (twoBeads : List (Molecule ℝ)).length g).2
          = some (((1 : Nat) : Int), (drawIndex ℝ (twoBeads : List (Molecule ℝ)).length g).2)) ∧
      (∀ (fuel : Nat) (d : Int),
        (ForceField.plain (2 : ℝ) 1 0 1).speciesMismatch twoBeads d = some true →
        (ForceField.plain (2 : ℝ) 1 0 1).pickSpecies twoBeads (fuel + 1) d g
          = some (((1 : Nat) : Int),
              (drawIndex ℝ (twoBeads : List (Molecule ℝ)).length g).2))) :=
  ⟨((species_loop_exit
      (Env.ofLibm Real.exp Real.sqrt (10000000000 : ℝ) (2 ^ ((1 : ℝ) / 6)))
      (ForceField.plain (2 : ℝ) 2 0 1) twoBeads).2.1
      (by
        intro m hm
        simp only [twoBeads, List.mem_cons, List.mem_singleton, List.not_mem_nil,
          or_false] at hm
        rcases hm with rfl | rfl <;>
          simp [ForceField.isSpecies, Molecule.Size, ForceField.plain])).1,
   (species_loop_exit
      (Env.ofLibm Real.exp Real.sqrt (10000000000 : ℝ) (2 ^ ((1 : ℝ) / 6)))
      (ForceField.plain (2 : ℝ) 1 0 1) twoBeads).2.2 1 (by simp [twoBeads])
      (by simp [ForceField.isSpecies, Molecule.Size, ForceField.plain, twoBeads, Bead.placed,
        Bead.fresh, Bead.SetAllCrd])
      (by simp [twoBeads])⟩

end SpeciesLoopTheorems

/-! ## Theorems: the grand-canonical move -/

section GCMoveTheorems

variable {α : Type} [LinearOrderedField α] [FloorRing α]

/-- The population `CBMCChainInsertion` returns: the old one on rejection, the old
one followed by the chain and, for a charged species, its counterions on
acceptance. -/
theorem CBMCChainInsertion_appended (env : Env α) (ff : ForceField α)
    (mols : List (Molecule α)) (g : Rng) (acc : Bool) (mols1 : List (Molecule α))
    (ff1 : ForceField α) (g1 : Rng)
    (h : ff.CBMCChainInsertion env mols g = some (acc, mols1, ff1, g1)) :
    (acc = true →
      mols1 = mols ++ [insertedChain ff1.cbmc_chain ff.gc_chain_len.toNat]
        ++ (if ff.gc_bead_charge ≠ 0 then
              insertedCounterions ff1.cbmc_chain ff.gc_chain_len.toNat else []) ∧
      (insertedChain ff1.cbmc_chain ff.gc_chain_len.toNat).bds.length
        = ff.gc_chain_len.toNat ∧
      (ff.gc_bead_charge ≠ 0 →
        (insertedCounterions ff1.cbmc_chain ff.gc_chain_len.toNat).length
          = ff.gc_chain_len.toNat)) ∧
    (acc = false → mols1 = mols) := by
  unfold ForceField.CBMCChainInsertion at h
  dsimp only at h
  split at h
  · exact absurd h (by simp)
  · rename_i c0 hc0
    split at h
    · exact absurd h (by simp)
    · split at h
      · exact absurd h (by simp)
      · rename_i weight ff1' g1' hgrow
        have hs : ff.scratchOnly ff1' :=
          scratchOnly_trans (scratchOnly_withChain _ _)
            (growRest_scratchOnly env mols _ _ _ _ _ _ _ hgrow)
        obtain ⟨hL, hQ, _⟩ := scratchOnly_species hs
        split at h
        · split at h
          · exact absurd h (by simp)
          · rename_i molsA happ
            simp only [Option.some.injEq, Prod.mk.injEq] at h
            obtain ⟨rfl, rfl, rfl, rfl⟩ := h
            obtain ⟨he, hl1, hl2⟩ := appendInserted_eq _ _ _ happ
            rw [hL, hQ] at he
            rw [hL] at hl1
            rw [hL, hQ] at hl2
            exact ⟨fun _ => ⟨he, hl1, hl2⟩, by simp⟩
        · simp only [Option.some.injEq, Prod.mk.injEq] at h
          obtain ⟨rfl, rfl, rfl, rfl⟩ := h
          exact ⟨by simp, fun _ => rfl⟩

/-- The identity generator changes the identity set and the counter only. -/
theorem GenBeadID_frame (s : Simulation α) (id : Int) (s1 : Simulation α)
    (h : s.GenBeadID = some (id, s1)) :
    s1.n_bead = s.n_bead ∧ s1.n_chain = s.n_chain := by
  unfold Simulation.GenBeadID at h
  split at h
  · exact absurd h (by simp)
  · simp only [Option.some.injEq, Prod.mk.injEq] at h
    obtain ⟨_, rfl⟩ := h
    exact ⟨rfl, rfl⟩

/-- Labelling the beads of a molecule keeps their number and the counters, and
gives every bead the chain identity passed in. -/
theorem labelBeads_spec (chain_id : Int) (bds : List (Bead α)) :
    ∀ (s : Simulation α) (r : List (Bead α) × Simulation α),
      labelBeads chain_id bds s = some r →
      r.1.length = bds.length ∧ r.2.n_bead = s.n_bead ∧ r.2.n_chain = s.n_chain ∧
      ∀ b ∈ r.1, b.chain_id = chain_id := by
  induction bds with
  | nil =>
    intro s r h
    simp only [labelBeads, Option.some.injEq] at h
    subst h
    exact ⟨rfl, rfl, rfl, by simp⟩
  | cons b rest ih =>
    intro s r h
    simp only [labelBeads] at h
    split at h
    · exact absurd h (by simp)
    · rename_i id s1 hgen
      obtain ⟨g1, g2⟩ := GenBeadID_frame s id s1 hgen
      split at h
      · exact absurd h (by simp)
      · rename_i bds2 s2 hrest
        obtain ⟨i1, i2, i3, i4⟩ := ih _ _ hrest
        simp only [Option.some.injEq] at h
        subst h
        refine ⟨by simp [i1], by rw [i2, g1], by rw [i3, g2], ?_⟩
        intro x hx
        simp only [List.mem_cons] at hx
        rcases hx with rfl | hx
        · rfl
        · exact i4 x hx

/-- The loop over the appended molecules keeps the size of every molecule and adds
to `n_bead` and `n_chain` the beads and the chains among the molecules it
visits. -/
theorem labelNew_counts (n_mol : Int) (n : Nat) :
    ∀ (i : Nat) (mols : List (Molecule α)) (s : Simulation α)
      (r : List (Molecule α) × Simulation α),
      labelNew n_mol n i mols s = some r →
      r.1.map (fun m => m.Size) = mols.map (fun m => m.Size) ∧
      r.2.n_bead = s.n_bead + (((mols.map (fun m => m.Size)).drop i).take n).sum ∧
      r.2.n_chain = s.n_chain
        + (((((mols.map (fun m => m.Size)).drop i).take n).filter
            (fun z => decide (z > 1))).length : Int) := by
  induction n with
  | zero =>
    intro i mols s r h
    simp only [labelNew, Option.some.injEq] at h
    subst h
    simp
  | succ n ih =>
    intro i mols s r h
    simp only [labelNew] at h
    split at h
    · exact absurd h (by simp)
    · rename_i m hm
      split at h
      · exact absurd h (by simp)
      · rename_i bds s2 hlab
        obtain ⟨l1, l2, l3, _⟩ := labelBeads_spec _ _ _ _ hlab
        obtain ⟨hlt, hmv⟩ := List.getElem?_eq_some_iff.mp hm
        have hsz : (mols.set i { m with bds := bds }).map (fun m => m.Size)
            = mols.map (fun m => m.Size) := by
          rw [List.map_set]
          apply List.ext_getElem
          · simp
          · intro k hk1 hk2
            by_cases hki : i = k
            · subst hki
              simp only [List.getElem_set_self, List.getElem_map, hmv, Molecule.Size, l1]
            · simp only [List.getElem_set_ne hki]
        obtain ⟨r1, r2, r3⟩ := ih _ _ _ _ h
        rw [hsz] at r1 r2 r3
        have hlt2 : i < (mols.map (fun m => m.Size)).length := by simpa using hlt
        have hdrop : ((mols.map (fun m => m.Size)).drop i).take (n + 1)
            = m.Size :: ((mols.map (fun m => m.Size)).drop (i + 1)).take n := by
          rw [List.drop_eq_getElem_cons hlt2, List.take_succ_cons]
          simp [hmv]
        refine ⟨r1, ?_, ?_⟩
        · rw [r2, l2, hdrop, List.sum_cons]
          simp only
          ring
        · rw [r3, l3, hdrop, List.filter_cons]
          by_cases hc : m.Size > 1
          · simp only [hc, if_true, decide_True, List.length_cons]
            push_cast
            ring
          · simp only [hc, if_false, decide_False]
            simp

/-- Erasing the molecule at a valid index removes its size from the sizes. -/
theorem eraseIdx_sizes (mols : List (Molecule α)) (k : Nat) (m : Molecule α)
    (h : mols[k]? = some m) :
    (mols.map (fun m => m.Size)).sum
      = ((mols.eraseIdx k).map (fun m => m.Size)).sum + m.Size ∧
    (((mols.filter (fun m => decide (m.Size > 1))).length : Int))
      = (((mols.eraseIdx k).filter (fun m => decide (m.Size > 1))).length : Int)
        + (if m.Size > 1 then 1 else 0) := by
  induction mols generalizing k with
  | nil => simp at h
  | cons x xs ih =>
    cases k with
    | zero =>
      simp only [List.getElem?_cons_zero, Option.some.injEq] at h
      subst h
      simp only [List.eraseIdx_cons_zero, List.map_cons, List.sum_cons, List.filter_cons]
      refine ⟨by ring, ?_⟩
      by_cases hc : x.Size > 1
      · simp [hc]
      · simp [hc]
    | succ k =>
      simp only [List.getElem?_cons_succ] at h
      obtain ⟨i1, i2⟩ := ih k h
      simp only [List.eraseIdx_cons_succ, List.map_cons, List.sum_cons, List.filter_cons]
      refine ⟨by rw [i1]; ring, ?_⟩
      by_cases hc : x.Size > 1
      · simp only [hc, decide_True, if_true, List.length_cons]
        push_cast
        rw [i2]
        ring
      · simp only [hc, decide_False]
        exact i2

/-- The erase loop keeps the differences between the counters and the population
they count. -/
theorem eraseDown_counts (n : Nat) :
    ∀ (i : Int) (mols : List (Molecule α)) (s : Simulation α)
      (r : List (Molecule α) × Simulation α),
      eraseDown n i mols s = some r →
      r.2.n_bead - (r.1.map (fun m => m.Size)).sum
        = s.n_bead - (mols.map (fun m => m.Size)).sum ∧
      r.2.n_chain - ((r.1.filter (fun m => decide (m.Size > 1))).length : Int)
        = s.n_chain - ((mols.filter (fun m => decide (m.Size > 1))).length : Int) := by
  induction n with
  | zero =>
    intro i mols s r h
    simp only [eraseDown, Option.some.injEq] at h
    subst h
    exact ⟨rfl, rfl⟩
  | succ n ih =>
    intro i mols s r h
    simp only [eraseDown] at h
    split at h
    · exact absurd h (by simp)
    · rename_i m hm
      obtain ⟨r1, r2⟩ := ih _ _ _ _ h
      have hget : mols[i.toNat]? = some m := by
        unfold getAt at hm
        split at hm
        · exact hm
        · exact absurd hm (by simp)
      obtain ⟨e1, e2⟩ := eraseIdx_sizes mols i.toNat m hget
      refine ⟨?_, ?_⟩
      · rw [r1, e1]
        simp only
        ring
      · rw [r2, e2]
        by_cases hc : m.Size > 1
        · simp only [hc, if_true]
          ring
        · simp only [hc, if_false]
          ring

/-- The chains of a population, counted on the list of sizes. -/
theorem chains_of_sizes (mols : List (Molecule α)) :
    ((mols.map (fun m => m.Size)).filter (fun z => decide (z > 1))).length
      = (mols.filter (fun m => decide (m.Size > 1))).length := by
  induction mols with
  | nil => rfl
  | cons x xs ih =>
    simp only [List.map_cons, List.filter_cons]
    by_cases hc : x.Size > 1
    · simp only [hc, decide_True, if_true, List.length_cons, ih]
    · simp only [hc, decide_False]
      exact ih

/-- C29: `GCMove` preserves the population bookkeeping. If before the move `n_mol`
is the number of molecules, `n_bead` the number of beads over all molecules and
`n_chain` the number of molecules with more than one bead, and the move completes,
then the same three equalities hold afterwards, for an accepted or rejected
insertion or deletion. -/
theorem GCMove_bookkeeping (env : Env α) (s s1 : Simulation α) (fuel : Nat)
    (h : s.GCMove env fuel = some s1) (hb : s.bookkeeping) : s1.bookkeeping := by
  obtain ⟨b1, b2, b3⟩ := hb
  unfold Simulation.GCMove at h
  dsimp only at h
  split at h
  · -- insertion
    split at h
    · exact absurd h (by simp)
    · rename_i acc mols1 ff1 g1 hins
      obtain ⟨hacc, hrej⟩ := CBMCChainInsertion_appended env _ _ _ _ _ _ _ hins
      split at h
      · rename_i ha
        split at h
        · exact absurd h (by simp)
        · split at h
          · exact absurd h (by simp)
          · rename_i mols2 s4 hlab
            simp only [Option.some.injEq] at h
            subst h
            obtain ⟨l1, l2, l3⟩ := labelNew_counts _ _ _ _ _ _ hlab
            obtain ⟨hm1, _, _⟩ := hacc ha
            have hpre : ∃ new, mols1 = s.mols ++ new := ⟨_, by rw [hm1, List.append_assoc]⟩
            obtain ⟨new, hnew⟩ := hpre
            have hn : s.n_mol.toNat = s.mols.length := by omega
            have hdrop : ((mols1.map (fun m => m.Size)).drop s.n_mol.toNat).take
                (mols1.length - s.n_mol.toNat) = new.map (fun m => m.Size) := by
              rw [hn, hnew, List.map_append]
              have hlen : (List.map (fun m => m.Size) s.mols).length = s.mols.length := by simp
              rw [List.drop_append_of_le_length (by omega), ← hlen, List.drop_length,
                List.nil_append, hlen]
              simp
            rw [hdrop] at l2 l3
            refine ⟨rfl, ?_, ?_⟩
            · show s4.n_bead = (mols2.map (fun m => m.Size)).sum
              rw [l2, l1, hnew, List.map_append, List.sum_append]
              show s.n_bead + _ = _
              rw [b2]
            · show s4.n_chain = ((mols2.filter (fun m => decide (m.Size > 1))).length : Int)
              rw [l3, ← chains_of_sizes mols2, l1, hnew, List.map_append, List.filter_append,
                List.length_append]
              show s.n_chain + _ = _
              rw [b3, ← chains_of_sizes s.mols]
              push_cast
              rfl
      · rename_i ha
        simp only [Option.some.injEq] at h
        subst h
        have hm : mols1 = s.mols := hrej (by simpa using ha)
        subst hm
        exact ⟨b1, b2, b3⟩
  · -- deletion
    split at h
    · simp only [Option.some.injEq] at h
      subst h
      exact ⟨b1, b2, b3⟩
    · split at h
      · exact absurd h (by simp)
      · rename_i delete_id ff1 g1 hdel
        split at h
        · split at h
          · exact absurd h (by simp)
          · rename_i m hm
            split at h
            · exact absurd h (by simp)
            · rename_i mols2 s4 hera
              simp only [Option.some.injEq] at h
              subst h
              obtain ⟨e1, e2⟩ := eraseDown_counts _ _ _ _ _ hera
              refine ⟨rfl, ?_, ?_⟩
              · show s4.n_bead = (mols2.map (fun m => m.Size)).sum
                have : s4.n_bead - (mols2.map (fun m => m.Size)).sum
                    = s.n_bead - (s.mols.map (fun m => m.Size)).sum := e1
                omega
              · show s4.n_chain = ((mols2.filter (fun m => decide (m.Size > 1))).length : Int)
                have : s4.n_chain - ((mols2.filter (fun m => decide (m.Size > 1))).length : Int)
                    = s.n_chain - ((s.mols.filter (fun m => decide (m.Size > 1))).length : Int) :=
                  e2
                omega
        · simp only [Option.some.injEq] at h
          subst h
          exact ⟨b1, b2, b3⟩

/-- The accepted insertion of the neutral single-bead species into a population of
one molecule, every raw draw being `1`: the population the sampler returns. -/
theorem oneBead_insertion_run :
    ∃ (ff1 : ForceField ℝ) (g1 : Rng) (b : Bead ℝ),
      ForceField.CBMCChainInsertion
          (Env.ofLibm Real.exp Real.sqrt (10000000000 : ℝ) (2 ^ ((1 : ℝ) / 6)))
          ((ForceField.plain (2 : ℝ) 1 0 1).InitializeEnergy (fun _ => 0)) oneBead
          (Rng.const 1)
        = some (true, oneBead ++ [{ bds := [b], bonds := [] }], ff1, g1) := by
  norm_num [ForceField.CBMCChainInsertion, ForceField.InitializeEnergy, ForceField.plain,
    ForceField.firstBead, ForceField.randomBoxPoint, Rng.uniform, Rng.next, Rng.const,
    ForceField.BeadEnergy, ForceField.beadVsMols, ForceField.beadVsChain,
    ForceField.withChain, ForceField.withTrialBeads, ForceField.withWeights,
    ForceField.toadd, ForceField.growRest, ForceField.CBMCGenTrialBeads,
    ForceField.genTrials, ForceField.trialBondLen, ForceField.trialCoord, getAt, setAt,
    rosenbluthSelect, selectWalk, ForceField.trialChainDE, ForceField.insertionThreshold,
    ForceField.appendInserted, addBeads, addBonds, addCounterions, Env.ofLibm,
    Molecule.AddBead, Molecule.empty, Molecule.Size, Bead.SetAllCrd, Bead.fresh,
    Bead.GetCrd, Bead.placed, Vec3.get, oneBead, ForceField.beadVsMolecule]

/-- C30: the chain identity of inserted beads. In a population of one molecule an
accepted insertion of the neutral single-bead species appends one molecule, at
index `1`; `GCMove` labels its bead with the chain identity `2`, the sum of the
prior population size and the index, not with the index of its molecule. -/
theorem GCMove_chain_id_offset :
    ∃ s1 : Simulation ℝ,
      Simulation.GCMove (Env.ofLibm Real.exp Real.sqrt (10000000000 : ℝ) (2 ^ ((1 : ℝ) / 6)))
        (Simulation.sample [] oneBead 0 false
          ((ForceField.plain (2 : ℝ) 1 0 1).InitializeEnergy (fun _ => 0)) (Rng.const 1)) 0
        = some s1 ∧
      s1.mols.length = 2 ∧
      ∃ (m : Molecule ℝ) (b : Bead ℝ),
        s1.mols[1]? = some m ∧ m.bds = [b] ∧ b.chain_id = 2 ∧ b.chain_id ≠ 1 := by
  obtain ⟨ff1, g1, b, hrun⟩ := oneBead_insertion_run
  have hg : (Rng.const 1).next.2 = Rng.const 1 := rfl
  simp only [Simulation.GCMove, Simulation.sample, hg, hrun]
  norm_num [Rng.next, Rng.const, oneBead, labelNew, labelBeads, Simulation.GenBeadID,
    genBeadIDLoop, Bead.SetID, Bead.SetChainID, Molecule.Size, Int.toNat]

/-- The accepted insertion of the neutral single-bead species into the empty
population, every raw draw being `1`: the move completes with one molecule. -/
theorem empty_insertion_move :
    ∃ s1 : Simulation ℝ,
      Simulation.GCMove (Env.ofLibm Real.exp Real.sqrt (10000000000 : ℝ) (2 ^ ((1 : ℝ) / 6)))
        (Simulation.sample [] [] 0 false
          ((ForceField.plain (2 : ℝ) 1 0 1).InitializeEnergy (fun _ => 0)) (Rng.const 1)) 0
        = some s1 ∧
      s1.mols.length = 1 := by
  have hrun : ∃ (ff1 : ForceField ℝ) (g1 : Rng) (b : Bead ℝ),
      ForceField.CBMCChainInsertion
          (Env.ofLibm Real.exp Real.sqrt (10000000000 : ℝ) (2 ^ ((1 : ℝ) / 6)))
          ((ForceField.plain (2 : ℝ) 1 0 1).InitializeEnergy (fun _ => 0)) []
          (Rng.const 1)
        = some (true, [{ bds := [b], bonds := [] }], ff1, g1) := by
    norm_num [ForceField.CBMCChainInsertion, ForceField.InitializeEnergy, ForceField.plain,
      ForceField.firstBead, ForceField.randomBoxPoint, Rng.uniform, Rng.next, Rng.const,
      ForceField.BeadEnergy, ForceField.beadVsMols, ForceField.beadVsChain,
      ForceField.withChain, ForceField.withTrialBeads, ForceField.withWeights,
      ForceField.toadd, ForceField.growRest, ForceField.CBMCGenTrialBeads,
      ForceField.genTrials, ForceField.trialBondLen, ForceField.trialCoord, getAt, setAt,
      rosenbluthSelect, selectWalk, ForceField.trialChainDE, ForceField.insertionThreshold,
      ForceField.appendInserted, addBeads, addBonds, addCounterions, Env.ofLibm,
      Molecule.AddBead, Molecule.empty, Molecule.Size, Bead.SetAllCrd, Bead.fresh,
      Bead.GetCrd, Bead.placed, Vec3.get, ForceField.beadVsMolecule]
  obtain ⟨ff1, g1, b, hrun⟩ := hrun
  have hg : (Rng.const 1).next.2 = Rng.const 1 := rfl
  simp only [Simulation.GCMove, Simulation.sample, hg, hrun]
  norm_num [Rng.next, Rng.const, labelNew, labelBeads, Simulation.GenBeadID,
    genBeadIDLoop, Bead.SetID, Bead.SetChainID, Molecule.Size, Int.toNat]

/-- The bookkeeping of the empty population is preserved by an accepted insertion:
the move completes with one molecule, and the three counters match it. -/
theorem GCMove_bookkeeping_witness :
    ∃ s1 : Simulation ℝ,
      Simulation.GCMove (Env.ofLibm Real.exp Real.sqrt (10000000000 : ℝ) (2 ^ ((1 : ℝ) / 6)))
        (Simulation.sample [] [] 0 false
          ((ForceField.plain (2 : ℝ) 1 0 1).InitializeEnergy (fun _ => 0)) (Rng.const 1)) 0
        = some s1 ∧
      s1.mols.length = 1 ∧ s1.bookkeeping := by
  obtain ⟨s1, h, hlen⟩ := empty_insertion_move
  exact ⟨s1, h, hlen, GCMove_bookkeeping _ _ s1 0 h
    ⟨rfl, by simp [Simulation.sample], by simp [Simulation.sample]⟩⟩

/-- The rounded absolute value of an integer charge is its absolute value. -/
theorem roundAbs_intCast (q : Int) : roundAbs ((q : Int) : α) = |q| := by
  unfold roundAbs
  rw [← Int.cast_abs, Int.floor_eq_iff]
  constructor
  · linarith
  · linarith

/-- The count `deleted` of a chain whose beads all carry the integer charge `q`:
the number of beads times `|q|`. -/
theorem deletedCount_species (m : Molecule α) (q : Int)
    (h : ∀ b ∈ m.bds, b.charge = ((q : Int) : α)) :
    deletedCount m = m.Size * |q| := by
  obtain ⟨bds, bonds⟩ := m
  unfold deletedCount Molecule.Size
  simp only at h ⊢
  induction bds with
  | nil => simp
  | cons b rest ih =>
    simp only [List.map_cons, List.sum_cons, List.length_cons]
    rw [ih (fun x hx => h x (List.mem_cons_of_mem _ hx)), h b (List.mem_cons_self _ _),
      roundAbs_intCast]
    push_cast
    ring

/-- The deletion of the divalent single-bead chain at index `0`, every raw draw
being `0`: the sampler returns index `0`. -/
theorem divalent_deletion_run :
    ∃ (ff1 : ForceField ℝ) (g1 : Rng),
      ForceField.CBMCChainDeletion
          (Env.ofLibm Real.exp Real.sqrt (10000000000 : ℝ) (2 ^ ((1 : ℝ) / 6)))
          ((ForceField.plain (2 : ℝ) 1 2 1).InitializeEnergy (fun _ => 0)) divalentPairAndOne
          (Rng.const 0) 0
        = some (0, ff1, g1) := by
  norm_num [ForceField.CBMCChainDeletion, ForceField.pickSpecies, ForceField.speciesMismatch,
    drawIndex, ForceField.regrowRest, ForceField.CBMCGenTrialBeads, ForceField.genTrials,
    ForceField.InitializeEnergy, ForceField.plain, divalentPairAndOne,
    ForceField.trialBondLen, ForceField.trialCoord, ForceField.randomBoxPoint,
    ForceField.BeadEnergy, ForceField.beadVsMols, ForceField.beadVsMolecule,
    ForceField.beadVsChain, ForceField.withChain, ForceField.withTrialBeads,
    ForceField.withWeights, ForceField.toadd, sumWeights, getAt, setAt, Env.ofLibm, Rng.const,
    Rng.uniform, Rng.next, ForceField.trialChainDE, ForceField.deletionThreshold,
    Molecule.Size, Bead.SetAllCrd, Bead.fresh, Bead.GetCrd, Bead.placed, Vec3.get, Int.toNat]

/-- C26: the deletion window of `GCMove` for a divalent species. The species has one
bead of charge `2`; an accepted insertion appends two molecules, the chain and one
counterion. The population holds such a chain at index `0`, its counterion at
index `1` and a third molecule at index `2`. The count `deleted` of the chain is
`2`, so the accepted deletion of the chain erases the indices `0..2` and leaves the
empty population: the third molecule is erased as well. -/
theorem GCMove_deletion_window :
    (∀ (pop pop1 : List (Molecule ℝ)) (g g1 : Rng) (ff1 : ForceField ℝ),
      ForceField.CBMCChainInsertion
          (Env.ofLibm Real.exp Real.sqrt (10000000000 : ℝ) (2 ^ ((1 : ℝ) / 6)))
          ((ForceField.plain (2 : ℝ) 1 2 1).InitializeEnergy (fun _ => 0)) pop g
        = some (true, pop1, ff1, g1) →
      pop1.length = pop.length + 2) ∧
    deletedCount ({ bds := [Bead.placed "A" 2 0 0 0], bonds := [] } : Molecule ℝ) = 2 ∧
    (divalentPairAndOne : List (Molecule ℝ)).length = 3 ∧
    ∃ s1 : Simulation ℝ,
      Simulation.GCMove (Env.ofLibm Real.exp Real.sqrt (10000000000 : ℝ) (2 ^ ((1 : ℝ) / 6)))
        (Simulation.sample [] divalentPairAndOne 0 false
          ((ForceField.plain (2 : ℝ) 1 2 1).InitializeEnergy (fun _ => 0)) (Rng.const 0)) 0
        = some s1 ∧
      s1.mols = [] ∧ s1.n_mol = 0 := by
  have hcount : deletedCount ({ bds := [Bead.placed "A" 2 0 0 0], bonds := [] } : Molecule ℝ)
      = 2 := by
    rw [deletedCount_species _ 2 (by
      intro b hb
      simp only [List.mem_singleton] at hb
      subst hb
      simp [Bead.placed, Bead.SetAllCrd, Bead.fresh])]
    simp [Molecule.Size]
  refine ⟨?_, hcount, rfl, ?_⟩
  · intro pop pop1 g g1 ff1 h
    obtain ⟨he, _, hl⟩ := (CBMCChainInsertion_appended _ _ _ _ _ _ _ _ h).1 rfl
    have hq : ((ForceField.plain (2 : ℝ) 1 2 1).InitializeEnergy (fun _ => 0)).gc_bead_charge ≠ 0 := by
      simp [ForceField.InitializeEnergy, ForceField.plain]
    have hl2 := hl hq
    rw [he, if_pos hq]
    simp only [List.length_append, List.length_singleton, hl2]
    simp [ForceField.InitializeEnergy, ForceField.plain]
  · obtain ⟨ff1, g1, hrun⟩ := divalent_deletion_run
    have hg : (Rng.const 0).next.2 = Rng.const 0 := rfl
    have hm0 : getAt (divalentPairAndOne : List (Molecule ℝ)) 0
        = some { bds := [Bead.placed "A" 2 0 0 0], bonds := [] } := rfl
    simp only [Simulation.GCMove, Simulation.sample, hg, hrun, hm0, hcount]
    norm_num [Rng.next, Rng.const, divalentPairAndOne, eraseDown, getAt, Molecule.Size,
      Int.toNat, List.eraseIdx]

end GCMoveTheorems

/-! ## Theorems: the molecule index of a translational move -/

section MoleculeIndexTheorems

/-- C27: the molecule index of a chain move without chains. The population is one
single bead (`n_mol = 1`, `n_chain = 0`) and the move probabilities are `1/2` for
the bead move and `1/2` for the centre-of-mass move; the start-up checks pass. With
every uniform draw equal to `1` the move type drawn is `1`; neither branch of the
dispatch runs, so `mol_id` keeps its initial value `-1`, which is the index handed
to `EnergyDifference` and used on the population: the step fails. -/
theorem TranslationalMove_index_negative :
    (Simulation.sample [1 / 2, 1 / 2, 0, 0, 0] (oneBead : List (Molecule ℝ)) 0 false
        (ForceField.plain (10 : ℝ) 1 0 1) (Rng.const 4294967295)).startupChecks
      (1 / 1000000) 5 = Startup.ok () ∧
    (Simulation.sample [1 / 2, 1 / 2, 0, 0, 0] (oneBead : List (Molecule ℝ)) 0 false
        (ForceField.plain (10 : ℝ) 1 0 1) (Rng.const 4294967295)).n_mol = 1 ∧
    (∃ s1 : Simulation ℝ,
      (Simulation.sample [1 / 2, 1 / 2, 0, 0, 0] (oneBead : List (Molecule ℝ)) 0 false
          (ForceField.plain (10 : ℝ) 1 0 1) (Rng.const 4294967295)).propose Moves.shift 5
        = some (-1, 1, s1)) ∧
    (Simulation.sample [1 / 2, 1 / 2, 0, 0, 0] (oneBead : List (Molecule ℝ)) 0 false
        (ForceField.plain (10 : ℝ) 1 0 1) (Rng.const 4294967295)).TranslationalMove
      (Env.ofLibm Real.exp Real.sqrt (10000000000 : ℝ) (2 ^ ((1 : ℝ) / 6)))
      Moves.shift 5 = none := by
  have hprop : ∃ s1 : Simulation ℝ,
      (Simulation.sample [1 / 2, 1 / 2, 0, 0, 0] (oneBead : List (Molecule ℝ)) 0 false
          (ForceField.plain (10 : ℝ) 1 0 1) (Rng.const 4294967295)).propose Moves.shift 5
        = some (-1, 1, s1) ∧ s1.mols = oneBead := by
    norm_num [Simulation.propose, Simulation.moveMolecule, Simulation.sample, Moves.shift,
      ForceField.plain, Rng.uniform, Rng.next, Rng.const, rosenbluthSelect, selectWalk,
      findMol, truncToInt, getAt, setAt, setMol, bump, Molecule.Size, oneBead]
  obtain ⟨s1, hs1, hm⟩ := hprop
  refine ⟨?_, ?_, ⟨s1, hs1⟩, ?_⟩
  · norm_num [Simulation.startupChecks, Simulation.sample, sumMoveProb, ForceField.plain]
  · simp [Simulation.sample, oneBead]
  · unfold Simulation.TranslationalMove
    rw [if_pos (by simp [Simulation.sample, oneBead]), hs1]
    simp only [Simulation.decide, getAt]
    norm_num

end MoleculeIndexTheorems

end Plum
